import Mathlib

/-!
# sac-json: the generators of `gen.c`

A shallow embedding of the code generators in `src/yajl-validate/gen.c`.

* The schema is a JSON tree of the yajl library (`yajl_val`); the generators only
  use key lookup (`yajl_tree_get`), ordered iteration over an object's entries and
  string extraction.
* Every `fprintf` of a generator that emits a statement of the generated C file is
  one constructor of a statement type (`FreeStmt`, `SetStmt`, ...) carrying the
  `%s` / `%zu` arguments of the format string.  The generated function bodies are
  lists of such statements, in emission order.
* The generated statements are given their C meaning by small interpreters over a
  heap of node instances (`FREE_exec`, ...).
-/

namespace SacJson

/-! ## The yajl tree -/

/-- The type tags of yajl values (`yajl_type`). -/
inductive yajl_type where
  | t_string
  | t_number
  | t_object
  | t_array
  | t_true
  | t_false
  | t_null
  | t_any
  deriving DecidableEq

/-- A parsed JSON value (`yajl_val`).  An object keeps its entries in file order,
duplicates included. -/
inductive yajl_val where
  | string (s : String)
  | number (n : Int)
  | object (entries : List (String × yajl_val))
  | array (items : List yajl_val)
  | true_
  | false_
  | null

/-- The type tag stored in a yajl value. -/
def yajl_val.type : yajl_val → yajl_type
  | .string _ => .t_string
  | .number _ => .t_number
  | .object _ => .t_object
  | .array _ => .t_array
  | .true_ => .t_true
  | .false_ => .t_false
  | .null => .t_null

/-- The path walk of `yajl_tree_get`: at every path element the current value must
be an object, and the first entry with that key is taken. -/
def yajl_tree_walk : Option yajl_val → List String → Option yajl_val
  | n, [] => n
  | none, _ :: _ => none
  | some (.object es), k :: ks =>
    match es.find? (fun e => e.1 == k) with
    | none => none
    | some e => yajl_tree_walk (some e.2) ks
  | some _, _ :: _ => none

/-- The library call `yajl_tree_get (n, path, type)`: `NULL` (here `none`) when the
path does not resolve or the value found has another type than the one asked for. -/
def yajl_tree_get (n : Option yajl_val) (path : List String) (type : yajl_type) :
    Option yajl_val :=
  match yajl_tree_walk n path with
  | none => none
  | some v => if type ≠ .t_any ∧ type ≠ v.type then none else some v

/-- The entries `(YAJL_OBJECT_KEYS (v)[i], YAJL_OBJECT_VALUES (v)[i])` for
`i < YAJL_OBJECT_LENGTH (v)`, as iterated by the loops
`for (i = 0; v && i < YAJL_OBJECT_LENGTH (v); i++)`: nothing for `NULL`. -/
def object_entries : Option yajl_val → List (String × yajl_val)
  | some (.object es) => es
  | _ => []

/-- The accessor `YAJL_GET_STRING`: the string of a string value, `NULL` otherwise. -/
def YAJL_GET_STRING : Option yajl_val → Option String
  | some (.string s) => some s
  | _ => none

/-- Modelled from the spec: `string_toupper` is declared outside the given sources;
the generator comments describe its result as the name "in upper case". -/
def string_toupper (s : String) : String := String.mk (s.data.map Char.toUpper)

/-- Modelled from the spec: `string_tolower` is declared outside the given sources;
the generator comments describe its result as the name "in the lower case". -/
def string_tolower (s : String) : String := String.mk (s.data.map Char.toLower)

/-! ## The attribute type table -/

/-- The copy disposition of an attribute type (`atn->copy_type`). -/
inductive attr_copy_type where
  | act_literal
  | act_function
  | act_node
  deriving DecidableEq

/-- An entry of the hash table `attrtype_names`, with the fields `gen.c` reads. -/
structure attrtype_name where
  name : String
  ctype : String
  vtype : Option String
  init : String
  copy_type : attr_copy_type
  persist : Bool
  deriving DecidableEq

/-- The lookup `HASH_FIND_STR (attrtype_names, key, atn)`. -/
def HASH_FIND_STR (attrtype_names : List attrtype_name) (key : String) :
    Option attrtype_name :=
  attrtype_names.find? (fun a => a.name == key)

/-- The name of the type of an attribute entry:
`YAJL_GET_STRING (yajl_tree_get (attrib, {"type", 0}, yajl_t_string))`. -/
def attrib_type_name (attrib : yajl_val) : Option String :=
  YAJL_GET_STRING (yajl_tree_get (some attrib) ["type"] .t_string)

/-- The common head of the attribute loops: the type name is read and looked up;
`assert (atn)` aborts the generator (here `none`) when the lookup fails, and so does
a missing type string, which the C code dereferences. -/
def attrib_atn (attrtype_names : List attrtype_name) (attrib : yajl_val) :
    Option attrtype_name :=
  match attrib_type_name attrib with
  | none => none
  | some type_name => HASH_FIND_STR attrtype_names type_name

/-- A generator loop whose body may abort: the statements of the iterations are
concatenated in order; an abort in any iteration aborts the generator. -/
def emit_loop {α β : Type} (body : α → Option (List β)) : List α → Option (List β)
  | [] => some []
  | a :: rest =>
    match body a with
    | none => none
    | some out =>
      match emit_loop body rest with
      | none => none
      | some outs => some (out ++ outs)

/-- The node loop `for (i = 0; i < YAJL_OBJECT_LENGTH (nodes); i++)` of a generator
that writes one named item (a function, a case) per node. -/
def node_loop {β : Type} (item_name : String → String)
    (item : String → yajl_val → Option β) (nodes : List (String × yajl_val)) :
    Option (List (String × β)) :=
  emit_loop (fun e =>
    match item e.1 e.2 with
    | none => none
    | some body => some [(item_name e.1, body)]) nodes

/-! ## `gen_free_node_c` -/

/-- The statements `gen_free_node_c` writes into a function `FREE<node>`. -/
inductive FreeStmt where
  /-- Emitted text: `DBUG_ENTER ();` -/
  | dbug_enter
  /-- Emitted text: `DBUG_PRINT ("transforming %s at ... into a zombie", ...);`
  `arg_node = FREEzombify (arg_node);` -/
  | zombify
  /-- Emitted text: `node *  result = NULL;` followed by `DBUG_PRINT ("Processing node ...");` -/
  | decl_result
  /-- Emitted text: `NODE_ERROR (arg_node) = FREETRAV (NODE_ERROR (arg_node), arg_info);` -/
  | freetrav_error
  /-- Emitted text: `<NODE>_NEXT (arg_node) = FREECOND (<NODE>_NEXT (arg_node), arg_info);` -/
  | freecond_next (NODE : String)
  /-- Emitted text: `<NODE>_<ATTR> (arg_node) = FREEattrib<T> (<NODE>_<ATTR> (arg_node), arg_node);` -/
  | freeattrib (NODE ATTR T : String)
  /-- Emitted text: `<NODE>_<SON> (arg_node) = FREETRAV (<NODE>_<SON> (arg_node), arg_info);` -/
  | freetrav_son (NODE SON : String)
  /-- Emitted text: `result = <NODE>_NEXT (arg_node);` -/
  | result_next (NODE : String)
  /-- Emitted text: `DBUG_PRINT ("Freeing node ...");` followed by `arg_node = MEMfree (arg_node);` -/
  | memfree
  /-- Emitted text: `DBUG_RETURN (result);` -/
  | return_result
  /-- Emitted text: `DBUG_RETURN (arg_node);` -/
  | return_arg_node
  deriving DecidableEq

/-- The body of the attribute loop of `gen_free_node_c` (lines 577-606). -/
def gen_free_node_c_attrib (attrtype_names : List attrtype_name)
    (node_name node_name_upper : String) (e : String × yajl_val) :
    Option (List FreeStmt) :=
  match attrib_atn attrtype_names e.2 with
  | none => none
  | some atn =>
    if atn.copy_type = .act_literal then some []
    else if node_name = "Fundef"
        ∧ (e.1 = "Name" ∨ e.1 = "Mod" ∨ e.1 = "LinkMod" ∨ e.1 = "Types"
            ∨ e.1 = "Type" ∨ e.1 = "Impl") then some []
    else some [.freeattrib node_name_upper (string_toupper e.1) atn.name]

/-- The body of the son loop of `gen_free_node_c` (lines 608-621). -/
def gen_free_node_c_son (node_name_upper : String) (e : String × yajl_val) :
    List FreeStmt :=
  if e.1 = "Next" then []
  else [.freetrav_son node_name_upper (string_toupper e.1)]

/-- One iteration of the node loop of `gen_free_node_c` (lines 540-640): the body of
the generated function `FREE<node>`. -/
def gen_free_node_c_body (attrtype_names : List attrtype_name)
    (node_name : String) (node : yajl_val) : Option (List FreeStmt) :=
  let node_name_upper := string_toupper node_name
  let attribs := yajl_tree_get (some node) ["attributes"] .t_object
  let sons := yajl_tree_get (some node) ["sons"] .t_object
  let next := yajl_tree_get sons ["Next"] .t_object
  match emit_loop (gen_free_node_c_attrib attrtype_names node_name node_name_upper)
      (object_entries attribs) with
  | none => none
  | some attr_out =>
    some ([FreeStmt.dbug_enter]
      ++ (if node_name = "Fundef" then [FreeStmt.zombify] else [FreeStmt.decl_result])
      ++ [FreeStmt.freetrav_error]
      ++ (if next.isSome then [FreeStmt.freecond_next node_name_upper] else [])
      ++ attr_out
      ++ (object_entries sons).flatMap (gen_free_node_c_son node_name_upper)
      ++ (if node_name = "Fundef" then [FreeStmt.return_arg_node]
          else (if next.isSome then [FreeStmt.result_next node_name_upper] else [])
            ++ [FreeStmt.memfree, FreeStmt.return_result]))

/-- The generator `gen_free_node_c`: for each node of the schema, in schema order,
the name and the body of its generated function. -/
def gen_free_node_c (attrtype_names : List attrtype_name)
    (nodes : List (String × yajl_val)) : Option (List (String × List FreeStmt)) :=
  node_loop (fun node_name => "FREE" ++ string_tolower node_name)
    (gen_free_node_c_body attrtype_names) nodes

/-! ## `gen_serialize_node_c` -/

/-- The statements `gen_serialize_node_c` writes into a function `SET<node>`. -/
inductive SetStmt where
  /-- Emitted text: `DBUG_ENTER ();` and `DBUG_PRINT ("Serialising ... node");` -/
  | dbug_enter
  /-- Emitted text: `fprintf (INFO_SER_FILE (arg_info), ", SHLPmakeNode (%d, FILENAME (%d), %zd, %zd",
  N_<node>, SFNgetId (NODE_FILE (arg_node)), NODE_LINE (arg_node), NODE_COL (arg_node));` -/
  | write_header (node_name_lower : String)
  /-- Emitted text: `fprintf (INFO_SER_FILE (arg_info), ", ");` -/
  | write_comma
  /-- Emitted text: `SATserialize<T> (arg_info, <NODE>_<ATTR> (arg_node), arg_node);` -/
  | sat_serialize (T NODE ATTR : String)
  /-- Emitted text: `fprintf (INFO_SER_FILE (arg_info), ", NULL");`, written without a test
  in the iteration of the son loop for `<NODE>_<SON>`. -/
  | write_null (NODE SON : String)
  /-- Emitted text: `if (NULL == <NODE>_<SON> (arg_node)) fprintf (INFO_SER_FILE (arg_info), ", NULL");
  else TRAVdo (<NODE>_<SON> (arg_node), arg_info);` -/
  | son_or_null (NODE SON : String)
  /-- Emitted text: `fprintf (INFO_SER_FILE (arg_info), ", %d", <NODE>_<FLAG> (arg_node));` -/
  | write_flag (NODE FLAG : String)
  /-- Emitted text: `fprintf (INFO_SER_FILE (arg_info), ")");` -/
  | write_close
  /-- Emitted text: `DBUG_RETURN (arg_node);` -/
  | return_arg_node
  deriving DecidableEq

/-- The body of the attribute loop of `gen_serialize_node_c` (lines 1027-1048). -/
def gen_serialize_node_c_attrib (attrtype_names : List attrtype_name)
    (node_name_upper : String) (e : String × yajl_val) : Option (List SetStmt) :=
  match attrib_atn attrtype_names e.2 with
  | none => none
  | some atn =>
    if atn.persist = false then some []
    else some [.write_comma, .sat_serialize atn.name node_name_upper (string_toupper e.1)]

/-- The body of the son loop of `gen_serialize_node_c` (lines 1051-1080). -/
def gen_serialize_node_c_son (node_name node_name_upper : String)
    (e : String × yajl_val) : List SetStmt :=
  if node_name = "Fundef" ∧ e.1 = "Body" then
    [.write_null node_name_upper (string_toupper e.1)]
  else if e.1 = "Next"
      ∧ (node_name = "Fundef" ∨ node_name = "Typedef" ∨ node_name = "Objdef") then
    [.write_null node_name_upper (string_toupper e.1)]
  else [.son_or_null node_name_upper (string_toupper e.1)]

/-- The body of the flag loop of `gen_serialize_node_c` (lines 1083-1090). -/
def gen_serialize_node_c_flag (node_name_upper : String)
    (e : String × yajl_val) : SetStmt :=
  .write_flag node_name_upper (string_toupper e.1)

/-- One iteration of the node loop of `gen_serialize_node_c` (lines 1000-1098): the
body of the generated function `SET<node>`. -/
def gen_serialize_node_c_body (attrtype_names : List attrtype_name)
    (node_name : String) (node : yajl_val) : Option (List SetStmt) :=
  let node_name_lower := string_tolower node_name
  let node_name_upper := string_toupper node_name
  let attribs := yajl_tree_get (some node) ["attributes"] .t_object
  let sons := yajl_tree_get (some node) ["sons"] .t_object
  let flags := yajl_tree_get (some node) ["flags"] .t_object
  match emit_loop (gen_serialize_node_c_attrib attrtype_names node_name_upper)
      (object_entries attribs) with
  | none => none
  | some attr_out =>
    some ([SetStmt.dbug_enter, SetStmt.write_header node_name_lower]
      ++ attr_out
      ++ (object_entries sons).flatMap (gen_serialize_node_c_son node_name node_name_upper)
      ++ (object_entries flags).map (gen_serialize_node_c_flag node_name_upper)
      ++ [SetStmt.write_close, SetStmt.return_arg_node])

/-- The generator `gen_serialize_node_c`: name and body of every `SET<node>`. -/
def gen_serialize_node_c (attrtype_names : List attrtype_name)
    (nodes : List (String × yajl_val)) : Option (List (String × List SetStmt)) :=
  node_loop (fun node_name => "SET" ++ string_tolower node_name)
    (gen_serialize_node_c_body attrtype_names) nodes

/-! ## `gen_serialize_link_c` -/

/-- The statements `gen_serialize_link_c` writes into a function `SEL<node>`. -/
inductive SelStmt where
  /-- Emitted text: `DBUG_ENTER ();` -/
  | dbug_enter
  /-- Emitted text: `if (NULL != <NODE>_<ATTR> (arg_node) && SERSTACK_NOT_FOUND
  != SSfindPos (<NODE>_<ATTR> (arg_node), INFO_SER_STACK (arg_info)))
  fprintf (INFO_SER_FILE (arg_info), "/* Fix link for <attr> attribute.  */\n"
  "SHLPfixLink (stack, %d, <pos>, %d);\n", SSfindPos (arg_node, INFO_SER_STACK (arg_info)),
  SSfindPos (<NODE>_<ATTR> (arg_node), INFO_SER_STACK (arg_info)));` -/
  | fix_link (NODE ATTR attrib_name : String) (pos : Nat)
  /-- Emitted text: `if (NULL != <NODE>_<SON> (arg_node)) TRAVdo (<NODE>_<SON> (arg_node), arg_info);` -/
  | descend_son (NODE SON : String)
  /-- Emitted text: `if (NULL != <NODE>_<ATTR> (arg_node)) TRAVdo (<NODE>_<ATTR> (arg_node), arg_info);` -/
  | descend_attr (NODE ATTR : String)
  /-- Emitted text: `DBUG_RETURN (arg_node);` -/
  | return_arg_node
  deriving DecidableEq

/-- The first attribute loop of `gen_serialize_link_c` (lines 1140-1169), with its
counter `pos`.  A missing type string is passed to `strcmp` by the C code, which the
model treats as an abort. -/
def gen_serialize_link_c_links (node_name_upper : String) :
    Nat → List (String × yajl_val) → Option (List SelStmt)
  | _, [] => some []
  | pos, e :: rest =>
    match attrib_type_name e.2 with
    | none => none
    | some type_name =>
      if type_name ≠ "Link" ∧ type_name ≠ "CodeLink" then
        gen_serialize_link_c_links node_name_upper pos rest
      else
        match gen_serialize_link_c_links node_name_upper (pos + 1) rest with
        | none => none
        | some out =>
          some (.fix_link node_name_upper (string_toupper e.1) e.1 pos :: out)

/-- The body of the son loop of `gen_serialize_link_c` (lines 1172-1192). -/
def gen_serialize_link_c_son (node_name node_name_upper : String)
    (e : String × yajl_val) : List SelStmt :=
  if node_name = "Fundef" ∧ (e.1 = "Next" ∨ e.1 = "Body") then []
  else if node_name = "Typedef" ∧ e.1 = "Next" then []
  else if node_name = "Objdef" ∧ e.1 = "Next" then []
  else [.descend_son node_name_upper (string_toupper e.1)]

/-- The body of the last attribute loop of `gen_serialize_link_c` (lines 1195-1213). -/
def gen_serialize_link_c_nodeattr (node_name_upper : String)
    (e : String × yajl_val) : Option (List SelStmt) :=
  match attrib_type_name e.2 with
  | none => none
  | some type_name =>
    if type_name ≠ "Node" then some []
    else some [.descend_attr node_name_upper (string_toupper e.1)]

/-- One iteration of the node loop of `gen_serialize_link_c` (lines 1122-1221): the
body of the generated function `SEL<node>`. -/
def gen_serialize_link_c_body (node_name : String) (node : yajl_val) :
    Option (List SelStmt) :=
  let node_name_upper := string_toupper node_name
  let attribs := yajl_tree_get (some node) ["attributes"] .t_object
  let sons := yajl_tree_get (some node) ["sons"] .t_object
  match gen_serialize_link_c_links node_name_upper 1 (object_entries attribs) with
  | none => none
  | some link_out =>
    match emit_loop (gen_serialize_link_c_nodeattr node_name_upper)
        (object_entries attribs) with
    | none => none
    | some attr_out =>
      some ([SelStmt.dbug_enter]
        ++ link_out
        ++ (object_entries sons).flatMap (gen_serialize_link_c_son node_name node_name_upper)
        ++ attr_out
        ++ [SelStmt.return_arg_node])

/-- The generator `gen_serialize_link_c`: name and body of every `SEL<node>`. -/
def gen_serialize_link_c (nodes : List (String × yajl_val)) :
    Option (List (String × List SelStmt)) :=
  node_loop (fun node_name => "SEL" ++ string_tolower node_name)
    gen_serialize_link_c_body nodes

/-! ## `gen_serialize_buildstack_c` -/

/-- The statements `gen_serialize_buildstack_c` writes into a function `SBT<node>`. -/
inductive SbtStmt where
  /-- Emitted text: `DBUG_ENTER ();` and `DBUG_PRINT ("Stacking Annotate node");` -/
  | dbug_enter
  /-- Emitted text: `SSpush (arg_node, INFO_SER_STACK (arg_info));` -/
  | sspush
  /-- Emitted text: `if (NULL != <NODE>_<SON> (arg_node))
  <NODE>_<SON> (arg_node) = TRAVdo (<NODE>_<SON> (arg_node), arg_info);` -/
  | descend_son (NODE SON : String)
  /-- Emitted text: `if (NULL != <NODE>_<ATTR> (arg_node))
  <NODE>_<ATTR> (arg_node) = TRAVdo (<NODE>_<ATTR> (arg_node), arg_info);` -/
  | descend_attr (NODE ATTR : String)
  /-- Emitted text: `DBUG_RETURN (arg_node);` -/
  | return_arg_node
  deriving DecidableEq

/-- The body of the son loop of `gen_serialize_buildstack_c` (lines 1484-1504). -/
def gen_serialize_buildstack_c_son (node_name node_name_upper : String)
    (e : String × yajl_val) : List SbtStmt :=
  if node_name = "Fundef" ∧ (e.1 = "Next" ∨ e.1 = "Body") then []
  else if (node_name = "Objdef" ∨ node_name = "Typedef") ∧ e.1 = "Next" then []
  else [.descend_son node_name_upper (string_toupper e.1)]

/-- The body of the attribute loop of `gen_serialize_buildstack_c` (lines 1506-1525). -/
def gen_serialize_buildstack_c_attrib (node_name_upper : String)
    (e : String × yajl_val) : Option (List SbtStmt) :=
  match attrib_type_name e.2 with
  | none => none
  | some type_name =>
    if type_name ≠ "Node" then some []
    else some [.descend_attr node_name_upper (string_toupper e.1)]

/-- One iteration of the node loop of `gen_serialize_buildstack_c` (lines 1467-1532):
the body of the generated function `SBT<node>`. -/
def gen_serialize_buildstack_c_body (node_name : String) (node : yajl_val) :
    Option (List SbtStmt) :=
  let node_name_upper := string_toupper node_name
  let attribs := yajl_tree_get (some node) ["attributes"] .t_object
  let sons := yajl_tree_get (some node) ["sons"] .t_object
  match emit_loop (gen_serialize_buildstack_c_attrib node_name_upper)
      (object_entries attribs) with
  | none => none
  | some attr_out =>
    some ([SbtStmt.dbug_enter, SbtStmt.sspush]
      ++ (object_entries sons).flatMap
          (gen_serialize_buildstack_c_son node_name node_name_upper)
      ++ attr_out
      ++ [SbtStmt.return_arg_node])

/-- The generator `gen_serialize_buildstack_c`: name and body of every `SBT<node>`. -/
def gen_serialize_buildstack_c (nodes : List (String × yajl_val)) :
    Option (List (String × List SbtStmt)) :=
  node_loop (fun node_name => "SBT" ++ string_tolower node_name)
    gen_serialize_buildstack_c_body nodes

/-! ## `gen_serialize_helper_c` -/

/-- The statements `gen_serialize_helper_c` writes into a case of the switch of
`SHLPmakeNodeVa`. -/
inductive MakeStmt where
  /-- Emitted text: `struct NODE_ALLOC_N_<NODE> *  nodealloc;
  nodealloc = (struct NODE_ALLOC_N_<NODE> *) MEMmalloc (sizeof *nodealloc);
  xthis = (node *) &nodealloc->nodestructure; NODE_TYPE (xthis) = node_type;
  NODE_FILE (xthis) = sfile; NODE_LINE (xthis) = lineno; NODE_COL (xthis) = col;
  NODE_ERROR (xthis) = NULL; CHECK_NODE (xthis, node_type);` -/
  | alloc (NODE : String)
  /-- Emitted text: `xthis->sons.N_<node> = (struct SONS_N_<NODE> *) &nodealloc->sonstructure;` -/
  | set_sons (node_name_lower NODE : String)
  /-- Emitted text: `xthis->attribs.N_<node> = (struct ATTRIBS_N_<NODE> *)
  &nodealloc->attributestructure;` -/
  | set_attribs (node_name_lower NODE : String)
  /-- Emitted text: `<NODE>_<ATTR> (xthis) = <init>;` -/
  | attr_init (NODE ATTR init : String)
  /-- Emitted text: `<NODE>_<ATTR> (xthis) = va_arg (args, <type>);` -/
  | attr_va_arg (NODE ATTR type : String)
  /-- Emitted text: `<NODE>_<SON> (xthis) = va_arg (args, node *);` -/
  | son_va_arg (NODE SON : String)
  /-- Emitted text: `<NODE>_<FLAG> (xthis) = va_arg (args, int);` -/
  | flag_va_arg (NODE FLAG : String)
  /-- Emitted text: `break;` -/
  | break_
  deriving DecidableEq

/-- The type read by `va_arg`: `atn->vtype ? atn->vtype : atn->ctype`. -/
def va_arg_type (atn : attrtype_name) : String :=
  match atn.vtype with
  | some vtype => vtype
  | none => atn.ctype

/-- The body of the attribute loop of the `SHLPmakeNodeVa` part of
`gen_serialize_helper_c` (lines 1301-1322). -/
def gen_serialize_helper_c_attrib (attrtype_names : List attrtype_name)
    (node_name_upper : String) (e : String × yajl_val) : Option (List MakeStmt) :=
  match attrib_atn attrtype_names e.2 with
  | none => none
  | some atn =>
    if atn.persist = false then
      some [.attr_init node_name_upper (string_toupper e.1) atn.init]
    else
      some [.attr_va_arg node_name_upper (string_toupper e.1) (va_arg_type atn)]

/-- One iteration of the first node loop of `gen_serialize_helper_c`
(lines 1264-1350): the body of the case `N_<node>` for one node. -/
def gen_serialize_helper_c_case (attrtype_names : List attrtype_name)
    (node_name : String) (node : yajl_val) : Option (List MakeStmt) :=
  let node_name_lower := string_tolower node_name
  let node_name_upper := string_toupper node_name
  let attribs := yajl_tree_get (some node) ["attributes"] .t_object
  let sons := yajl_tree_get (some node) ["sons"] .t_object
  let flags := yajl_tree_get (some node) ["flags"] .t_object
  match emit_loop (gen_serialize_helper_c_attrib attrtype_names node_name_upper)
      (object_entries attribs) with
  | none => none
  | some attr_out =>
    some ([MakeStmt.alloc node_name_upper]
      ++ (if (object_entries sons).length ≠ 0 then
            [MakeStmt.set_sons node_name_lower node_name_upper] else [])
      ++ (if (object_entries flags).length ≠ 0 ∨ (object_entries attribs).length ≠ 0 then
            [MakeStmt.set_attribs node_name_lower node_name_upper] else [])
      ++ attr_out
      ++ (object_entries sons).map
          (fun e => MakeStmt.son_va_arg node_name_upper (string_toupper e.1))
      ++ (object_entries flags).map
          (fun e => MakeStmt.flag_va_arg node_name_upper (string_toupper e.1))
      ++ [MakeStmt.break_])

/-- The cases of the switch of the generated `SHLPmakeNodeVa`, in emission order
(the switch ends with `default: DBUG_UNREACHABLE ("Invalid node type found");`). -/
def gen_serialize_helper_c_make (attrtype_names : List attrtype_name)
    (nodes : List (String × yajl_val)) : Option (List (String × List MakeStmt)) :=
  node_loop (fun node_name => "N_" ++ string_tolower node_name)
    (gen_serialize_helper_c_case attrtype_names) nodes

/-- The statements `gen_serialize_helper_c` writes into a case of the type switch of
`SHLPfixLink`. -/
inductive FixStmt where
  /-- Emitted text: `switch (no) {` -/
  | switch_no
  /-- Emitted text: `case <pos>: <NODE>_<ATTR> (fromp) = top; break;` -/
  | case_assign (pos : Nat) (NODE ATTR : String)
  /-- Emitted text: `default: break; }` -/
  | default_close
  /-- Emitted text: `break;` -/
  | break_
  deriving DecidableEq

/-- The attribute loop of the `SHLPfixLink` part of `gen_serialize_helper_c`
(lines 1399-1431), with its counter `pos`; `rest = []` is the test
`i == YAJL_OBJECT_LENGTH (attribs) - 1`. -/
def gen_serialize_helper_c_fixattribs (node_name_upper : String) :
    Nat → List (String × yajl_val) → Option (List FixStmt)
  | _, [] => some []
  | pos, e :: rest =>
    match attrib_type_name e.2 with
    | none => none
    | some type_name =>
      let is_link : Bool := decide (type_name = "Link" ∨ type_name = "CodeLink")
      let pos1 := if is_link then pos + 1 else pos
      match gen_serialize_helper_c_fixattribs node_name_upper pos1 rest with
      | none => none
      | some out =>
        some ((if is_link then
                (if pos = 1 then [FixStmt.switch_no] else [])
                  ++ [FixStmt.case_assign pos node_name_upper (string_toupper e.1)]
               else [])
          ++ (if rest.isEmpty ∧ pos1 > 1 then [FixStmt.default_close] else [])
          ++ out)

/-- One iteration of the second node loop of `gen_serialize_helper_c`
(lines 1389-1436): the body of the case `N_<node>` for one node. -/
def gen_serialize_helper_c_fixcase (node_name : String) (node : yajl_val) :
    Option (List FixStmt) :=
  let node_name_upper := string_toupper node_name
  let attribs := yajl_tree_get (some node) ["attributes"] .t_object
  match gen_serialize_helper_c_fixattribs node_name_upper 1 (object_entries attribs) with
  | none => none
  | some out => some (out ++ [FixStmt.break_])

/-- The cases of the type switch of the generated `SHLPfixLink`, in emission order
(the switch ends with `default: DBUG_UNREACHABLE ("Invalid node type found");`). -/
def gen_serialize_helper_c_fix (nodes : List (String × yajl_val)) :
    Option (List (String × List FixStmt)) :=
  node_loop (fun node_name => "N_" ++ string_tolower node_name)
    gen_serialize_helper_c_fixcase nodes

/-! ## Schema accessors and well-formedness -/

/-- The local `attribs` of the node loops: the entries of the object under the key
`attributes`, none when the key is missing or its value is not an object. -/
def node_attribs (node : yajl_val) : List (String × yajl_val) :=
  object_entries (yajl_tree_get (some node) ["attributes"] .t_object)

/-- The local `sons` of the node loops. -/
def node_sons (node : yajl_val) : List (String × yajl_val) :=
  object_entries (yajl_tree_get (some node) ["sons"] .t_object)

/-- The local `flags` of the node loops. -/
def node_flags (node : yajl_val) : List (String × yajl_val) :=
  object_entries (yajl_tree_get (some node) ["flags"] .t_object)

/-- The node declares a son with this name. -/
def has_son (node : yajl_val) (son_name : String) : Bool :=
  (node_sons node).any (fun e => e.1 == son_name)

/-- Every attribute of the node has a type string that names a registered attribute
type (the invariant the generators check with `assert (atn)`). -/
def attribs_registered (attrtype_names : List attrtype_name) (node : yajl_val) : Prop :=
  ∀ e ∈ node_attribs node, (attrib_atn attrtype_names e.2).isSome = true

instance (attrtype_names : List attrtype_name) (node : yajl_val) :
    Decidable (attribs_registered attrtype_names node) := by
  unfold attribs_registered; infer_instance

/-- A son called `Next` is described by a JSON object. -/
def next_son_is_object (node : yajl_val) : Prop :=
  ∀ e ∈ node_sons node, e.1 = "Next" → e.2.type = .t_object

instance (node : yajl_val) : Decidable (next_son_is_object node) := by
  unfold next_son_is_object; infer_instance

/-- `attribs_registered` for every node of the schema. -/
def schema_registered (attrtype_names : List attrtype_name)
    (nodes : List (String × yajl_val)) : Prop :=
  ∀ n ∈ nodes, attribs_registered attrtype_names n.2

instance (attrtype_names : List attrtype_name) (nodes : List (String × yajl_val)) :
    Decidable (schema_registered attrtype_names nodes) := by
  unfold schema_registered; infer_instance

/-! ## What the claims say the generated functions are -/

/-- The attribute-destroy call for one attribute by the words of the spec: a call if
the type of the attribute is not of Literal disposition and its name is not in `kept`. -/
def FREE_spec_attrib (attrtype_names : List attrtype_name) (kept : List String)
    (node_name_upper : String) (e : String × yajl_val) : List FreeStmt :=
  match attrib_atn attrtype_names e.2 with
  | none => []
  | some atn =>
    if atn.copy_type ≠ .act_literal ∧ e.1 ∉ kept then
      [FreeStmt.freeattrib node_name_upper (string_toupper e.1) atn.name]
    else []

/-- The attribute-destroy calls of a `FREE<node>` by the words of the spec: one call
for each attribute whose type is not of Literal disposition and whose name is not in
`kept`, in declaration order. -/
def FREE_spec_attribs (attrtype_names : List attrtype_name) (kept : List String)
    (node_name_upper : String) (attribs : List (String × yajl_val)) : List FreeStmt :=
  attribs.flatMap (FREE_spec_attrib attrtype_names kept node_name_upper)

/-- The destroy calls for the sons other than `Next`, in declaration order. -/
def FREE_spec_sons (node_name_upper : String) (sons : List (String × yajl_val)) :
    List FreeStmt :=
  (sons.filter (fun e => e.1 ≠ "Next")).map
    (fun e => FreeStmt.freetrav_son node_name_upper (string_toupper e.1))

/-- The order of sub-operations of `FREE<node>` for a node other than `Fundef`, by the
words of the spec: the diagnostic side-node, the guarded `Next` tail, the attributes,
the other sons, and the release of the node last. -/
def FREE_spec (attrtype_names : List attrtype_name) (node_name : String)
    (node : yajl_val) : List FreeStmt :=
  [FreeStmt.dbug_enter, FreeStmt.decl_result, FreeStmt.freetrav_error]
    ++ (if has_son node "Next" then [FreeStmt.freecond_next (string_toupper node_name)]
        else [])
    ++ FREE_spec_attribs attrtype_names [] (string_toupper node_name) (node_attribs node)
    ++ FREE_spec_sons (string_toupper node_name) (node_sons node)
    ++ (if has_son node "Next" then [FreeStmt.result_next (string_toupper node_name)]
        else [])
    ++ [FreeStmt.memfree, FreeStmt.return_result]

/-- The body of `FREEfundef` when the attributes named in `kept` are the ones that
survive: the node is made a zombie, is not released and is returned. -/
def FREEfundef_spec (attrtype_names : List attrtype_name) (kept : List String)
    (node : yajl_val) : List FreeStmt :=
  [FreeStmt.dbug_enter, FreeStmt.zombify, FreeStmt.freetrav_error]
    ++ (if has_son node "Next" then [FreeStmt.freecond_next (string_toupper "Fundef")]
        else [])
    ++ FREE_spec_attribs attrtype_names kept (string_toupper "Fundef") (node_attribs node)
    ++ FREE_spec_sons (string_toupper "Fundef") (node_sons node)
    ++ [FreeStmt.return_arg_node]

/-- The identity attributes of a zombie named by the comment above `gen_free_node_c`
and by the spec: NAME, MOD, LINKMOD, TYPE and TYPES. -/
def fundef_kept_documented : List String := ["Name", "Mod", "LinkMod", "Type", "Types"]

/-- The attribute names the attribute loop of `gen_free_node_c` tests for `Fundef`. -/
def fundef_kept_tested : List String :=
  ["Name", "Mod", "LinkMod", "Types", "Type", "Impl"]

/-- The reading of the zombie exception on one iteration of the attribute loop of
`FREEfundef`: for an attribute of non-Literal disposition the iteration writes no
attribute-destroy call if and only if the attribute is named in `kept`, and writes
the call for that attribute otherwise. -/
def FREEfundef_keeps (kept : List String) (attrtype_names : List attrtype_name)
    (e : String × yajl_val) : Prop :=
  ∀ atn, attrib_atn attrtype_names e.2 = some atn → atn.copy_type ≠ .act_literal →
    (gen_free_node_c_attrib attrtype_names "Fundef" (string_toupper "Fundef") e = some []
        ↔ e.1 ∈ kept)
    ∧ (e.1 ∉ kept →
        gen_free_node_c_attrib attrtype_names "Fundef" (string_toupper "Fundef") e
          = some [FreeStmt.freeattrib (string_toupper "Fundef") (string_toupper e.1)
              atn.name])

/-- Every attribute of the node has a type string (the first thing every attribute
loop reads). -/
def attribs_typed (node : yajl_val) : Prop :=
  ∀ e ∈ node_attribs node, (attrib_type_name e.2).isSome = true

instance (node : yajl_val) : Decidable (attribs_typed node) := by
  unfold attribs_typed; infer_instance

/-- An argument slot of a `SHLPmakeNode` record after the header: the field of the
node it carries, named by the accessor `<NODE>_<FIELD>`. -/
inductive Slot where
  | attr (NODE ATTR : String)
  | son (NODE SON : String)
  | flag (NODE FLAG : String)
  deriving DecidableEq

/-- The slot a statement of `SET<node>` writes, if it writes one. -/
def SetStmt.slot : SetStmt → Option Slot
  | .sat_serialize _ NODE ATTR => some (.attr NODE ATTR)
  | .write_null NODE SON => some (.son NODE SON)
  | .son_or_null NODE SON => some (.son NODE SON)
  | .write_flag NODE FLAG => some (.flag NODE FLAG)
  | _ => none

/-- The slot a statement of a `SHLPmakeNodeVa` case reads with `va_arg`, if any. -/
def MakeStmt.va_slot : MakeStmt → Option Slot
  | .attr_va_arg NODE ATTR _ => some (.attr NODE ATTR)
  | .son_va_arg NODE SON => some (.son NODE SON)
  | .flag_va_arg NODE FLAG => some (.flag NODE FLAG)
  | _ => none

/-- The type of the attribute entry is persisted. -/
def attrib_persisted (attrtype_names : List attrtype_name) (e : String × yajl_val) : Bool :=
  match attrib_atn attrtype_names e.2 with
  | none => false
  | some atn => atn.persist

/-- The slots of a record by the words of the spec: the persisted attributes, then
the sons, then the flags, each in declaration order. -/
def slots_spec (attrtype_names : List attrtype_name) (node_name : String)
    (node : yajl_val) : List Slot :=
  ((node_attribs node).filter (attrib_persisted attrtype_names)).map
      (fun e => Slot.attr (string_toupper node_name) (string_toupper e.1))
    ++ (node_sons node).map
      (fun e => Slot.son (string_toupper node_name) (string_toupper e.1))
    ++ (node_flags node).map
      (fun e => Slot.flag (string_toupper node_name) (string_toupper e.1))

/-- The slot number and the field of a `SHLPfixLink` record written by `SEL<node>`. -/
def SelStmt.link_slot : SelStmt → Option (Nat × String × String)
  | .fix_link NODE ATTR _ pos => some (pos, NODE, ATTR)
  | _ => none

/-- The case label and the field assigned under it in `SHLPfixLink`. -/
def FixStmt.link_slot : FixStmt → Option (Nat × String × String)
  | .case_assign pos NODE ATTR => some (pos, NODE, ATTR)
  | _ => none

/-- The attribute entry has the type `Link` or `CodeLink`. -/
def is_link_attrib (e : String × yajl_val) : Bool :=
  decide (attrib_type_name e.2 = some "Link" ∨ attrib_type_name e.2 = some "CodeLink")

/-- The numbering of the spec: the `Link`/`CodeLink` attributes of the node in
declaration order, counted from `first`. -/
def link_slots_spec (node_name_upper : String) (first : Nat)
    (attribs : List (String × yajl_val)) : List (Nat × String × String) :=
  (List.enumFrom first (attribs.filter is_link_attrib)).map
    (fun p => (p.1, node_name_upper, string_toupper p.2.1))

/-- The four (node, son) pairs the serialization never descends into. -/
def suppressed_sons : List (String × String) :=
  [("Fundef", "Next"), ("Fundef", "Body"), ("Typedef", "Next"), ("Objdef", "Next")]

/-! ## Node instances -/

/-- The value of an attribute field of a node instance: a node pointer (`none` is
`NULL`), as held by attributes of type `Link`, `CodeLink` or `Node`, or other data. -/
inductive attr_value where
  | data (d : Int)
  | ptr (p : Option Nat)
  deriving DecidableEq

/-- A node instance (`node` in the generated C).  A pointer to a node is its index in
the heap; the fields are keyed by the two parts `(<NODE>, <FIELD>)` of the accessor
`<NODE>_<FIELD>` the generated code reads and writes them with. -/
structure node_inst where
  /-- The `<node>` of the type tag `N_<node>` held in `NODE_TYPE`. -/
  nodetype : String
  file : Nat
  line : Nat
  col : Nat
  /-- The diagnostic side-node `NODE_ERROR`. -/
  error : Option Nat
  sons : List ((String × String) × Option Nat)
  attribs : List ((String × String) × attr_value)
  flags : List ((String × String) × Int)
  deriving DecidableEq

/-- Reading a field: the first entry with the key. -/
def field_get {α : Type} (fields : List ((String × String) × α)) (key : String × String) :
    Option α :=
  match fields.find? (fun kv => kv.1 == key) with
  | none => none
  | some kv => some kv.2

/-- Writing a field: every entry with the key takes the value. -/
def field_set {α : Type} (fields : List ((String × String) × α)) (key : String × String)
    (v : α) : List ((String × String) × α) :=
  fields.map (fun kv => if kv.1 = key then (kv.1, v) else kv)

/-- The assignment `NODE_ERROR (p) = v`. -/
def heap_set_error (heap : List node_inst) (p : Nat) (v : Option Nat) : List node_inst :=
  match heap[p]? with
  | none => heap
  | some nd =>
    heap.set p (node_inst.mk nd.nodetype nd.file nd.line nd.col v nd.sons nd.attribs nd.flags)

/-- The assignment `<NODE>_<SON> (p) = v`. -/
def heap_set_son (heap : List node_inst) (p : Nat) (key : String × String)
    (v : Option Nat) : List node_inst :=
  match heap[p]? with
  | none => heap
  | some nd =>
    heap.set p (node_inst.mk nd.nodetype nd.file nd.line nd.col nd.error
      (field_set nd.sons key v) nd.attribs nd.flags)

/-- The assignment `<NODE>_<ATTR> (p) = v`. -/
def heap_set_attrib (heap : List node_inst) (p : Nat) (key : String × String)
    (v : attr_value) : List node_inst :=
  match heap[p]? with
  | none => heap
  | some nd =>
    heap.set p (node_inst.mk nd.nodetype nd.file nd.line nd.col nd.error
      nd.sons (field_set nd.attribs key v) nd.flags)

/-- The value `<NODE>_<SON> (p)`; `none` when `p` is not a node with that field. -/
def heap_get_son (heap : List node_inst) (p : Nat) (key : String × String) :
    Option (Option Nat) :=
  match heap[p]? with
  | none => none
  | some nd => field_get nd.sons key

/-- The value `<NODE>_<ATTR> (p)`. -/
def heap_get_attrib (heap : List node_inst) (p : Nat) (key : String × String) :
    Option attr_value :=
  match heap[p]? with
  | none => none
  | some nd => field_get nd.attribs key

/-! ## The meaning of the generated `FREE<node>` -/

/-- The state of a destroy walk: the heap, the nodes released by `MEMfree` (latest
first) and the nodes made zombies by `FREEzombify` (latest first). -/
structure FreeState where
  heap : List node_inst
  freed : List Nat
  zombies : List Nat
  deriving DecidableEq

/-- The locals of a `FREE<node>`: `arg_node` and `result`. -/
structure FreeLocals where
  arg_node : Option Nat
  result : Option Nat
  deriving DecidableEq

/-- The macro `FREETRAV (node, info)`, written into the generated file at line 533:
`(node != NULL ? TRAVdo (node, info) : node)`; `call` is `TRAVdo`. -/
def FREETRAV (call : Nat → FreeState → Option (Option Nat × FreeState))
    (p : Option Nat) (s : FreeState) : Option (Option Nat × FreeState) :=
  match p with
  | none => some (none, s)
  | some a => call a s

/-- The macro `FREECOND (node, info)`, written into the generated file at lines
534-537: `(INFO_FREE_FLAG (info) != arg_node ? FREETRAV (node, info) : node)`;
`flag` is the stop marker `INFO_FREE_FLAG (info)`. -/
def FREECOND (call : Nat → FreeState → Option (Option Nat × FreeState))
    (flag : Option Nat) (arg_node : Option Nat)
    (p : Option Nat) (s : FreeState) : Option (Option Nat × FreeState) :=
  if flag ≠ arg_node then FREETRAV call p s else some (p, s)

/-- One statement of a `FREE<node>` other than a return.  `ext` stands for the
attribute destructors `FREEattrib<T> (attr, parent)`, which are written by hand
outside the generator; `call` is `TRAVdo`.  A statement that reads a field of
`arg_node` it does not have stops the run (`none`). -/
def FREE_step (ext : String → attr_value → Nat → FreeState → attr_value × FreeState)
    (call : Nat → FreeState → Option (Option Nat × FreeState)) (flag : Option Nat) :
    FreeStmt → FreeLocals → FreeState → Option (FreeLocals × FreeState)
  | .dbug_enter, l, s => some (l, s)
  | .zombify, l, s =>
    match l.arg_node with
    | none => none
    | some a => some (l, FreeState.mk s.heap s.freed (a :: s.zombies))
  | .decl_result, l, s => some (FreeLocals.mk l.arg_node none, s)
  | .freetrav_error, l, s =>
    match l.arg_node with
    | none => none
    | some a =>
      match s.heap[a]? with
      | none => none
      | some nd =>
        match FREETRAV call nd.error s with
        | none => none
        | some (r, s1) =>
          some (l, FreeState.mk (heap_set_error s1.heap a r) s1.freed s1.zombies)
  | .freecond_next NODE, l, s =>
    match l.arg_node with
    | none => none
    | some a =>
      match heap_get_son s.heap a (NODE, "NEXT") with
      | none => none
      | some p =>
        match FREECOND call flag l.arg_node p s with
        | none => none
        | some (r, s1) =>
          some (l, FreeState.mk (heap_set_son s1.heap a (NODE, "NEXT") r) s1.freed s1.zombies)
  | .freeattrib NODE ATTR T, l, s =>
    match l.arg_node with
    | none => none
    | some a =>
      match heap_get_attrib s.heap a (NODE, ATTR) with
      | none => none
      | some v =>
        match ext T v a s with
        | (r, s1) =>
          some (l, FreeState.mk (heap_set_attrib s1.heap a (NODE, ATTR) r) s1.freed s1.zombies)
  | .freetrav_son NODE SON, l, s =>
    match l.arg_node with
    | none => none
    | some a =>
      match heap_get_son s.heap a (NODE, SON) with
      | none => none
      | some p =>
        match FREETRAV call p s with
        | none => none
        | some (r, s1) =>
          some (l, FreeState.mk (heap_set_son s1.heap a (NODE, SON) r) s1.freed s1.zombies)
  | .result_next NODE, l, s =>
    match l.arg_node with
    | none => none
    | some a =>
      match heap_get_son s.heap a (NODE, "NEXT") with
      | none => none
      | some p => some (FreeLocals.mk l.arg_node p, s)
  | .memfree, l, s =>
    match l.arg_node with
    | none => none
    | some a => some (FreeLocals.mk none l.result, FreeState.mk s.heap (a :: s.freed) s.zombies)
  | .return_result, l, s => some (l, s)
  | .return_arg_node, l, s => some (l, s)

/-- The body of a `FREE<node>`, statement by statement, up to its return; a body
that ends without a return yields nothing. -/
def FREE_run (ext : String → attr_value → Nat → FreeState → attr_value × FreeState)
    (call : Nat → FreeState → Option (Option Nat × FreeState)) (flag : Option Nat) :
    List FreeStmt → FreeLocals → FreeState → Option (Option Nat × FreeState)
  | [], _, _ => none
  | .return_result :: _, l, s => some (l.result, s)
  | .return_arg_node :: _, l, s => some (l.arg_node, s)
  | st :: rest, l, s =>
    match FREE_step ext call flag st l s with
    | none => none
    | some (l1, s1) => FREE_run ext call flag rest l1 s1

/-- A run of statements none of which returns. -/
def FREE_steps (ext : String → attr_value → Nat → FreeState → attr_value × FreeState)
    (call : Nat → FreeState → Option (Option Nat × FreeState)) (flag : Option Nat) :
    List FreeStmt → FreeLocals → FreeState → Option (FreeLocals × FreeState)
  | [], l, s => some (l, s)
  | st :: rest, l, s =>
    match FREE_step ext call flag st l s with
    | none => none
    | some (l1, s1) => FREE_steps ext call flag rest l1 s1

/-- The statement is one of the two returns. -/
def FreeStmt.is_return : FreeStmt → Bool
  | .return_result => true
  | .return_arg_node => true
  | _ => false

/-- Modelled from the spec: `TRAVdo (node, info)` under the free traversal, which is
not part of the generator; it "selects which generated operation a walk invokes per
node type", here the function `FREE<node>` of the type tag of the node.  The fuel
bounds the depth of the calls. -/
def FREE_call (ext : String → attr_value → Nat → FreeState → attr_value × FreeState)
    (funs : List (String × List FreeStmt)) :
    Nat → Option Nat → Nat → FreeState → Option (Option Nat × FreeState)
  | 0, _, _, _ => none
  | fuel + 1, flag, a, s =>
    match s.heap[a]? with
    | none => none
    | some nd =>
      match funs.lookup ("FREE" ++ nd.nodetype) with
      | none => none
      | some body =>
        FREE_run ext (FREE_call ext funs fuel flag) flag body (FreeLocals.mk (some a) none) s

/-- Modelled from the spec: the attribute destructors used in the examples; "skip
null", and a value that is not null is destroyed and the field set to null. -/
def ex_FREEattrib (_T : String) (_v : attr_value) (_parent : Nat) (s : FreeState) :
    attr_value × FreeState :=
  (attr_value.ptr none, s)

/-- A node of a `Next` chain of the node type `node_name`: `<NODE>_NEXT` is `next`,
every other son and `NODE_ERROR` are null, every attribute is null. -/
def chain_node (node_name : String) (node : yajl_val) (next : Option Nat) : node_inst :=
  node_inst.mk (string_tolower node_name) 0 0 0 none
    ((node_sons node).map (fun e =>
      ((string_toupper node_name, string_toupper e.1),
        if string_toupper e.1 = "NEXT" then next else none)))
    ((node_attribs node).map (fun e =>
      ((string_toupper node_name, string_toupper e.1), attr_value.ptr none)))
    ((node_flags node).map (fun e =>
      ((string_toupper node_name, string_toupper e.1), 0)))

/-- The `<NODE>_NEXT` of node `i` of a chain of `n` nodes. -/
def chain_next (n i : Nat) : Option Nat := if i + 1 < n then some (i + 1) else none

/-- The heap holding a chain of `n` nodes: node `i` is at index `i` and its
`<NODE>_NEXT` is node `i + 1`, null for the last one. -/
def chain_heap (node_name : String) (node : yajl_val) (n : Nat) : List node_inst :=
  (List.range n).map (fun i => chain_node node_name node (chain_next n i))

/-- The statement leaves the locals `arg_node` and `result` as they are. -/
def FreeStmt.keeps_locals : FreeStmt → Bool
  | .decl_result => false
  | .result_next _ => false
  | .memfree => false
  | _ => true

/-- The accessor `<NODE>_NEXT` belongs to the son `Next` alone: no other son of the
node has a name that reads `NEXT` in upper case. -/
def next_accessor_unique (node : yajl_val) : Prop :=
  ∀ e ∈ node_sons node, string_toupper e.1 = "NEXT" → e.1 = "Next"

instance (node : yajl_val) : Decidable (next_accessor_unique node) := by
  unfold next_accessor_unique; infer_instance

/-! ## A small schema on which the generators are evaluated -/

/-- Six attribute types: an owned string, a literal integer, two non-owning links, an
owning node attribute and a type that is not persisted. -/
def ex_attrtype_names : List attrtype_name :=
  [attrtype_name.mk "String" "char *" none "NULL" .act_function true,
   attrtype_name.mk "Int" "int" none "0" .act_literal true,
   attrtype_name.mk "Link" "node *" none "NULL" .act_function true,
   attrtype_name.mk "CodeLink" "node *" none "NULL" .act_function true,
   attrtype_name.mk "Node" "node *" none "NULL" .act_node true,
   attrtype_name.mk "DFMask" "dfmask_t *" (some "void *") "NULL" .act_function false]

/-- An attribute entry of the given type. -/
def ex_attr (type_name : String) : yajl_val := .object [("type", .string type_name)]

/-- A definition node with a body, a `Next` chain, identity attributes and a flag. -/
def ex_fundef : yajl_val :=
  .object [("sons", .object [("Body", .object []), ("Next", .object [])]),
           ("attributes", .object [("Name", ex_attr "String"), ("Impl", ex_attr "Link"),
                                   ("Dfm", ex_attr "DFMask"), ("Line", ex_attr "Int")]),
           ("flags", .object [("IsInline", .object [])])]

/-- A chained node with one further son, three attributes and a flag. -/
def ex_arg : yajl_val :=
  .object [("sons", .object [("Avis", .object []), ("Next", .object [])]),
           ("attributes", .object [("Name", ex_attr "String"), ("Count", ex_attr "Int"),
                                   ("Decl", ex_attr "Link")]),
           ("flags", .object [("IsUsed", .object [])])]

/-- A leaf node with two link attributes separated by a string attribute. -/
def ex_id : yajl_val :=
  .object [("attributes", .object [("Avis", ex_attr "Link"), ("Name", ex_attr "String"),
                                   ("Decl", ex_attr "CodeLink")])]

/-- A chained definition without attributes. -/
def ex_typedef : yajl_val :=
  .object [("sons", .object [("Next", .object [])])]

/-- The example schema. -/
def ex_nodes : List (String × yajl_val) :=
  [("Fundef", ex_fundef), ("Arg", ex_arg), ("Id", ex_id), ("Typedef", ex_typedef)]

/-- The functions `FREE<node>` generated for the example schema. -/
def ex_FREE_funs : List (String × List FreeStmt) :=
  match gen_free_node_c ex_attrtype_names ex_nodes with
  | none => []
  | some funs => funs

/-- The outcome the spec claims for the destroy of a chain of five nodes with the
stop marker on the third (the nodes are at the indices 0 to 4): exactly the first
two nodes are released and the third is returned. -/
def claimed_marker_outcome (out : Option (Option Nat × FreeState)) : Prop :=
  ∃ s1, out = some (some 2, s1) ∧ ∀ i, i ∈ s1.freed ↔ i < 2

/-! ## The meaning of the generated serialization functions -/

/-- A run of statements that all fall through to the next one. -/
def run_steps {S Stmt : Type} (step : Stmt → S → Option S) : List Stmt → S → Option S
  | [], s => some s
  | st :: rest, s =>
    match step st s with
    | none => none
    | some s1 => run_steps step rest s1

/-- A run of statements up to the first statement that leaves the body (a return, or
the `break` of a case); a body that ends without one yields nothing. -/
def run_until {S Stmt : Type} (is_end : Stmt → Bool) (step : Stmt → S → Option S) :
    List Stmt → S → Option S
  | [], _ => none
  | st :: rest, s =>
    if is_end st then some s
    else
      match step st s with
      | none => none
      | some s1 => run_until is_end step rest s1

/-- The state of the stack-building walk: the heap and the position list
`INFO_SER_STACK (arg_info)`. -/
structure SbtState where
  heap : List node_inst
  stack : List Nat
  deriving DecidableEq

/-- One statement of an `SBT<node>` on the node `a`; `call` is `TRAVdo`.
`SSpush` is modelled from the spec: the node "is appended to an ordered position
list; its index is its stable stack position". -/
def SBT_step (call : Nat → SbtState → Option (Option Nat × SbtState)) (a : Nat) :
    SbtStmt → SbtState → Option SbtState
  | .dbug_enter, s => some s
  | .sspush, s => some (SbtState.mk s.heap (s.stack ++ [a]))
  | .descend_son NODE SON, s =>
    match heap_get_son s.heap a (NODE, SON) with
    | none => none
    | some none => some s
    | some (some b) =>
      match call b s with
      | none => none
      | some (r, s1) => some (SbtState.mk (heap_set_son s1.heap a (NODE, SON) r) s1.stack)
  | .descend_attr NODE ATTR, s =>
    match heap_get_attrib s.heap a (NODE, ATTR) with
    | none => none
    | some (.data _) => none
    | some (.ptr none) => some s
    | some (.ptr (some b)) =>
      match call b s with
      | none => none
      | some (r, s1) =>
        some (SbtState.mk (heap_set_attrib s1.heap a (NODE, ATTR) (.ptr r)) s1.stack)
  | .return_arg_node, s => some s

/-- The statement is `DBUG_RETURN (arg_node)`. -/
def SbtStmt.is_return : SbtStmt → Bool
  | .return_arg_node => true
  | _ => false

/-- The body of an `SBT<node>` up to its `DBUG_RETURN (arg_node)`. -/
def SBT_run (call : Nat → SbtState → Option (Option Nat × SbtState)) (a : Nat)
    (body : List SbtStmt) (s : SbtState) : Option (Option Nat × SbtState) :=
  match run_until SbtStmt.is_return (SBT_step call a) body s with
  | none => none
  | some s1 => some (some a, s1)

/-- Modelled from the spec: `TRAVdo` under the stack-building traversal, the call of
the `SBT<node>` of the type tag of the node. -/
def SBT_call (funs : List (String × List SbtStmt)) :
    Nat → Nat → SbtState → Option (Option Nat × SbtState)
  | 0, _, _ => none
  | fuel + 1, a, s =>
    match s.heap[a]? with
    | none => none
    | some nd =>
      match funs.lookup ("SBT" ++ nd.nodetype) with
      | none => none
      | some body => SBT_run (SBT_call funs fuel) a body s

/-- An argument expression of the stream: `NULL`, the text a `SATserialize<T>` wrote
for a value, a flag, or a nested call
`SHLPmakeNode (<type>, FILENAME (<file>), <line>, <col>, <args>)`. -/
inductive SerArg where
  | null
  | value (v : attr_value)
  | flag (n : Int)
  | make (nodetype : String) (file line col : Nat) (args : List SerArg)

/-- What one `SET<node>` has written: the header, the arguments written so far, and
whether the closing parenthesis has been written. -/
structure SetOut where
  header : Option (String × Nat × Nat × Nat)
  args : List SerArg
  closed : Bool

/-- Modelled from the spec: the attribute serializers `SATserialize<T>`, written by
hand outside the generator ("Literal inlined; Function/Node-disposed delegated to a
per-type serializer").  A `Link`/`CodeLink` is written as `NULL` (it is restored by a
fix instruction) and a null pointer as `NULL`.  The serializer of the type `Node`,
whose value is an owned node with a stack position of its own, writes the nested
emission of that node, as a `SET<node>` does for a son (`call` is `TRAVdo`).  Any
other value is inlined. -/
def SATserialize (call : Nat → Option SerArg) (T : String) (v : attr_value) :
    Option SerArg :=
  if T = "Link" ∨ T = "CodeLink" then some .null
  else
    match v with
    | .ptr none => some .null
    | .ptr (some b) => if T = "Node" then call b else some (.value v)
    | .data _ => some (.value v)

/-- One statement of a `SET<node>` on the node `a`; `call` is `TRAVdo`, which
yields what the `SET` function of the son writes. -/
def SET_step (call : Nat → Option SerArg) (heap : List node_inst) (a : Nat) :
    SetStmt → SetOut → Option SetOut
  | .dbug_enter, o => some o
  | .write_header node_name_lower, o =>
    match heap[a]? with
    | none => none
    | some nd => some (SetOut.mk (some (node_name_lower, nd.file, nd.line, nd.col)) o.args o.closed)
  | .write_comma, o => some o
  | .sat_serialize T NODE ATTR, o =>
    match heap_get_attrib heap a (NODE, ATTR) with
    | none => none
    | some v =>
      match SATserialize call T v with
      | none => none
      | some x => some (SetOut.mk o.header (o.args ++ [x]) o.closed)
  | .write_null _ _, o => some (SetOut.mk o.header (o.args ++ [SerArg.null]) o.closed)
  | .son_or_null NODE SON, o =>
    match heap_get_son heap a (NODE, SON) with
    | none => none
    | some none => some (SetOut.mk o.header (o.args ++ [SerArg.null]) o.closed)
    | some (some b) =>
      match call b with
      | none => none
      | some x => some (SetOut.mk o.header (o.args ++ [x]) o.closed)
  | .write_flag NODE FLAG, o =>
    match heap[a]? with
    | none => none
    | some nd =>
      match field_get nd.flags (NODE, FLAG) with
      | none => none
      | some n => some (SetOut.mk o.header (o.args ++ [SerArg.flag n]) o.closed)
  | .write_close, o => some (SetOut.mk o.header o.args true)
  | .return_arg_node, o => some o

/-- The statement is `DBUG_RETURN (arg_node)`. -/
def SetStmt.is_return : SetStmt → Bool
  | .return_arg_node => true
  | _ => false

/-- The body of a `SET<node>` up to its `DBUG_RETURN (arg_node)`. -/
def SET_run (call : Nat → Option SerArg) (heap : List node_inst) (a : Nat)
    (body : List SetStmt) (o : SetOut) : Option SetOut :=
  run_until SetStmt.is_return (SET_step call heap a) body o

/-- The call expression a finished `SET<node>` has written. -/
def SetOut.expr : SetOut → Option SerArg
  | SetOut.mk (some (t, file, line, col)) args true => some (SerArg.make t file line col args)
  | _ => none

/-- Modelled from the spec: `TRAVdo` under the serialize traversal. -/
def SET_call (funs : List (String × List SetStmt)) (heap : List node_inst) :
    Nat → Nat → Option SerArg
  | 0, _ => none
  | fuel + 1, a =>
    match heap[a]? with
    | none => none
    | some nd =>
      match funs.lookup ("SET" ++ nd.nodetype) with
      | none => none
      | some body =>
        match SET_run (SET_call funs heap fuel) heap a body (SetOut.mk none [] false) with
        | none => none
        | some o => o.expr

/-- A fix instruction `SHLPfixLink (stack, <from>, <no>, <to>)` of the stream; a
position that is `SERSTACK_NOT_FOUND` is `none`. -/
structure fix_record where
  from_pos : Option Nat
  no : Nat
  to_pos : Option Nat
  deriving DecidableEq

/-- Modelled from the spec: `SSfindPos (node, stack)`, the stack position of a node,
`SERSTACK_NOT_FOUND` (here `none`) when the node is not on the stack. -/
def SSfindPos (p : Nat) : List Nat → Option Nat
  | [] => none
  | x :: xs =>
    if x = p then some 0
    else
      match SSfindPos p xs with
      | none => none
      | some i => some (i + 1)

/-- One statement of a `SEL<node>` on the node `a`; `call` is `TRAVdo`, `out` the
fix instructions written so far. -/
def SEL_step (call : Nat → List fix_record → Option (List fix_record))
    (heap : List node_inst) (stack : List Nat) (a : Nat) :
    SelStmt → List fix_record → Option (List fix_record)
  | .dbug_enter, out => some out
  | .fix_link NODE ATTR _ pos, out =>
    match heap_get_attrib heap a (NODE, ATTR) with
    | none => none
    | some (.data _) => none
    | some (.ptr none) => some out
    | some (.ptr (some b)) =>
      match SSfindPos b stack with
      | none => some out
      | some q => some (out ++ [fix_record.mk (SSfindPos a stack) pos (some q)])
  | .descend_son NODE SON, out =>
    match heap_get_son heap a (NODE, SON) with
    | none => none
    | some none => some out
    | some (some b) => call b out
  | .descend_attr NODE ATTR, out =>
    match heap_get_attrib heap a (NODE, ATTR) with
    | none => none
    | some (.data _) => none
    | some (.ptr none) => some out
    | some (.ptr (some b)) => call b out
  | .return_arg_node, out => some out

/-- The statement is `DBUG_RETURN (arg_node)`. -/
def SelStmt.is_return : SelStmt → Bool
  | .return_arg_node => true
  | _ => false

/-- The body of a `SEL<node>` up to its `DBUG_RETURN (arg_node)`. -/
def SEL_run (call : Nat → List fix_record → Option (List fix_record))
    (heap : List node_inst) (stack : List Nat) (a : Nat)
    (body : List SelStmt) (out : List fix_record) : Option (List fix_record) :=
  run_until SelStmt.is_return (SEL_step call heap stack a) body out

/-- Modelled from the spec: `TRAVdo` under the link traversal. -/
def SEL_call (funs : List (String × List SelStmt)) (heap : List node_inst)
    (stack : List Nat) : Nat → Nat → List fix_record → Option (List fix_record)
  | 0, _, _ => none
  | fuel + 1, a, out =>
    match heap[a]? with
    | none => none
    | some nd =>
      match funs.lookup ("SEL" ++ nd.nodetype) with
      | none => none
      | some body => SEL_run (SEL_call funs heap stack fuel) heap stack a body out

/-- The assignment to a field of the node under construction: the field takes the
value, and is added if the node does not have it yet. -/
def field_assign {α : Type} (fields : List ((String × String) × α)) (key : String × String)
    (v : α) : List ((String × String) × α) :=
  if fields.any (fun kv => kv.1 == key) then field_set fields key v
  else fields ++ [(key, v)]

/-- The state of a case of `SHLPmakeNodeVa`: `xthis`, the arguments `args` not yet
read, and the heap. -/
structure MakeState where
  xthis : Option Nat
  args : List attr_value
  heap : List node_inst

/-- One statement of a case of `SHLPmakeNodeVa (node_type, sfile, lineno, col, args)`.
`eval_init` gives the value of the default initializer of an attribute type; a
`va_arg` that finds no argument, or one of the wrong kind, stops the run. -/
def MAKE_step (eval_init : String → attr_value) (node_type : String) (sfile lineno col : Nat) :
    MakeStmt → MakeState → Option MakeState
  | .alloc _, s =>
    some (MakeState.mk (some s.heap.length) s.args
      (s.heap ++ [node_inst.mk node_type sfile lineno col none [] [] []]))
  | .set_sons _ _, s => some s
  | .set_attribs _ _, s => some s
  | .attr_init NODE ATTR init, s =>
    match s.xthis with
    | none => none
    | some p =>
      match s.heap[p]? with
      | none => none
      | some nd =>
        some (MakeState.mk s.xthis s.args
          (s.heap.set p (node_inst.mk nd.nodetype nd.file nd.line nd.col nd.error nd.sons
            (field_assign nd.attribs (NODE, ATTR) (eval_init init)) nd.flags)))
  | .attr_va_arg NODE ATTR _, s =>
    match s.xthis, s.args with
    | some p, v :: rest =>
      match s.heap[p]? with
      | none => none
      | some nd =>
        some (MakeState.mk s.xthis rest
          (s.heap.set p (node_inst.mk nd.nodetype nd.file nd.line nd.col nd.error nd.sons
            (field_assign nd.attribs (NODE, ATTR) v) nd.flags)))
    | _, _ => none
  | .son_va_arg NODE SON, s =>
    match s.xthis, s.args with
    | some p, .ptr v :: rest =>
      match s.heap[p]? with
      | none => none
      | some nd =>
        some (MakeState.mk s.xthis rest
          (s.heap.set p (node_inst.mk nd.nodetype nd.file nd.line nd.col nd.error
            (field_assign nd.sons (NODE, SON) v) nd.attribs nd.flags)))
    | _, _ => none
  | .flag_va_arg NODE FLAG, s =>
    match s.xthis, s.args with
    | some p, .data n :: rest =>
      match s.heap[p]? with
      | none => none
      | some nd =>
        some (MakeState.mk s.xthis rest
          (s.heap.set p (node_inst.mk nd.nodetype nd.file nd.line nd.col nd.error
            nd.sons nd.attribs (field_assign nd.flags (NODE, FLAG) n))))
    | _, _ => none
  | .break_, s => some s

/-- The statement is the `break` of the case. -/
def MakeStmt.is_break : MakeStmt → Bool
  | .break_ => true
  | _ => false

/-- The body of a case up to its `break`. -/
def MAKE_run (eval_init : String → attr_value) (node_type : String) (sfile lineno col : Nat)
    (body : List MakeStmt) (s : MakeState) : Option MakeState :=
  run_until MakeStmt.is_break (MAKE_step eval_init node_type sfile lineno col) body s

/-- The generated `SHLPmakeNodeVa`: the case of the type tag builds the node and
`xthis` is returned; a type tag without a case reaches
`DBUG_UNREACHABLE ("Invalid node type found")` (here `none`). -/
def SHLPmakeNodeVa (cases : List (String × List MakeStmt)) (eval_init : String → attr_value)
    (node_type : String) (sfile lineno col : Nat) (args : List attr_value)
    (heap : List node_inst) : Option (Nat × List node_inst) :=
  match cases.lookup ("N_" ++ node_type) with
  | none => none
  | some body =>
    match MAKE_run eval_init node_type sfile lineno col body (MakeState.mk none args heap) with
    | none => none
    | some s =>
      match s.xthis with
      | none => none
      | some p => some (p, s.heap)

/-- The generated `SHLPmakeNode (node_type, sfile, lineno, col, ...)` (lines 1357-1369):
`va_start`, the call of `SHLPmakeNodeVa`, `va_end`, `return (result)`. -/
def SHLPmakeNode (cases : List (String × List MakeStmt)) (eval_init : String → attr_value)
    (node_type : String) (sfile lineno col : Nat) (args : List attr_value)
    (heap : List node_inst) : Option (Nat × List node_inst) :=
  SHLPmakeNodeVa cases eval_init node_type sfile lineno col args heap

mutual
/-- The evaluation of an argument expression of the stream: its value and the heap
after the nodes it builds.  The arguments of a call are evaluated before the call is
made, so the node of a nested call is built before the node of the call around it. -/
def SerArg.eval (cases : List (String × List MakeStmt)) (eval_init : String → attr_value) :
    SerArg → List node_inst → Option (attr_value × List node_inst)
  | .null, heap => some (.ptr none, heap)
  | .value v, heap => some (v, heap)
  | .flag n, heap => some (.data n, heap)
  | .make t file line col args, heap =>
    match SerArg.eval_list cases eval_init args heap with
    | none => none
    | some (vals, heap1) =>
      match SHLPmakeNode cases eval_init t file line col vals heap1 with
      | none => none
      | some (p, heap2) => some (.ptr (some p), heap2)
/-- The evaluation of the arguments of a call, from left to right. -/
def SerArg.eval_list (cases : List (String × List MakeStmt))
    (eval_init : String → attr_value) :
    List SerArg → List node_inst → Option (List attr_value × List node_inst)
  | [], heap => some ([], heap)
  | x :: xs, heap =>
    match SerArg.eval cases eval_init x heap with
    | none => none
    | some (v, heap1) =>
      match SerArg.eval_list cases eval_init xs heap1 with
      | none => none
      | some (vs, heap2) => some (v :: vs, heap2)
end

/-- The inner `switch (no)` of a case of `SHLPfixLink`, from the first case label on:
the case with the label `no` assigns `top` to its attribute of `fromp`. -/
def FIX_switch (no fromp : Nat) (top : Option Nat) (heap : List node_inst) :
    List FixStmt → Option (List node_inst)
  | .case_assign pos NODE ATTR :: rest =>
    if pos = no then some (heap_set_attrib heap fromp (NODE, ATTR) (.ptr top))
    else FIX_switch no fromp top heap rest
  | .default_close :: _ => some heap
  | _ => none

/-- The body of a case of the type switch of `SHLPfixLink`. -/
def FIX_run (no fromp : Nat) (top : Option Nat) (heap : List node_inst) :
    List FixStmt → Option (List node_inst)
  | .break_ :: _ => some heap
  | .switch_no :: rest => FIX_switch no fromp top heap rest
  | _ => none

/-- The generated `SHLPfixLink (stack, from, no, to)`; `SSlookup (pos, stack)` is the
node at a position of the runtime array.  Nothing happens when `from` is
`SERSTACK_NOT_FOUND`; a type tag without a case reaches
`DBUG_UNREACHABLE ("Invalid node type found")` (here `none`). -/
def SHLPfixLink (fixcases : List (String × List FixStmt)) (stack : List Nat)
    (heap : List node_inst) (f : fix_record) : Option (List node_inst) :=
  match f.from_pos with
  | none => some heap
  | some from_pos =>
    match stack[from_pos]? with
    | none => none
    | some fromp =>
      match (match f.to_pos with
             | none => some none
             | some to_pos =>
               match stack[to_pos]? with
               | none => none
               | some t => some (some t)) with
      | none => none
      | some top =>
        match heap[fromp]? with
        | none => none
        | some nd =>
          match fixcases.lookup ("N_" ++ nd.nodetype) with
          | none => none
          | some body => FIX_run f.no fromp top heap body

/-- The replay of the fix instructions of a stream, in order. -/
def replay_fixes (fixcases : List (String × List FixStmt)) (stack : List Nat) :
    List fix_record → List node_inst → Option (List node_inst)
  | [], heap => some heap
  | f :: rest, heap =>
    match SHLPfixLink fixcases stack heap f with
    | none => none
    | some heap1 => replay_fixes fixcases stack rest heap1

/-- The generated code of a schema: the tables of the functions `SBT<node>`,
`SET<node>`, `SEL<node>` and of the cases of `SHLPmakeNodeVa` and `SHLPfixLink`. -/
structure generated where
  sbt : List (String × List SbtStmt)
  set : List (String × List SetStmt)
  sel : List (String × List SelStmt)
  make : List (String × List MakeStmt)
  fix : List (String × List FixStmt)
  deriving DecidableEq

/-- The serialization generators run on a schema. -/
def gen_serialize (attrtype_names : List attrtype_name) (nodes : List (String × yajl_val)) :
    Option generated :=
  match gen_serialize_buildstack_c nodes, gen_serialize_node_c attrtype_names nodes,
    gen_serialize_link_c nodes, gen_serialize_helper_c_make attrtype_names nodes,
    gen_serialize_helper_c_fix nodes with
  | some sbt, some set, some sel, some make, some fix => some (generated.mk sbt set sel make fix)
  | _, _, _, _, _ => none

/-- A serialized graph: the constructor expression, the fix instructions, and the
position list of phase 1. -/
structure stream where
  expr : SerArg
  fixes : List fix_record
  stack : List Nat

/-- Modelled from the spec: the three phases of the serialization of the graph under
`root`, driven from outside the generator: position assignment by the `SBT`
functions, emission by the `SET` functions, link emission by the `SEL` functions. -/
def serialize (g : generated) (fuel : Nat) (heap : List node_inst) (root : Nat) :
    Option stream :=
  match SBT_call g.sbt fuel root (SbtState.mk heap []) with
  | none => none
  | some (_, s) =>
    match SET_call g.set s.heap fuel root with
    | none => none
    | some expr =>
      match SEL_call g.sel s.heap s.stack fuel root [] with
      | none => none
      | some fixes => some (stream.mk expr fixes s.stack)

/-! ## Node graphs and their isomorphisms -/

/-- The nodes under the sons of a node, in declaration order of the sons; `w` is
the walk of a son. -/
def walk_list (w : Nat → Option (List Nat)) : List (Option Nat) → Option (List Nat)
  | [] => some []
  | none :: rest => walk_list w rest
  | some b :: rest =>
    match w b with
    | none => none
    | some l =>
      match walk_list w rest with
      | none => none
      | some ls => some (l ++ ls)

/-- The nodes of the graph under `a` along the son edges, the node before its sons
(the order of phase 1); the fuel bounds the depth. -/
def walk (heap : List node_inst) : Nat → Nat → Option (List Nat)
  | 0, _ => none
  | fuel + 1, a =>
    match heap[a]? with
    | none => none
    | some nd =>
      match walk_list (walk heap fuel) (nd.sons.map Prod.snd) with
      | none => none
      | some l => some (a :: l)

/-- The schema entry of a type tag: the first node whose name in lower case is the
tag. -/
def schema_node (nodes : List (String × yajl_val)) (nodetype : String) :
    Option (String × yajl_val) :=
  nodes.find? (fun e => string_tolower e.1 == nodetype)

/-- The accessor keys `(<NODE>, <FIELD>)` of the declared fields of a node type. -/
def declared_keys (node_name : String) (entries : List (String × yajl_val)) :
    List (String × String) :=
  entries.map (fun e => (string_toupper node_name, string_toupper e.1))

/-- The node instance has the type tag of the schema entry and exactly the fields the
entry declares, in declaration order. -/
def conforms (e : String × yajl_val) (nd : node_inst) : Prop :=
  nd.nodetype = string_tolower e.1
    ∧ nd.sons.map Prod.fst = declared_keys e.1 (node_sons e.2)
    ∧ nd.attribs.map Prod.fst = declared_keys e.1 (node_attribs e.2)
    ∧ nd.flags.map Prod.fst = declared_keys e.1 (node_flags e.2)

instance (e : String × yajl_val) (nd : node_inst) : Decidable (conforms e nd) := by
  unfold conforms; infer_instance

/-- The attribute entry has the type `Node`. -/
def is_node_attrib (e : String × yajl_val) : Bool :=
  decide (attrib_type_name e.2 = some "Node")

/-- The targets of the attributes of type `Node` of a node, in declaration order. -/
def node_attr_targets : List (String × yajl_val) → List ((String × String) × attr_value) →
    List (Option Nat)
  | e :: es, f :: fs =>
    if is_node_attrib e = true then
      (match f.2 with
       | .ptr p => p
       | .data _ => none) :: node_attr_targets es fs
    else node_attr_targets es fs
  | _, _ => []

/-- The sons of a node the serialization descends into, in declaration order: a son
the serialization never looks at (`suppressed_sons`) counts as null. -/
def owned_sons (node_name : String) :
    List (String × yajl_val) → List ((String × String) × Option Nat) → List (Option Nat)
  | e :: es, f :: fs =>
    (if (node_name, e.1) ∈ suppressed_sons then none else f.2) :: owned_sons node_name es fs
  | _, _ => []

/-- The nodes of the graph under `a` along the owned edges, in the order of phase 1:
the node, then the nodes under its sons in declaration order (`owned_sons`), then the
nodes under its attributes of type `Node` in declaration order; the fuel bounds the
depth. -/
def walk_owned (nodes : List (String × yajl_val)) (heap : List node_inst) :
    Nat → Nat → Option (List Nat)
  | 0, _ => none
  | fuel + 1, a =>
    match heap[a]? with
    | none => none
    | some nd =>
      match schema_node nodes nd.nodetype with
      | none => none
      | some e =>
        match walk_list (walk_owned nodes heap fuel)
            (owned_sons e.1 (node_sons e.2) nd.sons
              ++ node_attr_targets (node_attribs e.2) nd.attribs) with
        | none => none
        | some l => some (a :: l)

/-- The value of an attribute that is an edge is a pointer: the value of a
`Link`/`CodeLink` attribute and the value of a `Node` attribute. -/
def attrib_ptr_ok (e : String × yajl_val) (v : attr_value) : Prop :=
  (is_link_attrib e = true → ∃ p, v = .ptr p) ∧ (is_node_attrib e = true → ∃ p, v = .ptr p)

instance (e : String × yajl_val) (v : attr_value) : Decidable (attrib_ptr_ok e v) := by
  unfold attrib_ptr_ok
  cases v with
  | data d =>
    exact decidable_of_iff (is_link_attrib e = false ∧ is_node_attrib e = false) (by
      constructor
      · rintro ⟨h1, h2⟩
        exact ⟨fun h => by simp [h1] at h, fun h => by simp [h2] at h⟩
      · rintro ⟨h1, h2⟩
        constructor
        · cases h : is_link_attrib e
          · rfl
          · obtain ⟨p, hp⟩ := h1 h
            cases hp
        · cases h : is_node_attrib e
          · rfl
          · obtain ⟨p, hp⟩ := h2 h
            cases hp)
  | ptr p => exact isTrue ⟨fun _ => ⟨p, rfl⟩, fun _ => ⟨p, rfl⟩⟩

/-- The node instance is a node of the schema entry: it conforms to the entry and the
values of its attributes that are edges are pointers. -/
def node_wf_entry (e : String × yajl_val) (nd : node_inst) : Prop :=
  conforms e nd ∧ (∀ x ∈ List.zip (node_attribs e.2) nd.attribs, attrib_ptr_ok x.1 x.2.2)

instance (e : String × yajl_val) (nd : node_inst) : Decidable (node_wf_entry e nd) := by
  unfold node_wf_entry; infer_instance

/-- The node at `a` is a node of the schema. -/
def node_wf (nodes : List (String × yajl_val)) (heap : List node_inst) (a : Nat) : Prop :=
  ∃ nd, heap[a]? = some nd
    ∧ ∃ e, schema_node nodes nd.nodetype = some e ∧ node_wf_entry e nd

instance (nodes : List (String × yajl_val)) (heap : List node_inst) (a : Nat) :
    Decidable (node_wf nodes heap a) :=
  match h : heap[a]? with
  | none => isFalse (by
      rintro ⟨nd, h1, _⟩
      rw [h] at h1
      cases h1)
  | some nd =>
    match h2 : schema_node nodes nd.nodetype with
    | none => isFalse (by
        rintro ⟨nd1, h1, e, h3, _⟩
        rw [h] at h1
        cases h1
        rw [h2] at h3
        cases h3)
    | some e =>
      decidable_of_iff (node_wf_entry e nd) (by
        constructor
        · exact fun h3 => ⟨nd, h, e, h2, h3⟩
        · rintro ⟨nd1, h1, e1, h3, h4⟩
          rw [h] at h1
          cases h1
          rw [h2] at h3
          cases h3
          exact h4)

/-- The value of an attribute fits its type: a `Link`/`CodeLink` is a pointer that is
null or points into the graph `st`, and the value of a `Node` attribute is a
pointer. -/
def attrib_value_ok (st : List Nat) (e : String × yajl_val) (v : attr_value) : Prop :=
  (is_link_attrib e = true → ∃ p, v = .ptr p ∧ ∀ b, p = some b → b ∈ st)
    ∧ (is_node_attrib e = true → ∃ p, v = .ptr p)

instance (st : List Nat) (e : String × yajl_val) (v : attr_value) :
    Decidable (attrib_value_ok st e v) := by
  unfold attrib_value_ok
  cases v with
  | data d =>
    exact decidable_of_iff (is_link_attrib e = false ∧ is_node_attrib e = false) (by
      constructor
      · rintro ⟨h1, h2⟩
        exact ⟨fun h => by simp [h1] at h, fun h => by simp [h2] at h⟩
      · rintro ⟨h1, h2⟩
        constructor
        · cases h : is_link_attrib e
          · rfl
          · obtain ⟨p, hp, _⟩ := h1 h
            cases hp
        · cases h : is_node_attrib e
          · rfl
          · obtain ⟨p, hp⟩ := h2 h
            cases hp)
  | ptr p =>
    exact decidable_of_iff (is_link_attrib e = true → ∀ b, p = some b → b ∈ st) (by
      constructor
      · intro h1
        exact ⟨fun h => ⟨p, rfl, h1 h⟩, fun _ => ⟨p, rfl⟩⟩
      · rintro ⟨h1, _⟩ h
        obtain ⟨q, hq, hb⟩ := h1 h
        cases hq
        exact hb)

/-- The conditions of the amended round trip on a node instance with the schema
entry of its type tag: the node conforms to the entry, the sons the serialization
never descends into (`suppressed_sons`) are null, and the values of its attributes fit
their types (`attrib_value_ok`). -/
def node_ok_entry (st : List Nat) (e : String × yajl_val) (nd : node_inst) : Prop :=
  conforms e nd
    ∧ (∀ x ∈ List.zip (node_sons e.2) nd.sons,
        (e.1, x.1.1) ∈ suppressed_sons → x.2.2 = none)
    ∧ (∀ x ∈ List.zip (node_attribs e.2) nd.attribs, attrib_value_ok st x.1 x.2.2)

instance (st : List Nat) (e : String × yajl_val) (nd : node_inst) :
    Decidable (node_ok_entry st e nd) := by
  unfold node_ok_entry; infer_instance

/-- The conditions of the amended round trip on the node at `a`. -/
def node_ok (nodes : List (String × yajl_val)) (heap : List node_inst) (st : List Nat)
    (a : Nat) : Prop :=
  ∃ nd, heap[a]? = some nd
    ∧ ∃ e, schema_node nodes nd.nodetype = some e ∧ node_ok_entry st e nd

instance (nodes : List (String × yajl_val)) (heap : List node_inst) (st : List Nat)
    (a : Nat) : Decidable (node_ok nodes heap st a) :=
  match h : heap[a]? with
  | none => isFalse (by
      rintro ⟨nd, h1, _⟩
      rw [h] at h1
      cases h1)
  | some nd =>
    match h2 : schema_node nodes nd.nodetype with
    | none => isFalse (by
        rintro ⟨nd1, h1, e, h3, _⟩
        rw [h] at h1
        cases h1
        rw [h2] at h3
        cases h3)
    | some e =>
      decidable_of_iff (node_ok_entry st e nd) (by
        constructor
        · exact fun h3 => ⟨nd, h, e, h2, h3⟩
        · rintro ⟨nd1, h1, e1, h3, h4⟩
          rw [h] at h1
          cases h1
          rw [h2] at h3
          cases h3
          exact h4)

/-- The conditions of the amended round trip on the schema: the attributes of every
node have registered types, the accessor keys of the sons, of the attributes and of the
flags of a node are distinct, and the attribute types `Link`, `CodeLink` and `Node`,
the types of the edges of the graph, are persisted. -/
def schema_ok (attrtype_names : List attrtype_name) (nodes : List (String × yajl_val)) : Prop :=
  schema_registered attrtype_names nodes
    ∧ (∀ n ∈ nodes, (declared_keys n.1 (node_sons n.2)).Nodup
        ∧ (declared_keys n.1 (node_attribs n.2)).Nodup
        ∧ (declared_keys n.1 (node_flags n.2)).Nodup)
    ∧ (∀ atn ∈ attrtype_names,
        atn.name = "Link" ∨ atn.name = "CodeLink" ∨ atn.name = "Node" → atn.persist = true)

instance (attrtype_names : List attrtype_name) (nodes : List (String × yajl_val)) :
    Decidable (schema_ok attrtype_names nodes) := by
  unfold schema_ok; infer_instance

/-- The image of an edge target under the correspondence of the positions: null goes
to null, the node at position `i` of `st` to the node at position `i` of `arr`; a node
outside `st` has no image. -/
def edge_image (st arr : List Nat) : Option Nat → Option (Option Nat)
  | none => some none
  | some b =>
    match SSfindPos b st with
    | none => none
    | some i =>
      match arr[i]? with
      | none => none
      | some c => some (some c)

/-- An attribute of a rebuilt node matches the attribute of the original: a
`Link` or `CodeLink` attribute, and a `Node` attribute of a persisted type, points to
the image of the original target; an attribute of another persisted type has the
original value; nothing is asked of any other attribute whose type is not persisted. -/
def attrib_matches (attrtype_names : List attrtype_name) (st arr : List Nat)
    (e : String × yajl_val) (v v1 : attr_value) : Prop :=
  if is_link_attrib e = true
      ∨ (is_node_attrib e = true ∧ attrib_persisted attrtype_names e = true) then
    ∃ p p1, v = .ptr p ∧ v1 = .ptr p1 ∧ edge_image st arr p = some p1
  else if attrib_persisted attrtype_names e = true then v1 = v
  else True

/-- A rebuilt node matches the original one: same type tag and location, the same
fields, every son pointing to the image of the original son, the attributes matching
and the flags equal. -/
def node_matches (attrtype_names : List attrtype_name) (st arr : List Nat)
    (e : String × yajl_val) (nd nd1 : node_inst) : Prop :=
  nd1.nodetype = nd.nodetype ∧ nd1.file = nd.file ∧ nd1.line = nd.line ∧ nd1.col = nd.col
    ∧ List.Forall₂ (fun x x1 => x1.1 = x.1 ∧ edge_image st arr x.2 = some x1.2)
        nd.sons nd1.sons
    ∧ nd1.attribs.map Prod.fst = nd.attribs.map Prod.fst
    ∧ (∀ x ∈ List.zip (node_attribs e.2) (List.zip nd.attribs nd1.attribs),
        attrib_matches attrtype_names st arr x.1 x.2.1.2 x.2.2.2)
    ∧ nd1.flags = nd.flags

/-- The graph `st` of the heap `heap` and the graph `arr` of the heap `heap1` are
isomorphic under node type, persisted attribute values and edge targets, by the
correspondence of the positions: `st` and `arr` list distinct nodes, `arr` lists every
node of `heap1`, and the node at each position of `arr` matches the node at that
position of `st`. -/
def graph_iso (attrtype_names : List attrtype_name) (nodes : List (String × yajl_val))
    (heap : List node_inst) (st : List Nat) (heap1 : List node_inst) (arr : List Nat) : Prop :=
  st.length = arr.length ∧ st.Nodup ∧ arr.Nodup ∧ heap1.length = arr.length
    ∧ ∀ (i a a1 : Nat), st[i]? = some a → arr[i]? = some a1 →
        ∃ nd nd1 e, heap[a]? = some nd ∧ heap1[a1]? = some nd1
          ∧ schema_node nodes nd.nodetype = some e
          ∧ node_matches attrtype_names st arr e nd nd1

/-! ## Example graphs -/

/-- The serialization code generated for the example schema. -/
def ex_generated : generated :=
  match gen_serialize ex_attrtype_names ex_nodes with
  | some g => g
  | none => generated.mk [] [] [] [] []

/-- The default initializers of the example attribute types are all `NULL`. -/
def ex_eval_init (_init : String) : attr_value := .ptr none

/-- An `Arg` node instance. -/
def ex_arg_inst (avis next : Option Nat) (name count : Int) (decl : Option Nat)
    (used : Int) : node_inst :=
  node_inst.mk "arg" 1 2 3 none [(("ARG", "AVIS"), avis), (("ARG", "NEXT"), next)]
    [(("ARG", "NAME"), .data name), (("ARG", "COUNT"), .data count),
     (("ARG", "DECL"), .ptr decl)]
    [(("ARG", "ISUSED"), used)]

/-- An `Id` node instance. -/
def ex_id_inst (avis : Option Nat) (name : Int) (decl : Option Nat) : node_inst :=
  node_inst.mk "id" 4 5 6 none []
    [(("ID", "AVIS"), .ptr avis), (("ID", "NAME"), .data name), (("ID", "DECL"), .ptr decl)]
    []

/-- A `Fundef` node instance. -/
def ex_fundef_inst (body next : Option Nat) : node_inst :=
  node_inst.mk "fundef" 1 2 3 none [(("FUNDEF", "BODY"), body), (("FUNDEF", "NEXT"), next)]
    [(("FUNDEF", "NAME"), .data 7), (("FUNDEF", "IMPL"), .ptr none),
     (("FUNDEF", "DFM"), .ptr none), (("FUNDEF", "LINE"), .data 3)]
    [(("FUNDEF", "ISINLINE"), 1)]

/-- A graph of four nodes: two chained `Arg` nodes, each owning an `Id`; the links
`Decl` of both `Arg` nodes and of the first `Id` share the last `Id` as target, and
the link `Avis` of the first `Id` points back to the root. -/
def ex_graph : List node_inst :=
  [ex_arg_inst (some 1) (some 2) 10 11 (some 3) 1, ex_id_inst (some 0) 20 (some 3),
   ex_arg_inst (some 3) none 30 31 (some 3) 0, ex_id_inst none 40 none]

/-- A graph of two nodes: a `Fundef` and the node that is its body. -/
def ex_fundef_graph : List node_inst :=
  [ex_fundef_inst (some 1) none, ex_id_inst none 40 none]

/-- The schema entry `e` and the field `f` of a node are aligned: the field has the
accessor key of the entry, and reading that key in the fields of the node yields the
value of the field. -/
def aligned {α : Type} (node_name : String) (fields : List ((String × String) × α))
    (e : String × yajl_val) (f : (String × String) × α) : Prop :=
  f.1 = (string_toupper node_name, string_toupper e.1) ∧ field_get fields f.1 = some f.2


/-- The fix instructions of one node by the words of the spec: for every
`Link`/`CodeLink` attribute, numbered in declaration order from `pos`, whose target has
a stack position, the instruction `(from_position, attribute_slot_number,
to_position)`. -/
def node_fixes (st : List Nat) (a : Nat) :
    Nat → List (String × yajl_val) → List ((String × String) × attr_value) → List fix_record
  | _, [], _ => []
  | _, _ :: _, [] => []
  | pos, e :: es, f :: fs =>
    if is_link_attrib e = true then
      (match f.2 with
       | .ptr (some b) =>
         match SSfindPos b st with
         | some q => [fix_record.mk (SSfindPos a st) pos (some q)]
         | none => []
       | _ => []) ++ node_fixes st a (pos + 1) es fs
    else node_fixes st a pos es fs

/-- The fix instructions of the nodes `l`, node by node. -/
def graph_fixes (nodes : List (String × yajl_val)) (heap : List node_inst) (st : List Nat)
    (l : List Nat) : List fix_record :=
  l.flatMap (fun c =>
    match heap[c]? with
    | none => []
    | some nd =>
      match schema_node nodes nd.nodetype with
      | none => []
      | some e => node_fixes st c 1 (node_attribs e.2) nd.attribs)

/-! ## The nodes the reconstruction builds -/

/-- The value of an attribute as it travels in the stream: a `Link`/`CodeLink` is
sent as null, any other value as it is. -/
def sent_value (e : String × yajl_val) (v : attr_value) : attr_value :=
  if is_link_attrib e = true then .ptr none else v

/-- The default initializer of the type of an attribute entry. -/
def attrib_init (attrtype_names : List attrtype_name) (e : String × yajl_val) : String :=
  match attrib_atn attrtype_names e.2 with
  | none => ""
  | some atn => atn.init

/-- The attribute of a rebuilt node before the fix instructions: the value sent if
the type is persisted, the default of the type otherwise. -/
def rebuilt_attrib (attrtype_names : List attrtype_name) (eval_init : String → attr_value)
    (e : String × yajl_val) (f : (String × String) × attr_value) :
    (String × String) × attr_value :=
  (f.1, if attrib_persisted attrtype_names e = true then sent_value e f.2
        else eval_init (attrib_init attrtype_names e))

/-- The values of the persisted attributes of a node, in declaration order, as they
travel in the stream. -/
def sent_attribs (attrtype_names : List attrtype_name)
    (es : List (String × yajl_val)) (fs : List ((String × String) × attr_value)) :
    List attr_value :=
  (List.zip es fs).filterMap (fun x =>
    if attrib_persisted attrtype_names x.1 = true then some (sent_value x.1 x.2.2) else none)

/-- A son of a rebuilt node corresponds to the son of the original: both null, or
a pair of the correspondence `Z`. -/
def son_copied (Z : List (Nat × Nat)) (v v1 : Option Nat) : Prop :=
  (v = none ∧ v1 = none) ∨ ∃ b b1, v = some b ∧ v1 = some b1 ∧ (b, b1) ∈ Z

/-- The value `v1` travels in the stream for the value `v` of an attribute: for an
attribute of type `Node` both are pointers and the targets correspond by `Z`; any other
value travels as it is. -/
def attr_copied (Z : List (Nat × Nat)) (e : String × yajl_val) (v v1 : attr_value) : Prop :=
  if is_node_attrib e = true then ∃ p p1, v = .ptr p ∧ v1 = .ptr p1 ∧ son_copied Z p p1
  else v1 = v

/-- The fields `fs1` are the attributes `fs` of a node with the targets of the `Node`
attributes replaced by their copies. -/
def attrs_copied (Z : List (Nat × Nat)) (es : List (String × yajl_val))
    (fs fs1 : List ((String × String) × attr_value)) : Prop :=
  List.Forall₂ (fun x f1 => f1.1 = x.2.1 ∧ attr_copied Z x.1 x.2.2 f1.2) (List.zip es fs) fs1

/-- The node `nd1` is the node the reconstruction builds for `nd` before the fix
instructions: it has the sons of `nd`, those the serialization descends into
(`owned_sons`) and the targets of the `Node` attributes corresponding by `Z`, the other
sons null. -/
def copy_of (attrtype_names : List attrtype_name) (eval_init : String → attr_value)
    (Z : List (Nat × Nat)) (e : String × yajl_val) (nd nd1 : node_inst) : Prop :=
  nd1.nodetype = nd.nodetype ∧ nd1.file = nd.file ∧ nd1.line = nd.line ∧ nd1.col = nd.col
    ∧ (nd1.sons.map Prod.fst = nd.sons.map Prod.fst
        ∧ List.Forall₂ (son_copied Z) (owned_sons e.1 (node_sons e.2) nd.sons)
            (nd1.sons.map Prod.snd))
    ∧ (∃ fs1, attrs_copied Z (node_attribs e.2) nd.attribs fs1
        ∧ nd1.attribs
          = List.zipWith (rebuilt_attrib attrtype_names eval_init) (node_attribs e.2) fs1)
    ∧ nd1.flags = nd.flags

/-- The nodes `arr` of the heap `hfull`, all of them past the first `base` nodes, are
the copies of the nodes `l` of the heap `heap`, position by position. -/
def built_ok (attrtype_names : List attrtype_name) (eval_init : String → attr_value)
    (nodes : List (String × yajl_val)) (heap : List node_inst) (Z : List (Nat × Nat))
    (l arr : List Nat) (base : Nat) (hfull : List node_inst) : Prop :=
  arr.length = l.length
    ∧ ∀ p ∈ List.zip l arr, base ≤ p.2 ∧ p.2 < hfull.length
        ∧ ∃ nd nd1 e, heap[p.1]? = some nd ∧ hfull[p.2]? = some nd1
          ∧ schema_node nodes nd.nodetype = some e
          ∧ copy_of attrtype_names eval_init Z e nd nd1

/-! ## The constructor expression of a graph -/

/-- The argument written for the value of a persisted attribute: `NULL` for a
`Link`/`CodeLink` and for a null pointer, the expression `w` gives for the target of an
attribute of type `Node`, the value itself otherwise. -/
def attr_arg (w : Nat → Option SerArg) (e : String × yajl_val) (v : attr_value) :
    Option SerArg :=
  if is_link_attrib e = true then some .null
  else
    match v with
    | .ptr none => some .null
    | .ptr (some b) => if is_node_attrib e = true then w b else some (.value v)
    | .data _ => some (.value v)

/-- The arguments written for the persisted attributes of a node, in declaration
order. -/
def attr_args (attrtype_names : List attrtype_name) (w : Nat → Option SerArg) :
    List (String × yajl_val) → List ((String × String) × attr_value) → Option (List SerArg)
  | e :: es, f :: fs =>
    if attrib_persisted attrtype_names e = true then
      match attr_arg w e f.2 with
      | none => none
      | some x =>
        match attr_args attrtype_names w es fs with
        | none => none
        | some xs => some (x :: xs)
    else attr_args attrtype_names w es fs
  | _, _ => some []

/-- The arguments written for the sons of a node, in declaration order: `NULL` for a
null son, the expression `w` gives for the son otherwise. -/
def son_args (w : Nat → Option SerArg) : List (Option Nat) → Option (List SerArg)
  | [] => some []
  | none :: rest =>
    match son_args w rest with
    | none => none
    | some xs => some (SerArg.null :: xs)
  | some b :: rest =>
    match w b with
    | none => none
    | some x =>
      match son_args w rest with
      | none => none
      | some xs => some (x :: xs)

/-- The constructor expression of the graph under `a` by the words of the spec: the
call for the type tag and the location of the node, with "persisted attributes, then
sons, then flags" as arguments, each son the serialization descends into and each target
of an attribute of type `Node` being the nested expression of its own graph, any other
son `NULL`; the fuel bounds the depth. -/
def graph_expr (attrtype_names : List attrtype_name) (nodes : List (String × yajl_val))
    (heap : List node_inst) : Nat → Nat → Option SerArg
  | 0, _ => none
  | fuel + 1, a =>
    match heap[a]? with
    | none => none
    | some nd =>
      match schema_node nodes nd.nodetype with
      | none => none
      | some e =>
        match attr_args attrtype_names (graph_expr attrtype_names nodes heap fuel)
            (node_attribs e.2) nd.attribs with
        | none => none
        | some attrs =>
          match son_args (graph_expr attrtype_names nodes heap fuel)
              (owned_sons e.1 (node_sons e.2) nd.sons) with
          | none => none
          | some sons =>
            some (SerArg.make nd.nodetype nd.file nd.line nd.col
              (attrs ++ sons ++ nd.flags.map (fun f => SerArg.flag f.2)))

/-- The attribute of a rebuilt node after the fix instructions: a `Link`/`CodeLink`
attribute points to the image of the original target (null when there is none), any
other attribute is as it was built. -/
def fixed_attrib (attrtype_names : List attrtype_name) (eval_init : String → attr_value)
    (st arr : List Nat) (e : String × yajl_val) (f : (String × String) × attr_value) :
    (String × String) × attr_value :=
  if is_link_attrib e = true then
    (f.1, match f.2 with
          | .ptr p =>
            (match edge_image st arr p with
             | some p1 => attr_value.ptr p1
             | none => attr_value.ptr none)
          | .data _ => attr_value.ptr none)
  else rebuilt_attrib attrtype_names eval_init e f

/-! ## The edges the serialization walks descend into -/

/-- An edge out of a node, named by the accessor the generated code follows it
with: a son `<NODE>_<SON>` or an attribute `<NODE>_<ATTR>`. -/
inductive Edge where
  | son (NODE SON : String)
  | attr (NODE ATTR : String)
  deriving DecidableEq

/-- The edge a statement of `SEL<node>` descends into (by `TRAVdo`), if any. -/
def SelStmt.edge : SelStmt → Option Edge
  | .descend_son NODE SON => some (.son NODE SON)
  | .descend_attr NODE ATTR => some (.attr NODE ATTR)
  | _ => none

/-- The edge a statement of `SBT<node>` descends into (by `TRAVdo`), if any. -/
def SbtStmt.edge : SbtStmt → Option Edge
  | .descend_son NODE SON => some (.son NODE SON)
  | .descend_attr NODE ATTR => some (.attr NODE ATTR)
  | _ => none

/-- The edges by the words of the spec: the sons that are not suppressed, in
declaration order, then the attributes of type `Node`, in declaration order. -/
def edges_spec (node_name : String) (node : yajl_val) : List Edge :=
  ((node_sons node).filter (fun e => decide ((node_name, e.1) ∉ suppressed_sons))).map
      (fun e => Edge.son (string_toupper node_name) (string_toupper e.1))
    ++ ((node_attribs node).filter is_node_attrib).map
      (fun e => Edge.attr (string_toupper node_name) (string_toupper e.1))

/-- The body of `SBT<node>` by the words of the spec: the node is appended to the
position list, then come the descents of `edges_spec`, each under its null test. -/
def SBT_spec (node_name : String) (node : yajl_val) : List SbtStmt :=
  [SbtStmt.dbug_enter, SbtStmt.sspush]
    ++ ((node_sons node).filter (fun e => decide ((node_name, e.1) ∉ suppressed_sons))).map
        (fun e => SbtStmt.descend_son (string_toupper node_name) (string_toupper e.1))
    ++ ((node_attribs node).filter is_node_attrib).map
        (fun e => SbtStmt.descend_attr (string_toupper node_name) (string_toupper e.1))
    ++ [SbtStmt.return_arg_node]

/-- The `Link`/`CodeLink` attributes of a node type, in declaration order. -/
def link_attribs (node : yajl_val) : List (String × yajl_val) :=
  (node_attribs node).filter is_link_attrib

/-- The label `N_<node>` of the case of a node type in the generated switches. -/
def case_label (node_name : String) : String := "N_" ++ string_tolower node_name

/-- An object definition with an expression, a `Next` chain, two owned `Node`
attributes and a link between them. -/
def ex_objdef : yajl_val :=
  .object [("sons", .object [("Expr", .object []), ("Next", .object [])]),
           ("attributes", .object [("Name", ex_attr "String"), ("Init", ex_attr "Node"),
                                   ("Decl", ex_attr "Link"), ("Spec", ex_attr "Node")])]

/-! ## `gen_check_reset_c` -/

/-- The statements `gen_check_reset_c` writes into a function `CHKRST<node>`. -/
inductive ChkrstStmt where
  /-- Emitted text: `DBUG_ENTER ();` -/
  | dbug_enter
  /-- Emitted text: `NODE_CHECKVISITED (arg_node) = FALSE;` -/
  | clear_visited
  /-- Emitted text: `if (<NODE>_<SON> (arg_node) != NULL)
  <NODE>_<SON> (arg_node) = TRAVdo (<NODE>_<SON> (arg_node), arg_info);` -/
  | descend_son (NODE SON : String)
  /-- Emitted text: `DBUG_RETURN (arg_node);` -/
  | return_arg_node
  deriving DecidableEq

/-- The body of the son loop of `gen_check_reset_c` (lines 714-726). -/
def gen_check_reset_c_son (node_name_upper : String) (e : String × yajl_val) : ChkrstStmt :=
  .descend_son node_name_upper (string_toupper e.1)

/-- One iteration of the node loop of `gen_check_reset_c` (lines 700-733): the body of
the generated function `CHKRST<node>`.  The loop reads nothing that can be missing, so
the result is always `some`. -/
def gen_check_reset_c_body (node_name : String) (node : yajl_val) :
    Option (List ChkrstStmt) :=
  let node_name_upper := string_toupper node_name
  let sons := yajl_tree_get (some node) ["sons"] .t_object
  some ([ChkrstStmt.dbug_enter, ChkrstStmt.clear_visited]
    ++ (object_entries sons).map (gen_check_reset_c_son node_name_upper)
    ++ [ChkrstStmt.return_arg_node])

/-- The generator `gen_check_reset_c`: name and body of every `CHKRST<node>`. -/
def gen_check_reset_c (nodes : List (String × yajl_val)) :
    Option (List (String × List ChkrstStmt)) :=
  node_loop (fun node_name => "CHKRST" ++ string_tolower node_name)
    gen_check_reset_c_body nodes

/-- The son a statement of `CHKRST<node>` descends into, if any. -/
def ChkrstStmt.son : ChkrstStmt → Option (String × String)
  | .descend_son NODE SON => some (NODE, SON)
  | _ => none

/-- The state of the reset walk: the heap and the marker `NODE_CHECKVISITED` of the
node at every address. -/
structure ChkState where
  heap : List node_inst
  checkvisited : List Bool
  deriving DecidableEq

/-- One statement of a `CHKRST<node>` on the node `a`; `call` is `TRAVdo`. -/
def CHKRST_step (call : Nat → ChkState → Option (Option Nat × ChkState)) (a : Nat) :
    ChkrstStmt → ChkState → Option ChkState
  | .dbug_enter, s => some s
  | .clear_visited, s => some (ChkState.mk s.heap (s.checkvisited.set a false))
  | .descend_son NODE SON, s =>
    match heap_get_son s.heap a (NODE, SON) with
    | none => none
    | some none => some s
    | some (some b) =>
      match call b s with
      | none => none
      | some (r, s1) =>
        some (ChkState.mk (heap_set_son s1.heap a (NODE, SON) r) s1.checkvisited)
  | .return_arg_node, s => some s

/-- The statement is `DBUG_RETURN (arg_node)`. -/
def ChkrstStmt.is_return : ChkrstStmt → Bool
  | .return_arg_node => true
  | _ => false

/-- The body of a `CHKRST<node>` up to its `DBUG_RETURN (arg_node)`. -/
def CHKRST_run (call : Nat → ChkState → Option (Option Nat × ChkState)) (a : Nat)
    (body : List ChkrstStmt) (s : ChkState) : Option (Option Nat × ChkState) :=
  match run_until ChkrstStmt.is_return (CHKRST_step call a) body s with
  | none => none
  | some s1 => some (some a, s1)

/-- Modelled from the spec: `TRAVdo` under the traversal `TR_chkrst`, the call of the
`CHKRST<node>` of the type tag of the node. -/
def CHKRST_call (funs : List (String × List ChkrstStmt)) :
    Nat → Nat → ChkState → Option (Option Nat × ChkState)
  | 0, _, _ => none
  | fuel + 1, a, s =>
    match s.heap[a]? with
    | none => none
    | some nd =>
      match funs.lookup ("CHKRST" ++ nd.nodetype) with
      | none => none
      | some body => CHKRST_run (CHKRST_call funs fuel) a body s

/-- The first part of the generated driver `CHKRSTdoTreeCheckReset` (lines 665-682):
`keep_next = NULL`, and on a `N_fundef` node `keep_next = FUNDEF_NEXT (arg_node);
FUNDEF_NEXT (arg_node) = NULL;`.  The result is `keep_next` and the heap. -/
def CHKRST_detach (heap : List node_inst) (arg_node : Nat) (nd : node_inst) :
    Option (Option Nat × List node_inst) :=
  if nd.nodetype = "fundef" then
    match heap_get_son heap arg_node ("FUNDEF", "NEXT") with
    | none => none
    | some keep_next => some (keep_next, heap_set_son heap arg_node ("FUNDEF", "NEXT") none)
  else some (none, heap)

/-- The last part of the generated driver (lines 691-696): on a `N_fundef` node
`FUNDEF_NEXT (arg_node) = keep_next;`, then `DBUG_RETURN (arg_node)`. -/
def CHKRST_restore (keep_next : Option Nat) (arg_node : Nat) (s : ChkState) :
    Option (Nat × ChkState) :=
  match s.heap[arg_node]? with
  | none => none
  | some nd =>
    if nd.nodetype = "fundef" then
      some (arg_node,
        ChkState.mk (heap_set_son s.heap arg_node ("FUNDEF", "NEXT") keep_next) s.checkvisited)
    else some (arg_node, s)

/-- The generated driver `CHKRSTdoTreeCheckReset (arg_node)` (lines 662-697).  A failed
`DBUG_ASSERT` stops the run (`none`); `local_funs_grouped` is the global
`global.local_funs_grouped`; `TRAVpush (TR_chkrst); arg_node = TRAVdo (arg_node, NULL);
TRAVpop ();` is the call of the reset walk. -/
def CHKRSTdoTreeCheckReset (local_funs_grouped : Bool)
    (funs : List (String × List ChkrstStmt)) (fuel : Nat) (arg_node : Nat) (s : ChkState) :
    Option (Nat × ChkState) :=
  match s.heap[arg_node]? with
  | none => none
  | some nd =>
    if ¬ (nd.nodetype = "module" ∨ nd.nodetype = "fundef") then none
    else if ¬ (nd.nodetype = "module" ∨ local_funs_grouped = true) then none
    else
      match CHKRST_detach s.heap arg_node nd with
      | none => none
      | some (keep_next, heap1) =>
        match CHKRST_call funs fuel arg_node (ChkState.mk heap1 s.checkvisited) with
        | none => none
        | some (none, _) => none
        | some (some r, s1) => CHKRST_restore keep_next r s1

/-- The markers after the reset of the nodes `l`: the marker of each of them is
`FALSE`, every other marker is as it was. -/
def clear_marks (marks : List Bool) (l : List Nat) : List Bool :=
  l.foldl (fun m c => m.set c false) marks

/-- The node at `a` has a type of the schema and exactly the sons the type declares,
in declaration order and under distinct accessor keys. -/
def sons_declared (nodes : List (String × yajl_val)) (heap : List node_inst) (a : Nat) :
    Prop :=
  ∃ nd, heap[a]? = some nd
    ∧ ∃ e, schema_node nodes nd.nodetype = some e
      ∧ nd.sons.map Prod.fst = declared_keys e.1 (node_sons e.2)
      ∧ (declared_keys e.1 (node_sons e.2)).Nodup

instance (nodes : List (String × yajl_val)) (heap : List node_inst) (a : Nat) :
    Decidable (sons_declared nodes heap a) :=
  match h : heap[a]? with
  | none => isFalse (by
      rintro ⟨nd, h1, _⟩
      rw [h] at h1
      cases h1)
  | some nd =>
    match h2 : schema_node nodes nd.nodetype with
    | none => isFalse (by
        rintro ⟨nd1, h1, e, h3, _⟩
        rw [h] at h1
        cases h1
        rw [h2] at h3
        cases h3)
    | some e =>
      decidable_of_iff (nd.sons.map Prod.fst = declared_keys e.1 (node_sons e.2)
          ∧ (declared_keys e.1 (node_sons e.2)).Nodup) (by
        constructor
        · exact fun h3 => ⟨nd, h, e, h2, h3⟩
        · rintro ⟨nd1, h1, e1, h3, h4⟩
          rw [h] at h1
          cases h1
          rw [h2] at h3
          cases h3
          exact h4)

/-- The functions `CHKRST<node>` generated for the example schema. -/
def ex_CHKRST_funs : List (String × List ChkrstStmt) :=
  match gen_check_reset_c ex_nodes with
  | none => []
  | some funs => funs

/-- Three chained function definitions at the addresses 0, 1 and 2, each with a body
of its own at the addresses 3, 4 and 5. -/
def ex_fundef_chain : List node_inst :=
  [ex_fundef_inst (some 3) (some 1), ex_fundef_inst (some 4) (some 2),
   ex_fundef_inst (some 5) none, ex_id_inst none 30 none, ex_id_inst none 40 none,
   ex_id_inst none 50 none]

/-! ## `gen_check_node_c` -/

/-- The statements `gen_check_node_c` writes into a function `CHKM<node>`. -/
inductive ChkmStmt where
  /-- Emitted text: `DBUG_ENTER ();` -/
  | dbug_enter
  /-- Emitted text: `CHKMtouch (arg_node, arg_info);` -/
  | touch_node
  /-- Emitted text: `NODE_ERROR (arg_node) = CHKMTRAV (NODE_ERROR (arg_node), arg_info);` -/
  | chkmtrav_error
  /-- Emitted text: `CHKMtouch ((void *) <NODE>_<ATTR> (arg_node), arg_info);` -/
  | touch_attr (NODE ATTR : String)
  /-- Emitted text: `<NODE>_<SON> (arg_node) = CHKMTRAV (<NODE>_<SON> (arg_node), arg_info);`
  (the statement for the son `Next`, written before the attribute loop, is this text
  with `NEXT` for `<SON>`). -/
  | chkmtrav_son (NODE SON : String)
  /-- Emitted text: `DBUG_RETURN (arg_node);` -/
  | return_arg_node
  deriving DecidableEq

/-- The body of the attribute loop of `gen_check_node_c` (lines 791-810). -/
def gen_check_node_c_attrib (attrtype_names : List attrtype_name)
    (node_name_upper : String) (e : String × yajl_val) : Option (List ChkmStmt) :=
  match attrib_atn attrtype_names e.2 with
  | none => none
  | some atn =>
    if atn.copy_type = .act_literal ∨ atn.copy_type = .act_function then some []
    else some [.touch_attr node_name_upper (string_toupper e.1)]

/-- The body of the son loop of `gen_check_node_c` (lines 812-825). -/
def gen_check_node_c_son (node_name_upper : String) (e : String × yajl_val) :
    List ChkmStmt :=
  if e.1 = "Next" then []
  else [.chkmtrav_son node_name_upper (string_toupper e.1)]

/-- One iteration of the node loop of `gen_check_node_c` (lines 765-831): the body of
the generated function `CHKM<node>`. -/
def gen_check_node_c_body (attrtype_names : List attrtype_name)
    (node_name : String) (node : yajl_val) : Option (List ChkmStmt) :=
  let node_name_upper := string_toupper node_name
  let sons := yajl_tree_get (some node) ["sons"] .t_object
  let attribs := yajl_tree_get (some node) ["attributes"] .t_object
  let next := yajl_tree_get sons ["Next"] .t_object
  match emit_loop (gen_check_node_c_attrib attrtype_names node_name_upper)
      (object_entries attribs) with
  | none => none
  | some attr_out =>
    some ([ChkmStmt.dbug_enter, ChkmStmt.touch_node, ChkmStmt.chkmtrav_error]
      ++ (if next.isSome then [ChkmStmt.chkmtrav_son node_name_upper "NEXT"] else [])
      ++ attr_out
      ++ (object_entries sons).flatMap (gen_check_node_c_son node_name_upper)
      ++ [ChkmStmt.return_arg_node])

/-- The generator `gen_check_node_c`: name and body of every `CHKM<node>`. -/
def gen_check_node_c (attrtype_names : List attrtype_name)
    (nodes : List (String × yajl_val)) : Option (List (String × List ChkmStmt)) :=
  node_loop (fun node_name => "CHKM" ++ string_tolower node_name)
    (gen_check_node_c_body attrtype_names) nodes

/-- The copy disposition of the type of an attribute entry. -/
def attrib_copy_type (attrtype_names : List attrtype_name) (e : String × yajl_val) :
    Option attr_copy_type :=
  match attrib_atn attrtype_names e.2 with
  | none => none
  | some atn => some atn.copy_type

/-- The type of the attribute entry is of Node disposition. -/
def is_touched_attrib (attrtype_names : List attrtype_name) (e : String × yajl_val) : Bool :=
  decide (attrib_copy_type attrtype_names e = some attr_copy_type.act_node)

/-- The attributes `CHKM<node>` touches by the words of the spec ("every Function- or
Node-disposition attribute", a Literal one is skipped): the type of the attribute entry
is of Function or of Node disposition. -/
def is_claimed_touched_attrib (attrtype_names : List attrtype_name)
    (e : String × yajl_val) : Bool :=
  decide (attrib_copy_type attrtype_names e = some attr_copy_type.act_function
    ∨ attrib_copy_type attrtype_names e = some attr_copy_type.act_node)

/-- The attribute a statement of `CHKM<node>` touches, if it touches one. -/
def ChkmStmt.touched_attr : ChkmStmt → Option (String × String)
  | .touch_attr NODE ATTR => some (NODE, ATTR)
  | _ => none

/-- A sub-operation of a generated function on a part of the node: the diagnostic
side-node, a son or an attribute. -/
inductive Visit where
  | error
  | son (NODE SON : String)
  | attr (NODE ATTR : String)
  deriving DecidableEq

/-- The part of the node a statement of `CHKM<node>` works on. -/
def ChkmStmt.visit : ChkmStmt → Option Visit
  | .chkmtrav_error => some .error
  | .touch_attr NODE ATTR => some (.attr NODE ATTR)
  | .chkmtrav_son NODE SON => some (.son NODE SON)
  | _ => none

/-- The part of the node a destroy statement of `FREE<node>` works on. -/
def FreeStmt.visit : FreeStmt → Option Visit
  | .freetrav_error => some .error
  | .freecond_next NODE => some (.son NODE "NEXT")
  | .freeattrib NODE ATTR _ => some (.attr NODE ATTR)
  | .freetrav_son NODE SON => some (.son NODE SON)
  | _ => none

/-- The visit is a descent (into the diagnostic side-node or into a son). -/
def Visit.is_descent : Visit → Bool
  | .attr _ _ => false
  | _ => true

/-- The body of `CHKM<node>` by the words of the spec: the touch of the node, the
descent into the diagnostic side-node, the descent into `Next` if the type has that
son, the touches of the attributes in `touched`, and the descents into the other sons
in declaration order. -/
def CHKM_spec (node_name : String) (node : yajl_val) (touched : List (String × yajl_val)) :
    List ChkmStmt :=
  [ChkmStmt.dbug_enter, ChkmStmt.touch_node, ChkmStmt.chkmtrav_error]
    ++ (if has_son node "Next" then [ChkmStmt.chkmtrav_son (string_toupper node_name) "NEXT"]
        else [])
    ++ touched.map
        (fun e => ChkmStmt.touch_attr (string_toupper node_name) (string_toupper e.1))
    ++ ((node_sons node).filter (fun e => e.1 ≠ "Next")).map
        (fun e => ChkmStmt.chkmtrav_son (string_toupper node_name) (string_toupper e.1))
    ++ [ChkmStmt.return_arg_node]

/-- The state of the check walk: the heap and the blocks `CHKMtouch` was called on
(latest last). -/
structure ChkmState where
  heap : List node_inst
  touched : List attr_value
  deriving DecidableEq

/-- The macro `CHKMTRAV (node, info)`, written into the generated file at line 763:
`(node != NULL ? TRAVdo (node, info) : node)`; `call` is `TRAVdo`. -/
def CHKMTRAV (call : Nat → ChkmState → Option (Option Nat × ChkmState))
    (p : Option Nat) (s : ChkmState) : Option (Option Nat × ChkmState) :=
  match p with
  | none => some (none, s)
  | some a => call a s

/-- Modelled from the spec: `CHKMtouch (ptr, arg_info)`, which is written by hand
outside the generator; it "marks" what it is called on "as touched". -/
def CHKMtouch (v : attr_value) (s : ChkmState) : ChkmState :=
  ChkmState.mk s.heap (s.touched ++ [v])

/-- One statement of a `CHKM<node>` on the node `a`; `call` is `TRAVdo`.  A statement
that reads a field the node does not have stops the run (`none`). -/
def CHKM_step (call : Nat → ChkmState → Option (Option Nat × ChkmState)) (a : Nat) :
    ChkmStmt → ChkmState → Option ChkmState
  | .dbug_enter, s => some s
  | .touch_node, s => some (CHKMtouch (.ptr (some a)) s)
  | .chkmtrav_error, s =>
    match s.heap[a]? with
    | none => none
    | some nd =>
      match CHKMTRAV call nd.error s with
      | none => none
      | some (r, s1) => some (ChkmState.mk (heap_set_error s1.heap a r) s1.touched)
  | .touch_attr NODE ATTR, s =>
    match heap_get_attrib s.heap a (NODE, ATTR) with
    | none => none
    | some v => some (CHKMtouch v s)
  | .chkmtrav_son NODE SON, s =>
    match heap_get_son s.heap a (NODE, SON) with
    | none => none
    | some p =>
      match CHKMTRAV call p s with
      | none => none
      | some (r, s1) =>
        some (ChkmState.mk (heap_set_son s1.heap a (NODE, SON) r) s1.touched)
  | .return_arg_node, s => some s

/-- The statement is `DBUG_RETURN (arg_node)`. -/
def ChkmStmt.is_return : ChkmStmt → Bool
  | .return_arg_node => true
  | _ => false

/-- The body of a `CHKM<node>` up to its `DBUG_RETURN (arg_node)`. -/
def CHKM_run (call : Nat → ChkmState → Option (Option Nat × ChkmState)) (a : Nat)
    (body : List ChkmStmt) (s : ChkmState) : Option (Option Nat × ChkmState) :=
  match run_until ChkmStmt.is_return (CHKM_step call a) body s with
  | none => none
  | some s1 => some (some a, s1)

/-- Modelled from the spec: `TRAVdo` under the check traversal, the call of the
`CHKM<node>` of the type tag of the node.  The fuel bounds the depth of the calls. -/
def CHKM_call (funs : List (String × List ChkmStmt)) :
    Nat → Nat → ChkmState → Option (Option Nat × ChkmState)
  | 0, _, _ => none
  | fuel + 1, a, s =>
    match s.heap[a]? with
    | none => none
    | some nd =>
      match funs.lookup ("CHKM" ++ nd.nodetype) with
      | none => none
      | some body => CHKM_run (CHKM_call funs fuel) a body s

/-- The functions `CHKM<node>` generated for the example schema. -/
def ex_CHKM_funs : List (String × List ChkmStmt) :=
  match gen_check_node_c ex_attrtype_names ex_nodes with
  | none => []
  | some funs => funs

/-! ## `gen_types_trav_h` and `gen_types_nodetype_h` -/

/-- An enumerator written into a generated `enum`: its name and, where the emitted
text gives one (`= 0`), its value. -/
structure Enumerator where
  name : String
  value : Option Nat
  deriving DecidableEq

/-- The generator `gen_types_trav_h` (lines 15-41): the enumerators of the `enum`
`trav_t` in emission order. -/
def gen_types_trav_h (traversals : List (String × yajl_val)) : List Enumerator :=
  [Enumerator.mk "TR_undefined" (some 0)]
    ++ traversals.map (fun t => Enumerator.mk ("TR_" ++ string_tolower t.1) none)
    ++ [Enumerator.mk "TR_anonymous" none]

/-- What `gen_types_nodetype_h` writes: the enumerators of the `enum` `nodetype` and
the number in `#define MAX_NODES <number>`. -/
structure nodetype_h where
  nodetype : List Enumerator
  MAX_NODES : Nat
  deriving DecidableEq

/-- The generator `gen_types_nodetype_h` (lines 50-80). -/
def gen_types_nodetype_h (nodes : List (String × yajl_val)) : nodetype_h :=
  nodetype_h.mk
    ([Enumerator.mk "N_undefined" (some 0)]
      ++ nodes.map (fun n => Enumerator.mk ("N_" ++ string_tolower n.1) none))
    nodes.length

/-- The values of the enumerators of a C `enum`: an enumerator with `= v` has the
value `v`, any other has the value of the one before it plus one; `next` is the value
an enumerator without `=` takes at this place (0 at the start). -/
def enum_values : Nat → List Enumerator → List (String × Nat)
  | _, [] => []
  | next, e :: rest =>
    match e.value with
    | some v => (e.name, v) :: enum_values (v + 1) rest
    | none => (e.name, next) :: enum_values (next + 1) rest

/-! ## `gen_sons_h`, `gen_attribs_h` and `gen_node_alloc_h` -/

/-- The type of a member of a generated `struct` or `union`: a type written as plain
text, `struct <tag>`, or `struct <tag> *`. -/
inductive MemberType where
  | plain (ctype : String)
  | struct_ (tag : String)
  | struct_ptr (tag : String)
  deriving DecidableEq

/-- A `struct` definition written into a generated header: its tag, its members, and
the bit fields of its anonymous member `flags` (empty when that member is not
written). -/
structure StructDef where
  tag : String
  members : List (MemberType × String)
  flags : List String
  deriving DecidableEq

/-- One iteration of the first node loop of `gen_sons_h` (lines 103-124): the
definition of `struct SONS_N_<NODE>`, or nothing when only the comment
`<node> has no sons.` is written. -/
def gen_sons_h_struct (node_name : String) (node : yajl_val) : Option StructDef :=
  let sons := yajl_tree_get (some node) ["sons"] .t_object
  if (object_entries sons).length = 0 then none
  else
    some (StructDef.mk ("SONS_N_" ++ string_toupper node_name)
      ((object_entries sons).map (fun e => (MemberType.plain "node *", e.1))) [])

/-- One iteration of the second node loop of `gen_sons_h` (lines 132-147): the member
`struct SONS_N_<NODE> *  N_<node>;` of `union SONUNION`, or nothing when only the
comment is written. -/
def gen_sons_h_member (node_name : String) (node : yajl_val) :
    Option (MemberType × String) :=
  let sons := yajl_tree_get (some node) ["sons"] .t_object
  if (object_entries sons).length = 0 then none
  else
    some (MemberType.struct_ptr ("SONS_N_" ++ string_toupper node_name),
      "N_" ++ string_tolower node_name)

/-- What `gen_sons_h` writes: the `struct` definitions and the members of
`union SONUNION`. -/
structure sons_h where
  structs : List StructDef
  SONUNION : List (MemberType × String)
  deriving DecidableEq

/-- The generator `gen_sons_h` (lines 88-153). -/
def gen_sons_h (nodes : List (String × yajl_val)) : sons_h :=
  sons_h.mk (nodes.filterMap (fun n => gen_sons_h_struct n.1 n.2))
    (nodes.filterMap (fun n => gen_sons_h_member n.1 n.2))

/-- The body of the attribute loop of `gen_attribs_h` (lines 256-270): the member
`<ctype> <attr_name>;`. -/
def gen_attribs_h_attrib (attrtype_names : List attrtype_name) (e : String × yajl_val) :
    Option (List (MemberType × String)) :=
  match attrib_atn attrtype_names e.2 with
  | none => none
  | some atn => some [(MemberType.plain atn.ctype, e.1)]

/-- One iteration of the first node loop of `gen_attribs_h` (lines 236-286): the
definition of `struct ATTRIBS_N_<NODE>`, or nothing (`some none`) when only the
comment `Node <node> does not have atributes or flags.` is written; `none` when an
`assert (atn)` aborts the generator. -/
def gen_attribs_h_struct (attrtype_names : List attrtype_name) (node_name : String)
    (node : yajl_val) : Option (Option StructDef) :=
  let attributes := yajl_tree_get (some node) ["attributes"] .t_object
  let flags := yajl_tree_get (some node) ["flags"] .t_object
  if (object_entries flags).length = 0 ∧ (object_entries attributes).length = 0 then
    some none
  else
    match emit_loop (gen_attribs_h_attrib attrtype_names) (object_entries attributes) with
    | none => none
    | some members =>
      some (some (StructDef.mk ("ATTRIBS_N_" ++ string_toupper node_name) members
        ((object_entries flags).map Prod.fst)))

/-- One iteration of the second node loop of `gen_attribs_h` (lines 293-312): the
member `struct ATTRIBS_N_<NODE> *  N_<node>;` of `union ATTRIBUNION`, or nothing when
only the comment is written. -/
def gen_attribs_h_member (node_name : String) (node : yajl_val) :
    Option (MemberType × String) :=
  let attributes := yajl_tree_get (some node) ["attributes"] .t_object
  let flags := yajl_tree_get (some node) ["flags"] .t_object
  if (object_entries flags).length = 0 ∧ (object_entries attributes).length = 0 then none
  else
    some (MemberType.struct_ptr ("ATTRIBS_N_" ++ string_toupper node_name),
      "N_" ++ string_tolower node_name)

/-- What `gen_attribs_h` writes: the `struct` definitions and the members of
`union ATTRIBUNION`. -/
structure attribs_h where
  structs : List StructDef
  ATTRIBUNION : List (MemberType × String)
  deriving DecidableEq

/-- The generator `gen_attribs_h` (lines 223-318). -/
def gen_attribs_h (attrtype_names : List attrtype_name)
    (nodes : List (String × yajl_val)) : Option attribs_h :=
  match emit_loop (fun n =>
      match gen_attribs_h_struct attrtype_names n.1 n.2 with
      | none => none
      | some none => some []
      | some (some d) => some [d]) nodes with
  | none => none
  | some structs =>
    some (attribs_h.mk structs (nodes.filterMap (fun n => gen_attribs_h_member n.1 n.2)))

/-- One iteration of the node loop of `gen_node_alloc_h` (lines 340-362): the
definition of `struct NODE_ALLOC_N_<NODE>`. -/
def gen_node_alloc_h_struct (node_name : String) (node : yajl_val) : StructDef :=
  let node_name_upper := string_toupper node_name
  let attributes := yajl_tree_get (some node) ["attributes"] .t_object
  let sons := yajl_tree_get (some node) ["sons"] .t_object
  let flags := yajl_tree_get (some node) ["flags"] .t_object
  StructDef.mk ("NODE_ALLOC_N_" ++ node_name_upper)
    ([(MemberType.plain "node", "nodestructure")]
      ++ (if (object_entries sons).length ≠ 0 then
            [(MemberType.struct_ ("SONS_N_" ++ node_name_upper), "sonstructure")] else [])
      ++ (if (object_entries flags).length ≠ 0 ∨ (object_entries attributes).length ≠ 0 then
            [(MemberType.struct_ ("ATTRIBS_N_" ++ node_name_upper), "attributestructure")]
          else []))
    []

/-- The generator `gen_node_alloc_h` (lines 324-367). -/
def gen_node_alloc_h (nodes : List (String × yajl_val)) : List StructDef :=
  nodes.map (fun n => gen_node_alloc_h_struct n.1 n.2)

/-- The `struct` tag a member type refers to, if any. -/
def MemberType.struct_ref : MemberType → Option String
  | .plain _ => none
  | .struct_ tag => some tag
  | .struct_ptr tag => some tag

/-- The `struct` tags the emitted text of a statement of a `SHLPmakeNodeVa` case
refers to. -/
def MakeStmt.struct_refs : MakeStmt → List String
  | .alloc NODE => ["NODE_ALLOC_N_" ++ NODE]
  | .set_sons _ NODE => ["SONS_N_" ++ NODE]
  | .set_attribs _ NODE => ["ATTRIBS_N_" ++ NODE]
  | _ => []

/-- The tags of the `struct` definitions of the three generated layout headers. -/
def defined_structs (sh : sons_h) (ah : attribs_h) (al : List StructDef) : List String :=
  (sh.structs ++ ah.structs ++ al).map StructDef.tag

/-- The field a statement of a `SHLPmakeNodeVa` case assigns, if it assigns one. -/
def MakeStmt.assigned : MakeStmt → Option Slot
  | .attr_init NODE ATTR _ => some (.attr NODE ATTR)
  | .attr_va_arg NODE ATTR _ => some (.attr NODE ATTR)
  | .son_va_arg NODE SON => some (.son NODE SON)
  | .flag_va_arg NODE FLAG => some (.flag NODE FLAG)
  | _ => none

/-- An attribute entry of the type `DFMask`, which is not persisted, with a key
`persist` of its own set to `true`. -/
def ex_attr_override_true : yajl_val :=
  .object [("type", .string "DFMask"), ("persist", .true_)]

/-- An attribute entry of the persisted type `String` with a key `persist` of its own
set to `false`. -/
def ex_attr_override_false : yajl_val :=
  .object [("type", .string "String"), ("persist", .false_)]

/-- The type `va_arg` reads an attribute of this entry with. -/
def attrib_va_type (attrtype_names : List attrtype_name) (e : String × yajl_val) : String :=
  match attrib_atn attrtype_names e.2 with
  | none => ""
  | some atn => va_arg_type atn

/-- The case of a node in `SHLPmakeNodeVa` by the words of the spec: after the
allocation (and the setting of the pointers to the son and attribute blocks) every
declared attribute is assigned in declaration order, from the next stream argument if
its type is persisted and from the default initializer of its type otherwise; then
every son and then every flag is assigned from the next stream argument. -/
def MAKE_spec (attrtype_names : List attrtype_name) (node_name : String)
    (node : yajl_val) : List MakeStmt :=
  [MakeStmt.alloc (string_toupper node_name)]
    ++ (if (node_sons node).length ≠ 0 then
          [MakeStmt.set_sons (string_tolower node_name) (string_toupper node_name)]
        else [])
    ++ (if (node_flags node).length ≠ 0 ∨ (node_attribs node).length ≠ 0 then
          [MakeStmt.set_attribs (string_tolower node_name) (string_toupper node_name)]
        else [])
    ++ (node_attribs node).map (fun e =>
        if attrib_persisted attrtype_names e = true then
          MakeStmt.attr_va_arg (string_toupper node_name) (string_toupper e.1)
            (attrib_va_type attrtype_names e)
        else
          MakeStmt.attr_init (string_toupper node_name) (string_toupper e.1)
            (attrib_init attrtype_names e))
    ++ (node_sons node).map
        (fun e => MakeStmt.son_va_arg (string_toupper node_name) (string_toupper e.1))
    ++ (node_flags node).map
        (fun e => MakeStmt.flag_va_arg (string_toupper node_name) (string_toupper e.1))
    ++ [MakeStmt.break_]

/-! ## Node graphs whose owned edges are acyclic -/

/-- The pointer `p` held by the node at `a` is null, or it is the address of a node of
the heap (of `n` nodes) whose rank is below the rank of `a`. -/
def owned_ok (rank : Nat → Nat) (n a : Nat) (p : Option Nat) : Prop :=
  ∀ b ∈ p, b < n ∧ rank b < rank a

instance (rank : Nat → Nat) (n a : Nat) (p : Option Nat) : Decidable (owned_ok rank n a p) := by
  unfold owned_ok; infer_instance

/-- The value of an attribute of type `Node` of the node at `a` is a pointer that
satisfies `owned_ok`. -/
def attr_owned_ok (rank : Nat → Nat) (n a : Nat) : attr_value → Prop
  | .data _ => False
  | .ptr p => owned_ok rank n a p

instance (rank : Nat → Nat) (n a : Nat) (v : attr_value) :
    Decidable (attr_owned_ok rank n a v) := by
  cases v <;> unfold attr_owned_ok <;> infer_instance

/-- The node instance `nd` at the address `a` of a heap of `n` nodes with the schema
entry `e`: it has the sons and the attributes the entry declares, and its owned edges
lead to nodes of the heap of smaller rank: every son, with `with_attribs` every
attribute of type `Node`, and with `with_error` the diagnostic side-node
`NODE_ERROR`. -/
def node_ranked_entry (with_error with_attribs : Bool) (rank : Nat → Nat) (n a : Nat)
    (nd : node_inst) (e : String × yajl_val) : Prop :=
  nd.sons.map Prod.fst = declared_keys e.1 (node_sons e.2)
    ∧ nd.attribs.map Prod.fst = declared_keys e.1 (node_attribs e.2)
    ∧ (with_error = true → owned_ok rank n a nd.error)
    ∧ (∀ kv ∈ nd.sons, owned_ok rank n a kv.2)
    ∧ (with_attribs = true → ∀ ent ∈ node_attribs e.2, is_node_attrib ent = true →
        ∀ kv ∈ nd.attribs, kv.1 = (string_toupper e.1, string_toupper ent.1) →
          attr_owned_ok rank n a kv.2)

instance (with_error with_attribs : Bool) (rank : Nat → Nat) (n a : Nat)
    (nd : node_inst) (e : String × yajl_val) :
    Decidable (node_ranked_entry with_error with_attribs rank n a nd e) := by
  unfold node_ranked_entry; infer_instance

/-- The node instance `nd` at the address `a` has a type of the schema and satisfies
`node_ranked_entry` with the schema entry of its type tag. -/
def node_ranked (nodes : List (String × yajl_val)) (with_error with_attribs : Bool)
    (rank : Nat → Nat) (n a : Nat) (nd : node_inst) : Prop :=
  ∃ e ∈ schema_node nodes nd.nodetype,
    node_ranked_entry with_error with_attribs rank n a nd e

instance (nodes : List (String × yajl_val)) (with_error with_attribs : Bool)
    (rank : Nat → Nat) (n a : Nat) (nd : node_inst) :
    Decidable (node_ranked nodes with_error with_attribs rank n a nd) := by
  unfold node_ranked; infer_instance

/-- A finite node graph of the schema whose owned edges are acyclic: every node of the
heap satisfies `node_ranked` for the rank function `rank`, which decreases along every
owned edge (the sons and the attributes of type `Node`; with `with_error` also the
edge `NODE_ERROR`). -/
def graph_ranked (nodes : List (String × yajl_val)) (with_error : Bool)
    (rank : Nat → Nat) (heap : List node_inst) : Prop :=
  ∀ x ∈ heap.enum, node_ranked nodes with_error true rank heap.length x.1 x.2

instance (nodes : List (String × yajl_val)) (with_error : Bool)
    (rank : Nat → Nat) (heap : List node_inst) :
    Decidable (graph_ranked nodes with_error rank heap) := by
  unfold graph_ranked; infer_instance

/-- The condition of `graph_ranked` on the node at every address, with the choice of
the Node attributes as well. -/
def heap_ranked (nodes : List (String × yajl_val)) (with_error with_attribs : Bool)
    (rank : Nat → Nat) (heap : List node_inst) : Prop :=
  ∀ a nd, heap[a]? = some nd →
    node_ranked nodes with_error with_attribs rank heap.length a nd

/-- The type tags of the nodes of a heap, by address. -/
def heap_tags (heap : List node_inst) : List String :=
  heap.map (fun nd => nd.nodetype)

/-- A node of the example type `Typedef` whose diagnostic side-node is the node
itself. -/
def ex_error_loop : List node_inst :=
  [node_inst.mk "typedef" 1 2 3 (some 0) [(("TYPEDEF", "NEXT"), none)] [] []]

/-- The functions `SBT<node>` generated for the example schema. -/
def ex_SBT_funs : List (String × List SbtStmt) :=
  match gen_serialize_buildstack_c ex_nodes with
  | none => []
  | some funs => funs

/-! ## The fix-up case by the words of the spec -/

/-- The case of a node in `SHLPfixLink` by the words of the spec: if the node has
`Link`/`CodeLink` attributes, the `switch (no)` is opened, one case per such attribute
follows with the labels `1..k` in declaration order, and the switch is closed with its
default branch; the `break` of the node type comes last. -/
def FIX_spec (node_name : String) (node : yajl_val) : List FixStmt :=
  (if (link_attribs node).length = 0 then []
   else [FixStmt.switch_no]
     ++ (List.enumFrom 1 (link_attribs node)).map
         (fun p => FixStmt.case_assign p.1 (string_toupper node_name) (string_toupper p.2.1))
     ++ [FixStmt.default_close])
    ++ [FixStmt.break_]

/-! ## `gen_free_attribs_h` and `gen_serialize_attribs_h` -/

/-- A function prototype written into a generated header: the return type, the name
and the parameters as written. -/
structure Prototype where
  ret : String
  name : String
  params : List String
  deriving DecidableEq

/-- The generator `gen_free_attribs_h` (lines 373-400): for every attribute type of the
table whose copy tag is not `literal`, in iteration order, the prototype
`<ctype> FREEattrib<name> (<ctype> attr, node *  parent);`. -/
def gen_free_attribs_h (attrtype_names : List attrtype_name) : List Prototype :=
  attrtype_names.flatMap (fun atn =>
    if atn.copy_type = .act_literal then []
    else [Prototype.mk atn.ctype ("FREEattrib" ++ atn.name)
      [atn.ctype ++ " attr", "node *  parent"]])

/-- The generator `gen_serialize_attribs_h` (lines 843-880): for every attribute type
of the table with `persist`, in iteration order, the prototype
`void SATserialize<name> (info *, <const_qual><ctype>, node *);`, where `const_qual` is
`const ` for the type `String`. -/
def gen_serialize_attribs_h (attrtype_names : List attrtype_name) : List Prototype :=
  attrtype_names.flatMap (fun atn =>
    if atn.persist = false then []
    else
      let const_qual := if atn.name = "String" then "const " else ""
      [Prototype.mk "void" ("SATserialize" ++ atn.name)
        ["info *", const_qual ++ atn.ctype, "node *"]])

/-- The attribute helper a statement of `FREE<node>` calls, if it calls one. -/
def FreeStmt.callee : FreeStmt → Option String
  | .freeattrib _ _ T => some ("FREEattrib" ++ T)
  | _ => none

/-- The attribute helper a statement of `SET<node>` calls, if it calls one. -/
def SetStmt.callee : SetStmt → Option String
  | .sat_serialize T _ _ => some ("SATserialize" ++ T)
  | _ => none

/-! ## `gen_node_info_mac` -/

/-- An entry `NIF ("<name>")` of the generated name table, and whether a comma is
written after it. -/
structure NifEntry where
  name : String
  comma : Bool
  deriving DecidableEq

/-- The generator `gen_node_info_mac` (lines 161-188): the entries of the name table in
emission order.  The entry `undefined` is written with a comma; the entry of the node
with the index `i` is written with a comma unless `i == YAJL_OBJECT_LENGTH (nodes) - 1`. -/
def gen_node_info_mac (nodes : List (String × yajl_val)) : List NifEntry :=
  NifEntry.mk "undefined" true
    :: (List.enum nodes).map (fun p =>
        NifEntry.mk ("N_" ++ string_tolower p.2.1) (decide (¬ p.1 = nodes.length - 1)))

/-! ## `trav_node_type_name` -/

/-- The enumeration `enum trav_node_type` of `validator.h` (lines 41-47). -/
inductive trav_node_type where
  | tnt_user
  | tnt_sons
  | tnt_error
  | tnt_none
  deriving DecidableEq

/-- The value of an enumeration constant of `enum trav_node_type` (the constants have
no explicit values, so they count from 0). -/
def trav_node_type.value : trav_node_type → Int
  | .tnt_user => 0
  | .tnt_sons => 1
  | .tnt_error => 2
  | .tnt_none => 3

/-- The function `trav_node_type_name` of `validator.h` (lines 49-65) on the integer
its argument holds; the branch `default: assert (false);` is `none`. -/
def trav_node_type_name (n : Int) : Option String :=
  if n = trav_node_type.value .tnt_user then some "travuser"
  else if n = trav_node_type.value .tnt_sons then some "travsons"
  else if n = trav_node_type.value .tnt_error then some "traverror"
  else if n = trav_node_type.value .tnt_none then some "travnone"
  else none

/-! ## An example graph with an owned attribute -/

/-- The example schema with the node `Objdef`, which has two attributes of type
`Node`. -/
def ex_nodes_owned : List (String × yajl_val) := ex_nodes ++ [("Objdef", ex_objdef)]

/-- The serialization code generated for `ex_nodes_owned`. -/
def ex_generated_owned : generated :=
  match gen_serialize ex_attrtype_names ex_nodes_owned with
  | some g => g
  | none => generated.mk [] [] [] [] []

/-- An `Objdef` node instance. -/
def ex_objdef_inst (expr next : Option Nat) (name : Int) (init decl spec : Option Nat) :
    node_inst :=
  node_inst.mk "objdef" 7 8 9 none [(("OBJDEF", "EXPR"), expr), (("OBJDEF", "NEXT"), next)]
    [(("OBJDEF", "NAME"), .data name), (("OBJDEF", "INIT"), .ptr init),
     (("OBJDEF", "DECL"), .ptr decl), (("OBJDEF", "SPEC"), .ptr spec)]
    []

/-- A graph of three nodes: an `Objdef` that owns an `Id` as its son `Expr` and a second
`Id` as its attribute `Init`; the links `Decl` of the `Objdef` and of the first `Id` share
the second `Id` as target, and the link `Avis` of the first `Id` points back to the
root. -/
def ex_owned_graph : List node_inst :=
  [ex_objdef_inst (some 1) none 5 (some 2) (some 2) none, ex_id_inst (some 0) 20 (some 2),
   ex_id_inst none 40 none]

/-- A chain of two `Objdef` nodes: the first owns an `Id` as its son `Expr` and a second
`Id` as its attribute `Init`, its son `Next` is the second `Objdef`, which the
serialization does not descend into, and its link `Decl` points to that second
`Objdef`. -/
def ex_owned_chain : List node_inst :=
  [ex_objdef_inst (some 1) (some 3) 5 (some 2) (some 3) none, ex_id_inst (some 0) 20 (some 2),
   ex_id_inst none 40 none, ex_objdef_inst none none 6 none none none]

end SacJson

namespace SacJson

/-! ## Generic facts about the generator loops and the yajl accessors -/

theorem emit_loop_eq_flatMap {α β : Type} (body : α → Option (List β)) (g : α → List β)
    (l : List α) (h : ∀ a ∈ l, body a = some (g a)) :
    emit_loop body l = some (l.flatMap g) := by
  induction l with
  | nil => rfl
  | cons a rest ih =>
    have h1 : body a = some (g a) := h a (List.mem_cons_self _ _)
    have h2 : emit_loop body rest = some (rest.flatMap g) :=
      ih (fun b hb => h b (List.mem_cons_of_mem _ hb))
    simp [emit_loop, h1, h2]

theorem emit_loop_some_all {α β : Type} (body : α → Option (List β)) (l : List α)
    (out : List β) (h : emit_loop body l = some out) :
    ∀ a ∈ l, (body a).isSome = true := by
  induction l generalizing out with
  | nil => intro a ha; cases ha
  | cons a rest ih =>
    intro b hb
    simp only [emit_loop] at h
    cases hba : body a with
    | none => simp [hba] at h
    | some o =>
      simp only [hba] at h
      cases hr : emit_loop body rest with
      | none => simp [hr] at h
      | some outs =>
        rcases List.mem_cons.1 hb with rfl | hb
        · simp [hba]
        · exact ih outs hr b hb

theorem tree_get_object_type (n : Option yajl_val) (path : List String) (v : yajl_val)
    (h : yajl_tree_get n path .t_object = some v) : v.type = .t_object := by
  unfold yajl_tree_get at h
  cases hw : yajl_tree_walk n path with
  | none => simp [hw] at h
  | some w =>
    simp only [hw] at h
    by_cases hc : yajl_type.t_object ≠ yajl_type.t_any ∧ yajl_type.t_object ≠ w.type
    · simp [hc] at h
    · simp only [hc, if_false, Option.some.injEq] at h
      subst h
      by_contra hne
      exact hc ⟨by decide, fun h2 => hne h2.symm⟩

theorem tree_get_key_isSome (v : Option yajl_val) (k : String) :
    (yajl_tree_get v [k] .t_object).isSome
      = (match (object_entries v).find? (fun e => e.1 == k) with
         | none => false
         | some e => decide (e.2.type = .t_object)) := by
  cases v with
  | none => rfl
  | some w =>
    cases w with
    | object es =>
      simp only [yajl_tree_get, yajl_tree_walk, object_entries]
      cases hf : es.find? (fun e => e.1 == k) with
      | none => rfl
      | some e =>
        simp only [yajl_tree_walk]
        by_cases ht : e.2.type = .t_object
        · simp [ht]
        · have : yajl_type.t_object ≠ e.2.type := fun h => ht h.symm
          simp [ht, this]
    | _ => rfl

theorem next_isSome_eq_has_son (node : yajl_val) (h : next_son_is_object node) :
    (yajl_tree_get (yajl_tree_get (some node) ["sons"] .t_object) ["Next"] .t_object).isSome
      = has_son node "Next" := by
  rw [tree_get_key_isSome]
  unfold has_son node_sons
  unfold next_son_is_object node_sons at h
  generalize object_entries (yajl_tree_get (some node) ["sons"] .t_object) = es at h ⊢
  cases hf : es.find? (fun e => e.1 == "Next") with
  | none =>
    simp only
    symm
    rw [List.find?_eq_none] at hf
    simp only [List.any_eq_false]
    exact hf
  | some e =>
    have hmem : e ∈ es := List.mem_of_find?_eq_some hf
    have hk : (e.1 == "Next") = true := by
      have := List.find?_some hf
      simpa using this
    have hk2 : e.1 = "Next" := by simpa using hk
    simp only [h e hmem hk2, decide_True]
    symm
    rw [List.any_eq_true]
    exact ⟨e, hmem, hk⟩

/-! ## The destroy functions `FREE<node>` -/

theorem free_attrib_loop (attrtype_names : List attrtype_name)
    (node_name node_name_upper : String) (kept : List String)
    (attribs : List (String × yajl_val))
    (hreg : ∀ e ∈ attribs, (attrib_atn attrtype_names e.2).isSome = true)
    (hk : (node_name = "Fundef" ∧ kept = fundef_kept_tested)
        ∨ (node_name ≠ "Fundef" ∧ kept = [])) :
    emit_loop (gen_free_node_c_attrib attrtype_names node_name node_name_upper) attribs
      = some (FREE_spec_attribs attrtype_names kept node_name_upper attribs) := by
  unfold FREE_spec_attribs
  apply emit_loop_eq_flatMap
  intro e he
  have h1 := hreg e he
  unfold gen_free_node_c_attrib FREE_spec_attrib
  cases hatn : attrib_atn attrtype_names e.2 with
  | none => simp [hatn] at h1
  | some atn =>
    simp only
    by_cases hl : atn.copy_type = .act_literal
    · simp [hl]
    · rcases hk with ⟨hn, hkept⟩ | ⟨hn, hkept⟩
      · subst hkept
        by_cases hm : e.1 ∈ fundef_kept_tested
        · have hm2 := hm
          simp only [fundef_kept_tested, List.mem_cons, List.mem_singleton,
            List.not_mem_nil, or_false] at hm2
          simp [hl, hn, hm, hm2]
        · have hm2 := hm
          simp only [fundef_kept_tested, List.mem_cons, List.mem_singleton,
            List.not_mem_nil, or_false] at hm2
          simp [hl, hn, hm, hm2]
      · subst hkept
        simp [hl, hn]

theorem free_son_loop (node_name_upper : String) (sons : List (String × yajl_val)) :
    sons.flatMap (gen_free_node_c_son node_name_upper)
      = FREE_spec_sons node_name_upper sons := by
  unfold FREE_spec_sons
  induction sons with
  | nil => rfl
  | cons e rest ih =>
    rw [List.flatMap_cons, ih]
    unfold gen_free_node_c_son
    by_cases h : e.1 = "Next"
    · simp [h, List.filter_cons]
    · simp [h, List.filter_cons]

theorem gen_free_node_c_body_spec (attrtype_names : List attrtype_name) (node_name : String)
    (node : yajl_val) (hname : node_name ≠ "Fundef")
    (hreg : attribs_registered attrtype_names node)
    (hnext : next_son_is_object node) :
    gen_free_node_c_body attrtype_names node_name node
      = some (FREE_spec attrtype_names node_name node) := by
  unfold gen_free_node_c_body FREE_spec
  simp only []
  have hloop := free_attrib_loop attrtype_names node_name (string_toupper node_name) []
    (node_attribs node) hreg (Or.inr ⟨hname, rfl⟩)
  unfold node_attribs at hloop
  rw [hloop, next_isSome_eq_has_son node hnext, free_son_loop]
  simp [hname, node_attribs, node_sons]

/-- C4: for every node type other than `Fundef` whose attributes have registered
types (and whose `Next` son, if any, is a schema object) the generator emits `FREE<node>`
with its sub-operations in the order: destroy `NODE_ERROR`; the stop-marker-guarded
destroy of `Next` if the node has such a son; one attribute-destroy call per attribute
of non-Literal disposition in declaration order; the destroy of every son other than
`Next` in declaration order; and the release of the node itself last. -/
theorem gen_free_node_c_order (attrtype_names : List attrtype_name) (node_name : String)
    (node : yajl_val) (hname : node_name ≠ "Fundef")
    (hreg : attribs_registered attrtype_names node)
    (hnext : next_son_is_object node) :
    gen_free_node_c_body attrtype_names node_name node
      = some (FREE_spec attrtype_names node_name node) :=
  gen_free_node_c_body_spec attrtype_names node_name node hname hreg hnext

theorem gen_free_node_c_order_witness :
    "Arg" ≠ "Fundef" ∧ attribs_registered ex_attrtype_names ex_arg
      ∧ next_son_is_object ex_arg
      ∧ gen_free_node_c_body ex_attrtype_names "Arg" ex_arg
        = some [FreeStmt.dbug_enter, FreeStmt.decl_result, FreeStmt.freetrav_error,
            FreeStmt.freecond_next "ARG",
            FreeStmt.freeattrib "ARG" "NAME" "String",
            FreeStmt.freeattrib "ARG" "DECL" "Link",
            FreeStmt.freetrav_son "ARG" "AVIS",
            FreeStmt.result_next "ARG", FreeStmt.memfree, FreeStmt.return_result] :=
  ⟨by decide, by decide, by decide,
   (gen_free_node_c_order ex_attrtype_names "Arg" ex_arg (by decide) (by decide)
      (by decide)).trans (by decide)⟩

theorem node_loop_forall₂ {β : Type} (item_name : String → String)
    (item : String → yajl_val → Option β) (nodes : List (String × yajl_val))
    (hall : ∀ n ∈ nodes, (item n.1 n.2).isSome = true) :
    ∃ out, node_loop item_name item nodes = some out
      ∧ List.Forall₂ (fun n f => f.1 = item_name n.1 ∧ item n.1 n.2 = some f.2)
          nodes out := by
  unfold node_loop
  induction nodes with
  | nil => exact ⟨[], rfl, List.Forall₂.nil⟩
  | cons a rest ih =>
    obtain ⟨out, h1, h2⟩ := ih (fun b hb => hall b (List.mem_cons_of_mem _ hb))
    have ha := hall a (List.mem_cons_self _ _)
    cases hg : item a.1 a.2 with
    | none => simp [hg] at ha
    | some body =>
      refine ⟨(item_name a.1, body) :: out, ?_, List.Forall₂.cons ⟨rfl, hg⟩ h2⟩
      simp [emit_loop, hg, h1]

theorem getLast?_append_pair {α : Type} (l : List α) (a b : α) :
    (l ++ [a, b]).getLast? = some b := by
  rw [List.getLast?_eq_some_iff]
  exact ⟨l ++ [a], by simp⟩

theorem not_mem_FREE_spec_attribs (attrtype_names : List attrtype_name) (kept : List String)
    (node_name_upper : String) (attribs : List (String × yajl_val)) (s : FreeStmt)
    (hs : ∀ a b c, s ≠ FreeStmt.freeattrib a b c) :
    s ∉ FREE_spec_attribs attrtype_names kept node_name_upper attribs := by
  unfold FREE_spec_attribs
  intro hmem
  rw [List.mem_flatMap] at hmem
  obtain ⟨e, _, he⟩ := hmem
  unfold FREE_spec_attrib at he
  cases hatn : attrib_atn attrtype_names e.2 with
  | none => simp [hatn] at he
  | some atn =>
    simp only [hatn] at he
    split at he
    · simp only [List.mem_singleton] at he
      exact hs _ _ _ he
    · cases he

theorem not_mem_FREE_spec_sons (node_name_upper : String) (sons : List (String × yajl_val))
    (s : FreeStmt) (hs : ∀ a b, s ≠ FreeStmt.freetrav_son a b) :
    s ∉ FREE_spec_sons node_name_upper sons := by
  unfold FREE_spec_sons
  intro hmem
  rw [List.mem_map] at hmem
  obtain ⟨e, _, he⟩ := hmem
  exact hs _ _ he.symm

/-- The shape of every generated `FREE<node>`, with the `Next` test as the generator
makes it. -/
theorem gen_free_node_c_body_shape (attrtype_names : List attrtype_name)
    (node_name : String) (node : yajl_val)
    (hreg : attribs_registered attrtype_names node) :
    gen_free_node_c_body attrtype_names node_name node
      = some ([FreeStmt.dbug_enter]
        ++ (if node_name = "Fundef" then [FreeStmt.zombify] else [FreeStmt.decl_result])
        ++ [FreeStmt.freetrav_error]
        ++ (if (yajl_tree_get (yajl_tree_get (some node) ["sons"] .t_object) ["Next"]
                .t_object).isSome
            then [FreeStmt.freecond_next (string_toupper node_name)] else [])
        ++ FREE_spec_attribs attrtype_names
            (if node_name = "Fundef" then fundef_kept_tested else [])
            (string_toupper node_name) (node_attribs node)
        ++ FREE_spec_sons (string_toupper node_name) (node_sons node)
        ++ (if node_name = "Fundef" then [FreeStmt.return_arg_node]
            else (if (yajl_tree_get (yajl_tree_get (some node) ["sons"] .t_object) ["Next"]
                    .t_object).isSome
                  then [FreeStmt.result_next (string_toupper node_name)] else [])
              ++ [FreeStmt.memfree, FreeStmt.return_result])) := by
  unfold gen_free_node_c_body
  simp only []
  have hloop := free_attrib_loop attrtype_names node_name (string_toupper node_name)
    (if node_name = "Fundef" then fundef_kept_tested else [])
    (node_attribs node) hreg (by
      by_cases h : node_name = "Fundef"
      · exact Or.inl ⟨h, by simp [h]⟩
      · exact Or.inr ⟨h, by simp [h]⟩)
  unfold node_attribs at hloop
  rw [hloop, free_son_loop]
  rfl

/-- C8: on a schema whose attributes have registered types the generator emits one
function `FREE<node>` per node type; its body releases the node's storage
(`MEMfree`) exactly when the node is not named `Fundef`, and it makes the node a
zombie exactly when the node is named `Fundef`; `FREEfundef` ends by returning the
node itself, every other function ends by returning `result`. -/
theorem gen_free_node_c_release (attrtype_names : List attrtype_name)
    (nodes : List (String × yajl_val))
    (hreg : schema_registered attrtype_names nodes) :
    ∃ funs, gen_free_node_c attrtype_names nodes = some funs
      ∧ List.Forall₂ (fun n f =>
          f.1 = "FREE" ++ string_tolower n.1
          ∧ (FreeStmt.memfree ∈ f.2 ↔ n.1 ≠ "Fundef")
          ∧ (FreeStmt.zombify ∈ f.2 ↔ n.1 = "Fundef")
          ∧ (FreeStmt.return_arg_node ∈ f.2 ↔ n.1 = "Fundef")
          ∧ f.2.getLast? = some (if n.1 = "Fundef" then FreeStmt.return_arg_node
                                else FreeStmt.return_result)) nodes funs := by
  obtain ⟨out, h1, h2⟩ := node_loop_forall₂
    (fun node_name => "FREE" ++ string_tolower node_name)
    (gen_free_node_c_body attrtype_names) nodes (by
      intro n hn
      simp only [gen_free_node_c_body_shape attrtype_names n.1 n.2 (hreg n hn),
        Option.isSome_some])
  refine ⟨out, h1, ?_⟩
  have hmem : ∀ n, n ∈ nodes → attribs_registered attrtype_names n.2 := hreg
  clear h1 hreg
  induction h2 with
  | nil => exact List.Forall₂.nil
  | @cons n f ns fs hnf _ ih =>
    refine List.Forall₂.cons ?_ (ih (fun m hm => hmem m (List.mem_cons_of_mem _ hm)))
    obtain ⟨hname, hbody⟩ := hnf
    refine ⟨hname, ?_⟩
    rw [gen_free_node_c_body_shape attrtype_names n.1 n.2
      (hmem n (List.mem_cons_self _ _))] at hbody
    have hb := (Option.some.inj hbody).symm
    have ha1 := not_mem_FREE_spec_attribs attrtype_names
      (if n.1 = "Fundef" then fundef_kept_tested else [])
      (string_toupper n.1) (node_attribs n.2)
    have hs1 := not_mem_FREE_spec_sons (string_toupper n.1) (node_sons n.2)
    have a1 := ha1 FreeStmt.memfree (by intros; simp)
    have a2 := ha1 FreeStmt.zombify (by intros; simp)
    have a3 := ha1 FreeStmt.return_arg_node (by intros; simp)
    have s1 := hs1 FreeStmt.memfree (by intros; simp)
    have s2 := hs1 FreeStmt.zombify (by intros; simp)
    have s3 := hs1 FreeStmt.return_arg_node (by intros; simp)
    rw [hb]
    by_cases hF : n.1 = "Fundef"
    · simp only [hF, if_true] at a1 a2 a3 s1 s2 s3 ⊢
      refine ⟨?_, ?_, ?_, ?_⟩
      · simp only [List.mem_append, a1, s1]
        split <;> simp
      · simp
      · simp
      · rw [List.getLast?_eq_some_iff]
        exact ⟨_, rfl⟩
    · simp only [hF, if_false] at a1 a2 a3 s1 s2 s3 ⊢
      refine ⟨?_, ?_, ?_, ?_⟩
      · simp [hF]
      · simp only [List.mem_append, a2, s2]
        split <;> simp
      · simp only [List.mem_append, a3, s3]
        split <;> simp
      · rw [← List.append_assoc]
        exact getLast?_append_pair _ _ _

theorem gen_free_node_c_release_witness :
    schema_registered ex_attrtype_names ex_nodes
      ∧ ∃ funs, gen_free_node_c ex_attrtype_names ex_nodes = some funs
        ∧ List.Forall₂ (fun n f =>
          f.1 = "FREE" ++ string_tolower n.1
          ∧ (FreeStmt.memfree ∈ f.2 ↔ n.1 ≠ "Fundef")
          ∧ (FreeStmt.zombify ∈ f.2 ↔ n.1 = "Fundef")
          ∧ (FreeStmt.return_arg_node ∈ f.2 ↔ n.1 = "Fundef")
          ∧ f.2.getLast? = some (if n.1 = "Fundef" then FreeStmt.return_arg_node
                                else FreeStmt.return_result)) ex_nodes funs :=
  ⟨by decide, gen_free_node_c_release ex_attrtype_names ex_nodes (by decide)⟩

theorem FREEfundef_keeps_tested (attrtype_names : List attrtype_name)
    (e : String × yajl_val) : FREEfundef_keeps fundef_kept_tested attrtype_names e := by
  intro atn hatn hl
  unfold gen_free_node_c_attrib
  simp only [hatn, hl, if_false, true_and]
  by_cases hm : e.1 ∈ fundef_kept_tested
  · have hm2 := hm
    simp only [fundef_kept_tested, List.mem_cons, List.mem_singleton,
      List.not_mem_nil, or_false] at hm2
    simp [hm, hm2]
  · have hm2 := hm
    simp only [fundef_kept_tested, List.mem_cons, List.mem_singleton,
      List.not_mem_nil, or_false] at hm2
    simp [hm, hm2]

/-- What the attribute loop of `gen_free_node_c` does for `Fundef`: every attribute of
non-Literal disposition gets its attribute-destroy call, in declaration order, except
the attributes with the six names the loop tests (`fundef_kept_tested`). -/
theorem gen_free_node_c_fundef_kept (attrtype_names : List attrtype_name)
    (node : yajl_val) (hreg : attribs_registered attrtype_names node)
    (hnext : next_son_is_object node) :
    gen_free_node_c_body attrtype_names "Fundef" node
        = some (FREEfundef_spec attrtype_names fundef_kept_tested node)
      ∧ ∀ e ∈ node_attribs node, FREEfundef_keeps fundef_kept_tested attrtype_names e := by
  refine ⟨?_, fun e _ => FREEfundef_keeps_tested attrtype_names e⟩
  rw [gen_free_node_c_body_shape attrtype_names "Fundef" node hreg,
    next_isSome_eq_has_son node hnext]
  simp [FREEfundef_spec]

theorem gen_free_node_c_fundef_kept_witness :
    attribs_registered ex_attrtype_names ex_fundef ∧ next_son_is_object ex_fundef
      ∧ gen_free_node_c_body ex_attrtype_names "Fundef" ex_fundef
          = some [FreeStmt.dbug_enter, FreeStmt.zombify, FreeStmt.freetrav_error,
              FreeStmt.freecond_next "FUNDEF",
              FreeStmt.freeattrib "FUNDEF" "DFM" "DFMask",
              FreeStmt.freetrav_son "FUNDEF" "BODY",
              FreeStmt.return_arg_node] :=
  ⟨by decide, by decide,
   (gen_free_node_c_fundef_kept ex_attrtype_names ex_fundef (by decide) (by decide)).1.trans
     (by decide)⟩

/-- C9 fails on the code.  The comment above `gen_free_node_c` and the spec keep
exactly the attributes `NAME`, `MOD`, `LINKMOD`, `TYPE` and `TYPES` of a zombie.  The
attribute `Impl` of the example `Fundef` has the type `Link`, which is not of Literal
disposition, and `Impl` is none of the five names: by the comment the destroy call
`FUNDEF_IMPL (arg_node) = FREEattribLink (FUNDEF_IMPL (arg_node), arg_node)` is
written.  The attribute loop of `gen_free_node_c` writes nothing for `Impl`, so the
generated `FREEfundef` is not the body that keeps exactly the five documented
attributes. -/
theorem gen_free_node_c_fundef_impl_kept :
    (node_attribs ex_fundef)[1]? = some ("Impl", ex_attr "Link")
      ∧ attrib_copy_type ex_attrtype_names ("Impl", ex_attr "Link")
          = some attr_copy_type.act_function
      ∧ "Impl" ∉ fundef_kept_documented
      ∧ FREE_spec_attrib ex_attrtype_names fundef_kept_documented "FUNDEF"
          ("Impl", ex_attr "Link")
        = [FreeStmt.freeattrib "FUNDEF" "IMPL" "Link"]
      ∧ gen_free_node_c_attrib ex_attrtype_names "Fundef" "FUNDEF" ("Impl", ex_attr "Link")
        = some []
      ∧ ¬ FREEfundef_keeps fundef_kept_documented ex_attrtype_names ("Impl", ex_attr "Link")
      ∧ gen_free_node_c_body ex_attrtype_names "Fundef" ex_fundef
          ≠ some (FREEfundef_spec ex_attrtype_names fundef_kept_documented ex_fundef) := by
  refine ⟨rfl, by decide, by decide, by decide, by decide, ?_, by decide⟩
  intro h
  have h1 := (h (attrtype_name.mk "Link" "node *" none "NULL" .act_function true)
    (by decide) (by decide)).1
  have h2 : "Impl" ∈ fundef_kept_documented := h1.1 (by decide)
  revert h2
  decide

/-! ## The record layout shared by `SET<node>` and `SHLPmakeNodeVa` -/

theorem filterMap_some_fun {α β : Type} (f : α → β) (l : List α) :
    l.filterMap (fun x => some (f x)) = l.map f := by
  induction l with
  | nil => rfl
  | cons a rest ih => simp [List.filterMap_cons, ih]

theorem set_attrib_loop (attrtype_names : List attrtype_name) (node_name_upper : String)
    (attribs : List (String × yajl_val))
    (hreg : ∀ e ∈ attribs, (attrib_atn attrtype_names e.2).isSome = true) :
    ∃ out, emit_loop (gen_serialize_node_c_attrib attrtype_names node_name_upper) attribs
        = some out
      ∧ out.filterMap SetStmt.slot
        = (attribs.filter (attrib_persisted attrtype_names)).map
            (fun e => Slot.attr node_name_upper (string_toupper e.1)) := by
  induction attribs with
  | nil => exact ⟨[], rfl, rfl⟩
  | cons e rest ih =>
    obtain ⟨out, h1, h2⟩ := ih (fun b hb => hreg b (List.mem_cons_of_mem _ hb))
    have he := hreg e (List.mem_cons_self _ _)
    cases hatn : attrib_atn attrtype_names e.2 with
    | none => simp [hatn] at he
    | some atn =>
      cases hp : atn.persist with
      | false =>
        refine ⟨out, ?_, ?_⟩
        · simp [emit_loop, gen_serialize_node_c_attrib, hatn, hp, h1]
        · simp [List.filter_cons, attrib_persisted, hatn, hp, h2]
      | true =>
        refine ⟨[.write_comma, .sat_serialize atn.name node_name_upper (string_toupper e.1)]
          ++ out, ?_, ?_⟩
        · simp [emit_loop, gen_serialize_node_c_attrib, hatn, hp, h1]
        · simp [List.filter_cons, attrib_persisted, hatn, hp, h2, SetStmt.slot]

theorem make_attrib_loop (attrtype_names : List attrtype_name) (node_name_upper : String)
    (attribs : List (String × yajl_val))
    (hreg : ∀ e ∈ attribs, (attrib_atn attrtype_names e.2).isSome = true) :
    ∃ out, emit_loop (gen_serialize_helper_c_attrib attrtype_names node_name_upper) attribs
        = some out
      ∧ out.filterMap MakeStmt.va_slot
        = (attribs.filter (attrib_persisted attrtype_names)).map
            (fun e => Slot.attr node_name_upper (string_toupper e.1)) := by
  induction attribs with
  | nil => exact ⟨[], rfl, rfl⟩
  | cons e rest ih =>
    obtain ⟨out, h1, h2⟩ := ih (fun b hb => hreg b (List.mem_cons_of_mem _ hb))
    have he := hreg e (List.mem_cons_self _ _)
    cases hatn : attrib_atn attrtype_names e.2 with
    | none => simp [hatn] at he
    | some atn =>
      cases hp : atn.persist with
      | false =>
        refine ⟨[.attr_init node_name_upper (string_toupper e.1) atn.init] ++ out, ?_, ?_⟩
        · simp [emit_loop, gen_serialize_helper_c_attrib, hatn, hp, h1]
        · simp [List.filter_cons, attrib_persisted, hatn, hp, h2, MakeStmt.va_slot]
      | true =>
        refine ⟨[.attr_va_arg node_name_upper (string_toupper e.1) (va_arg_type atn)]
          ++ out, ?_, ?_⟩
        · simp [emit_loop, gen_serialize_helper_c_attrib, hatn, hp, h1]
        · simp [List.filter_cons, attrib_persisted, hatn, hp, h2, MakeStmt.va_slot]

theorem set_son_loop_slots (node_name node_name_upper : String)
    (sons : List (String × yajl_val)) :
    (sons.flatMap (gen_serialize_node_c_son node_name node_name_upper)).filterMap SetStmt.slot
      = sons.map (fun e => Slot.son node_name_upper (string_toupper e.1)) := by
  induction sons with
  | nil => rfl
  | cons e rest ih =>
    rw [List.flatMap_cons, List.filterMap_append, ih]
    unfold gen_serialize_node_c_son
    split
    · simp [SetStmt.slot]
    · split <;> simp [SetStmt.slot]

/-- C2: for every node type whose attributes have registered types, the generated
`SET<node>` writes, after the header (type tag, file, line, column) and before the
closing parenthesis, one argument slot per attribute of a persisted type in declaration
order, then one per son in declaration order, then one per flag in declaration order;
and the `va_arg` reads of the case generated for that node in `SHLPmakeNodeVa` are
the same slots, in the same order, after the allocation of the node. -/
theorem gen_serialize_slots_agree (attrtype_names : List attrtype_name)
    (node_name : String) (node : yajl_val)
    (hreg : attribs_registered attrtype_names node) :
    ∃ set_args make_body,
      gen_serialize_node_c_body attrtype_names node_name node
          = some ([SetStmt.dbug_enter, SetStmt.write_header (string_tolower node_name)]
              ++ set_args ++ [SetStmt.write_close, SetStmt.return_arg_node])
        ∧ gen_serialize_helper_c_case attrtype_names node_name node
          = some ([MakeStmt.alloc (string_toupper node_name)] ++ make_body)
        ∧ set_args.filterMap SetStmt.slot = slots_spec attrtype_names node_name node
        ∧ make_body.filterMap MakeStmt.va_slot = slots_spec attrtype_names node_name node := by
  obtain ⟨sout, hs1, hs2⟩ := set_attrib_loop attrtype_names (string_toupper node_name)
    (node_attribs node) hreg
  obtain ⟨mout, hm1, hm2⟩ := make_attrib_loop attrtype_names (string_toupper node_name)
    (node_attribs node) hreg
  unfold node_attribs at hs1 hm1
  refine ⟨sout
      ++ (node_sons node).flatMap
          (gen_serialize_node_c_son node_name (string_toupper node_name))
      ++ (node_flags node).map (gen_serialize_node_c_flag (string_toupper node_name)),
    (if (node_sons node).length ≠ 0 then
        [MakeStmt.set_sons (string_tolower node_name) (string_toupper node_name)] else [])
      ++ (if (node_flags node).length ≠ 0 ∨ (node_attribs node).length ≠ 0 then
        [MakeStmt.set_attribs (string_tolower node_name) (string_toupper node_name)] else [])
      ++ mout
      ++ (node_sons node).map
          (fun e => MakeStmt.son_va_arg (string_toupper node_name) (string_toupper e.1))
      ++ (node_flags node).map
          (fun e => MakeStmt.flag_va_arg (string_toupper node_name) (string_toupper e.1))
      ++ [MakeStmt.break_], ?_, ?_, ?_, ?_⟩
  · unfold gen_serialize_node_c_body
    simp only [hs1]
    simp [node_sons, node_flags]
  · unfold gen_serialize_helper_c_case
    simp only [hm1]
    simp [node_sons, node_flags, node_attribs]
  · simp only [List.filterMap_append, hs2, set_son_loop_slots, slots_spec]
    congr 1
    simp [List.filterMap_map, gen_serialize_node_c_flag, Function.comp_def, SetStmt.slot,
      filterMap_some_fun]
  · simp only [List.filterMap_append, hm2, slots_spec]
    have e1 : (if (node_sons node).length ≠ 0 then
        [MakeStmt.set_sons (string_tolower node_name) (string_toupper node_name)]
        else []).filterMap MakeStmt.va_slot = [] := by split <;> rfl
    have e2 : (if (node_flags node).length ≠ 0 ∨ (node_attribs node).length ≠ 0 then
        [MakeStmt.set_attribs (string_tolower node_name) (string_toupper node_name)]
        else []).filterMap MakeStmt.va_slot = [] := by split <;> rfl
    rw [e1, e2]
    simp [List.filterMap_map, Function.comp_def, MakeStmt.va_slot, filterMap_some_fun]

theorem gen_serialize_slots_agree_witness :
    attribs_registered ex_attrtype_names ex_fundef
      ∧ ∃ set_args make_body,
        gen_serialize_node_c_body ex_attrtype_names "Fundef" ex_fundef
            = some ([SetStmt.dbug_enter, SetStmt.write_header (string_tolower "Fundef")]
                ++ set_args ++ [SetStmt.write_close, SetStmt.return_arg_node])
          ∧ gen_serialize_helper_c_case ex_attrtype_names "Fundef" ex_fundef
            = some ([MakeStmt.alloc (string_toupper "Fundef")] ++ make_body)
          ∧ set_args.filterMap SetStmt.slot = slots_spec ex_attrtype_names "Fundef" ex_fundef
          ∧ make_body.filterMap MakeStmt.va_slot
              = slots_spec ex_attrtype_names "Fundef" ex_fundef :=
  ⟨by decide, gen_serialize_slots_agree ex_attrtype_names "Fundef" ex_fundef (by decide)⟩

/-! ## The slot numbers of link attributes -/

theorem attribs_typed_of_registered (attrtype_names : List attrtype_name) (node : yajl_val)
    (h : attribs_registered attrtype_names node) : attribs_typed node := by
  intro e he
  have h1 := h e he
  unfold attrib_atn at h1
  cases ht : attrib_type_name e.2 with
  | none => simp [ht] at h1
  | some t => rfl

theorem sel_links_loop (node_name_upper : String) (attribs : List (String × yajl_val))
    (htyped : ∀ e ∈ attribs, (attrib_type_name e.2).isSome = true) (pos : Nat) :
    (gen_serialize_link_c_links node_name_upper pos attribs).map
        (List.filterMap SelStmt.link_slot)
      = some (link_slots_spec node_name_upper pos attribs) := by
  induction attribs generalizing pos with
  | nil => rfl
  | cons e rest ih =>
    have hrest : ∀ b ∈ rest, (attrib_type_name b.2).isSome = true :=
      fun b hb => htyped b (List.mem_cons_of_mem _ hb)
    have he := htyped e (List.mem_cons_self _ _)
    cases ht : attrib_type_name e.2 with
    | none => simp [ht] at he
    | some t =>
      simp only [gen_serialize_link_c_links, ht]
      by_cases hl : t ≠ "Link" ∧ t ≠ "CodeLink"
      · rw [if_pos hl, ih hrest pos]
        have : is_link_attrib e = false := by
          simp [is_link_attrib, ht, hl.1, hl.2]
        simp [link_slots_spec, List.filter_cons, this]
      · rw [if_neg hl]
        have h1 := ih hrest (pos + 1)
        cases hg : gen_serialize_link_c_links node_name_upper (pos + 1) rest with
        | none => simp [hg] at h1
        | some out =>
          simp only [hg, Option.map_some', Option.some.injEq] at h1 ⊢
          have : is_link_attrib e = true := by
            simp only [is_link_attrib, ht, Option.some.injEq, decide_eq_true_eq]
            by_contra hc
            exact hl ⟨fun h => hc (Or.inl h), fun h => hc (Or.inr h)⟩
          simp [h1, link_slots_spec, List.filter_cons, this, SelStmt.link_slot,
            List.enumFrom_cons]

theorem fix_attribs_loop (node_name_upper : String) (attribs : List (String × yajl_val))
    (htyped : ∀ e ∈ attribs, (attrib_type_name e.2).isSome = true) (pos : Nat) :
    (gen_serialize_helper_c_fixattribs node_name_upper pos attribs).map
        (List.filterMap FixStmt.link_slot)
      = some (link_slots_spec node_name_upper pos attribs) := by
  induction attribs generalizing pos with
  | nil => rfl
  | cons e rest ih =>
    have hrest : ∀ b ∈ rest, (attrib_type_name b.2).isSome = true :=
      fun b hb => htyped b (List.mem_cons_of_mem _ hb)
    have he := htyped e (List.mem_cons_self _ _)
    cases ht : attrib_type_name e.2 with
    | none => simp [ht] at he
    | some t =>
      have hdc : ∀ (c : Prop) [Decidable c],
          (if c then [FixStmt.default_close] else []).filterMap FixStmt.link_slot = [] := by
        intro c _; split <;> rfl
      have hsw : ∀ (c : Prop) [Decidable c],
          (if c then [FixStmt.switch_no] else []).filterMap FixStmt.link_slot = [] := by
        intro c _; split <;> rfl
      simp only [gen_serialize_helper_c_fixattribs, ht]
      by_cases hl : t = "Link" ∨ t = "CodeLink"
      · have h1 := ih hrest (pos + 1)
        have hlink : is_link_attrib e = true := by
          simp [is_link_attrib, ht, hl]
        simp only [hl, decide_True, if_true]
        cases hg : gen_serialize_helper_c_fixattribs node_name_upper (pos + 1) rest with
        | none => simp [hg] at h1
        | some out =>
          simp only [hg, Option.map_some', Option.some.injEq] at h1 ⊢
          simp only [List.filterMap_append, hdc, hsw, h1]
          simp [link_slots_spec, List.filter_cons, hlink, FixStmt.link_slot,
            List.enumFrom_cons]
      · have h1 := ih hrest pos
        have hlink : is_link_attrib e = false := by
          simp [is_link_attrib, ht, hl]
        simp only [hl, decide_False, if_false, Bool.false_eq_true]
        cases hg : gen_serialize_helper_c_fixattribs node_name_upper pos rest with
        | none => simp [hg] at h1
        | some out =>
          simp only [hg, Option.map_some', Option.some.injEq] at h1 ⊢
          simp only [List.filterMap_append, hdc, h1]
          simp [link_slots_spec, List.filter_cons, hlink]

/-- C3: for every node type whose attributes carry a type string, the slot numbers
`gen_serialize_link_c` writes into the `SHLPfixLink` records of `SEL<node>` and the
case labels under which the `SHLPfixLink` of `gen_serialize_helper_c` assigns the
attributes are the same list of (number, field) pairs, and that list numbers the
`Link`/`CodeLink` attributes of the node type in declaration order from 1. -/
theorem gen_serialize_link_slots_agree (node_name : String) (node : yajl_val)
    (htyped : attribs_typed node) :
    ∃ sel_body fix_body,
      gen_serialize_link_c_body node_name node = some sel_body
        ∧ gen_serialize_helper_c_fixcase node_name node = some fix_body
        ∧ sel_body.filterMap SelStmt.link_slot
            = link_slots_spec (string_toupper node_name) 1 (node_attribs node)
        ∧ fix_body.filterMap FixStmt.link_slot
            = link_slots_spec (string_toupper node_name) 1 (node_attribs node) := by
  have hs := sel_links_loop (string_toupper node_name) (node_attribs node) htyped 1
  have hf := fix_attribs_loop (string_toupper node_name) (node_attribs node) htyped 1
  have hn : ∀ e ∈ node_attribs node,
      gen_serialize_link_c_nodeattr (string_toupper node_name) e
        = some (if attrib_type_name e.2 = some "Node"
            then [SelStmt.descend_attr (string_toupper node_name) (string_toupper e.1)]
            else []) := by
    intro e he
    have h1 := htyped e he
    unfold gen_serialize_link_c_nodeattr
    cases ht : attrib_type_name e.2 with
    | none => simp [ht] at h1
    | some t =>
      by_cases hN : t = "Node" <;> simp [hN]
  have hloop := emit_loop_eq_flatMap _ _ _ hn
  cases hs1 : gen_serialize_link_c_links (string_toupper node_name) 1 (node_attribs node) with
  | none => simp [hs1] at hs
  | some sout =>
  cases hf1 : gen_serialize_helper_c_fixattribs (string_toupper node_name) 1
      (node_attribs node) with
  | none => simp [hf1] at hf
  | some fout =>
  simp only [hs1, hf1, Option.map_some', Option.some.injEq] at hs hf
  unfold node_attribs at hs1 hf1 hloop
  refine ⟨[SelStmt.dbug_enter] ++ sout
      ++ (node_sons node).flatMap
          (gen_serialize_link_c_son node_name (string_toupper node_name))
      ++ (node_attribs node).flatMap (fun e =>
          if attrib_type_name e.2 = some "Node"
            then [SelStmt.descend_attr (string_toupper node_name) (string_toupper e.1)]
            else [])
      ++ [SelStmt.return_arg_node], fout ++ [FixStmt.break_], ?_, ?_, ?_, ?_⟩
  · unfold gen_serialize_link_c_body
    simp only [hs1, hloop]
    rfl
  · unfold gen_serialize_helper_c_fixcase
    simp only [hf1]
  · simp only [List.filterMap_append, hs]
    have e1 : ((node_sons node).flatMap
        (gen_serialize_link_c_son node_name (string_toupper node_name))).filterMap
          SelStmt.link_slot = [] := by
      rw [List.filterMap_flatMap]
      simp only [List.flatMap_eq_nil_iff]
      intro e _
      unfold gen_serialize_link_c_son
      split
      · rfl
      · split
        · rfl
        · split <;> rfl
    have e2 : ((node_attribs node).flatMap (fun e =>
          if attrib_type_name e.2 = some "Node"
            then [SelStmt.descend_attr (string_toupper node_name) (string_toupper e.1)]
            else [])).filterMap SelStmt.link_slot = [] := by
      rw [List.filterMap_flatMap]
      simp only [List.flatMap_eq_nil_iff]
      intro e _
      split <;> rfl
    rw [e1, e2]
    simp [SelStmt.link_slot]
  · simp only [List.filterMap_append, hf]
    simp [FixStmt.link_slot]

theorem gen_serialize_link_slots_agree_witness :
    attribs_typed ex_id
      ∧ ∃ sel_body fix_body,
        gen_serialize_link_c_body "Id" ex_id = some sel_body
          ∧ gen_serialize_helper_c_fixcase "Id" ex_id = some fix_body
          ∧ sel_body.filterMap SelStmt.link_slot
              = link_slots_spec (string_toupper "Id") 1 (node_attribs ex_id)
          ∧ fix_body.filterMap FixStmt.link_slot
              = link_slots_spec (string_toupper "Id") 1 (node_attribs ex_id) :=
  ⟨by decide, gen_serialize_link_slots_agree "Id" ex_id (by decide)⟩

/-! ## The sons the serialization does not descend into -/

theorem son_loops_suppression (node_name : String) (e : String × yajl_val) :
    (gen_serialize_buildstack_c_son node_name (string_toupper node_name) e = []
        ↔ (node_name, e.1) ∈ suppressed_sons)
      ∧ (gen_serialize_link_c_son node_name (string_toupper node_name) e = []
        ↔ (node_name, e.1) ∈ suppressed_sons)
      ∧ (gen_serialize_node_c_son node_name (string_toupper node_name) e
          = [SetStmt.write_null (string_toupper node_name) (string_toupper e.1)]
        ↔ (node_name, e.1) ∈ suppressed_sons)
      ∧ ((node_name, e.1) ∉ suppressed_sons →
          gen_serialize_buildstack_c_son node_name (string_toupper node_name) e
            = [SbtStmt.descend_son (string_toupper node_name) (string_toupper e.1)]
          ∧ gen_serialize_link_c_son node_name (string_toupper node_name) e
            = [SelStmt.descend_son (string_toupper node_name) (string_toupper e.1)]
          ∧ gen_serialize_node_c_son node_name (string_toupper node_name) e
            = [SetStmt.son_or_null (string_toupper node_name) (string_toupper e.1)]) := by
  have hmem : (node_name, e.1) ∈ suppressed_sons
      ↔ (node_name = "Fundef" ∧ e.1 = "Next") ∨ (node_name = "Fundef" ∧ e.1 = "Body")
        ∨ (node_name = "Typedef" ∧ e.1 = "Next") ∨ (node_name = "Objdef" ∧ e.1 = "Next") := by
    simp [suppressed_sons]
  rw [hmem]
  unfold gen_serialize_buildstack_c_son gen_serialize_link_c_son gen_serialize_node_c_son
  by_cases hF : node_name = "Fundef" <;> by_cases hT : node_name = "Typedef"
    <;> by_cases hO : node_name = "Objdef" <;> by_cases hN : e.1 = "Next"
    <;> by_cases hB : e.1 = "Body"
    <;> simp_all

/-- C10: for every node name and every son name the three son loops agree: the
iteration of `gen_serialize_buildstack_c` writes nothing (the son is skipped by
`SBT<node>`) iff the iteration of `gen_serialize_link_c` writes nothing (skipped by
`SEL<node>`) iff the iteration of `gen_serialize_node_c` writes the unconditional
`NULL`; and this happens exactly for the pairs `Fundef.Next`, `Fundef.Body`,
`Typedef.Next` and `Objdef.Next`.  In every other case each loop writes its
null-tested descent into the son. -/
theorem gen_serialize_suppression_agrees (node_name : String) (e : String × yajl_val) :
    (gen_serialize_buildstack_c_son node_name (string_toupper node_name) e = []
        ↔ (node_name, e.1) ∈ suppressed_sons)
      ∧ (gen_serialize_link_c_son node_name (string_toupper node_name) e = []
        ↔ (node_name, e.1) ∈ suppressed_sons)
      ∧ (gen_serialize_node_c_son node_name (string_toupper node_name) e
          = [SetStmt.write_null (string_toupper node_name) (string_toupper e.1)]
        ↔ (node_name, e.1) ∈ suppressed_sons)
      ∧ ((node_name, e.1) ∉ suppressed_sons →
          gen_serialize_buildstack_c_son node_name (string_toupper node_name) e
            = [SbtStmt.descend_son (string_toupper node_name) (string_toupper e.1)]
          ∧ gen_serialize_link_c_son node_name (string_toupper node_name) e
            = [SelStmt.descend_son (string_toupper node_name) (string_toupper e.1)]
          ∧ gen_serialize_node_c_son node_name (string_toupper node_name) e
            = [SetStmt.son_or_null (string_toupper node_name) (string_toupper e.1)]) :=
  son_loops_suppression node_name e


/-! ## Running `FREE<node>` on a `Next` chain -/

theorem FREE_run_cons_step
    (ext : String → attr_value → Nat → FreeState → attr_value × FreeState)
    (call : Nat → FreeState → Option (Option Nat × FreeState)) (flag : Option Nat)
    (st : FreeStmt) (rest : List FreeStmt) (l : FreeLocals) (s : FreeState)
    (h : st.is_return = false) :
    FREE_run ext call flag (st :: rest) l s
      = match FREE_step ext call flag st l s with
        | none => none
        | some (l1, s1) => FREE_run ext call flag rest l1 s1 := by
  cases st <;> first | rfl | (simp [FreeStmt.is_return] at h)

theorem FREE_run_append
    (ext : String → attr_value → Nat → FreeState → attr_value × FreeState)
    (call : Nat → FreeState → Option (Option Nat × FreeState)) (flag : Option Nat)
    (l1 l2 : List FreeStmt) (l : FreeLocals) (s : FreeState)
    (h : ∀ st ∈ l1, st.is_return = false) :
    FREE_run ext call flag (l1 ++ l2) l s
      = match FREE_steps ext call flag l1 l s with
        | none => none
        | some (l', s') => FREE_run ext call flag l2 l' s' := by
  induction l1 generalizing l s with
  | nil => rfl
  | cons st rest ih =>
    rw [List.cons_append, FREE_run_cons_step _ _ _ _ _ _ _ (h st (List.mem_cons_self _ _))]
    simp only [FREE_steps]
    cases hs : FREE_step ext call flag st l s with
    | none => rfl
    | some p =>
      obtain ⟨l1', s1'⟩ := p
      simp only
      exact ih l1' s1' (fun x hx => h x (List.mem_cons_of_mem _ hx))

theorem FREE_steps_append
    (ext : String → attr_value → Nat → FreeState → attr_value × FreeState)
    (call : Nat → FreeState → Option (Option Nat × FreeState)) (flag : Option Nat)
    (l1 l2 : List FreeStmt) (l : FreeLocals) (s : FreeState) :
    FREE_steps ext call flag (l1 ++ l2) l s
      = match FREE_steps ext call flag l1 l s with
        | none => none
        | some (l', s') => FREE_steps ext call flag l2 l' s' := by
  induction l1 generalizing l s with
  | nil => rfl
  | cons st rest ih =>
    simp only [List.cons_append, FREE_steps]
    cases hs : FREE_step ext call flag st l s with
    | none => rfl
    | some p =>
      obtain ⟨l1', s1'⟩ := p
      simp only
      exact ih l1' s1'

theorem list_set_self {α : Type} (l : List α) (i : Nat) (a : α) (h : l[i]? = some a) :
    l.set i a = l := by
  induction l generalizing i with
  | nil => rfl
  | cons b rest ih =>
    cases i with
    | zero =>
      simp only [List.getElem?_cons_zero, Option.some.injEq] at h
      simp [h]
    | succ j =>
      simp only [List.getElem?_cons_succ] at h
      simp [ih j h]

theorem field_set_same {α : Type} (fields : List ((String × String) × α))
    (key : String × String) (v : α) (h : ∀ kv ∈ fields, kv.1 = key → kv.2 = v) :
    field_set fields key v = fields := by
  unfold field_set
  induction fields with
  | nil => rfl
  | cons kv rest ih =>
    rw [List.map_cons, ih (fun x hx => h x (List.mem_cons_of_mem _ hx))]
    by_cases hk : kv.1 = key
    · have := h kv (List.mem_cons_self _ _) hk
      rw [if_pos hk, ← this]
    · simp [hk]

theorem field_get_map {α β : Type} (l : List β) (k : β → String × String) (v : β → α)
    (key : String × String) (x : α) (hex : ∃ e ∈ l, k e = key)
    (hv : ∀ e ∈ l, k e = key → v e = x) :
    field_get (l.map (fun e => (k e, v e))) key = some x := by
  unfold field_get
  induction l with
  | nil => obtain ⟨e, he, _⟩ := hex; cases he
  | cons e rest ih =>
    rw [List.map_cons, List.find?_cons]
    by_cases hk : k e = key
    · simp [hk, hv e (List.mem_cons_self _ _) hk]
    · have hne : ((k e, v e).1 == key) = false := by simpa using hk
      simp only [hne]
      apply ih
      · obtain ⟨e', he', hk'⟩ := hex
        rcases List.mem_cons.1 he' with rfl | h'
        · exact absurd hk' hk
        · exact ⟨e', h', hk'⟩
      · exact fun e' he' => hv e' (List.mem_cons_of_mem _ he')

theorem chain_node_next_get (node_name : String) (node : yajl_val) (x : Option Nat)
    (hhas : has_son node "Next" = true) :
    field_get (chain_node node_name node x).sons (string_toupper node_name, "NEXT")
      = some x := by
  unfold chain_node
  apply field_get_map
  · unfold has_son at hhas
    rw [List.any_eq_true] at hhas
    obtain ⟨e, he, hk⟩ := hhas
    have hk2 : e.1 = "Next" := by simpa using hk
    refine ⟨e, he, ?_⟩
    have hu : string_toupper "Next" = "NEXT" := by decide
    rw [hk2, hu]
  · intro e _ hk
    have : string_toupper e.1 = "NEXT" := (Prod.mk.inj hk).2
    simp [this]

theorem chain_node_next_set (node_name : String) (node : yajl_val) (x r : Option Nat) :
    field_set (chain_node node_name node x).sons (string_toupper node_name, "NEXT") r
      = (chain_node node_name node r).sons := by
  unfold chain_node field_set
  simp only [List.map_map]
  apply List.map_congr_left
  intro e _
  by_cases hk : string_toupper e.1 = "NEXT"
  · simp [hk]
  · simp [hk]

theorem heap_set_son_chain (heap : List node_inst) (a : Nat) (node_name : String)
    (node : yajl_val) (x r : Option Nat)
    (ha : heap[a]? = some (chain_node node_name node x)) :
    heap_set_son heap a (string_toupper node_name, "NEXT") r
      = heap.set a (chain_node node_name node r) := by
  unfold heap_set_son
  simp only [ha]
  rw [chain_node_next_set]
  rfl

theorem chain_attribs_phase
    (ext : String → attr_value → Nat → FreeState → attr_value × FreeState)
    (call : Nat → FreeState → Option (Option Nat × FreeState)) (flag : Option Nat)
    (attrtype_names : List attrtype_name) (node_name : String) (node : yajl_val)
    (hext : ∀ T a s, ext T (attr_value.ptr none) a s = (attr_value.ptr none, s))
    (x : Option Nat) (a : Nat) (res : Option Nat) (s : FreeState)
    (ha : s.heap[a]? = some (chain_node node_name node x))
    (attribs : List (String × yajl_val)) (hsub : ∀ e ∈ attribs, e ∈ node_attribs node) :
    FREE_steps ext call flag
        (FREE_spec_attribs attrtype_names [] (string_toupper node_name) attribs)
        (FreeLocals.mk (some a) res) s
      = some (FreeLocals.mk (some a) res, s) := by
  induction attribs with
  | nil => rfl
  | cons e rest ih =>
    have ihr := ih (fun b hb => hsub b (List.mem_cons_of_mem _ hb))
    unfold FREE_spec_attribs at ihr ⊢
    rw [List.flatMap_cons, FREE_steps_append]
    have hhead : FREE_steps ext call flag
        (FREE_spec_attrib attrtype_names [] (string_toupper node_name) e)
        (FreeLocals.mk (some a) res) s = some (FreeLocals.mk (some a) res, s) := by
      unfold FREE_spec_attrib
      cases attrib_atn attrtype_names e.2 with
      | none => rfl
      | some atn =>
        simp only
        split
        · have hget : heap_get_attrib s.heap a (string_toupper node_name, string_toupper e.1)
              = some (attr_value.ptr none) := by
            unfold heap_get_attrib
            simp only [ha]
            unfold chain_node
            apply field_get_map
            · exact ⟨e, hsub e (List.mem_cons_self _ _), rfl⟩
            · intros; rfl
          have hset : heap_set_attrib s.heap a (string_toupper node_name, string_toupper e.1)
              (attr_value.ptr none) = s.heap := by
            unfold heap_set_attrib
            simp only [ha]
            rw [field_set_same]
            · exact list_set_self _ _ _ ha
            · intro kv hkv _
              unfold chain_node at hkv
              simp only [List.mem_map] at hkv
              obtain ⟨_, _, rfl⟩ := hkv
              rfl
          simp only [FREE_steps, FREE_step, hget, hext, hset]
        · rfl
    rw [hhead]
    exact ihr

theorem chain_sons_phase
    (ext : String → attr_value → Nat → FreeState → attr_value × FreeState)
    (call : Nat → FreeState → Option (Option Nat × FreeState)) (flag : Option Nat)
    (node_name : String) (node : yajl_val) (huniq : next_accessor_unique node)
    (x : Option Nat) (a : Nat) (res : Option Nat) (s : FreeState)
    (ha : s.heap[a]? = some (chain_node node_name node x))
    (sons : List (String × yajl_val)) (hsub : ∀ e ∈ sons, e ∈ node_sons node) :
    FREE_steps ext call flag (FREE_spec_sons (string_toupper node_name) sons)
        (FreeLocals.mk (some a) res) s
      = some (FreeLocals.mk (some a) res, s) := by
  induction sons with
  | nil => rfl
  | cons e rest ih =>
    have ihr := ih (fun b hb => hsub b (List.mem_cons_of_mem _ hb))
    unfold FREE_spec_sons at ihr ⊢
    by_cases hN : e.1 = "Next"
    · simpa [List.filter_cons, hN] using ihr
    · have hmem := hsub e (List.mem_cons_self _ _)
      have hup : string_toupper e.1 ≠ "NEXT" := fun h => hN (huniq e hmem h)
      have hget : heap_get_son s.heap a (string_toupper node_name, string_toupper e.1)
          = some none := by
        unfold heap_get_son
        simp only [ha]
        unfold chain_node
        apply field_get_map
        · exact ⟨e, hmem, rfl⟩
        · intro e' _ hk
          have : string_toupper e'.1 = string_toupper e.1 := (Prod.mk.inj hk).2
          simp [this, hup]
      have hset : heap_set_son s.heap a (string_toupper node_name, string_toupper e.1) none
          = s.heap := by
        unfold heap_set_son
        simp only [ha]
        rw [field_set_same]
        · exact list_set_self _ _ _ ha
        · intro kv hkv hk
          unfold chain_node at hkv
          simp only [List.mem_map] at hkv
          obtain ⟨e', _, rfl⟩ := hkv
          have : string_toupper e'.1 = string_toupper e.1 := (Prod.mk.inj hk).2
          simp [this, hup]
      simp only [List.filter_cons, hN, ne_eq, not_false_eq_true, decide_True, if_true,
        List.map_cons, FREE_steps, FREE_step, hget, FREETRAV, hset]
      exact ihr


/-- The run of the body of `FREE<node>` on a chain node, given what the guarded
destroy of its `Next` tail yields. -/
theorem FREE_run_chain_node
    (ext : String → attr_value → Nat → FreeState → attr_value × FreeState)
    (call : Nat → FreeState → Option (Option Nat × FreeState)) (flag : Option Nat)
    (attrtype_names : List attrtype_name) (node_name : String) (node : yajl_val)
    (huniq : next_accessor_unique node) (hhas : has_son node "Next" = true)
    (hext : ∀ T a s, ext T (attr_value.ptr none) a s = (attr_value.ptr none, s))
    (a : Nat) (x r : Option Nat) (s s1 : FreeState)
    (ha : s.heap[a]? = some (chain_node node_name node x))
    (hcond : FREECOND call flag (some a) x s = some (r, s1))
    (ha1 : s1.heap[a]? = some (chain_node node_name node x)) :
    FREE_run ext call flag (FREE_spec attrtype_names node_name node)
        (FreeLocals.mk (some a) none) s
      = some (r, FreeState.mk (s1.heap.set a (chain_node node_name node r))
          (a :: s1.freed) s1.zombies) := by
  have hlt : a < s1.heap.length := by
    rcases Nat.lt_or_ge a s1.heap.length with h | h
    · exact h
    · rw [List.getElem?_eq_none h] at ha1
      cases ha1
  have herr : heap_set_error s.heap a none = s.heap := by
    unfold heap_set_error
    simp only [ha]
    exact list_set_self _ _ _ ha
  have hget : heap_get_son s.heap a (string_toupper node_name, "NEXT") = some x := by
    unfold heap_get_son
    simp only [ha]
    exact chain_node_next_get node_name node x hhas
  have hs : FreeState.mk s.heap s.freed s.zombies = s := rfl
  have ha2 : (FreeState.mk (s1.heap.set a (chain_node node_name node r)) s1.freed
      s1.zombies).heap[a]? = some (chain_node node_name node r) := by
    simp [List.getElem?_set, hlt]
  have hget2 : heap_get_son (s1.heap.set a (chain_node node_name node r)) a
      (string_toupper node_name, "NEXT") = some r := by
    unfold heap_get_son
    simp only [List.getElem?_set, hlt, if_true]
    exact chain_node_next_get node_name node r hhas
  unfold FREE_spec
  simp only [hhas, if_true, List.append_assoc]
  rw [FREE_run_append _ _ _ _ _ _ _ (by decide)]
  have h1 : FREE_steps ext call flag
      [FreeStmt.dbug_enter, FreeStmt.decl_result, FreeStmt.freetrav_error]
      (FreeLocals.mk (some a) none) s = some (FreeLocals.mk (some a) none, s) := by
    simp only [FREE_steps, FREE_step, ha, chain_node, FREETRAV]
    have := herr
    simp only [chain_node] at this
    simp only [this]
  rw [h1]
  simp only
  rw [FREE_run_append _ _ _ _ _ _ _ (by
    intro st hst
    rw [List.mem_singleton] at hst
    subst hst
    rfl)]
  have h2 : FREE_steps ext call flag [FreeStmt.freecond_next (string_toupper node_name)]
      (FreeLocals.mk (some a) none) s
      = some (FreeLocals.mk (some a) none,
          FreeState.mk (s1.heap.set a (chain_node node_name node r)) s1.freed s1.zombies) := by
    simp only [FREE_steps, FREE_step, hget, hcond,
      heap_set_son_chain s1.heap a node_name node x r ha1]
  rw [h2]
  simp only
  rw [FREE_run_append _ _ _ _ _ _ _ (by
    intro st hst
    unfold FREE_spec_attribs at hst
    rw [List.mem_flatMap] at hst
    obtain ⟨e, _, he⟩ := hst
    unfold FREE_spec_attrib at he
    split at he
    · cases he
    · split at he
      · rw [List.mem_singleton] at he
        subst he
        rfl
      · cases he)]
  rw [chain_attribs_phase ext call flag attrtype_names node_name node hext r a none _ ha2
    (node_attribs node) (fun e he => he)]
  simp only
  rw [FREE_run_append _ _ _ _ _ _ _ (by
    intro st hst
    unfold FREE_spec_sons at hst
    rw [List.mem_map] at hst
    obtain ⟨e, _, he⟩ := hst
    subst he
    rfl)]
  rw [chain_sons_phase ext call flag node_name node huniq r a none _ ha2
    (node_sons node) (fun e he => he)]
  simp only [List.singleton_append, FREE_run, FREE_step, hget2]

/-- The destroy walk along a chain: started at node `k` with the nodes from `k` on
intact, it releases the nodes `k .. stop`, where `stop` is the node the stop marker
names (or the last node), leaves every other node as it was and returns the
`Next` of node `stop`. -/
theorem FREE_chain
    (ext : String → attr_value → Nat → FreeState → attr_value × FreeState)
    (attrtype_names : List attrtype_name) (funs : List (String × List FreeStmt))
    (node_name : String) (node : yajl_val) (n : Nat) (flag : Option Nat) (stop : Nat)
    (hname : node_name ≠ "Fundef") (hreg : attribs_registered attrtype_names node)
    (hobj : next_son_is_object node) (huniq : next_accessor_unique node)
    (hhas : has_son node "Next" = true)
    (hfun : funs.lookup ("FREE" ++ string_tolower node_name)
      = gen_free_node_c_body attrtype_names node_name node)
    (hext : ∀ T a s, ext T (attr_value.ptr none) a s = (attr_value.ptr none, s))
    (hstop : stop < n) (hlast : flag = some stop ∨ stop + 1 = n) :
    ∀ d k, k + d = stop → (∀ i, k ≤ i → i < stop → flag ≠ some i) →
      ∀ s : FreeState,
        (∀ i, k ≤ i → i < n →
          s.heap[i]? = some (chain_node node_name node (chain_next n i))) →
        ∀ fuel, d + 1 ≤ fuel →
          ∃ heap1, FREE_call ext funs fuel flag k s
              = some (chain_next n stop,
                  FreeState.mk heap1 (List.range' k (d + 1) ++ s.freed) s.zombies)
            ∧ (∀ i, (i < k ∨ stop < i) → heap1[i]? = s.heap[i]?)
            ∧ heap1.length = s.heap.length := by
  have hbody := gen_free_node_c_body_spec attrtype_names node_name node hname hreg hobj
  rw [hbody] at hfun
  intro d
  induction d with
  | zero =>
    intro k hk _ s hs fuel hfuel
    have hk2 : k = stop := by omega
    subst hk2
    obtain ⟨f, rfl⟩ : ∃ f, fuel = f + 1 := ⟨fuel - 1, by omega⟩
    have ha := hs k (le_refl _) hstop
    have hcond : FREECOND (FREE_call ext funs f flag) flag (some k) (chain_next n k) s
        = some (chain_next n k, s) := by
      unfold FREECOND
      by_cases hf : flag ≠ some k
      · rw [if_pos hf]
        rcases hlast with h | h
        · exact absurd h hf
        · have : chain_next n k = none := by
            unfold chain_next
            simp [h]
          rw [this]
          rfl
      · rw [if_neg hf]
    refine ⟨s.heap.set k (chain_node node_name node (chain_next n k)), ?_, ?_, ?_⟩
    · simp only [FREE_call, ha, chain_node]
      have hfun2 := hfun
      simp only [hfun2]
      have := FREE_run_chain_node ext (FREE_call ext funs f flag) flag attrtype_names
        node_name node huniq hhas hext k (chain_next n k) (chain_next n k) s s ha hcond ha
      simp only [chain_node] at this
      rw [this]
      simp [List.range']
    · intro i hi
      rw [list_set_self _ _ _ ha]
    · simp
  | succ d ih =>
    intro k hk hflag s hs fuel hfuel
    obtain ⟨f, rfl⟩ : ∃ f, fuel = f + 1 := ⟨fuel - 1, by omega⟩
    have hklt : k < stop := by omega
    have ha := hs k (le_refl _) (by omega)
    have hx : chain_next n k = some (k + 1) := by
      unfold chain_next
      have : k + 1 < n := by omega
      simp [this]
    obtain ⟨heap1, hcall, hframe, hlen⟩ := ih (k + 1) (by omega)
      (fun i hi1 hi2 => hflag i (by omega) hi2) s
      (fun i hi1 hi2 => hs i (by omega) hi2) f (by omega)
    have hcond : FREECOND (FREE_call ext funs f flag) flag (some k) (chain_next n k) s
        = some (chain_next n stop,
            FreeState.mk heap1 (List.range' (k + 1) (d + 1) ++ s.freed) s.zombies) := by
      unfold FREECOND
      rw [if_pos (hflag k (le_refl _) hklt), hx]
      exact hcall
    have ha1 : (FreeState.mk heap1 (List.range' (k + 1) (d + 1) ++ s.freed)
        s.zombies).heap[k]? = some (chain_node node_name node (chain_next n k)) := by
      show heap1[k]? = _
      rw [hframe k (Or.inl (by omega))]
      exact ha
    refine ⟨heap1.set k (chain_node node_name node (chain_next n stop)), ?_, ?_, ?_⟩
    · simp only [FREE_call, ha, chain_node]
      have hfun2 := hfun
      simp only [hfun2]
      have := FREE_run_chain_node ext (FREE_call ext funs f flag) flag attrtype_names
        node_name node huniq hhas hext k (chain_next n k) (chain_next n stop) s _ ha hcond ha1
      simp only [chain_node] at this
      rw [this]
      simp [List.range'_succ]
    · intro i hi
      have hne : k ≠ i := by omega
      rw [List.getElem?_set_ne hne]
      exact hframe i (by omega)
    · simp [hlen]

theorem chain_heap_getElem? (node_name : String) (node : yajl_val) (n i : Nat) (hi : i < n) :
    (chain_heap node_name node n)[i]? = some (chain_node node_name node (chain_next n i)) := by
  unfold chain_heap
  simp [List.getElem?_map, List.getElem?_range hi]

/-- C6: for every node type other than `Fundef` with a son `Next` and every
`n ≥ 1`, the generated destroy run with a null stop marker on the head of a chain of
`n` nodes returns (with any fuel of at least `n`), releases all `n` nodes, the tail
first, and returns null. -/
theorem FREE_chain_no_marker
    (ext : String → attr_value → Nat → FreeState → attr_value × FreeState)
    (attrtype_names : List attrtype_name) (funs : List (String × List FreeStmt))
    (node_name : String) (node : yajl_val) (n fuel : Nat)
    (hname : node_name ≠ "Fundef") (hreg : attribs_registered attrtype_names node)
    (hobj : next_son_is_object node) (huniq : next_accessor_unique node)
    (hhas : has_son node "Next" = true)
    (hfun : funs.lookup ("FREE" ++ string_tolower node_name)
      = gen_free_node_c_body attrtype_names node_name node)
    (hext : ∀ T a s, ext T (attr_value.ptr none) a s = (attr_value.ptr none, s))
    (hn : 1 ≤ n) (hfuel : n ≤ fuel) :
    ∃ heap1, FREE_call ext funs fuel none 0
        (FreeState.mk (chain_heap node_name node n) [] [])
      = some (none, FreeState.mk heap1 (List.range n) []) := by
  obtain ⟨heap1, h1, _, _⟩ := FREE_chain ext attrtype_names funs node_name node n none
    (n - 1) hname hreg hobj huniq hhas hfun hext (by omega) (Or.inr (by omega))
    (n - 1) 0 (by omega) (fun i _ _ => by simp)
    (FreeState.mk (chain_heap node_name node n) [] [])
    (fun i _ hi => chain_heap_getElem? node_name node n i hi) fuel (by omega)
  refine ⟨heap1, ?_⟩
  rw [h1]
  have h2 : chain_next n (n - 1) = none := by
    unfold chain_next
    have : ¬ (n - 1 + 1 < n) := by omega
    simp [this]
  have h3 : n - 1 + 1 = n := by omega
  simp [h2, h3, List.range_eq_range']

theorem FREE_chain_no_marker_witness :
    ∃ heap1, FREE_call ex_FREEattrib ex_FREE_funs 5 none 0
        (FreeState.mk (chain_heap "Arg" ex_arg 5) [] [])
      = some (none, FreeState.mk heap1 (List.range 5) []) :=
  FREE_chain_no_marker ex_FREEattrib ex_attrtype_names ex_FREE_funs "Arg" ex_arg 5 5
    (by decide) (by decide) (by decide) (by decide) (by decide) (by decide)
    (fun _ _ _ => rfl) (by decide) (by decide)

/-- C5, as amended: for every node type other than `Fundef` with a son `Next`, the
generated destroy run on the head of a chain of five nodes (at the indices 0 to 4)
with the stop marker on the third node (index 2) returns, releases exactly the
first three nodes (the marked node included), leaves the fourth and the fifth node
as they were and returns the fourth node (index 3). -/
theorem FREE_chain_marker
    (ext : String → attr_value → Nat → FreeState → attr_value × FreeState)
    (attrtype_names : List attrtype_name) (funs : List (String × List FreeStmt))
    (node_name : String) (node : yajl_val) (fuel : Nat)
    (hname : node_name ≠ "Fundef") (hreg : attribs_registered attrtype_names node)
    (hobj : next_son_is_object node) (huniq : next_accessor_unique node)
    (hhas : has_son node "Next" = true)
    (hfun : funs.lookup ("FREE" ++ string_tolower node_name)
      = gen_free_node_c_body attrtype_names node_name node)
    (hext : ∀ T a s, ext T (attr_value.ptr none) a s = (attr_value.ptr none, s))
    (hfuel : 3 ≤ fuel) :
    ∃ heap1, FREE_call ext funs fuel (some 2) 0
        (FreeState.mk (chain_heap node_name node 5) [] [])
      = some (some 3, FreeState.mk heap1 [0, 1, 2] [])
      ∧ heap1[3]? = (chain_heap node_name node 5)[3]?
      ∧ heap1[4]? = (chain_heap node_name node 5)[4]? := by
  obtain ⟨heap1, h1, h2, _⟩ := FREE_chain ext attrtype_names funs node_name node 5 (some 2)
    2 hname hreg hobj huniq hhas hfun hext (by omega) (Or.inl rfl)
    2 0 (by omega) (fun i _ hi => by
      intro h
      have := Option.some.inj h
      omega)
    (FreeState.mk (chain_heap node_name node 5) [] [])
    (fun i _ hi => chain_heap_getElem? node_name node 5 i hi) fuel (by omega)
  refine ⟨heap1, ?_, h2 3 (Or.inr (by omega)), h2 4 (Or.inr (by omega))⟩
  rw [h1]
  rfl

theorem FREE_chain_marker_witness :
    ∃ heap1, FREE_call ex_FREEattrib ex_FREE_funs 3 (some 2) 0
        (FreeState.mk (chain_heap "Arg" ex_arg 5) [] [])
      = some (some 3, FreeState.mk heap1 [0, 1, 2] [])
      ∧ heap1[3]? = (chain_heap "Arg" ex_arg 5)[3]?
      ∧ heap1[4]? = (chain_heap "Arg" ex_arg 5)[4]? :=
  FREE_chain_marker ex_FREEattrib ex_attrtype_names ex_FREE_funs "Arg" ex_arg 3
    (by decide) (by decide) (by decide) (by decide) (by decide) (by decide)
    (fun _ _ _ => rfl) (by decide)

/-- C5 as stated fails: on a chain of five `Arg` nodes with the stop marker on the
third node (index 2) the generated `FREEarg` releases the nodes at the indices 0, 1
and 2, the marked node included, and returns the fourth node (index 3); it is not
the case that exactly the first two nodes are released and the third returned. -/
theorem FREE_chain_marker_releases_marked :
    (FREE_call ex_FREEattrib ex_FREE_funs 5 (some 2) 0
        (FreeState.mk (chain_heap "Arg" ex_arg 5) [] [])).map (fun r => (r.1, r.2.freed))
      = some (some 3, [0, 1, 2])
    ∧ ¬ claimed_marker_outcome (FREE_call ex_FREEattrib ex_FREE_funs 5 (some 2) 0
        (FreeState.mk (chain_heap "Arg" ex_arg 5) [] [])) := by
  have h : (FREE_call ex_FREEattrib ex_FREE_funs 5 (some 2) 0
        (FreeState.mk (chain_heap "Arg" ex_arg 5) [] [])).map (fun r => (r.1, r.2.freed))
      = some (some 3, [0, 1, 2]) := by decide
  refine ⟨h, ?_⟩
  rintro ⟨s1, h1, _⟩
  rw [h1] at h
  simp at h

/-! ## The value `FREE<node>` returns -/

theorem FREE_step_keeps_locals
    (ext : String → attr_value → Nat → FreeState → attr_value × FreeState)
    (call : Nat → FreeState → Option (Option Nat × FreeState)) (flag : Option Nat)
    (st : FreeStmt) (l l1 : FreeLocals) (s s1 : FreeState)
    (hst : st.keeps_locals = true)
    (h : FREE_step ext call flag st l s = some (l1, s1)) : l1 = l := by
  cases st with
  | dbug_enter =>
    simp only [FREE_step, Option.some.injEq, Prod.mk.injEq] at h
    exact h.1.symm
  | zombify =>
    simp only [FREE_step] at h
    split at h
    · cases h
    · simp only [Option.some.injEq, Prod.mk.injEq] at h
      exact h.1.symm
  | decl_result => simp [FreeStmt.keeps_locals] at hst
  | freetrav_error =>
    simp only [FREE_step] at h
    split at h
    · cases h
    · split at h
      · cases h
      · split at h
        · cases h
        · simp only [Option.some.injEq, Prod.mk.injEq] at h
          exact h.1.symm
  | freecond_next NODE =>
    simp only [FREE_step] at h
    split at h
    · cases h
    · split at h
      · cases h
      · split at h
        · cases h
        · simp only [Option.some.injEq, Prod.mk.injEq] at h
          exact h.1.symm
  | freeattrib NODE ATTR T =>
    simp only [FREE_step] at h
    split at h
    · cases h
    · split at h
      · cases h
      · simp only [Option.some.injEq, Prod.mk.injEq] at h
        exact h.1.symm
  | freetrav_son NODE SON =>
    simp only [FREE_step] at h
    split at h
    · cases h
    · split at h
      · cases h
      · split at h
        · cases h
        · simp only [Option.some.injEq, Prod.mk.injEq] at h
          exact h.1.symm
  | result_next NODE => simp [FreeStmt.keeps_locals] at hst
  | memfree => simp [FreeStmt.keeps_locals] at hst
  | return_result =>
    simp only [FREE_step, Option.some.injEq, Prod.mk.injEq] at h
    exact h.1.symm
  | return_arg_node =>
    simp only [FREE_step, Option.some.injEq, Prod.mk.injEq] at h
    exact h.1.symm

theorem FREE_steps_keeps_locals
    (ext : String → attr_value → Nat → FreeState → attr_value × FreeState)
    (call : Nat → FreeState → Option (Option Nat × FreeState)) (flag : Option Nat)
    (sts : List FreeStmt) (l l1 : FreeLocals) (s s1 : FreeState)
    (hst : ∀ st ∈ sts, st.keeps_locals = true)
    (h : FREE_steps ext call flag sts l s = some (l1, s1)) : l1 = l := by
  induction sts generalizing l s with
  | nil =>
    simp only [FREE_steps, Option.some.injEq, Prod.mk.injEq] at h
    exact h.1.symm
  | cons st rest ih =>
    simp only [FREE_steps] at h
    cases hs : FREE_step ext call flag st l s with
    | none => simp [hs] at h
    | some p =>
      obtain ⟨l2, s2⟩ := p
      simp only [hs] at h
      have h2 := FREE_step_keeps_locals ext call flag st l l2 s s2
        (hst st (List.mem_cons_self _ _)) hs
      subst h2
      exact ih l2 s2 (fun x hx => hst x (List.mem_cons_of_mem _ hx)) h

theorem FREE_spec_attribs_keeps (attrtype_names : List attrtype_name) (kept : List String)
    (node_name_upper : String) (attribs : List (String × yajl_val)) :
    ∀ st ∈ FREE_spec_attribs attrtype_names kept node_name_upper attribs,
      st.keeps_locals = true ∧ st.is_return = false := by
  intro st hst
  unfold FREE_spec_attribs at hst
  rw [List.mem_flatMap] at hst
  obtain ⟨e, _, he⟩ := hst
  unfold FREE_spec_attrib at he
  split at he
  · cases he
  · split at he
    · rw [List.mem_singleton] at he
      subst he
      exact ⟨rfl, rfl⟩
    · cases he

theorem FREE_spec_sons_keeps (node_name_upper : String) (sons : List (String × yajl_val)) :
    ∀ st ∈ FREE_spec_sons node_name_upper sons,
      st.keeps_locals = true ∧ st.is_return = false := by
  intro st hst
  unfold FREE_spec_sons at hst
  rw [List.mem_map] at hst
  obtain ⟨e, _, he⟩ := hst
  subst he
  exact ⟨rfl, rfl⟩

/-- The value of a run of `FREE<node>` that returns, for a node type other than
`Fundef`: if the type has a son `Next`, the value the field `<NODE>_NEXT` of the node
holds after the run (the value stored by the guarded destroy of the tail, read back
just before the node is released), and null if the type has no son `Next`. -/
theorem FREE_returns_next_of_run
    (ext : String → attr_value → Nat → FreeState → attr_value × FreeState)
    (attrtype_names : List attrtype_name) (funs : List (String × List FreeStmt))
    (node_name : String) (node : yajl_val) (fuel : Nat) (flag : Option Nat) (a : Nat)
    (s s1 : FreeState) (r : Option Nat) (nd : node_inst)
    (hname : node_name ≠ "Fundef") (hreg : attribs_registered attrtype_names node)
    (hobj : next_son_is_object node)
    (hnd : s.heap[a]? = some nd) (htype : nd.nodetype = string_tolower node_name)
    (hfun : funs.lookup ("FREE" ++ string_tolower node_name)
      = gen_free_node_c_body attrtype_names node_name node)
    (hrun : FREE_call ext funs fuel flag a s = some (r, s1)) :
    (has_son node "Next" = true →
        heap_get_son s1.heap a (string_toupper node_name, "NEXT") = some r
          ∧ a ∈ s1.freed)
      ∧ (has_son node "Next" = false → r = none ∧ a ∈ s1.freed) := by
  rw [gen_free_node_c_body_spec attrtype_names node_name node hname hreg hobj] at hfun
  cases fuel with
  | zero => simp [FREE_call] at hrun
  | succ f =>
    simp only [FREE_call, hnd, htype, hfun] at hrun
    unfold FREE_spec at hrun
    have hpre : ∀ (mid : List FreeStmt),
        (∀ st ∈ mid, st.keeps_locals = true ∧ st.is_return = false) →
        ∀ (tail : List FreeStmt),
          FREE_run ext (FREE_call ext funs f flag) flag
            ([FreeStmt.dbug_enter, FreeStmt.decl_result] ++ mid ++ tail)
            (FreeLocals.mk (some a) none) s = some (r, s1) →
          ∃ s2, FREE_run ext (FREE_call ext funs f flag) flag tail
            (FreeLocals.mk (some a) none) s2 = some (r, s1) := by
      intro mid hmid tail h
      rw [List.append_assoc, FREE_run_append _ _ _ _ _ _ _ (by decide)] at h
      simp only [FREE_steps, FREE_step] at h
      rw [FREE_run_append _ _ _ _ _ _ _ (fun st hst => (hmid st hst).2)] at h
      cases hs : FREE_steps ext (FREE_call ext funs f flag) flag mid
          (FreeLocals.mk (some a) none) s with
      | none => simp [hs] at h
      | some p =>
        obtain ⟨l2, s2⟩ := p
        simp only [hs] at h
        have := FREE_steps_keeps_locals _ _ _ _ _ _ _ _ (fun st hst => (hmid st hst).1) hs
        subst this
        exact ⟨s2, h⟩
    constructor
    · intro hhas
      simp only [hhas, if_true] at hrun
      obtain ⟨s2, h2⟩ := hpre
        ([FreeStmt.freetrav_error, FreeStmt.freecond_next (string_toupper node_name)]
          ++ FREE_spec_attribs attrtype_names [] (string_toupper node_name) (node_attribs node)
          ++ FREE_spec_sons (string_toupper node_name) (node_sons node))
        (by
          intro st hst
          simp only [List.mem_append, List.mem_cons, List.mem_singleton,
            List.not_mem_nil, or_false] at hst
          rcases hst with ((rfl | rfl) | h) | h
          · exact ⟨rfl, rfl⟩
          · exact ⟨rfl, rfl⟩
          · exact FREE_spec_attribs_keeps _ _ _ _ _ h
          · exact FREE_spec_sons_keeps _ _ _ h)
        [FreeStmt.result_next (string_toupper node_name), FreeStmt.memfree,
          FreeStmt.return_result]
        (by simpa [List.append_assoc] using hrun)
      simp only [FREE_run, FREE_step] at h2
      cases hg : heap_get_son s2.heap a (string_toupper node_name, "NEXT") with
      | none => simp [hg] at h2
      | some p =>
        simp only [hg, Option.some.injEq, Prod.mk.injEq] at h2
        obtain ⟨rfl, rfl⟩ := h2
        exact ⟨hg, List.mem_cons_self _ _⟩
    · intro hhas
      simp only [hhas, Bool.false_eq_true, if_false] at hrun
      obtain ⟨s2, h2⟩ := hpre
        ([FreeStmt.freetrav_error]
          ++ FREE_spec_attribs attrtype_names [] (string_toupper node_name) (node_attribs node)
          ++ FREE_spec_sons (string_toupper node_name) (node_sons node))
        (by
          intro st hst
          simp only [List.mem_append, List.mem_singleton] at hst
          rcases hst with (rfl | h) | h
          · exact ⟨rfl, rfl⟩
          · exact FREE_spec_attribs_keeps _ _ _ _ _ h
          · exact FREE_spec_sons_keeps _ _ _ h)
        [FreeStmt.memfree, FreeStmt.return_result]
        (by simpa [List.append_assoc] using hrun)
      simp only [FREE_run, FREE_step, Option.some.injEq, Prod.mk.injEq] at h2
      obtain ⟨rfl, rfl⟩ := h2
      exact ⟨rfl, List.mem_cons_self _ _⟩

/-! ## Runs of statements -/

theorem run_steps_append {S Stmt : Type} (step : Stmt → S → Option S) (l1 l2 : List Stmt)
    (s : S) :
    run_steps step (l1 ++ l2) s
      = match run_steps step l1 s with
        | none => none
        | some s1 => run_steps step l2 s1 := by
  induction l1 generalizing s with
  | nil => rfl
  | cons st rest ih =>
    simp only [List.cons_append, run_steps]
    cases step st s with
    | none => rfl
    | some s1 => exact ih s1

theorem run_until_append {S Stmt : Type} (is_end : Stmt → Bool) (step : Stmt → S → Option S)
    (l1 l2 : List Stmt) (s : S) (h : ∀ st ∈ l1, is_end st = false) :
    run_until is_end step (l1 ++ l2) s
      = match run_steps step l1 s with
        | none => none
        | some s1 => run_until is_end step l2 s1 := by
  induction l1 generalizing s with
  | nil => rfl
  | cons st rest ih =>
    simp only [List.cons_append, run_until, run_steps, h st (List.mem_cons_self _ _),
      Bool.false_eq_true, if_false]
    cases step st s with
    | none => rfl
    | some s1 => exact ih s1 (fun x hx => h x (List.mem_cons_of_mem _ hx))

theorem run_until_end {S Stmt : Type} (is_end : Stmt → Bool) (step : Stmt → S → Option S)
    (l1 : List Stmt) (e : Stmt) (s : S) (h : ∀ st ∈ l1, is_end st = false)
    (he : is_end e = true) :
    run_until is_end step (l1 ++ [e]) s = run_steps step l1 s := by
  rw [run_until_append is_end step l1 [e] s h]
  cases run_steps step l1 s with
  | none => rfl
  | some s1 => simp [run_until, he]

theorem run_steps_flatMap_nil {S Stmt E : Type} (step : Stmt → S → Option S)
    (f : E → List Stmt) (es : List E) (s : S) (h : ∀ e ∈ es, f e = []) :
    run_steps step (es.flatMap f) s = some s := by
  induction es with
  | nil => rfl
  | cons e rest ih =>
    rw [List.flatMap_cons, h e (List.mem_cons_self _ _), List.nil_append]
    exact ih (fun x hx => h x (List.mem_cons_of_mem _ hx))

/-! ## The tables of generated functions -/

theorem string_append_left_cancel (p a b : String) (h : p ++ a = p ++ b) : a = b := by
  have h1 := congrArg String.data h
  simp only [String.data_append] at h1
  exact String.ext (List.append_cancel_left h1)

theorem node_loop_cons {β : Type} (item_name : String → String)
    (item : String → yajl_val → Option β) (n : String × yajl_val)
    (rest : List (String × yajl_val)) :
    node_loop item_name item (n :: rest)
      = match item n.1 n.2 with
        | none => none
        | some b =>
          match node_loop item_name item rest with
          | none => none
          | some outs => some ((item_name n.1, b) :: outs) := by
  unfold node_loop
  simp only [emit_loop]
  cases item n.1 n.2 with
  | none => rfl
  | some b =>
    simp only
    generalize emit_loop _ rest = x
    cases x <;> rfl

theorem node_loop_lookup {β : Type} (pre : String) (item : String → yajl_val → Option β)
    (nodes : List (String × yajl_val)) (out : List (String × β))
    (h : node_loop (fun node_name => pre ++ string_tolower node_name) item nodes = some out)
    (t : String) (e : String × yajl_val) (he : schema_node nodes t = some e) :
    ∃ body, item e.1 e.2 = some body ∧ out.lookup (pre ++ t) = some body := by
  unfold schema_node at he
  induction nodes generalizing out with
  | nil => simp at he
  | cons n rest ih =>
    rw [node_loop_cons] at h
    cases hi : item n.1 n.2 with
    | none => simp [hi] at h
    | some b =>
      simp only [hi] at h
      cases hr : node_loop (fun node_name => pre ++ string_tolower node_name) item rest with
      | none => simp [hr] at h
      | some outs =>
        simp only [hr, Option.some.injEq] at h
        subst h
        rw [List.find?_cons] at he
        by_cases hk : string_tolower n.1 = t
        · have hk2 : (string_tolower n.1 == t) = true := by simpa using hk
          simp only [hk2, Option.some.injEq] at he
          subst he
          refine ⟨b, hi, ?_⟩
          simp [List.lookup, hk]
        · have hk2 : (string_tolower n.1 == t) = false := by simpa using hk
          simp only [hk2] at he
          obtain ⟨body, h1, h2⟩ := ih outs hr he
          refine ⟨body, h1, ?_⟩
          have hne : (pre ++ t == pre ++ string_tolower n.1) = false := by
            rw [beq_eq_false_iff_ne]
            intro hc
            exact hk (string_append_left_cancel pre _ _ hc).symm
          simp only [List.lookup, hne]
          exact h2

/-! ## Fields of conforming nodes -/

theorem field_get_cons_ne {α : Type} (kv : (String × String) × α)
    (fields : List ((String × String) × α)) (key : String × String) (h : kv.1 ≠ key) :
    field_get (kv :: fields) key = field_get fields key := by
  unfold field_get
  have : (kv.1 == key) = false := by simpa using h
  simp [List.find?_cons, this]

theorem field_get_cons_eq {α : Type} (kv : (String × String) × α)
    (fields : List ((String × String) × α)) :
    field_get (kv :: fields) kv.1 = some kv.2 := by
  unfold field_get
  simp [List.find?_cons]

theorem aligned_of_keys {α : Type} (node_name : String) (entries : List (String × yajl_val))
    (fields : List ((String × String) × α))
    (hkeys : fields.map Prod.fst = declared_keys node_name entries)
    (hnodup : (declared_keys node_name entries).Nodup) :
    List.Forall₂ (aligned node_name fields) entries fields := by
  have key : ∀ (es : List (String × yajl_val)) (pre fs : List ((String × String) × α)),
      fs.map Prod.fst = declared_keys node_name es →
      (declared_keys node_name es).Nodup →
      (∀ f ∈ fs, ∀ p ∈ pre, p.1 ≠ f.1) →
      List.Forall₂ (aligned node_name (pre ++ fs)) es fs := by
    intro es
    induction es with
    | nil =>
      intro pre fs hfs _ _
      have : fs = [] := by simpa [declared_keys] using hfs
      subst this
      exact List.Forall₂.nil
    | cons e rest ih =>
      intro pre fs hfs hnd hpre
      cases fs with
      | nil => simp [declared_keys] at hfs
      | cons f fs1 =>
        simp only [declared_keys, List.map_cons, List.cons.injEq] at hfs
        obtain ⟨hf, hfs1⟩ := hfs
        simp only [declared_keys, List.map_cons, List.nodup_cons] at hnd
        obtain ⟨hnotin, hnd1⟩ := hnd
        refine List.Forall₂.cons ⟨hf, ?_⟩ ?_
        · have hget : ∀ (pre : List ((String × String) × α)),
              (∀ p ∈ pre, p.1 ≠ f.1) → field_get (pre ++ f :: fs1) f.1 = some f.2 := by
            intro pre
            induction pre with
            | nil => intro _; exact field_get_cons_eq f fs1
            | cons p ps ihp =>
              intro hp
              rw [List.cons_append, field_get_cons_ne _ _ _ (hp p (List.mem_cons_self _ _))]
              exact ihp (fun q hq => hp q (List.mem_cons_of_mem _ hq))
          exact hget pre (hpre f (List.mem_cons_self _ _))
        · have := ih (pre ++ [f]) fs1 hfs1 hnd1 (by
            intro g hg p hp
            rcases List.mem_append.1 hp with hp | hp
            · exact hpre g (List.mem_cons_of_mem _ hg) p hp
            · rw [List.mem_singleton] at hp
              subst hp
              intro hc
              have hmem : g.1 ∈ fs1.map Prod.fst := List.mem_map_of_mem _ hg
              rw [hfs1, ← hc, hf] at hmem
              exact hnotin hmem)
          simpa [List.append_assoc] using this
  have := key entries [] fields hkeys hnodup (by intro _ _ p hp; cases hp)
  simpa using this

/-! ## Facts about the nodes of a graph that satisfies the conditions -/

theorem field_set_of_get {α : Type} (fields : List ((String × String) × α))
    (key : String × String) (v : α) (hnd : (fields.map Prod.fst).Nodup)
    (hget : field_get fields key = some v) : field_set fields key v = fields := by
  induction fields with
  | nil => rfl
  | cons kv rest ih =>
    simp only [List.map_cons, List.nodup_cons] at hnd
    unfold field_set
    rw [List.map_cons]
    by_cases hk : kv.1 = key
    · subst hk
      rw [field_get_cons_eq] at hget
      have hv : kv.2 = v := Option.some.inj hget
      have hrest : field_set rest kv.1 v = rest := by
        apply field_set_same
        intro x hx hxk
        exact absurd (hxk ▸ List.mem_map_of_mem Prod.fst hx) hnd.1
      unfold field_set at hrest
      rw [hrest, if_pos rfl, ← hv]
    · rw [field_get_cons_ne _ _ _ hk] at hget
      have := ih hnd.2 hget
      unfold field_set at this
      rw [this, if_neg hk]

theorem schema_node_mem (nodes : List (String × yajl_val)) (t : String)
    (e : String × yajl_val) (h : schema_node nodes t = some e) :
    e ∈ nodes ∧ string_tolower e.1 = t := by
  unfold schema_node at h
  refine ⟨List.mem_of_find?_eq_some h, ?_⟩
  have := List.find?_some h
  simpa using this

/-- What the conditions give for one node: its instance, its schema entry, and the
alignment of its fields with the declarations of the entry. -/
theorem attrib_ptr_of_value_ok (st : List Nat) (e : String × yajl_val) (v : attr_value)
    (h : attrib_value_ok st e v) : attrib_ptr_ok e v :=
  ⟨fun hl => by obtain ⟨p, hp, _⟩ := h.1 hl; exact ⟨p, hp⟩, h.2⟩

theorem node_wf_of_ok (nodes : List (String × yajl_val)) (heap : List node_inst)
    (st : List Nat) (a : Nat) (h : node_ok nodes heap st a) : node_wf nodes heap a := by
  obtain ⟨nd, hnd, e, he, hconf, _, hattr⟩ := h
  exact ⟨nd, hnd, e, he, hconf, fun x hx => attrib_ptr_of_value_ok st x.1 x.2.2 (hattr x hx)⟩

theorem node_wf_facts (attrtype_names : List attrtype_name)
    (nodes : List (String × yajl_val)) (heap : List node_inst) (a : Nat)
    (hschema : schema_ok attrtype_names nodes) (hok : node_wf nodes heap a) :
    ∃ nd e, heap[a]? = some nd ∧ schema_node nodes nd.nodetype = some e ∧ e ∈ nodes
      ∧ nd.nodetype = string_tolower e.1
      ∧ attribs_registered attrtype_names e.2
      ∧ (nd.sons.map Prod.fst).Nodup ∧ (nd.attribs.map Prod.fst).Nodup
      ∧ (nd.flags.map Prod.fst).Nodup
      ∧ List.Forall₂ (aligned e.1 nd.sons) (node_sons e.2) nd.sons
      ∧ List.Forall₂ (aligned e.1 nd.attribs) (node_attribs e.2) nd.attribs
      ∧ List.Forall₂ (aligned e.1 nd.flags) (node_flags e.2) nd.flags
      ∧ (∀ x ∈ List.zip (node_attribs e.2) nd.attribs, attrib_ptr_ok x.1 x.2.2) := by
  obtain ⟨nd, hnd, e, he, hconf, hattr⟩ := hok
  obtain ⟨hmem, _⟩ := schema_node_mem nodes _ e he
  obtain ⟨hreg, hkeys, _⟩ := hschema
  obtain ⟨ht, hs, ha, hf⟩ := hconf
  obtain ⟨k1, k2, k3⟩ := hkeys e hmem
  exact ⟨nd, e, hnd, he, hmem, ht, hreg e hmem, hs ▸ k1, ha ▸ k2, hf ▸ k3,
    aligned_of_keys e.1 _ _ hs k1, aligned_of_keys e.1 _ _ ha k2,
    aligned_of_keys e.1 _ _ hf k3, hattr⟩

theorem heap_set_son_same (heap : List node_inst) (a : Nat) (nd : node_inst)
    (key : String × String) (v : Option Nat) (hnd : heap[a]? = some nd)
    (hkeys : (nd.sons.map Prod.fst).Nodup) (hget : field_get nd.sons key = some v) :
    heap_set_son heap a key v = heap := by
  unfold heap_set_son
  simp only [hnd]
  rw [field_set_of_get _ _ _ hkeys hget]
  exact list_set_self _ _ _ hnd

theorem heap_set_attrib_same (heap : List node_inst) (a : Nat) (nd : node_inst)
    (key : String × String) (v : attr_value) (hnd : heap[a]? = some nd)
    (hkeys : (nd.attribs.map Prod.fst).Nodup) (hget : field_get nd.attribs key = some v) :
    heap_set_attrib heap a key v = heap := by
  unfold heap_set_attrib
  simp only [hnd]
  rw [field_set_of_get _ _ _ hkeys hget]
  exact list_set_self _ _ _ hnd

theorem node_attrib_not_link (e : String × yajl_val) (h : is_node_attrib e = true) :
    is_link_attrib e = false := by
  unfold is_node_attrib at h
  unfold is_link_attrib
  have h1 : attrib_type_name e.2 = some "Node" := by simpa using h
  simp [h1]

/-! ## Phase 1: the position list -/

theorem walk_list_append (w : Nat → Option (List Nat)) (vs ws : List (Option Nat))
    (l1 l2 : List Nat) (h1 : walk_list w vs = some l1) (h2 : walk_list w ws = some l2) :
    walk_list w (vs ++ ws) = some (l1 ++ l2) := by
  induction vs generalizing l1 with
  | nil =>
    simp only [walk_list, Option.some.injEq] at h1
    subst h1
    simpa using h2
  | cons v rest ih =>
    cases v with
    | none =>
      simp only [walk_list] at h1
      rw [List.cons_append]
      simp only [walk_list]
      exact ih l1 h1
    | some c =>
      simp only [walk_list] at h1
      cases hc : w c with
      | none => simp [hc] at h1
      | some lc =>
        simp only [hc] at h1
        cases hr : walk_list w rest with
        | none => simp [hr] at h1
        | some ls =>
          simp only [hr, Option.some.injEq] at h1
          subst h1
          rw [List.cons_append]
          simp only [walk_list, hc]
          rw [ih ls hr]
          simp only [List.append_assoc]

theorem walk_list_split (w : Nat → Option (List Nat)) (vs ws : List (Option Nat))
    (l : List Nat) (h : walk_list w (vs ++ ws) = some l) :
    ∃ l1 l2, walk_list w vs = some l1 ∧ walk_list w ws = some l2 ∧ l = l1 ++ l2 := by
  induction vs generalizing l with
  | nil => exact ⟨[], l, rfl, by simpa using h, rfl⟩
  | cons v rest ih =>
    cases v with
    | none =>
      rw [List.cons_append] at h
      simp only [walk_list] at h
      obtain ⟨l1, l2, h1, h2, h3⟩ := ih l h
      exact ⟨l1, l2, (by simp only [walk_list]; exact h1), h2, h3⟩
    | some c =>
      rw [List.cons_append] at h
      simp only [walk_list] at h
      cases hc : w c with
      | none => simp [hc] at h
      | some lc =>
        simp only [hc] at h
        cases hr : walk_list w (rest ++ ws) with
        | none => simp [hr] at h
        | some ls =>
          simp only [hr, Option.some.injEq] at h
          subst h
          obtain ⟨l1, l2, h1, h2, h3⟩ := ih ls hr
          refine ⟨lc ++ l1, l2, ?_, h2, ?_⟩
          · simp only [walk_list, hc, h1]
          · rw [h3, List.append_assoc]

theorem walk_list_mem (w : Nat → Option (List Nat)) (vs : List (Option Nat))
    (l : List Nat) (h : walk_list w vs = some l) (b : Nat) (hb : some b ∈ vs) :
    ∃ lb, w b = some lb ∧ ∀ c ∈ lb, c ∈ l := by
  induction vs generalizing l with
  | nil => cases hb
  | cons v rest ih =>
    cases v with
    | none =>
      simp only [walk_list] at h
      rcases List.mem_cons.1 hb with hb | hb
      · cases hb
      · exact ih l h hb
    | some c =>
      simp only [walk_list] at h
      cases hc : w c with
      | none => simp [hc] at h
      | some lc =>
        simp only [hc] at h
        cases hr : walk_list w rest with
        | none => simp [hr] at h
        | some ls =>
          simp only [hr, Option.some.injEq] at h
          subst h
          rcases List.mem_cons.1 hb with hb | hb
          · cases hb
            exact ⟨lc, hc, fun x hx => List.mem_append_left _ hx⟩
          · obtain ⟨lb, h1, h2⟩ := ih ls hr hb
            exact ⟨lb, h1, fun x hx => List.mem_append_right _ (h2 x hx)⟩

theorem sbt_body_shape (node_name : String) (node : yajl_val) (htyped : attribs_typed node) :
    gen_serialize_buildstack_c_body node_name node
      = some ([SbtStmt.dbug_enter, SbtStmt.sspush]
        ++ (node_sons node).flatMap
            (gen_serialize_buildstack_c_son node_name (string_toupper node_name))
        ++ (node_attribs node).flatMap (fun e =>
            if is_node_attrib e = true then
              [SbtStmt.descend_attr (string_toupper node_name) (string_toupper e.1)]
            else [])
        ++ [SbtStmt.return_arg_node]) := by
  have hn : ∀ e ∈ node_attribs node,
      gen_serialize_buildstack_c_attrib (string_toupper node_name) e
        = some (if is_node_attrib e = true then
              [SbtStmt.descend_attr (string_toupper node_name) (string_toupper e.1)]
            else []) := by
    intro e he
    have h1 := htyped e he
    unfold gen_serialize_buildstack_c_attrib is_node_attrib
    cases ht : attrib_type_name e.2 with
    | none => simp [ht] at h1
    | some t =>
      by_cases hN : t = "Node" <;> simp [hN]
  have hloop := emit_loop_eq_flatMap _ _ _ hn
  unfold node_attribs at hloop
  unfold gen_serialize_buildstack_c_body
  simp only [hloop]
  rfl

theorem SBT_sons_loop (call : Nat → SbtState → Option (Option Nat × SbtState)) (a : Nat)
    (heap : List node_inst) (nd : node_inst) (node_name : String)
    (w : Nat → Option (List Nat)) (P : Nat → Prop)
    (hnd : heap[a]? = some nd) (hkeys : (nd.sons.map Prod.fst).Nodup)
    (hcall : ∀ b l st, w b = some l → (∀ c ∈ l, P c) →
      call b (SbtState.mk heap st) = some (some b, SbtState.mk heap (st ++ l)))
    (es : List (String × yajl_val)) (fs : List ((String × String) × Option Nat))
    (hal : List.Forall₂ (aligned node_name nd.sons) es fs)
    (l : List Nat) (hw : walk_list w (owned_sons node_name es fs) = some l)
    (hP : ∀ c ∈ l, P c) (st : List Nat) :
    run_steps (SBT_step call a)
        (es.flatMap (gen_serialize_buildstack_c_son node_name (string_toupper node_name)))
        (SbtState.mk heap st)
      = some (SbtState.mk heap (st ++ l)) := by
  induction hal generalizing l st with
  | nil =>
    simp only [owned_sons, walk_list, Option.some.injEq] at hw
    subst hw
    simp [run_steps]
  | @cons e f es1 fs1 hef _ ih =>
    obtain ⟨hkey, hget⟩ := hef
    rw [List.flatMap_cons, run_steps_append]
    have hgs := (son_loops_suppression node_name e)
    by_cases hs : (node_name, e.1) ∈ suppressed_sons
    · have hw1 : walk_list w (owned_sons node_name es1 fs1) = some l := by
        simpa [owned_sons, hs, walk_list] using hw
      rw [hgs.1.2 hs]
      simp only [run_steps]
      exact ih l hw1 hP st
    · simp only [owned_sons, hs, if_false] at hw
      cases hv : f.2 with
      | none =>
        have hw1 : walk_list w (owned_sons node_name es1 fs1) = some l := by
          simpa [walk_list, hv] using hw
        have hhead : run_steps (SBT_step call a)
            (gen_serialize_buildstack_c_son node_name (string_toupper node_name) e)
            (SbtState.mk heap st) = some (SbtState.mk heap st) := by
          rw [(hgs.2.2.2 hs).1]
          simp only [run_steps, SBT_step, heap_get_son, hnd, ← hkey, hget, hv]
        rw [hhead]
        exact ih l hw1 hP st
      | some b =>
        simp only [hv, walk_list] at hw
        cases hb : w b with
        | none => simp [hb] at hw
        | some lb =>
          simp only [hb] at hw
          cases hr : walk_list w (owned_sons node_name es1 fs1) with
          | none => simp [hr] at hw
          | some ls =>
            simp only [hr, Option.some.injEq] at hw
            subst hw
            have hcb := hcall b lb st hb (fun c hc => hP c (List.mem_append_left _ hc))
            have hget2 : field_get nd.sons f.1 = some (some b) := by rw [hget, hv]
            have hhead : run_steps (SBT_step call a)
                (gen_serialize_buildstack_c_son node_name (string_toupper node_name) e)
                (SbtState.mk heap st) = some (SbtState.mk heap (st ++ lb)) := by
              rw [(hgs.2.2.2 hs).1]
              simp only [run_steps, SBT_step, heap_get_son, hnd, ← hkey, hget2, hcb,
                heap_set_son_same heap a nd f.1 (some b) hnd hkeys hget2]
            rw [hhead]
            simp only
            rw [ih ls hr (fun c hc => hP c (List.mem_append_right _ hc)) (st ++ lb)]
            simp [List.append_assoc]

theorem SBT_attribs_loop (call : Nat → SbtState → Option (Option Nat × SbtState)) (a : Nat)
    (heap : List node_inst) (nd : node_inst) (node_name : String)
    (w : Nat → Option (List Nat)) (P : Nat → Prop)
    (hnd : heap[a]? = some nd) (hkeys : (nd.attribs.map Prod.fst).Nodup)
    (hcall : ∀ b l st, w b = some l → (∀ c ∈ l, P c) →
      call b (SbtState.mk heap st) = some (some b, SbtState.mk heap (st ++ l)))
    (es : List (String × yajl_val)) (fs : List ((String × String) × attr_value))
    (hal : List.Forall₂ (aligned node_name nd.attribs) es fs)
    (hok : ∀ x ∈ List.zip es fs, attrib_ptr_ok x.1 x.2.2)
    (l : List Nat) (hw : walk_list w (node_attr_targets es fs) = some l)
    (hP : ∀ c ∈ l, P c) (st : List Nat) :
    run_steps (SBT_step call a)
        (es.flatMap (fun e =>
          if is_node_attrib e = true then
            [SbtStmt.descend_attr (string_toupper node_name) (string_toupper e.1)]
          else []))
        (SbtState.mk heap st)
      = some (SbtState.mk heap (st ++ l)) := by
  induction hal generalizing l st with
  | nil =>
    simp only [node_attr_targets, walk_list, Option.some.injEq] at hw
    subst hw
    simp [run_steps]
  | @cons e f es1 fs1 hef _ ih =>
    obtain ⟨hkey, hget⟩ := hef
    rw [List.flatMap_cons, run_steps_append]
    have hok1 : ∀ x ∈ List.zip es1 fs1, attrib_ptr_ok x.1 x.2.2 :=
      fun x hx => hok x (by simp [List.zip_cons_cons, hx])
    by_cases hN : is_node_attrib e = true
    · obtain ⟨p, hp⟩ := (hok (e, f) (by simp [List.zip_cons_cons])).2 hN
      simp only at hp
      simp only [node_attr_targets, hN, if_true, hp] at hw
      rw [if_pos hN]
      cases p with
      | none =>
        simp only [walk_list] at hw
        have hhead : run_steps (SBT_step call a)
            [SbtStmt.descend_attr (string_toupper node_name) (string_toupper e.1)]
            (SbtState.mk heap st) = some (SbtState.mk heap st) := by
          simp only [run_steps, SBT_step, heap_get_attrib, hnd, ← hkey, hget, hp]
        rw [hhead]
        exact ih hok1 l hw hP st
      | some b =>
        simp only [walk_list] at hw
        cases hb : w b with
        | none => simp [hb] at hw
        | some lb =>
          simp only [hb] at hw
          cases hr : walk_list w (node_attr_targets es1 fs1) with
          | none => simp [hr] at hw
          | some ls =>
            simp only [hr, Option.some.injEq] at hw
            subst hw
            have hcb := hcall b lb st hb (fun c hc => hP c (List.mem_append_left _ hc))
            have hget2 : field_get nd.attribs f.1 = some (attr_value.ptr (some b)) := by
              rw [hget, hp]
            have hhead : run_steps (SBT_step call a)
                [SbtStmt.descend_attr (string_toupper node_name) (string_toupper e.1)]
                (SbtState.mk heap st) = some (SbtState.mk heap (st ++ lb)) := by
              simp only [run_steps, SBT_step, heap_get_attrib, hnd, ← hkey, hget2, hcb,
                heap_set_attrib_same heap a nd f.1 (attr_value.ptr (some b)) hnd hkeys hget2]
            rw [hhead]
            simp only
            rw [ih hok1 ls hr (fun c hc => hP c (List.mem_append_right _ hc)) (st ++ lb)]
            simp [List.append_assoc]
    · have hw1 : walk_list w (node_attr_targets es1 fs1) = some l := by
        simpa [node_attr_targets, hN] using hw
      rw [if_neg hN]
      simp only [run_steps]
      exact ih hok1 l hw1 hP st

theorem gen_serialize_tables (attrtype_names : List attrtype_name)
    (nodes : List (String × yajl_val)) (g : generated)
    (h : gen_serialize attrtype_names nodes = some g) :
    gen_serialize_buildstack_c nodes = some g.sbt
      ∧ gen_serialize_node_c attrtype_names nodes = some g.set
      ∧ gen_serialize_link_c nodes = some g.sel
      ∧ gen_serialize_helper_c_make attrtype_names nodes = some g.make
      ∧ gen_serialize_helper_c_fix nodes = some g.fix := by
  unfold gen_serialize at h
  cases h1 : gen_serialize_buildstack_c nodes with
  | none => simp [h1] at h
  | some sbt =>
  cases h2 : gen_serialize_node_c attrtype_names nodes with
  | none => simp [h1, h2] at h
  | some set =>
  cases h3 : gen_serialize_link_c nodes with
  | none => simp [h1, h2, h3] at h
  | some sel =>
  cases h4 : gen_serialize_helper_c_make attrtype_names nodes with
  | none => simp [h1, h2, h3, h4] at h
  | some make =>
  cases h5 : gen_serialize_helper_c_fix nodes with
  | none => simp [h1, h2, h3, h4, h5] at h
  | some fix =>
    simp only [h1, h2, h3, h4, h5, Option.some.injEq] at h
    subst h
    exact ⟨rfl, rfl, rfl, rfl, rfl⟩

/-- Phase 1 on a graph that satisfies the conditions: the generated `SBT` walk from
`a` returns `a`, leaves the heap as it is and appends the nodes under `a` to the
position list: the node, then the nodes under its sons, then the nodes under its `Node`
attributes. -/
theorem SBT_call_walk (attrtype_names : List attrtype_name)
    (nodes : List (String × yajl_val)) (g : generated) (heap : List node_inst)
    (hgen : gen_serialize attrtype_names nodes = some g)
    (hschema : schema_ok attrtype_names nodes) :
    ∀ fuel a l st0, walk_owned nodes heap fuel a = some l →
      (∀ c ∈ l, node_wf nodes heap c) →
      SBT_call g.sbt fuel a (SbtState.mk heap st0)
        = some (some a, SbtState.mk heap (st0 ++ l)) := by
  obtain ⟨hsbt, _⟩ := gen_serialize_tables attrtype_names nodes g hgen
  intro fuel
  induction fuel with
  | zero => intro a l st0 hw; simp [walk_owned] at hw
  | succ f ih =>
    intro a l st0 hw hok
    simp only [walk_owned] at hw
    cases hnd : heap[a]? with
    | none => simp [hnd] at hw
    | some nd =>
      simp only [hnd] at hw
      cases he0 : schema_node nodes nd.nodetype with
      | none => simp [he0] at hw
      | some e0 =>
        simp only [he0] at hw
        cases hwl : walk_list (walk_owned nodes heap f)
            (owned_sons e0.1 (node_sons e0.2) nd.sons
              ++ node_attr_targets (node_attribs e0.2) nd.attribs) with
        | none => simp [hwl] at hw
        | some l0 =>
          simp only [hwl, Option.some.injEq] at hw
          subst hw
          obtain ⟨l1, l2, hwl1, hwl2, hl0⟩ := walk_list_split _ _ _ _ hwl
          subst hl0
          obtain ⟨nd1, e, hnd1, he, hmem, htype, hreg, hk1, hk2, hk3, hal1, hal2, hal3,
            hattr⟩ := node_wf_facts attrtype_names nodes heap a hschema
              (hok a (List.mem_cons_self _ _))
          rw [hnd] at hnd1
          cases hnd1
          rw [he0] at he
          cases he
          obtain ⟨body, hbody, hlook⟩ := node_loop_lookup "SBT"
            gen_serialize_buildstack_c_body nodes g.sbt hsbt nd.nodetype e0 he0
          rw [sbt_body_shape e0.1 e0.2 (attribs_typed_of_registered attrtype_names e0.2 hreg)]
            at hbody
          simp only [SBT_call, hnd, hlook, SBT_run]
          rw [← Option.some.inj hbody]
          rw [run_until_end _ _ _ _ _ (by
            intro st hst
            simp only [List.mem_append, List.mem_cons, List.mem_singleton, List.not_mem_nil,
              or_false, List.mem_flatMap] at hst
            rcases hst with ((rfl | rfl) | ⟨x, _, hx⟩) | ⟨x, _, hx⟩
            · rfl
            · rfl
            · unfold gen_serialize_buildstack_c_son at hx
              split at hx
              · cases hx
              · split at hx
                · cases hx
                · rw [List.mem_singleton] at hx
                  subst hx
                  rfl
            · split at hx
              · rw [List.mem_singleton] at hx
                subst hx
                rfl
              · cases hx) rfl]
          rw [run_steps_append, run_steps_append]
          simp only [run_steps, SBT_step]
          rw [SBT_sons_loop (SBT_call g.sbt f) a heap nd e0.1 (walk_owned nodes heap f)
            (fun c => node_wf nodes heap c) hnd hk1
            (fun b l st hb hl => ih b l st hb hl)
            (node_sons e0.2) nd.sons hal1 l1 hwl1
            (fun c hc => hok c (List.mem_cons_of_mem _ (List.mem_append_left _ hc)))
            (st0 ++ [a])]
          simp only
          rw [SBT_attribs_loop (SBT_call g.sbt f) a heap nd e0.1
            (walk_owned nodes heap f) (fun c => node_wf nodes heap c) hnd hk2
            (fun b l st hb hl => ih b l st hb hl)
            (node_attribs e0.2) nd.attribs hal2 hattr l2 hwl2
            (fun c hc => hok c (List.mem_cons_of_mem _ (List.mem_append_right _ hc))) _]
          simp [List.append_assoc]

/-! ## Phase 3: the fix instructions -/

theorem sel_body_shape (node_name : String) (node : yajl_val) (htyped : attribs_typed node) :
    ∃ link_out, gen_serialize_link_c_links (string_toupper node_name) 1 (node_attribs node)
        = some link_out
      ∧ gen_serialize_link_c_body node_name node
        = some ([SelStmt.dbug_enter] ++ link_out
          ++ (node_sons node).flatMap
              (gen_serialize_link_c_son node_name (string_toupper node_name))
          ++ (node_attribs node).flatMap (fun e =>
              if is_node_attrib e = true then
                [SelStmt.descend_attr (string_toupper node_name) (string_toupper e.1)]
              else [])
          ++ [SelStmt.return_arg_node]) := by
  have hs := sel_links_loop (string_toupper node_name) (node_attribs node) htyped 1
  cases hs1 : gen_serialize_link_c_links (string_toupper node_name) 1 (node_attribs node) with
  | none => simp [hs1] at hs
  | some link_out =>
    refine ⟨link_out, rfl, ?_⟩
    have hn : ∀ e ∈ node_attribs node,
        gen_serialize_link_c_nodeattr (string_toupper node_name) e
          = some (if is_node_attrib e = true then
                [SelStmt.descend_attr (string_toupper node_name) (string_toupper e.1)]
              else []) := by
      intro e he
      have h1 := htyped e he
      unfold gen_serialize_link_c_nodeattr is_node_attrib
      cases ht : attrib_type_name e.2 with
      | none => simp [ht] at h1
      | some t =>
        by_cases hN : t = "Node" <;> simp [hN]
    have hloop := emit_loop_eq_flatMap _ _ _ hn
    unfold node_attribs at hs1 hloop
    unfold gen_serialize_link_c_body
    simp only [hs1, hloop]
    rfl

theorem sel_links_no_return (node_name_upper : String) (attribs : List (String × yajl_val))
    (pos : Nat) (out : List SelStmt)
    (h : gen_serialize_link_c_links node_name_upper pos attribs = some out) :
    ∀ st ∈ out, st.is_return = false := by
  induction attribs generalizing pos out with
  | nil =>
    simp only [gen_serialize_link_c_links, Option.some.injEq] at h
    subst h
    intro st hst
    cases hst
  | cons e rest ih =>
    simp only [gen_serialize_link_c_links] at h
    cases ht : attrib_type_name e.2 with
    | none => simp [ht] at h
    | some t =>
      simp only [ht] at h
      split at h
      · exact ih pos out h
      · cases hg : gen_serialize_link_c_links node_name_upper (pos + 1) rest with
        | none => simp [hg] at h
        | some o =>
          simp only [hg, Option.some.injEq] at h
          subst h
          intro st hst
          rcases List.mem_cons.1 hst with rfl | hst
          · rfl
          · exact ih (pos + 1) o hg st hst

theorem SEL_links_loop (call : Nat → List fix_record → Option (List fix_record))
    (heap : List node_inst) (st : List Nat) (a : Nat) (nd : node_inst) (node_name : String)
    (hnd : heap[a]? = some nd)
    (es : List (String × yajl_val)) (fs : List ((String × String) × attr_value))
    (hal : List.Forall₂ (aligned node_name nd.attribs) es fs)
    (hok : ∀ x ∈ List.zip es fs, attrib_ptr_ok x.1 x.2.2)
    (pos : Nat) (stmts : List SelStmt)
    (hgen : gen_serialize_link_c_links (string_toupper node_name) pos es = some stmts)
    (out : List fix_record) :
    run_steps (SEL_step call heap st a) stmts out
      = some (out ++ node_fixes st a pos es fs) := by
  induction hal generalizing pos stmts out with
  | nil =>
    simp only [gen_serialize_link_c_links, Option.some.injEq] at hgen
    subst hgen
    simp [run_steps, node_fixes]
  | @cons e f es1 fs1 hef _ ih =>
    obtain ⟨hkey, hget⟩ := hef
    have hok1 : ∀ x ∈ List.zip es1 fs1, attrib_ptr_ok x.1 x.2.2 :=
      fun x hx => hok x (by simp [List.zip_cons_cons, hx])
    simp only [gen_serialize_link_c_links] at hgen
    cases ht : attrib_type_name e.2 with
    | none => simp [ht] at hgen
    | some t =>
      simp only [ht] at hgen
      by_cases hl : t ≠ "Link" ∧ t ≠ "CodeLink"
      · rw [if_pos hl] at hgen
        have hnl : is_link_attrib e = false := by
          simp [is_link_attrib, ht, hl.1, hl.2]
        simp only [node_fixes, hnl, Bool.false_eq_true, if_false]
        exact ih hok1 pos stmts hgen out
      · rw [if_neg hl] at hgen
        have hisl : is_link_attrib e = true := by
          simp only [is_link_attrib, ht, Option.some.injEq, decide_eq_true_eq]
          by_contra hc
          exact hl ⟨fun h => hc (Or.inl h), fun h => hc (Or.inr h)⟩
        cases hg : gen_serialize_link_c_links (string_toupper node_name) (pos + 1) es1 with
        | none => simp [hg] at hgen
        | some o =>
          simp only [hg, Option.some.injEq] at hgen
          subst hgen
          obtain ⟨p, hp⟩ := (hok (e, f) (by simp [List.zip_cons_cons])).1 hisl
          simp only at hp
          simp only [node_fixes, hisl, if_true, hp]
          simp only [run_steps, SEL_step, heap_get_attrib, hnd, ← hkey, hget, hp]
          cases p with
          | none =>
            simp only [List.nil_append]
            exact ih hok1 (pos + 1) o hg out
          | some b =>
            cases hq : SSfindPos b st with
            | none =>
              simp only [hq, List.nil_append]
              exact ih hok1 (pos + 1) o hg out
            | some q =>
              simp only [hq]
              rw [ih hok1 (pos + 1) o hg _]
              simp [List.append_assoc]

theorem SEL_sons_loop (call : Nat → List fix_record → Option (List fix_record))
    (heap : List node_inst) (st : List Nat) (a : Nat) (nd : node_inst) (node_name : String)
    (w : Nat → Option (List Nat)) (P : Nat → Prop) (F : List Nat → List fix_record)
    (hF0 : F [] = []) (hF : ∀ x y, F (x ++ y) = F x ++ F y)
    (hnd : heap[a]? = some nd)
    (hcall : ∀ b l out, w b = some l → (∀ c ∈ l, P c) → call b out = some (out ++ F l))
    (es : List (String × yajl_val)) (fs : List ((String × String) × Option Nat))
    (hal : List.Forall₂ (aligned node_name nd.sons) es fs)
    (l : List Nat) (hw : walk_list w (owned_sons node_name es fs) = some l)
    (hP : ∀ c ∈ l, P c) (out : List fix_record) :
    run_steps (SEL_step call heap st a)
        (es.flatMap (gen_serialize_link_c_son node_name (string_toupper node_name))) out
      = some (out ++ F l) := by
  induction hal generalizing l out with
  | nil =>
    simp only [owned_sons, walk_list, Option.some.injEq] at hw
    subst hw
    simp [run_steps, hF0]
  | @cons e f es1 fs1 hef _ ih =>
    obtain ⟨hkey, hget⟩ := hef
    rw [List.flatMap_cons, run_steps_append]
    have hgs := (son_loops_suppression node_name e)
    by_cases hs : (node_name, e.1) ∈ suppressed_sons
    · have hw1 : walk_list w (owned_sons node_name es1 fs1) = some l := by
        simpa [owned_sons, hs, walk_list] using hw
      rw [hgs.2.1.2 hs]
      simp only [run_steps]
      exact ih l hw1 hP out
    · simp only [owned_sons, hs, if_false] at hw
      cases hv : f.2 with
      | none =>
        have hw1 : walk_list w (owned_sons node_name es1 fs1) = some l := by
          simpa [walk_list, hv] using hw
        have hhead : run_steps (SEL_step call heap st a)
            (gen_serialize_link_c_son node_name (string_toupper node_name) e) out
            = some out := by
          rw [(hgs.2.2.2 hs).2.1]
          simp only [run_steps, SEL_step, heap_get_son, hnd, ← hkey, hget, hv]
        rw [hhead]
        exact ih l hw1 hP out
      | some b =>
        simp only [hv, walk_list] at hw
        cases hb : w b with
        | none => simp [hb] at hw
        | some lb =>
          simp only [hb] at hw
          cases hr : walk_list w (owned_sons node_name es1 fs1) with
          | none => simp [hr] at hw
          | some ls =>
            simp only [hr, Option.some.injEq] at hw
            subst hw
            have hcb := hcall b lb out hb (fun c hc => hP c (List.mem_append_left _ hc))
            have hhead : run_steps (SEL_step call heap st a)
                (gen_serialize_link_c_son node_name (string_toupper node_name) e) out
                = some (out ++ F lb) := by
              rw [(hgs.2.2.2 hs).2.1]
              simp only [run_steps, SEL_step, heap_get_son, hnd, ← hkey, hget, hv, hcb]
            rw [hhead]
            simp only
            rw [ih ls hr (fun c hc => hP c (List.mem_append_right _ hc)) _, hF]
            simp [List.append_assoc]

theorem SEL_attribs_loop (call : Nat → List fix_record → Option (List fix_record))
    (heap : List node_inst) (st : List Nat) (a : Nat) (nd : node_inst) (node_name : String)
    (w : Nat → Option (List Nat)) (P : Nat → Prop) (F : List Nat → List fix_record)
    (hF0 : F [] = []) (hF : ∀ x y, F (x ++ y) = F x ++ F y)
    (hnd : heap[a]? = some nd)
    (hcall : ∀ b l out, w b = some l → (∀ c ∈ l, P c) → call b out = some (out ++ F l))
    (es : List (String × yajl_val)) (fs : List ((String × String) × attr_value))
    (hal : List.Forall₂ (aligned node_name nd.attribs) es fs)
    (hok : ∀ x ∈ List.zip es fs, attrib_ptr_ok x.1 x.2.2)
    (l : List Nat) (hw : walk_list w (node_attr_targets es fs) = some l)
    (hP : ∀ c ∈ l, P c) (out : List fix_record) :
    run_steps (SEL_step call heap st a)
        (es.flatMap (fun e =>
          if is_node_attrib e = true then
            [SelStmt.descend_attr (string_toupper node_name) (string_toupper e.1)]
          else []))
        out
      = some (out ++ F l) := by
  induction hal generalizing l out with
  | nil =>
    simp only [node_attr_targets, walk_list, Option.some.injEq] at hw
    subst hw
    simp [run_steps, hF0]
  | @cons e f es1 fs1 hef _ ih =>
    obtain ⟨hkey, hget⟩ := hef
    rw [List.flatMap_cons, run_steps_append]
    have hok1 : ∀ x ∈ List.zip es1 fs1, attrib_ptr_ok x.1 x.2.2 :=
      fun x hx => hok x (by simp [List.zip_cons_cons, hx])
    by_cases hN : is_node_attrib e = true
    · obtain ⟨p, hp⟩ := (hok (e, f) (by simp [List.zip_cons_cons])).2 hN
      simp only at hp
      simp only [node_attr_targets, hN, if_true, hp] at hw
      rw [if_pos hN]
      cases p with
      | none =>
        simp only [walk_list] at hw
        have hhead : run_steps (SEL_step call heap st a)
            [SelStmt.descend_attr (string_toupper node_name) (string_toupper e.1)] out
            = some out := by
          simp only [run_steps, SEL_step, heap_get_attrib, hnd, ← hkey, hget, hp]
        rw [hhead]
        exact ih hok1 l hw hP out
      | some b =>
        simp only [walk_list] at hw
        cases hb : w b with
        | none => simp [hb] at hw
        | some lb =>
          simp only [hb] at hw
          cases hr : walk_list w (node_attr_targets es1 fs1) with
          | none => simp [hr] at hw
          | some ls =>
            simp only [hr, Option.some.injEq] at hw
            subst hw
            have hcb := hcall b lb out hb (fun c hc => hP c (List.mem_append_left _ hc))
            have hhead : run_steps (SEL_step call heap st a)
                [SelStmt.descend_attr (string_toupper node_name) (string_toupper e.1)] out
                = some (out ++ F lb) := by
              simp only [run_steps, SEL_step, heap_get_attrib, hnd, ← hkey, hget, hp, hcb]
            rw [hhead]
            simp only
            rw [ih hok1 ls hr (fun c hc => hP c (List.mem_append_right _ hc)) _, hF]
            simp [List.append_assoc]
    · have hw1 : walk_list w (node_attr_targets es1 fs1) = some l := by
        simpa [node_attr_targets, hN] using hw
      rw [if_neg hN]
      simp only [run_steps]
      exact ih hok1 l hw1 hP out

/-- Phase 3 on a graph that satisfies the conditions: the generated `SEL` walk from
`a` writes the fix instructions of the nodes under `a`, node by node in the order of
phase 1. -/
theorem SEL_call_walk (attrtype_names : List attrtype_name)
    (nodes : List (String × yajl_val)) (g : generated) (heap : List node_inst)
    (st : List Nat)
    (hgen : gen_serialize attrtype_names nodes = some g)
    (hschema : schema_ok attrtype_names nodes) :
    ∀ fuel a l out, walk_owned nodes heap fuel a = some l →
      (∀ c ∈ l, node_wf nodes heap c) →
      SEL_call g.sel heap st fuel a out = some (out ++ graph_fixes nodes heap st l) := by
  obtain ⟨_, _, hsel, _⟩ := gen_serialize_tables attrtype_names nodes g hgen
  intro fuel
  induction fuel with
  | zero => intro a l out hw; simp [walk_owned] at hw
  | succ f ih =>
    intro a l out hw hok
    simp only [walk_owned] at hw
    cases hnd : heap[a]? with
    | none => simp [hnd] at hw
    | some nd =>
      simp only [hnd] at hw
      cases he0 : schema_node nodes nd.nodetype with
      | none => simp [he0] at hw
      | some e0 =>
        simp only [he0] at hw
        cases hwl : walk_list (walk_owned nodes heap f)
            (owned_sons e0.1 (node_sons e0.2) nd.sons
              ++ node_attr_targets (node_attribs e0.2) nd.attribs) with
        | none => simp [hwl] at hw
        | some l0 =>
          simp only [hwl, Option.some.injEq] at hw
          subst hw
          obtain ⟨l1, l2, hwl1, hwl2, hl0⟩ := walk_list_split _ _ _ _ hwl
          subst hl0
          obtain ⟨nd1, e, hnd1, he, hmem, htype, hreg, hk1, hk2, hk3, hal1, hal2, hal3,
            hattr⟩ := node_wf_facts attrtype_names nodes heap a hschema
              (hok a (List.mem_cons_self _ _))
          rw [hnd] at hnd1
          cases hnd1
          rw [he0] at he
          cases he
          obtain ⟨body, hbody, hlook⟩ := node_loop_lookup "SEL" gen_serialize_link_c_body
            nodes g.sel hsel nd.nodetype e0 he0
          obtain ⟨link_out, hlinks, hshape⟩ := sel_body_shape e0.1 e0.2
            (attribs_typed_of_registered attrtype_names e0.2 hreg)
          rw [hshape] at hbody
          simp only [SEL_call, hnd, hlook, SEL_run]
          rw [← Option.some.inj hbody]
          rw [run_until_end _ _ _ _ _ (by
            intro st hst
            simp only [List.mem_append, List.mem_singleton, List.mem_flatMap] at hst
            rcases hst with ((rfl | hx) | ⟨x, _, hx⟩) | ⟨x, _, hx⟩
            · rfl
            · exact sel_links_no_return _ _ _ _ hlinks st hx
            · unfold gen_serialize_link_c_son at hx
              split at hx
              · cases hx
              · split at hx
                · cases hx
                · split at hx
                  · cases hx
                  · rw [List.mem_singleton] at hx
                    subst hx
                    rfl
            · split at hx
              · rw [List.mem_singleton] at hx
                subst hx
                rfl
              · cases hx) rfl]
          rw [run_steps_append, run_steps_append, run_steps_append]
          simp only [run_steps, SEL_step]
          rw [SEL_links_loop (SEL_call g.sel heap st f) heap st a nd e0.1 hnd
            (node_attribs e0.2) nd.attribs hal2 hattr 1 link_out hlinks out]
          simp only
          rw [SEL_sons_loop (SEL_call g.sel heap st f) heap st a nd e0.1
            (walk_owned nodes heap f)
            (fun c => node_wf nodes heap c) (graph_fixes nodes heap st)
            rfl (fun x y => by simp [graph_fixes]) hnd
            (fun b l out hb hl => ih b l out hb hl)
            (node_sons e0.2) nd.sons hal1 l1 hwl1
            (fun c hc => hok c (List.mem_cons_of_mem _ (List.mem_append_left _ hc))) _]
          simp only
          rw [SEL_attribs_loop (SEL_call g.sel heap st f) heap st a nd e0.1
            (walk_owned nodes heap f)
            (fun c => node_wf nodes heap c) (graph_fixes nodes heap st)
            rfl (fun x y => by simp [graph_fixes]) hnd
            (fun b l out hb hl => ih b l out hb hl)
            (node_attribs e0.2) nd.attribs hal2 hattr l2 hwl2
            (fun c hc => hok c (List.mem_cons_of_mem _ (List.mem_append_right _ hc))) _]
          simp [graph_fixes, hnd, he0, List.append_assoc]

/-! ## The constructor `SHLPmakeNodeVa` -/

theorem make_body_shape (attrtype_names : List attrtype_name) (node_name : String)
    (node : yajl_val) (hreg : attribs_registered attrtype_names node) :
    gen_serialize_helper_c_case attrtype_names node_name node
      = some ([MakeStmt.alloc (string_toupper node_name)]
        ++ (if (node_sons node).length ≠ 0 then
              [MakeStmt.set_sons (string_tolower node_name) (string_toupper node_name)]
            else [])
        ++ (if (node_flags node).length ≠ 0 ∨ (node_attribs node).length ≠ 0 then
              [MakeStmt.set_attribs (string_tolower node_name) (string_toupper node_name)]
            else [])
        ++ (node_attribs node).flatMap (fun e =>
            if attrib_persisted attrtype_names e = true then
              [MakeStmt.attr_va_arg (string_toupper node_name) (string_toupper e.1)
                (match attrib_atn attrtype_names e.2 with
                 | none => ""
                 | some atn => va_arg_type atn)]
            else
              [MakeStmt.attr_init (string_toupper node_name) (string_toupper e.1)
                (attrib_init attrtype_names e)])
        ++ (node_sons node).map
            (fun e => MakeStmt.son_va_arg (string_toupper node_name) (string_toupper e.1))
        ++ (node_flags node).map
            (fun e => MakeStmt.flag_va_arg (string_toupper node_name) (string_toupper e.1))
        ++ [MakeStmt.break_]) := by
  have hn : ∀ e ∈ node_attribs node,
      gen_serialize_helper_c_attrib attrtype_names (string_toupper node_name) e
        = some (if attrib_persisted attrtype_names e = true then
              [MakeStmt.attr_va_arg (string_toupper node_name) (string_toupper e.1)
                (match attrib_atn attrtype_names e.2 with
                 | none => ""
                 | some atn => va_arg_type atn)]
            else
              [MakeStmt.attr_init (string_toupper node_name) (string_toupper e.1)
                (attrib_init attrtype_names e)]) := by
    intro e he
    have h1 := hreg e he
    unfold gen_serialize_helper_c_attrib attrib_persisted attrib_init
    cases hatn : attrib_atn attrtype_names e.2 with
    | none => simp [hatn] at h1
    | some atn =>
      cases hp : atn.persist <;> simp [hp]
  have hloop := emit_loop_eq_flatMap _ _ _ hn
  unfold node_attribs at hloop
  unfold gen_serialize_helper_c_case
  simp only [hloop]
  rfl

theorem field_assign_new {α : Type} (fields : List ((String × String) × α))
    (key : String × String) (v : α) (h : key ∉ fields.map Prod.fst) :
    field_assign fields key v = fields ++ [(key, v)] := by
  unfold field_assign
  have : fields.any (fun kv => kv.1 == key) = false := by
    rw [List.any_eq_false]
    intro kv hkv hk
    have hk2 : kv.1 = key := by simpa using hk
    exact h (hk2 ▸ List.mem_map_of_mem Prod.fst hkv)
  simp [this]

theorem list_set_last {α : Type} (l : List α) (x y : α) :
    (l ++ [x]).set l.length y = l ++ [y] := by
  induction l with
  | nil => rfl
  | cons a rest ih => simp [List.set, ih]

theorem list_get_last {α : Type} (l : List α) (x : α) : (l ++ [x])[l.length]? = some x := by
  simp

/-- The attribute loop of a case: it reads the values sent for the persisted
attributes and initializes the others, adding the attributes in declaration order. -/
theorem MAKE_attribs_loop (attrtype_names : List attrtype_name)
    (eval_init : String → attr_value) (t : String) (file line col : Nat)
    (node_name : String) (hbase : List node_inst) (sons0 : List ((String × String) × Option Nat))
    (flags0 : List ((String × String) × Int))
    (es : List (String × yajl_val)) (fs : List ((String × String) × attr_value))
    (hkeys : fs.map Prod.fst = declared_keys node_name es)
    (acc : List ((String × String) × attr_value))
    (hnew : ∀ k ∈ declared_keys node_name es, k ∉ acc.map Prod.fst)
    (hnodup : (declared_keys node_name es).Nodup)
    (rest : List attr_value) :
    run_steps (MAKE_step eval_init t file line col)
        (es.flatMap (fun e =>
          if attrib_persisted attrtype_names e = true then
            [MakeStmt.attr_va_arg (string_toupper node_name) (string_toupper e.1)
              (match attrib_atn attrtype_names e.2 with
               | none => ""
               | some atn => va_arg_type atn)]
          else
            [MakeStmt.attr_init (string_toupper node_name) (string_toupper e.1)
              (attrib_init attrtype_names e)]))
        (MakeState.mk (some hbase.length) (sent_attribs attrtype_names es fs ++ rest)
          (hbase ++ [node_inst.mk t file line col none sons0 acc flags0]))
      = some (MakeState.mk (some hbase.length) rest
          (hbase ++ [node_inst.mk t file line col none sons0
            (acc ++ List.zipWith (rebuilt_attrib attrtype_names eval_init) es fs) flags0])) := by
  induction es generalizing fs acc with
  | nil =>
    have : fs = [] := by simpa [declared_keys] using hkeys
    subst this
    simp [run_steps, sent_attribs]
  | cons e es1 ih =>
    cases fs with
    | nil => simp [declared_keys] at hkeys
    | cons f fs1 =>
      simp only [declared_keys, List.map_cons, List.cons.injEq] at hkeys
      obtain ⟨hf, hfs1⟩ := hkeys
      simp only [declared_keys, List.map_cons, List.nodup_cons] at hnodup
      obtain ⟨hnotin, hnd1⟩ := hnodup
      have hk0 : (string_toupper node_name, string_toupper e.1) ∉ acc.map Prod.fst :=
        hnew _ (by simp [declared_keys])
      have hnew1 : ∀ k ∈ declared_keys node_name es1,
          k ∉ (acc ++ [rebuilt_attrib attrtype_names eval_init e f]).map Prod.fst := by
        intro k hk hc
        simp only [List.map_append, List.map_cons, List.map_nil, List.mem_append,
          List.mem_singleton] at hc
        rcases hc with hc | hc
        · exact hnew k (by simp only [declared_keys, List.map_cons]
                           exact List.mem_cons_of_mem _ hk) hc
        · simp only [rebuilt_attrib] at hc
          rw [hc, hf] at hk
          exact hnotin hk
      rw [List.flatMap_cons, run_steps_append]
      by_cases hp : attrib_persisted attrtype_names e = true
      · have hsent : sent_attribs attrtype_names (e :: es1) (f :: fs1)
            = sent_value e f.2 :: sent_attribs attrtype_names es1 fs1 := by
          simp [sent_attribs, List.zip_cons_cons, hp]
        rw [if_pos hp, hsent]
        simp only [run_steps, MAKE_step, List.cons_append, list_get_last, list_set_last,
          field_assign_new _ _ _ hk0]
        have := ih fs1 hfs1 (acc ++ [rebuilt_attrib attrtype_names eval_init e f]) hnew1 hnd1
        simp only [rebuilt_attrib, hp, if_true, hf] at this
        rw [this]
        simp [List.zipWith, rebuilt_attrib, hp, hf]
      · have hsent : sent_attribs attrtype_names (e :: es1) (f :: fs1)
            = sent_attribs attrtype_names es1 fs1 := by
          simp [sent_attribs, List.zip_cons_cons, hp]
        rw [if_neg hp, hsent]
        simp only [run_steps, MAKE_step, list_get_last, list_set_last,
          field_assign_new _ _ _ hk0]
        have := ih fs1 hfs1 (acc ++ [rebuilt_attrib attrtype_names eval_init e f]) hnew1 hnd1
        simp only [rebuilt_attrib, hp, Bool.false_eq_true, if_false, hf] at this
        rw [this]
        simp [List.zipWith, rebuilt_attrib, hp, hf]

theorem MAKE_sons_loop (eval_init : String → attr_value) (t : String) (file line col : Nat)
    (node_name : String) (hbase : List node_inst)
    (attribs0 : List ((String × String) × attr_value))
    (flags0 : List ((String × String) × Int))
    (es : List (String × yajl_val)) (vals : List (Option Nat))
    (hlen : vals.length = es.length)
    (acc : List ((String × String) × Option Nat))
    (hnew : ∀ k ∈ declared_keys node_name es, k ∉ acc.map Prod.fst)
    (hnodup : (declared_keys node_name es).Nodup)
    (rest : List attr_value) :
    run_steps (MAKE_step eval_init t file line col)
        (es.map (fun e =>
          MakeStmt.son_va_arg (string_toupper node_name) (string_toupper e.1)))
        (MakeState.mk (some hbase.length) (vals.map attr_value.ptr ++ rest)
          (hbase ++ [node_inst.mk t file line col none acc attribs0 flags0]))
      = some (MakeState.mk (some hbase.length) rest
          (hbase ++ [node_inst.mk t file line col none
            (acc ++ List.zipWith
              (fun e v => ((string_toupper node_name, string_toupper e.1), v)) es vals)
            attribs0 flags0])) := by
  induction es generalizing vals acc with
  | nil =>
    have : vals = [] := by simpa using hlen
    subst this
    simp [run_steps]
  | cons e es1 ih =>
    cases vals with
    | nil => simp at hlen
    | cons v vs =>
      simp only [List.length_cons, Nat.add_right_cancel_iff] at hlen
      simp only [declared_keys, List.map_cons, List.nodup_cons] at hnodup
      obtain ⟨hnotin, hnd1⟩ := hnodup
      have hk0 : (string_toupper node_name, string_toupper e.1) ∉ acc.map Prod.fst :=
        hnew _ (by simp [declared_keys])
      have hnew1 : ∀ k ∈ declared_keys node_name es1,
          k ∉ (acc ++ [((string_toupper node_name, string_toupper e.1), v)]).map Prod.fst := by
        intro k hk hc
        simp only [List.map_append, List.map_cons, List.map_nil, List.mem_append,
          List.mem_singleton] at hc
        rcases hc with hc | hc
        · exact hnew k (by simp only [declared_keys, List.map_cons]
                           exact List.mem_cons_of_mem _ hk) hc
        · rw [hc] at hk
          exact hnotin hk
      simp only [List.map_cons, List.cons_append, run_steps, MAKE_step, list_get_last,
        list_set_last, field_assign_new _ _ _ hk0]
      rw [ih vs hlen _ hnew1 hnd1]
      simp [List.zipWith]

theorem MAKE_flags_loop (eval_init : String → attr_value) (t : String) (file line col : Nat)
    (node_name : String) (hbase : List node_inst)
    (sons0 : List ((String × String) × Option Nat))
    (attribs0 : List ((String × String) × attr_value))
    (es : List (String × yajl_val)) (vals : List Int)
    (hlen : vals.length = es.length)
    (acc : List ((String × String) × Int))
    (hnew : ∀ k ∈ declared_keys node_name es, k ∉ acc.map Prod.fst)
    (hnodup : (declared_keys node_name es).Nodup)
    (rest : List attr_value) :
    run_steps (MAKE_step eval_init t file line col)
        (es.map (fun e =>
          MakeStmt.flag_va_arg (string_toupper node_name) (string_toupper e.1)))
        (MakeState.mk (some hbase.length) (vals.map attr_value.data ++ rest)
          (hbase ++ [node_inst.mk t file line col none sons0 attribs0 acc]))
      = some (MakeState.mk (some hbase.length) rest
          (hbase ++ [node_inst.mk t file line col none sons0 attribs0
            (acc ++ List.zipWith
              (fun e v => ((string_toupper node_name, string_toupper e.1), v)) es vals)])) := by
  induction es generalizing vals acc with
  | nil =>
    have : vals = [] := by simpa using hlen
    subst this
    simp [run_steps]
  | cons e es1 ih =>
    cases vals with
    | nil => simp at hlen
    | cons v vs =>
      simp only [List.length_cons, Nat.add_right_cancel_iff] at hlen
      simp only [declared_keys, List.map_cons, List.nodup_cons] at hnodup
      obtain ⟨hnotin, hnd1⟩ := hnodup
      have hk0 : (string_toupper node_name, string_toupper e.1) ∉ acc.map Prod.fst :=
        hnew _ (by simp [declared_keys])
      have hnew1 : ∀ k ∈ declared_keys node_name es1,
          k ∉ (acc ++ [((string_toupper node_name, string_toupper e.1), v)]).map Prod.fst := by
        intro k hk hc
        simp only [List.map_append, List.map_cons, List.map_nil, List.mem_append,
          List.mem_singleton] at hc
        rcases hc with hc | hc
        · exact hnew k (by simp only [declared_keys, List.map_cons]
                           exact List.mem_cons_of_mem _ hk) hc
        · rw [hc] at hk
          exact hnotin hk
      simp only [List.map_cons, List.cons_append, run_steps, MAKE_step, list_get_last,
        list_set_last, field_assign_new _ _ _ hk0]
      rw [ih vs hlen _ hnew1 hnd1]
      simp [List.zipWith]

/-- The node `SHLPmakeNodeVa` builds from the values sent for a node of the schema
entry `e`: the attributes in declaration order (sent or initialized), the sons and the
flags as sent. -/
theorem SHLPmakeNodeVa_node (attrtype_names : List attrtype_name)
    (nodes : List (String × yajl_val)) (g : generated) (eval_init : String → attr_value)
    (hgen : gen_serialize attrtype_names nodes = some g)
    (e : String × yajl_val) (t : String) (he : schema_node nodes t = some e)
    (hreg : attribs_registered attrtype_names e.2)
    (hk1 : (declared_keys e.1 (node_sons e.2)).Nodup)
    (hk2 : (declared_keys e.1 (node_attribs e.2)).Nodup)
    (hk3 : (declared_keys e.1 (node_flags e.2)).Nodup)
    (file line col : Nat) (fs : List ((String × String) × attr_value))
    (hfs : fs.map Prod.fst = declared_keys e.1 (node_attribs e.2))
    (son_vals : List (Option Nat)) (hsl : son_vals.length = (node_sons e.2).length)
    (flag_vals : List Int) (hfl : flag_vals.length = (node_flags e.2).length)
    (hbase : List node_inst) :
    SHLPmakeNodeVa g.make eval_init t file line col
        (sent_attribs attrtype_names (node_attribs e.2) fs
          ++ (son_vals.map attr_value.ptr ++ flag_vals.map attr_value.data)) hbase
      = some (hbase.length, hbase ++ [node_inst.mk t file line col none
          (List.zipWith (fun s v => ((string_toupper e.1, string_toupper s.1), v))
            (node_sons e.2) son_vals)
          (List.zipWith (rebuilt_attrib attrtype_names eval_init) (node_attribs e.2) fs)
          (List.zipWith (fun s v => ((string_toupper e.1, string_toupper s.1), v))
            (node_flags e.2) flag_vals)]) := by
  obtain ⟨_, _, _, hmake, _⟩ := gen_serialize_tables attrtype_names nodes g hgen
  obtain ⟨body, hbody, hlook⟩ := node_loop_lookup "N_"
    (gen_serialize_helper_c_case attrtype_names) nodes g.make hmake t e he
  rw [make_body_shape attrtype_names e.1 e.2 hreg] at hbody
  unfold SHLPmakeNodeVa
  simp only [hlook, MAKE_run]
  rw [← Option.some.inj hbody]
  rw [run_until_end _ _ _ _ _ (by
    intro st hst
    simp only [List.mem_append, List.mem_singleton, List.mem_flatMap, List.mem_map] at hst
    rcases hst with (((((rfl | hx) | hx) | ⟨x, _, hx⟩) | ⟨x, _, hx⟩) | ⟨x, _, hx⟩)
    · rfl
    · split at hx
      · rw [List.mem_singleton] at hx
        subst hx
        rfl
      · cases hx
    · split at hx
      · rw [List.mem_singleton] at hx
        subst hx
        rfl
      · cases hx
    · split at hx
      · rw [List.mem_singleton] at hx
        subst hx
        rfl
      · rw [List.mem_singleton] at hx
        subst hx
        rfl
    · subst hx
      rfl
    · subst hx
      rfl) rfl]
  have hsetsons : ∀ s : MakeState, run_steps (MAKE_step eval_init t file line col)
      (if (node_sons e.2).length ≠ 0 then
        [MakeStmt.set_sons (string_tolower e.1) (string_toupper e.1)] else []) s = some s := by
    intro s
    split <;> rfl
  have hsetattr : ∀ s : MakeState, run_steps (MAKE_step eval_init t file line col)
      (if (node_flags e.2).length ≠ 0 ∨ (node_attribs e.2).length ≠ 0 then
        [MakeStmt.set_attribs (string_tolower e.1) (string_toupper e.1)] else []) s
        = some s := by
    intro s
    split <;> rfl
  rw [run_steps_append, run_steps_append, run_steps_append, run_steps_append,
    run_steps_append]
  simp only [run_steps, MAKE_step, hsetsons, hsetattr]
  rw [MAKE_attribs_loop attrtype_names eval_init t file line col e.1 hbase [] []
    (node_attribs e.2) fs hfs [] (by intro k _ hc; cases hc) hk2]
  simp only
  rw [MAKE_sons_loop eval_init t file line col e.1 hbase _ [] (node_sons e.2) son_vals hsl []
    (by intro k _ hc; cases hc) hk1]
  simp only
  have := MAKE_flags_loop eval_init t file line col e.1 hbase
    ([] ++ List.zipWith (fun s v => ((string_toupper e.1, string_toupper s.1), v))
      (node_sons e.2) son_vals)
    ([] ++ List.zipWith (rebuilt_attrib attrtype_names eval_init) (node_attribs e.2) fs)
    (node_flags e.2) flag_vals hfl []
    (by intro k _ hc; cases hc) hk3 []
  simp only [List.append_nil, List.nil_append] at this
  simp only [List.nil_append]
  rw [this]

/-! ## Phase 2: the constructor expression -/

theorem attrib_atn_name (attrtype_names : List attrtype_name) (v : yajl_val)
    (atn : attrtype_name) (h : attrib_atn attrtype_names v = some atn) :
    attrib_type_name v = some atn.name := by
  unfold attrib_atn at h
  cases ht : attrib_type_name v with
  | none => simp [ht] at h
  | some t =>
    simp only [ht] at h
    unfold HASH_FIND_STR at h
    have := List.find?_some h
    have h2 : atn.name = t := by simpa using this
    rw [h2]

theorem set_body_shape (attrtype_names : List attrtype_name) (node_name : String)
    (node : yajl_val) (hreg : attribs_registered attrtype_names node) :
    gen_serialize_node_c_body attrtype_names node_name node
      = some ([SetStmt.dbug_enter, SetStmt.write_header (string_tolower node_name)]
        ++ (node_attribs node).flatMap (fun e =>
            match attrib_atn attrtype_names e.2 with
            | none => []
            | some atn =>
              if atn.persist = false then []
              else [SetStmt.write_comma,
                SetStmt.sat_serialize atn.name (string_toupper node_name)
                  (string_toupper e.1)])
        ++ (node_sons node).flatMap
            (gen_serialize_node_c_son node_name (string_toupper node_name))
        ++ (node_flags node).map (gen_serialize_node_c_flag (string_toupper node_name))
        ++ [SetStmt.write_close, SetStmt.return_arg_node]) := by
  have hn : ∀ e ∈ node_attribs node,
      gen_serialize_node_c_attrib attrtype_names (string_toupper node_name) e
        = some (match attrib_atn attrtype_names e.2 with
            | none => []
            | some atn =>
              if atn.persist = false then []
              else [SetStmt.write_comma,
                SetStmt.sat_serialize atn.name (string_toupper node_name)
                  (string_toupper e.1)]) := by
    intro e he
    have h1 := hreg e he
    unfold gen_serialize_node_c_attrib
    cases hatn : attrib_atn attrtype_names e.2 with
    | none => simp [hatn] at h1
    | some atn =>
      cases hp : atn.persist <;> simp [hp]
  have hloop := emit_loop_eq_flatMap _ _ _ hn
  unfold node_attribs at hloop
  unfold gen_serialize_node_c_body
  simp only [hloop]
  rfl

theorem node_attrib_persisted (attrtype_names : List attrtype_name)
    (hlinkp : ∀ atn ∈ attrtype_names,
      atn.name = "Link" ∨ atn.name = "CodeLink" ∨ atn.name = "Node" → atn.persist = true)
    (e : String × yajl_val) (hreg : (attrib_atn attrtype_names e.2).isSome = true)
    (hl : is_node_attrib e = true) : attrib_persisted attrtype_names e = true := by
  cases hatn : attrib_atn attrtype_names e.2 with
  | none => simp [hatn] at hreg
  | some atn =>
    have hname := attrib_atn_name attrtype_names e.2 atn hatn
    have hmem : atn ∈ attrtype_names := by
      unfold attrib_atn at hatn
      simp only [hname] at hatn
      exact List.mem_of_find?_eq_some hatn
    have hn : atn.name = "Node" := by
      simpa [is_node_attrib, hname] using hl
    simp [attrib_persisted, hatn, hlinkp atn hmem (Or.inr (Or.inr hn))]

theorem SET_attribs_loop (attrtype_names : List attrtype_name) (call : Nat → Option SerArg)
    (heap : List node_inst) (a : Nat) (nd : node_inst) (node_name : String)
    (wk : Nat → Option (List Nat)) (w : Nat → Option SerArg) (P : Nat → Prop)
    (hnd : heap[a]? = some nd)
    (hcall : ∀ b l, wk b = some l → (∀ c ∈ l, P c) → ∃ t, w b = some t ∧ call b = some t)
    (es : List (String × yajl_val)) (fs : List ((String × String) × attr_value))
    (hal : List.Forall₂ (aligned node_name nd.attribs) es fs)
    (hreg : ∀ e ∈ es, (attrib_atn attrtype_names e.2).isSome = true)
    (hnp : ∀ e ∈ es, is_node_attrib e = true → attrib_persisted attrtype_names e = true)
    (hok : ∀ x ∈ List.zip es fs, attrib_ptr_ok x.1 x.2.2)
    (l : List Nat) (hw : walk_list wk (node_attr_targets es fs) = some l)
    (hP : ∀ c ∈ l, P c) (o : SetOut) :
    ∃ xs, attr_args attrtype_names w es fs = some xs
      ∧ run_steps (SET_step call heap a)
          (es.flatMap (fun e =>
            match attrib_atn attrtype_names e.2 with
            | none => []
            | some atn =>
              if atn.persist = false then []
              else [SetStmt.write_comma,
                SetStmt.sat_serialize atn.name (string_toupper node_name)
                  (string_toupper e.1)]))
          o
        = some (SetOut.mk o.header (o.args ++ xs) o.closed) := by
  induction hal generalizing l o with
  | nil => exact ⟨[], rfl, by simp [run_steps]⟩
  | @cons e f es1 fs1 hef _ ih =>
    obtain ⟨hkey, hget⟩ := hef
    have hok1 : ∀ x ∈ List.zip es1 fs1, attrib_ptr_ok x.1 x.2.2 :=
      fun x hx => hok x (by simp [List.zip_cons_cons, hx])
    have hreg1 : ∀ e ∈ es1, (attrib_atn attrtype_names e.2).isSome = true :=
      fun x hx => hreg x (List.mem_cons_of_mem _ hx)
    have hnp1 : ∀ e ∈ es1, is_node_attrib e = true →
        attrib_persisted attrtype_names e = true :=
      fun x hx => hnp x (List.mem_cons_of_mem _ hx)
    have hokf := hok (e, f) (by simp [List.zip_cons_cons])
    have he := hreg e (List.mem_cons_self _ _)
    rw [List.flatMap_cons, run_steps_append]
    cases hatn : attrib_atn attrtype_names e.2 with
    | none => simp [hatn] at he
    | some atn =>
      have hname := attrib_atn_name attrtype_names e.2 atn hatn
      cases hp : atn.persist with
      | false =>
        have hpe : attrib_persisted attrtype_names e = false := by
          simp [attrib_persisted, hatn, hp]
        have hN : is_node_attrib e = false := by
          cases hN : is_node_attrib e with
          | false => rfl
          | true =>
            have := hnp e (List.mem_cons_self _ _) hN
            rw [hpe] at this
            cases this
        have hw1 : walk_list wk (node_attr_targets es1 fs1) = some l := by
          simp only [node_attr_targets, hN, Bool.false_eq_true, if_false] at hw
          exact hw
        obtain ⟨xs, h1, h2⟩ := ih hreg1 hnp1 hok1 l hw1 hP o
        refine ⟨xs, ?_, ?_⟩
        · simp only [attr_args, hpe, Bool.false_eq_true, if_false, h1]
        · simp only [hp, if_true, run_steps]
          exact h2
      | true =>
        have hpe : attrib_persisted attrtype_names e = true := by
          simp [attrib_persisted, hatn, hp]
        have hNiff : is_node_attrib e = true ↔ atn.name = "Node" := by
          simp [is_node_attrib, hname]
        have hLiff : is_link_attrib e = true ↔ (atn.name = "Link" ∨ atn.name = "CodeLink") := by
          simp [is_link_attrib, hname]
        have hx : ∃ x l1, SATserialize call atn.name f.2 = some x
            ∧ attr_arg w e f.2 = some x
            ∧ walk_list wk (node_attr_targets es1 fs1) = some l1 ∧ (∀ c ∈ l1, P c) := by
          by_cases hl : atn.name = "Link" ∨ atn.name = "CodeLink"
          · have hisl : is_link_attrib e = true := hLiff.2 hl
            have hN : is_node_attrib e = false := by
              cases hN : is_node_attrib e with
              | false => rfl
              | true =>
                have := node_attrib_not_link e hN
                rw [hisl] at this
                cases this
            have hw1 : walk_list wk (node_attr_targets es1 fs1) = some l := by
              simp only [node_attr_targets, hN, Bool.false_eq_true, if_false] at hw
              exact hw
            refine ⟨SerArg.null, l, ?_, ?_, hw1, hP⟩
            · simp only [SATserialize, hl, if_true]
            · simp only [attr_arg, hisl, if_true]
          · have hisl : is_link_attrib e = false := by
              cases h : is_link_attrib e with
              | false => rfl
              | true => exact absurd (hLiff.1 h) hl
            cases hv : f.2 with
            | data d =>
              have hN : is_node_attrib e = false := by
                cases hN : is_node_attrib e with
                | false => rfl
                | true =>
                  obtain ⟨p, hp1⟩ := hokf.2 hN
                  simp only at hp1
                  rw [hv] at hp1
                  cases hp1
              have hw1 : walk_list wk (node_attr_targets es1 fs1) = some l := by
                simp only [node_attr_targets, hN, Bool.false_eq_true, if_false] at hw
                exact hw
              refine ⟨SerArg.value (attr_value.data d), l, ?_, ?_, hw1, hP⟩
              · simp only [SATserialize, hl, if_false]
              · simp only [attr_arg, hisl, Bool.false_eq_true, if_false]
            | ptr p =>
              cases p with
              | none =>
                have hw1 : walk_list wk (node_attr_targets es1 fs1) = some l := by
                  by_cases hN : is_node_attrib e = true
                  · simp only [node_attr_targets, hN, if_true, hv] at hw
                    simp only [walk_list] at hw
                    exact hw
                  · simp only [node_attr_targets, hN, Bool.false_eq_true, if_false] at hw
                    exact hw
                refine ⟨SerArg.null, l, ?_, ?_, hw1, hP⟩
                · simp only [SATserialize, hl, if_false]
                · simp only [attr_arg, hisl, Bool.false_eq_true, if_false]
              | some b =>
                by_cases hN : is_node_attrib e = true
                · have hname2 : atn.name = "Node" := hNiff.1 hN
                  simp only [node_attr_targets, hN, if_true, hv, walk_list] at hw
                  cases hb : wk b with
                  | none => simp [hb] at hw
                  | some lb =>
                    simp only [hb] at hw
                    cases hr : walk_list wk (node_attr_targets es1 fs1) with
                    | none => simp [hr] at hw
                    | some ls =>
                      simp only [hr, Option.some.injEq] at hw
                      subst hw
                      obtain ⟨t, hwt, hct⟩ := hcall b lb hb
                        (fun c hc => hP c (List.mem_append_left _ hc))
                      refine ⟨t, ls, ?_, ?_, rfl,
                        fun c hc => hP c (List.mem_append_right _ hc)⟩
                      · unfold SATserialize
                        rw [if_neg hl]
                        simp only [hname2, if_true, hct]
                      · simp only [attr_arg, hisl, Bool.false_eq_true, if_false, hN, if_true,
                          hwt]
                · have hname2 : atn.name ≠ "Node" := fun h => hN (hNiff.2 h)
                  have hw1 : walk_list wk (node_attr_targets es1 fs1) = some l := by
                    simp only [node_attr_targets, hN, Bool.false_eq_true, if_false] at hw
                    exact hw
                  refine ⟨SerArg.value (attr_value.ptr (some b)), l, ?_, ?_, hw1, hP⟩
                  · simp only [SATserialize, hl, if_false, hname2]
                  · simp only [attr_arg, hisl, Bool.false_eq_true, if_false, hN]
        obtain ⟨x, l1, hsat, harg, hw1, hP1⟩ := hx
        obtain ⟨xs, h1, h2⟩ := ih hreg1 hnp1 hok1 l1 hw1 hP1
          (SetOut.mk o.header (o.args ++ [x]) o.closed)
        refine ⟨x :: xs, ?_, ?_⟩
        · simp only [attr_args, hpe, if_true, harg, h1]
        · simp only [hp, Bool.true_eq_false, if_false, run_steps, SET_step,
            heap_get_attrib, hnd, ← hkey, hget, hsat]
          rw [h2]
          simp [List.append_assoc]

theorem SET_sons_loop (call : Nat → Option SerArg)
    (heap : List node_inst) (a : Nat) (nd : node_inst) (node_name : String)
    (wk : Nat → Option (List Nat)) (w : Nat → Option SerArg) (P : Nat → Prop)
    (hnd : heap[a]? = some nd)
    (hcall : ∀ b l, wk b = some l → (∀ c ∈ l, P c) → ∃ t, w b = some t ∧ call b = some t)
    (es : List (String × yajl_val)) (fs : List ((String × String) × Option Nat))
    (hal : List.Forall₂ (aligned node_name nd.sons) es fs)
    (l : List Nat) (hw : walk_list wk (owned_sons node_name es fs) = some l)
    (hP : ∀ c ∈ l, P c) (o : SetOut) :
    ∃ xs, son_args w (owned_sons node_name es fs) = some xs
      ∧ run_steps (SET_step call heap a)
          (es.flatMap (gen_serialize_node_c_son node_name (string_toupper node_name))) o
        = some (SetOut.mk o.header (o.args ++ xs) o.closed) := by
  induction hal generalizing l o with
  | nil =>
    exact ⟨[], rfl, by simp [run_steps]⟩
  | @cons e f es1 fs1 hef _ ih =>
    obtain ⟨hkey, hget⟩ := hef
    rw [List.flatMap_cons, run_steps_append]
    have hgs := (son_loops_suppression node_name e)
    by_cases hs : (node_name, e.1) ∈ suppressed_sons
    · have hw1 : walk_list wk (owned_sons node_name es1 fs1) = some l := by
        simpa [owned_sons, hs, walk_list] using hw
      have hhead : run_steps (SET_step call heap a)
          (gen_serialize_node_c_son node_name (string_toupper node_name) e) o
          = some (SetOut.mk o.header (o.args ++ [SerArg.null]) o.closed) := by
        rw [hgs.2.2.1.2 hs]
        rfl
      rw [hhead]
      obtain ⟨xs, h1, h2⟩ := ih l hw1 hP
        (SetOut.mk o.header (o.args ++ [SerArg.null]) o.closed)
      refine ⟨SerArg.null :: xs, ?_, ?_⟩
      · simp only [owned_sons, hs, if_true, son_args, h1]
      · simp only [h2]
        simp [List.append_assoc]
    · simp only [owned_sons, hs, if_false] at hw
      cases hv : f.2 with
      | none =>
        have hw1 : walk_list wk (owned_sons node_name es1 fs1) = some l := by
          simpa [walk_list, hv] using hw
        have hhead : run_steps (SET_step call heap a)
            (gen_serialize_node_c_son node_name (string_toupper node_name) e) o
            = some (SetOut.mk o.header (o.args ++ [SerArg.null]) o.closed) := by
          rw [(hgs.2.2.2 hs).2.2]
          simp only [run_steps, SET_step, heap_get_son, hnd, ← hkey, hget, hv]
        rw [hhead]
        obtain ⟨xs, h1, h2⟩ := ih l hw1 hP
          (SetOut.mk o.header (o.args ++ [SerArg.null]) o.closed)
        refine ⟨SerArg.null :: xs, ?_, ?_⟩
        · simp only [owned_sons, hs, if_false, hv, son_args, h1]
        · simp only [h2]
          simp [List.append_assoc]
      | some b =>
        simp only [hv, walk_list] at hw
        cases hb : wk b with
        | none => simp [hb] at hw
        | some lb =>
          simp only [hb] at hw
          cases hr : walk_list wk (owned_sons node_name es1 fs1) with
          | none => simp [hr] at hw
          | some ls =>
            simp only [hr, Option.some.injEq] at hw
            subst hw
            obtain ⟨t, hwt, hct⟩ := hcall b lb hb
              (fun c hc => hP c (List.mem_append_left _ hc))
            have hhead : run_steps (SET_step call heap a)
                (gen_serialize_node_c_son node_name (string_toupper node_name) e) o
                = some (SetOut.mk o.header (o.args ++ [t]) o.closed) := by
              rw [(hgs.2.2.2 hs).2.2]
              simp only [run_steps, SET_step, heap_get_son, hnd, ← hkey, hget, hv, hct]
            rw [hhead]
            obtain ⟨xs, h1, h2⟩ := ih ls hr
              (fun c hc => hP c (List.mem_append_right _ hc))
              (SetOut.mk o.header (o.args ++ [t]) o.closed)
            refine ⟨t :: xs, ?_, ?_⟩
            · simp only [owned_sons, hs, if_false, hv, son_args, hwt, h1]
            · simp only [h2]
              simp [List.append_assoc]

theorem SET_flags_loop (call : Nat → Option SerArg)
    (heap : List node_inst) (a : Nat) (nd : node_inst) (node_name : String)
    (hnd : heap[a]? = some nd)
    (es : List (String × yajl_val)) (fs : List ((String × String) × Int))
    (hal : List.Forall₂ (aligned node_name nd.flags) es fs) (o : SetOut) :
    run_steps (SET_step call heap a)
        (es.map (gen_serialize_node_c_flag (string_toupper node_name))) o
      = some (SetOut.mk o.header (o.args ++ fs.map (fun f => SerArg.flag f.2)) o.closed) := by
  induction hal generalizing o with
  | nil => simp [run_steps]
  | @cons e f es1 fs1 hef _ ih =>
    obtain ⟨hkey, hget⟩ := hef
    simp only [List.map_cons, run_steps, gen_serialize_node_c_flag, SET_step, hnd, ← hkey, hget]
    have := ih (SetOut.mk o.header (o.args ++ [SerArg.flag f.2]) o.closed)
    simp only [gen_serialize_node_c_flag] at this
    rw [this]
    simp [List.append_assoc]

/-- Phase 2 on a graph that satisfies the conditions: the generated `SET` walk from
`a` writes the constructor expression of the graph under `a`. -/
theorem SET_call_expr (attrtype_names : List attrtype_name)
    (nodes : List (String × yajl_val)) (g : generated) (heap : List node_inst)
    (hgen : gen_serialize attrtype_names nodes = some g)
    (hschema : schema_ok attrtype_names nodes) :
    ∀ fuel a l, walk_owned nodes heap fuel a = some l →
      (∀ c ∈ l, node_wf nodes heap c) →
      ∃ t, graph_expr attrtype_names nodes heap fuel a = some t
        ∧ SET_call g.set heap fuel a = some t := by
  obtain ⟨_, hset, _⟩ := gen_serialize_tables attrtype_names nodes g hgen
  intro fuel
  induction fuel with
  | zero => intro a l hw; simp [walk_owned] at hw
  | succ f ih =>
    intro a l hw hok
    simp only [walk_owned] at hw
    cases hnd : heap[a]? with
    | none => simp [hnd] at hw
    | some nd =>
      simp only [hnd] at hw
      cases he0 : schema_node nodes nd.nodetype with
      | none => simp [he0] at hw
      | some e =>
        simp only [he0] at hw
        cases hwl : walk_list (walk_owned nodes heap f)
            (owned_sons e.1 (node_sons e.2) nd.sons
              ++ node_attr_targets (node_attribs e.2) nd.attribs) with
        | none => simp [hwl] at hw
        | some l0 =>
          simp only [hwl, Option.some.injEq] at hw
          subst hw
          obtain ⟨l1, l2, hwl1, hwl2, hl0⟩ := walk_list_split _ _ _ _ hwl
          subst hl0
          obtain ⟨nd1, e1, hnd1, he, hmem, htype, hreg, hk1, hk2, hk3, hal1, hal2, hal3,
            hattr⟩ := node_wf_facts attrtype_names nodes heap a hschema
              (hok a (List.mem_cons_self _ _))
          rw [hnd] at hnd1
          cases hnd1
          rw [he0] at he
          cases he
          obtain ⟨body, hbody, hlook⟩ := node_loop_lookup "SET"
            (gen_serialize_node_c_body attrtype_names) nodes g.set hset nd.nodetype e he0
          rw [set_body_shape attrtype_names e.1 e.2 hreg] at hbody
          obtain ⟨ys, hys, hattrs⟩ := SET_attribs_loop attrtype_names (SET_call g.set heap f)
            heap a nd e.1 (walk_owned nodes heap f)
            (graph_expr attrtype_names nodes heap f)
            (fun c => node_wf nodes heap c) hnd
            (fun b l hb hl => ih b l hb hl)
            (node_attribs e.2) nd.attribs hal2 hreg
            (fun x hx hN => node_attrib_persisted attrtype_names hschema.2.2 x (hreg x hx) hN)
            hattr l2 hwl2
            (fun c hc => hok c (List.mem_cons_of_mem _ (List.mem_append_right _ hc)))
            (SetOut.mk (some (string_tolower e.1, nd.file, nd.line, nd.col)) [] false)
          obtain ⟨xs, hxs, hsons⟩ := SET_sons_loop (SET_call g.set heap f) heap a nd e.1
            (walk_owned nodes heap f) (graph_expr attrtype_names nodes heap f)
            (fun c => node_wf nodes heap c) hnd
            (fun b l hb hl => ih b l hb hl)
            (node_sons e.2) nd.sons hal1 l1 hwl1
            (fun c hc => hok c (List.mem_cons_of_mem _ (List.mem_append_left _ hc)))
            (SetOut.mk (some (string_tolower e.1, nd.file, nd.line, nd.col))
              ([] ++ ys) false)
          refine ⟨SerArg.make nd.nodetype nd.file nd.line nd.col
            (ys ++ xs ++ nd.flags.map (fun f => SerArg.flag f.2)), ?_, ?_⟩
          · simp only [graph_expr, hnd, he0, hys, hxs]
          · simp only [SET_call, hnd, hlook, SET_run]
            rw [← Option.some.inj hbody]
            have hsplit : ([SetStmt.dbug_enter, SetStmt.write_header (string_tolower e.1)]
                ++ (node_attribs e.2).flatMap (fun e1 =>
                    match attrib_atn attrtype_names e1.2 with
                    | none => []
                    | some atn =>
                      if atn.persist = false then []
                      else [SetStmt.write_comma,
                        SetStmt.sat_serialize atn.name (string_toupper e.1)
                          (string_toupper e1.1)])
                ++ (node_sons e.2).flatMap
                    (gen_serialize_node_c_son e.1 (string_toupper e.1))
                ++ (node_flags e.2).map (gen_serialize_node_c_flag (string_toupper e.1))
                ++ [SetStmt.write_close, SetStmt.return_arg_node])
              = ([SetStmt.dbug_enter, SetStmt.write_header (string_tolower e.1)]
                ++ (node_attribs e.2).flatMap (fun e1 =>
                    match attrib_atn attrtype_names e1.2 with
                    | none => []
                    | some atn =>
                      if atn.persist = false then []
                      else [SetStmt.write_comma,
                        SetStmt.sat_serialize atn.name (string_toupper e.1)
                          (string_toupper e1.1)])
                ++ (node_sons e.2).flatMap
                    (gen_serialize_node_c_son e.1 (string_toupper e.1))
                ++ (node_flags e.2).map (gen_serialize_node_c_flag (string_toupper e.1))
                ++ [SetStmt.write_close]) ++ [SetStmt.return_arg_node] := by
              simp [List.append_assoc]
            rw [hsplit]
            rw [run_until_end _ _ _ _ _ (by
              intro s hs
              simp only [List.mem_append, List.mem_cons, List.mem_singleton, List.not_mem_nil,
                or_false, List.mem_flatMap, List.mem_map] at hs
              rcases hs with ((((rfl | rfl) | ⟨x, _, hx⟩) | ⟨x, _, hx⟩) | ⟨x, _, hx⟩) | rfl
              · rfl
              · rfl
              · split at hx
                · cases hx
                · split at hx
                  · cases hx
                  · rcases List.mem_cons.1 hx with hx | hx
                    · subst hx
                      rfl
                    · rw [List.mem_singleton] at hx
                      subst hx
                      rfl
              · unfold gen_serialize_node_c_son at hx
                split at hx
                · rw [List.mem_singleton] at hx
                  subst hx
                  rfl
                · split at hx
                  · rw [List.mem_singleton] at hx
                    subst hx
                    rfl
                  · rw [List.mem_singleton] at hx
                    subst hx
                    rfl
              · subst hx
                rfl
              · rfl) rfl]
            rw [run_steps_append, run_steps_append, run_steps_append, run_steps_append]
            simp only [run_steps, SET_step, hnd]
            rw [hattrs]
            simp only
            rw [hsons]
            simp only
            rw [SET_flags_loop (SET_call g.set heap f) heap a nd e.1 hnd
              (node_flags e.2) nd.flags hal3 _]
            simp only [SetOut.expr, List.nil_append, htype]

/-! ## The evaluation of the constructor expression -/

theorem eval_list_append (cases : List (String × List MakeStmt))
    (eval_init : String → attr_value) (xs ys : List SerArg) (h h1 h2 : List node_inst)
    (vs ws : List attr_value)
    (hx : SerArg.eval_list cases eval_init xs h = some (vs, h1))
    (hy : SerArg.eval_list cases eval_init ys h1 = some (ws, h2)) :
    SerArg.eval_list cases eval_init (xs ++ ys) h = some (vs ++ ws, h2) := by
  induction xs generalizing h vs with
  | nil =>
    simp only [SerArg.eval_list, Option.some.injEq, Prod.mk.injEq] at hx
    obtain ⟨rfl, rfl⟩ := hx
    simpa using hy
  | cons x xs ih =>
    simp only [SerArg.eval_list] at hx
    cases hxe : SerArg.eval cases eval_init x h with
    | none => simp [hxe] at hx
    | some r =>
      obtain ⟨v, hh⟩ := r
      simp only [hxe] at hx
      cases hxl : SerArg.eval_list cases eval_init xs hh with
      | none => simp [hxl] at hx
      | some r2 =>
        obtain ⟨vs2, hh2⟩ := r2
        simp only [hxl, Option.some.injEq, Prod.mk.injEq] at hx
        obtain ⟨rfl, rfl⟩ := hx
        have := ih hh vs2 hxl
        rw [List.cons_append]
        simp only [SerArg.eval_list, hxe]
        rw [this]
        simp

theorem eval_flag_args (cases : List (String × List MakeStmt))
    (eval_init : String → attr_value) (fs : List ((String × String) × Int))
    (h : List node_inst) :
    SerArg.eval_list cases eval_init (fs.map (fun f => SerArg.flag f.2)) h
      = some ((fs.map Prod.snd).map attr_value.data, h) := by
  induction fs with
  | nil => simp [SerArg.eval_list]
  | cons f rest ih =>
    simp only [List.map_cons, SerArg.eval_list, SerArg.eval, ih]

/-! ## The nodes built by the evaluation -/

theorem son_copied_mono (Z Z1 : List (Nat × Nat)) (hZ : ∀ p ∈ Z, p ∈ Z1) (v v1 : Option Nat)
    (h : son_copied Z v v1) : son_copied Z1 v v1 := by
  rcases h with h | ⟨b, b1, h1, h2, h3⟩
  · exact Or.inl h
  · exact Or.inr ⟨b, b1, h1, h2, hZ _ h3⟩

theorem attr_copied_mono (Z Z1 : List (Nat × Nat)) (hZ : ∀ p ∈ Z, p ∈ Z1)
    (e : String × yajl_val) (v v1 : attr_value) (h : attr_copied Z e v v1) :
    attr_copied Z1 e v v1 := by
  unfold attr_copied at h ⊢
  by_cases hN : is_node_attrib e = true
  · rw [if_pos hN] at h ⊢
    obtain ⟨p, p1, h1, h2, h3⟩ := h
    exact ⟨p, p1, h1, h2, son_copied_mono Z Z1 hZ _ _ h3⟩
  · rw [if_neg hN] at h ⊢
    exact h

theorem attrs_copied_mono (Z Z1 : List (Nat × Nat)) (hZ : ∀ p ∈ Z, p ∈ Z1)
    (es : List (String × yajl_val)) (fs fs1 : List ((String × String) × attr_value))
    (h : attrs_copied Z es fs fs1) : attrs_copied Z1 es fs fs1 :=
  List.Forall₂.imp (fun _ _ hx => ⟨hx.1, attr_copied_mono Z Z1 hZ _ _ _ hx.2⟩) h

theorem copy_of_mono (attrtype_names : List attrtype_name) (eval_init : String → attr_value)
    (Z Z1 : List (Nat × Nat)) (hZ : ∀ p ∈ Z, p ∈ Z1) (e : String × yajl_val)
    (nd nd1 : node_inst) (h : copy_of attrtype_names eval_init Z e nd nd1) :
    copy_of attrtype_names eval_init Z1 e nd nd1 := by
  obtain ⟨h1, h2, h3, h4, ⟨h5a, h5⟩, ⟨fs1, h6, h6b⟩, h7⟩ := h
  refine ⟨h1, h2, h3, h4, ⟨h5a, ?_⟩, ⟨fs1, attrs_copied_mono Z Z1 hZ _ _ _ h6, h6b⟩, h7⟩
  exact List.Forall₂.imp (fun x x1 hx => son_copied_mono Z Z1 hZ _ _ hx) h5

theorem built_ok_mono (attrtype_names : List attrtype_name) (eval_init : String → attr_value)
    (nodes : List (String × yajl_val)) (heap : List node_inst) (Z Z1 : List (Nat × Nat))
    (l arr : List Nat) (base base1 : Nat) (hfull ext : List node_inst)
    (hZ : ∀ p ∈ Z, p ∈ Z1) (hbase : base1 ≤ base)
    (h : built_ok attrtype_names eval_init nodes heap Z l arr base hfull) :
    built_ok attrtype_names eval_init nodes heap Z1 l arr base1 (hfull ++ ext) := by
  obtain ⟨hlen, hall⟩ := h
  refine ⟨hlen, ?_⟩
  intro p hp
  obtain ⟨hb, hlt, nd, nd1, e, h1, h2, h3, h4⟩ := hall p hp
  refine ⟨Nat.le_trans hbase hb, ?_, nd, nd1, e, h1, ?_, h3,
    copy_of_mono attrtype_names eval_init Z Z1 hZ e nd nd1 h4⟩
  · rw [List.length_append]
    omega
  · rw [List.getElem?_append_left hlt]
    exact h2

theorem built_ok_append (attrtype_names : List attrtype_name)
    (eval_init : String → attr_value)
    (nodes : List (String × yajl_val)) (heap : List node_inst) (Z : List (Nat × Nat))
    (l1 arr1 l2 arr2 : List Nat) (base : Nat) (hfull : List node_inst)
    (h1 : built_ok attrtype_names eval_init nodes heap Z l1 arr1 base hfull)
    (h2 : built_ok attrtype_names eval_init nodes heap Z l2 arr2 base hfull) :
    built_ok attrtype_names eval_init nodes heap Z (l1 ++ l2) (arr1 ++ arr2) base hfull := by
  obtain ⟨hl1, ha1⟩ := h1
  obtain ⟨hl2, ha2⟩ := h2
  refine ⟨by simp [hl1, hl2], ?_⟩
  intro p hp
  rw [List.zip_append hl1.symm] at hp
  rcases List.mem_append.1 hp with hp | hp
  · exact ha1 p hp
  · exact ha2 p hp

theorem zipWith_keys_fst {α : Type} (node_name : String) (es : List (String × yajl_val))
    (vals : List α) (h : vals.length = es.length) :
    (List.zipWith (fun s v => ((string_toupper node_name, string_toupper s.1), v))
        es vals).map Prod.fst = declared_keys node_name es := by
  induction es generalizing vals with
  | nil => simp [declared_keys]
  | cons e es1 ih =>
    cases vals with
    | nil => simp at h
    | cons v vs =>
      simp only [List.length_cons, Nat.add_right_cancel_iff] at h
      simp only [List.zipWith_cons_cons, List.map_cons, declared_keys, List.cons.injEq,
        true_and]
      exact ih vs h

theorem owned_sons_length (node_name : String) (es : List (String × yajl_val))
    (fs : List ((String × String) × Option Nat)) (h : fs.length = es.length) :
    (owned_sons node_name es fs).length = es.length := by
  induction es generalizing fs with
  | nil => simp [owned_sons]
  | cons e es1 ih =>
    cases fs with
    | nil => simp at h
    | cons f fs1 =>
      simp only [List.length_cons, Nat.add_right_cancel_iff] at h
      simp only [owned_sons, List.length_cons, ih fs1 h]

/-- The sons of a node that was built are the sons the serialization descends into:
the sons it does not look at were built null. -/
theorem owned_sons_built (Z : List (Nat × Nat)) (node_name : String)
    (es : List (String × yajl_val)) (fs : List ((String × String) × Option Nat))
    (vals : List (Option Nat))
    (h : List.Forall₂ (son_copied Z) (owned_sons node_name es fs) vals) :
    owned_sons node_name es
        (List.zipWith (fun s v => ((string_toupper node_name, string_toupper s.1), v))
          es vals) = vals := by
  induction es generalizing fs vals with
  | nil =>
    simp only [owned_sons, List.forall₂_nil_left_iff] at h
    subst h
    simp [owned_sons]
  | cons e es1 ih =>
    cases fs with
    | nil =>
      simp only [owned_sons, List.forall₂_nil_left_iff] at h
      subst h
      simp [owned_sons]
    | cons f fs1 =>
      simp only [owned_sons] at h
      cases vals with
      | nil => simp at h
      | cons v vs =>
        simp only [List.forall₂_cons] at h
        simp only [List.zipWith_cons_cons, owned_sons, ih fs1 vs h.2, List.cons.injEq,
          and_true]
        by_cases hs : (node_name, e.1) ∈ suppressed_sons
        · simp only [hs, if_true] at h ⊢
          rcases h.1 with ⟨_, h2⟩ | ⟨b, b1, h1, _, _⟩
          · exact h2.symm
          · cases h1
        · simp only [hs, if_false]

theorem flags_zip (node_name : String) (es : List (String × yajl_val))
    (flags : List ((String × String) × Int))
    (hkeys : flags.map Prod.fst = declared_keys node_name es) :
    List.zipWith (fun s v => ((string_toupper node_name, string_toupper s.1), v))
        es (flags.map Prod.snd) = flags := by
  induction es generalizing flags with
  | nil =>
    have : flags = [] := by simpa [declared_keys] using hkeys
    subst this
    simp
  | cons e es1 ih =>
    cases flags with
    | nil => simp [declared_keys] at hkeys
    | cons f fs1 =>
      simp only [declared_keys, List.map_cons, List.cons.injEq] at hkeys
      obtain ⟨hf, hfs1⟩ := hkeys
      simp only [List.map_cons, List.zipWith_cons_cons, ih fs1 hfs1, ← hf]

theorem zipWith_keys_snd {α : Type} (node_name : String) (es : List (String × yajl_val))
    (vals : List α) (h : vals.length = es.length) :
    (List.zipWith (fun s v => ((string_toupper node_name, string_toupper s.1), v))
        es vals).map Prod.snd = vals := by
  induction es generalizing vals with
  | nil =>
    have : vals = [] := by simpa using h
    subst this
    simp
  | cons e es1 ih =>
    cases vals with
    | nil => simp at h
    | cons v vs =>
      simp only [List.length_cons, Nat.add_right_cancel_iff] at h
      simp only [List.zipWith_cons_cons, List.map_cons, ih vs h]

theorem node_attr_targets_rebuilt (attrtype_names : List attrtype_name)
    (eval_init : String → attr_value) (es : List (String × yajl_val))
    (fs1 : List ((String × String) × attr_value))
    (hnp : ∀ e ∈ es, is_node_attrib e = true → attrib_persisted attrtype_names e = true) :
    node_attr_targets es (List.zipWith (rebuilt_attrib attrtype_names eval_init) es fs1)
      = node_attr_targets es fs1 := by
  induction es generalizing fs1 with
  | nil => simp [node_attr_targets]
  | cons e es1 ih =>
    cases fs1 with
    | nil => simp [node_attr_targets]
    | cons f fs2 =>
      have ih1 := ih fs2 (fun x hx => hnp x (List.mem_cons_of_mem _ hx))
      simp only [List.zipWith_cons_cons, node_attr_targets]
      by_cases hN : is_node_attrib e = true
      · have hp := hnp e (List.mem_cons_self _ _) hN
        have hl := node_attrib_not_link e hN
        simp only [hN, if_true, ih1, rebuilt_attrib, hp, sent_value, hl, Bool.false_eq_true,
          if_false]
      · simp only [hN, Bool.false_eq_true, if_false, ih1]

theorem attrs_copied_keys (Z : List (Nat × Nat)) (es : List (String × yajl_val))
    (fs fs1 : List ((String × String) × attr_value)) (hlen : fs.length = es.length)
    (h : attrs_copied Z es fs fs1) : fs1.map Prod.fst = fs.map Prod.fst := by
  unfold attrs_copied at h
  induction es generalizing fs fs1 with
  | nil =>
    have : fs = [] := by simpa using hlen
    subst this
    simp only [List.zip_nil_left, List.forall₂_nil_left_iff] at h
    subst h
    rfl
  | cons e es1 ih =>
    cases fs with
    | nil => simp at hlen
    | cons f fs2 =>
      simp only [List.length_cons, Nat.add_right_cancel_iff] at hlen
      rw [List.zip_cons_cons] at h
      cases fs1 with
      | nil => cases h
      | cons f1 fs3 =>
        rw [List.forall₂_cons] at h
        simp only [List.map_cons, ih fs2 fs3 hlen h.2, h.1.1]

/-- The evaluation of the arguments written for the sons of a node: one subgraph is
built per son that is not null, and the position list of phase 1 on the nodes built is
the list of the copies. -/
theorem eval_sons_loop (attrtype_names : List attrtype_name) (eval_init : String → attr_value)
    (nodes : List (String × yajl_val)) (heap : List node_inst)
    (cases : List (String × List MakeStmt))
    (wk : Nat → Option (List Nat)) (wk1 : List node_inst → Nat → Option (List Nat))
    (w : Nat → Option SerArg) (P : Nat → Prop)
    (hE : ∀ b lb t, wk b = some lb → (∀ c ∈ lb, P c) → w b = some t →
      ∀ h0 : List node_inst, ∃ new arr a1,
        SerArg.eval cases eval_init t h0 = some (attr_value.ptr (some a1), h0 ++ new)
          ∧ arr.head? = some a1 ∧ lb.head? = some b ∧ new.length = lb.length
          ∧ List.Perm arr (List.range' h0.length lb.length)
          ∧ built_ok attrtype_names eval_init nodes heap (List.zip lb arr) lb arr h0.length
              (h0 ++ new)
          ∧ ∀ ext, wk1 (h0 ++ new ++ ext) a1 = some arr)
    (vs : List (Option Nat)) (l : List Nat) (xs : List SerArg)
    (hw : walk_list wk vs = some l) (hx : son_args w vs = some xs) (hP : ∀ c ∈ l, P c)
    (h0 : List node_inst) :
    ∃ vals new arr,
      SerArg.eval_list cases eval_init xs h0 = some (vals.map attr_value.ptr, h0 ++ new)
        ∧ vals.length = vs.length ∧ new.length = l.length
        ∧ List.Perm arr (List.range' h0.length l.length)
        ∧ built_ok attrtype_names eval_init nodes heap (List.zip l arr) l arr h0.length
            (h0 ++ new)
        ∧ List.Forall₂ (son_copied (List.zip l arr)) vs vals
        ∧ ∀ ext, walk_list (wk1 (h0 ++ new ++ ext)) vals = some arr := by
  induction vs generalizing l xs h0 with
  | nil =>
    simp only [walk_list, Option.some.injEq] at hw
    simp only [son_args, Option.some.injEq] at hx
    subst hw
    subst hx
    refine ⟨[], [], [], ?_, rfl, rfl, ?_, ?_, List.Forall₂.nil, fun _ => rfl⟩
    · simp [SerArg.eval_list]
    · simp
    · exact ⟨rfl, by intro p hp; simp at hp⟩
  | cons v rest ih =>
    cases v with
    | none =>
      simp only [walk_list] at hw
      simp only [son_args] at hx
      cases hr : son_args w rest with
      | none => simp [hr] at hx
      | some xs1 =>
        simp only [hr, Option.some.injEq] at hx
        subst hx
        obtain ⟨vals, new, arr, h1, h2, h3, h4, h5, h6, h7⟩ := ih l xs1 hw hr hP h0
        refine ⟨none :: vals, new, arr, ?_, by simp [h2], h3, h4, h5, ?_, ?_⟩
        · simp only [SerArg.eval_list, SerArg.eval, h1]
          simp
        · exact List.Forall₂.cons (Or.inl ⟨rfl, rfl⟩) h6
        · intro ext
          simp only [walk_list]
          exact h7 ext
    | some b =>
      simp only [walk_list] at hw
      simp only [son_args] at hx
      cases hb : wk b with
      | none => simp [hb] at hw
      | some lb =>
        simp only [hb] at hw
        cases hls : walk_list wk rest with
        | none => simp [hls] at hw
        | some ls =>
          simp only [hls, Option.some.injEq] at hw
          subst hw
          cases ht : w b with
          | none => simp [ht] at hx
          | some t =>
            simp only [ht] at hx
            cases hr : son_args w rest with
            | none => simp [hr] at hx
            | some xs1 =>
              simp only [hr, Option.some.injEq] at hx
              subst hx
              obtain ⟨new1, arr1, a1, e1, e2, e3, e4, e5, e6, e7⟩ :=
                hE b lb t hb (fun c hc => hP c (List.mem_append_left _ hc)) ht h0
              obtain ⟨vals, new2, arr2, h1, h2, h3, h4, h5, h6, h7⟩ :=
                ih ls xs1 hls hr (fun c hc => hP c (List.mem_append_right _ hc)) (h0 ++ new1)
              have hlen1 : lb.length = arr1.length := e6.1.symm
              have hzip : List.zip (lb ++ ls) (arr1 ++ arr2)
                  = List.zip lb arr1 ++ List.zip ls arr2 := List.zip_append hlen1
              refine ⟨some a1 :: vals, new1 ++ new2, arr1 ++ arr2, ?_, by simp [h2],
                by simp [e4, h3], ?_, ?_, ?_, ?_⟩
              · simp only [SerArg.eval_list, e1, h1]
                simp [List.append_assoc]
              · rw [List.length_append, Nat.add_comm lb.length ls.length,
                  ← List.range'_append_1]
                refine List.Perm.append e5 ?_
                have : (h0 ++ new1).length = h0.length + lb.length := by
                  simp [e4]
                rw [this] at h4
                exact h4
              · rw [← List.append_assoc]
                refine built_ok_append _ _ _ _ _ _ _ _ _ _ _ ?_ ?_
                · exact built_ok_mono _ _ _ _ _ _ _ _ _ _ _ new2
                    (by intro p hp; rw [hzip]; exact List.mem_append_left _ hp)
                    (Nat.le_refl _) e6
                · have := built_ok_mono attrtype_names eval_init nodes heap
                    (List.zip ls arr2) (List.zip (lb ++ ls) (arr1 ++ arr2)) ls arr2
                    (h0 ++ new1).length h0.length (h0 ++ new1 ++ new2) []
                    (by intro p hp; rw [hzip]; exact List.mem_append_right _ hp)
                    (by simp) h5
                  simpa using this
              · refine List.Forall₂.cons (Or.inr ⟨b, a1, rfl, rfl, ?_⟩) ?_
                · obtain ⟨lb1, hlb⟩ := List.head?_eq_some_iff.1 e3
                  obtain ⟨ar1, har⟩ := List.head?_eq_some_iff.1 e2
                  rw [hlb, har]
                  simp
                · exact List.Forall₂.imp (fun x y hxy => son_copied_mono _ _
                    (by intro p hp; rw [hzip]; exact List.mem_append_right _ hp) x y hxy) h6
              · intro ext
                have g1 := e7 (new2 ++ ext)
                have g2 := h7 ext
                have a1' : h0 ++ new1 ++ (new2 ++ ext) = h0 ++ (new1 ++ new2) ++ ext := by
                  simp [List.append_assoc]
                have a2' : h0 ++ new1 ++ new2 ++ ext = h0 ++ (new1 ++ new2) ++ ext := by
                  simp [List.append_assoc]
                rw [a1'] at g1
                rw [a2'] at g2
                simp only [walk_list, g1, g2]

/-- The step of the attribute loop for an attribute that builds nothing: its value
travels as `v1`. -/
theorem eval_attrs_plain (attrtype_names : List attrtype_name)
    (eval_init : String → attr_value)
    (nodes : List (String × yajl_val)) (heap : List node_inst)
    (cases : List (String × List MakeStmt))
    (wk1 : List node_inst → Nat → Option (List Nat))
    (e : String × yajl_val) (es1 : List (String × yajl_val))
    (f : (String × String) × attr_value) (fs2 : List ((String × String) × attr_value))
    (l : List Nat) (xs xs1 : List SerArg) (h0 : List node_inst) (v1 : attr_value)
    (hih : ∃ fs1 new arr,
      SerArg.eval_list cases eval_init xs1 h0
          = some (sent_attribs attrtype_names es1 fs1, h0 ++ new)
        ∧ attrs_copied (List.zip l arr) es1 fs2 fs1
        ∧ new.length = l.length
        ∧ List.Perm arr (List.range' h0.length l.length)
        ∧ built_ok attrtype_names eval_init nodes heap (List.zip l arr) l arr h0.length
            (h0 ++ new)
        ∧ ∀ ext, walk_list (wk1 (h0 ++ new ++ ext)) (node_attr_targets es1 fs1) = some arr)
    (hev : ∀ vs h1, SerArg.eval_list cases eval_init xs1 h0 = some (vs, h1) →
      SerArg.eval_list cases eval_init xs h0
        = some ((if attrib_persisted attrtype_names e = true then [sent_value e v1]
                else []) ++ vs, h1))
    (hcop : attr_copied [] e f.2 v1)
    (hnull : is_node_attrib e = true → v1 = attr_value.ptr none) :
    ∃ fs1 new arr,
      SerArg.eval_list cases eval_init xs h0
          = some (sent_attribs attrtype_names (e :: es1) fs1, h0 ++ new)
        ∧ attrs_copied (List.zip l arr) (e :: es1) (f :: fs2) fs1
        ∧ new.length = l.length
        ∧ List.Perm arr (List.range' h0.length l.length)
        ∧ built_ok attrtype_names eval_init nodes heap (List.zip l arr) l arr h0.length
            (h0 ++ new)
        ∧ ∀ ext, walk_list (wk1 (h0 ++ new ++ ext))
            (node_attr_targets (e :: es1) fs1) = some arr := by
  obtain ⟨fs1, new, arr, h1, h2, h3, h4, h5, h6⟩ := hih
  refine ⟨(f.1, v1) :: fs1, new, arr, ?_, ?_, h3, h4, h5, ?_⟩
  · rw [hev _ _ h1]
    simp only [sent_attribs, List.zip_cons_cons, List.filterMap_cons]
    by_cases hp : attrib_persisted attrtype_names e = true
    · simp only [hp, if_true, List.singleton_append]
    · simp only [hp, Bool.false_eq_true, if_false, List.nil_append]
  · unfold attrs_copied
    rw [List.zip_cons_cons]
    exact List.Forall₂.cons
      ⟨rfl, attr_copied_mono [] _ (by intro p hp; cases hp) _ _ _ hcop⟩ h2
  · intro ext
    by_cases hN : is_node_attrib e = true
    · simp only [node_attr_targets, hN, if_true, hnull hN, walk_list]
      exact h6 ext
    · simp only [node_attr_targets, hN, Bool.false_eq_true, if_false]
      exact h6 ext

theorem eval_list_cons_plain (cases : List (String × List MakeStmt))
    (eval_init : String → attr_value) (x : SerArg) (v : attr_value)
    (hx : ∀ h, SerArg.eval cases eval_init x h = some (v, h))
    (xs1 : List SerArg) (h0 : List node_inst) (vs : List attr_value) (h1 : List node_inst)
    (h : SerArg.eval_list cases eval_init xs1 h0 = some (vs, h1)) :
    SerArg.eval_list cases eval_init (x :: xs1) h0 = some ([v] ++ vs, h1) := by
  simp only [SerArg.eval_list, hx, h, List.singleton_append]

/-- The evaluation of the arguments written for the persisted attributes of a node:
one subgraph is built per attribute of type `Node` that is not null, every other value
travels as it is. -/
theorem eval_attrs_loop (attrtype_names : List attrtype_name) (eval_init : String → attr_value)
    (nodes : List (String × yajl_val)) (heap : List node_inst)
    (cases : List (String × List MakeStmt))
    (wk : Nat → Option (List Nat)) (wk1 : List node_inst → Nat → Option (List Nat))
    (w : Nat → Option SerArg) (P : Nat → Prop)
    (hE : ∀ b lb t, wk b = some lb → (∀ c ∈ lb, P c) → w b = some t →
      ∀ h0 : List node_inst, ∃ new arr a1,
        SerArg.eval cases eval_init t h0 = some (attr_value.ptr (some a1), h0 ++ new)
          ∧ arr.head? = some a1 ∧ lb.head? = some b ∧ new.length = lb.length
          ∧ List.Perm arr (List.range' h0.length lb.length)
          ∧ built_ok attrtype_names eval_init nodes heap (List.zip lb arr) lb arr h0.length
              (h0 ++ new)
          ∧ ∀ ext, wk1 (h0 ++ new ++ ext) a1 = some arr)
    (es : List (String × yajl_val))
    (fs : List ((String × String) × attr_value))
    (hok : ∀ x ∈ List.zip es fs, attrib_ptr_ok x.1 x.2.2)
    (hnp : ∀ e ∈ es, is_node_attrib e = true → attrib_persisted attrtype_names e = true)
    (l : List Nat) (xs : List SerArg)
    (hw : walk_list wk (node_attr_targets es fs) = some l)
    (hx : attr_args attrtype_names w es fs = some xs) (hP : ∀ c ∈ l, P c)
    (h0 : List node_inst) :
    ∃ fs1 new arr,
      SerArg.eval_list cases eval_init xs h0
          = some (sent_attribs attrtype_names es fs1, h0 ++ new)
        ∧ attrs_copied (List.zip l arr) es fs fs1
        ∧ new.length = l.length
        ∧ List.Perm arr (List.range' h0.length l.length)
        ∧ built_ok attrtype_names eval_init nodes heap (List.zip l arr) l arr h0.length
            (h0 ++ new)
        ∧ ∀ ext, walk_list (wk1 (h0 ++ new ++ ext)) (node_attr_targets es fs1) = some arr := by
  induction es generalizing fs l xs h0 with
  | nil =>
    simp only [node_attr_targets, walk_list, Option.some.injEq] at hw
    simp only [attr_args, Option.some.injEq] at hx
    subst hw
    subst hx
    refine ⟨[], [], [], ?_, ?_, rfl, ?_, ?_, fun _ => rfl⟩
    · simp [SerArg.eval_list, sent_attribs]
    · unfold attrs_copied
      simp
    · simp
    · exact ⟨rfl, by intro p hp; simp at hp⟩
  | cons e es1 ih =>
    cases fs with
    | nil =>
      simp only [node_attr_targets, walk_list, Option.some.injEq] at hw
      simp only [attr_args, Option.some.injEq] at hx
      subst hw
      subst hx
      refine ⟨[], [], [], ?_, ?_, rfl, ?_, ?_, fun _ => rfl⟩
      · simp [SerArg.eval_list, sent_attribs]
      · unfold attrs_copied
        simp
      · simp
      · exact ⟨rfl, by intro p hp; simp at hp⟩
    | cons f fs2 =>
      have hok1 : ∀ x ∈ List.zip es1 fs2, attrib_ptr_ok x.1 x.2.2 :=
        fun x hx => hok x (by simp [List.zip_cons_cons, hx])
      have hnp1 : ∀ e ∈ es1, is_node_attrib e = true →
          attrib_persisted attrtype_names e = true :=
        fun x hx => hnp x (List.mem_cons_of_mem _ hx)
      have hokf := hok (e, f) (by simp [List.zip_cons_cons])
      by_cases hp : attrib_persisted attrtype_names e = true
      · simp only [attr_args, hp, if_true] at hx
        cases harg : attr_arg w e f.2 with
        | none => simp [harg] at hx
        | some x =>
          simp only [harg] at hx
          cases hxs1 : attr_args attrtype_names w es1 fs2 with
          | none => simp [hxs1] at hx
          | some xs1 =>
            simp only [hxs1, Option.some.injEq] at hx
            subst hx
            -- an attribute that builds nothing
            have hplain : ∀ v1 : attr_value,
                walk_list wk (node_attr_targets es1 fs2) = some l →
                (∀ h, SerArg.eval cases eval_init x h = some (sent_value e v1, h)) →
                attr_copied [] e f.2 v1 →
                (is_node_attrib e = true → v1 = attr_value.ptr none) →
                ∃ fs1 new arr,
                  SerArg.eval_list cases eval_init (x :: xs1) h0
                      = some (sent_attribs attrtype_names (e :: es1) fs1, h0 ++ new)
                    ∧ attrs_copied (List.zip l arr) (e :: es1) (f :: fs2) fs1
                    ∧ new.length = l.length
                    ∧ List.Perm arr (List.range' h0.length l.length)
                    ∧ built_ok attrtype_names eval_init nodes heap (List.zip l arr) l arr
                        h0.length (h0 ++ new)
                    ∧ ∀ ext, walk_list (wk1 (h0 ++ new ++ ext))
                        (node_attr_targets (e :: es1) fs1) = some arr := by
              intro v1 hw1 hev hcop hnull
              refine eval_attrs_plain attrtype_names eval_init nodes heap cases wk1 e es1 f
                fs2 l (x :: xs1) xs1 h0 v1 (ih fs2 hok1 hnp1 l xs1 hw1 hxs1 hP h0) ?_ hcop
                hnull
              intro vs h1 hvs
              rw [if_pos hp]
              exact eval_list_cons_plain cases eval_init x _ hev xs1 h0 vs h1 hvs
            by_cases hl : is_link_attrib e = true
            · have hN : is_node_attrib e = false := by
                cases hN : is_node_attrib e with
                | false => rfl
                | true =>
                  have := node_attrib_not_link e hN
                  rw [hl] at this
                  cases this
              have hw1 : walk_list wk (node_attr_targets es1 fs2) = some l := by
                simp only [node_attr_targets, hN, Bool.false_eq_true, if_false] at hw
                exact hw
              have hx0 : x = SerArg.null := by
                simp only [attr_arg, hl, if_true, Option.some.injEq] at harg
                exact harg.symm
              subst hx0
              refine hplain f.2 hw1 ?_ ?_ ?_
              · intro h
                simp only [SerArg.eval, sent_value, hl, if_true]
              · simp only [attr_copied, hN, Bool.false_eq_true, if_false]
              · intro h
                rw [hN] at h
                cases h
            · simp only [attr_arg, hl, Bool.false_eq_true, if_false] at harg
              have hsent : ∀ v, sent_value e v = v := by
                intro v
                simp only [sent_value, hl, Bool.false_eq_true, if_false]
              cases hv : f.2 with
              | data d =>
                have hN : is_node_attrib e = false := by
                  cases hN : is_node_attrib e with
                  | false => rfl
                  | true =>
                    obtain ⟨p, hp1⟩ := hokf.2 hN
                    simp only at hp1
                    rw [hv] at hp1
                    cases hp1
                have hw1 : walk_list wk (node_attr_targets es1 fs2) = some l := by
                  simp only [node_attr_targets, hN, Bool.false_eq_true, if_false] at hw
                  exact hw
                rw [hv] at harg
                simp only [Option.some.injEq] at harg
                subst harg
                refine hplain (attr_value.data d) hw1 ?_ ?_ ?_
                · intro h
                  simp only [SerArg.eval, hsent]
                · simp only [attr_copied, hN, Bool.false_eq_true, if_false, hv]
                · intro h
                  rw [hN] at h
                  cases h
              | ptr p =>
                cases p with
                | none =>
                  have hw1 : walk_list wk (node_attr_targets es1 fs2) = some l := by
                    by_cases hN : is_node_attrib e = true
                    · simp only [node_attr_targets, hN, if_true, hv] at hw
                      simp only [walk_list] at hw
                      exact hw
                    · simp only [node_attr_targets, hN, Bool.false_eq_true, if_false] at hw
                      exact hw
                  rw [hv] at harg
                  simp only [Option.some.injEq] at harg
                  subst harg
                  refine hplain (attr_value.ptr none) hw1 ?_ ?_ (fun _ => rfl)
                  · intro h
                    simp only [SerArg.eval, hsent]
                  · unfold attr_copied
                    by_cases hN : is_node_attrib e = true
                    · rw [if_pos hN]
                      exact ⟨none, none, hv, rfl, Or.inl ⟨rfl, rfl⟩⟩
                    · rw [if_neg hN, hv]
                | some b =>
                  by_cases hN : is_node_attrib e = true
                  · rw [hv] at harg
                    simp only [hN, if_true] at harg
                    simp only [node_attr_targets, hN, if_true, hv, walk_list] at hw
                    cases hb : wk b with
                    | none => simp [hb] at hw
                    | some lb =>
                      simp only [hb] at hw
                      cases hls : walk_list wk (node_attr_targets es1 fs2) with
                      | none => simp [hls] at hw
                      | some ls =>
                        simp only [hls, Option.some.injEq] at hw
                        subst hw
                        obtain ⟨new1, arr1, a1, e1, e2, e3, e4, e5, e6, e7⟩ :=
                          hE b lb x hb (fun c hc => hP c (List.mem_append_left _ hc)) harg h0
                        obtain ⟨fs1, new2, arr2, h1, h2, h3, h4, h5, h6⟩ :=
                          ih fs2 hok1 hnp1 ls xs1 hls hxs1
                            (fun c hc => hP c (List.mem_append_right _ hc)) (h0 ++ new1)
                        have hlen1 : lb.length = arr1.length := e6.1.symm
                        have hzip : List.zip (lb ++ ls) (arr1 ++ arr2)
                            = List.zip lb arr1 ++ List.zip ls arr2 := List.zip_append hlen1
                        refine ⟨(f.1, attr_value.ptr (some a1)) :: fs1, new1 ++ new2,
                          arr1 ++ arr2, ?_, ?_, by simp [e4, h3], ?_, ?_, ?_⟩
                        · simp only [SerArg.eval_list, e1, h1]
                          simp only [sent_attribs, List.zip_cons_cons, List.filterMap_cons, hp,
                            if_true, hsent, List.append_assoc]
                        · unfold attrs_copied
                          rw [List.zip_cons_cons]
                          refine List.Forall₂.cons ⟨rfl, ?_⟩ ?_
                          · simp only [attr_copied, hN, if_true]
                            refine ⟨some b, some a1, hv, rfl, Or.inr ⟨b, a1, rfl, rfl, ?_⟩⟩
                            obtain ⟨lb1, hlb⟩ := List.head?_eq_some_iff.1 e3
                            obtain ⟨ar1, har⟩ := List.head?_eq_some_iff.1 e2
                            rw [hlb, har]
                            simp
                          · exact attrs_copied_mono _ _
                              (by intro p hp; rw [hzip]; exact List.mem_append_right _ hp)
                              _ _ _ h2
                        · rw [List.length_append, Nat.add_comm lb.length ls.length,
                            ← List.range'_append_1]
                          refine List.Perm.append e5 ?_
                          have : (h0 ++ new1).length = h0.length + lb.length := by
                            simp [e4]
                          rw [this] at h4
                          exact h4
                        · rw [← List.append_assoc]
                          refine built_ok_append _ _ _ _ _ _ _ _ _ _ _ ?_ ?_
                          · exact built_ok_mono _ _ _ _ _ _ _ _ _ _ _ new2
                              (by intro p hp; rw [hzip]; exact List.mem_append_left _ hp)
                              (Nat.le_refl _) e6
                          · have := built_ok_mono attrtype_names eval_init nodes heap
                              (List.zip ls arr2) (List.zip (lb ++ ls) (arr1 ++ arr2)) ls arr2
                              (h0 ++ new1).length h0.length (h0 ++ new1 ++ new2) []
                              (by intro p hp; rw [hzip]; exact List.mem_append_right _ hp)
                              (by simp) h5
                            simpa using this
                        · intro ext
                          have g1 := e7 (new2 ++ ext)
                          have g2 := h6 ext
                          have a1' : h0 ++ new1 ++ (new2 ++ ext)
                              = h0 ++ (new1 ++ new2) ++ ext := by
                            simp [List.append_assoc]
                          have a2' : h0 ++ new1 ++ new2 ++ ext
                              = h0 ++ (new1 ++ new2) ++ ext := by
                            simp [List.append_assoc]
                          rw [a1'] at g1
                          rw [a2'] at g2
                          simp only [node_attr_targets, hN, if_true, walk_list, g1, g2]
                  · have hw1 : walk_list wk (node_attr_targets es1 fs2) = some l := by
                      simp only [node_attr_targets, hN, Bool.false_eq_true, if_false] at hw
                      exact hw
                    rw [hv] at harg
                    simp only [hN, Bool.false_eq_true, if_false, Option.some.injEq] at harg
                    subst harg
                    refine hplain (attr_value.ptr (some b)) hw1 ?_ ?_ ?_
                    · intro h
                      simp only [SerArg.eval, hsent]
                    · simp only [attr_copied, hN, Bool.false_eq_true, if_false, hv]
                    · intro h
                      exact absurd h hN
      · have hN : is_node_attrib e = false := by
          cases hN : is_node_attrib e with
          | false => rfl
          | true => exact absurd (hnp e (List.mem_cons_self _ _) hN) hp
        have hw1 : walk_list wk (node_attr_targets es1 fs2) = some l := by
          simp only [node_attr_targets, hN, Bool.false_eq_true, if_false] at hw
          exact hw
        simp only [attr_args, hp, Bool.false_eq_true, if_false] at hx
        refine eval_attrs_plain attrtype_names eval_init nodes heap cases wk1 e es1 f
          fs2 l xs xs h0 f.2 (ih fs2 hok1 hnp1 l xs hw1 hx hP h0) ?_ ?_ ?_
        · intro vs h1 hvs
          rw [if_neg hp, List.nil_append]
          exact hvs
        · simp only [attr_copied, hN, Bool.false_eq_true, if_false]
        · intro h
          rw [hN] at h
          cases h

/-! ## The evaluation of the constructor expression of a graph -/

theorem perm_built (base n1 n2 a1 : Nat) (arrS arrA : List Nat)
    (hA : List.Perm arrA (List.range' base n2))
    (hS : List.Perm arrS (List.range' (base + n2) n1))
    (ha : a1 = base + n2 + n1) :
    List.Perm (a1 :: (arrS ++ arrA)) (List.range' base (n1 + n2 + 1)) := by
  rw [List.range'_concat, ← List.range'_append_1 base n2 n1]
  refine List.Perm.trans (List.perm_append_singleton _ _).symm ?_
  have h1 : base + 1 * (n1 + n2) = a1 := by omega
  rw [h1]
  refine List.Perm.append_right _ ?_
  exact List.Perm.trans List.perm_append_comm (List.Perm.append hA hS)

/-- The evaluation of the constructor expression of the graph under `a`: it builds
one node per node of the graph, past the nodes already in the heap, the copy of `a`
last, and returns the copy of `a`; the position list of phase 1 on the nodes built is
the list of the copies of the nodes of the position list of the graph. -/
theorem eval_graph_expr (attrtype_names : List attrtype_name)
    (nodes : List (String × yajl_val)) (g : generated) (eval_init : String → attr_value)
    (heap : List node_inst)
    (hgen : gen_serialize attrtype_names nodes = some g)
    (hschema : schema_ok attrtype_names nodes) :
    ∀ fuel a l t, walk_owned nodes heap fuel a = some l →
      (∀ c ∈ l, node_wf nodes heap c) →
      graph_expr attrtype_names nodes heap fuel a = some t →
      ∀ h0 : List node_inst, ∃ new arr a1,
        SerArg.eval g.make eval_init t h0 = some (attr_value.ptr (some a1), h0 ++ new)
          ∧ arr.head? = some a1 ∧ l.head? = some a ∧ new.length = l.length
          ∧ List.Perm arr (List.range' h0.length l.length)
          ∧ built_ok attrtype_names eval_init nodes heap (List.zip l arr) l arr h0.length
              (h0 ++ new)
          ∧ (∀ ext, walk_owned nodes (h0 ++ new ++ ext) fuel a1 = some arr)
          ∧ a1 + 1 = (h0 ++ new).length := by
  intro fuel
  induction fuel with
  | zero => intro a l t hw; simp [walk_owned] at hw
  | succ f ih =>
    intro a l t hw hok ht h0
    simp only [walk_owned] at hw
    cases hnd : heap[a]? with
    | none => simp [hnd] at hw
    | some nd =>
      simp only [hnd] at hw
      cases he : schema_node nodes nd.nodetype with
      | none => simp [he] at hw
      | some e =>
        simp only [he] at hw
        cases hwl : walk_list (walk_owned nodes heap f)
            (owned_sons e.1 (node_sons e.2) nd.sons
              ++ node_attr_targets (node_attribs e.2) nd.attribs) with
        | none => simp [hwl] at hw
        | some l0 =>
          simp only [hwl, Option.some.injEq] at hw
          subst hw
          obtain ⟨l1, l2, hwl1, hwl2, hl0⟩ := walk_list_split _ _ _ _ hwl
          subst hl0
          obtain ⟨nd1, hnd1, e1, he1, hconf, hattr⟩ := hok a (List.mem_cons_self _ _)
          rw [hnd] at hnd1
          cases hnd1
          rw [he] at he1
          cases he1
          obtain ⟨htype, hks, hka, hkf⟩ := hconf
          obtain ⟨hmem, _⟩ := schema_node_mem nodes _ e he
          obtain ⟨hreg, hkeys, hpers⟩ := hschema
          obtain ⟨k1, k2, k3⟩ := hkeys e hmem
          have hnp : ∀ x ∈ node_attribs e.2, is_node_attrib x = true →
              attrib_persisted attrtype_names x = true :=
            fun x hx hN => node_attrib_persisted attrtype_names hpers x (hreg e hmem x hx) hN
          simp only [graph_expr, hnd, he] at ht
          cases hys : attr_args attrtype_names (graph_expr attrtype_names nodes heap f)
              (node_attribs e.2) nd.attribs with
          | none => simp [hys] at ht
          | some ys =>
          simp only [hys] at ht
          cases hxs : son_args (graph_expr attrtype_names nodes heap f)
              (owned_sons e.1 (node_sons e.2) nd.sons) with
          | none => simp [hxs] at ht
          | some xs =>
          simp only [hxs, Option.some.injEq] at ht
          subst ht
          have hE : ∀ b lb t, walk_owned nodes heap f b = some lb →
              (∀ c ∈ lb, node_wf nodes heap c) →
              graph_expr attrtype_names nodes heap f b = some t →
              ∀ h0 : List node_inst, ∃ new arr a1,
                SerArg.eval g.make eval_init t h0
                    = some (attr_value.ptr (some a1), h0 ++ new)
                  ∧ arr.head? = some a1 ∧ lb.head? = some b ∧ new.length = lb.length
                  ∧ List.Perm arr (List.range' h0.length lb.length)
                  ∧ built_ok attrtype_names eval_init nodes heap (List.zip lb arr) lb arr
                      h0.length (h0 ++ new)
                  ∧ ∀ ext, walk_owned nodes (h0 ++ new ++ ext) f a1 = some arr := by
            intro b lb t hb hlb htb h
            obtain ⟨new, arr, a1, c1, c2, c3, c4, c5, c6, c7, _⟩ := ih b lb t hb hlb htb h
            exact ⟨new, arr, a1, c1, c2, c3, c4, c5, c6, c7⟩
          obtain ⟨fs1, newA, arrA, a1, a2, a3, a4, a5, a6⟩ :=
            eval_attrs_loop attrtype_names eval_init nodes heap g.make
              (walk_owned nodes heap f) (fun H => walk_owned nodes H f)
              (graph_expr attrtype_names nodes heap f) (fun c => node_wf nodes heap c)
              hE (node_attribs e.2) nd.attribs hattr hnp l2 ys hwl2 hys
              (fun c hc => hok c (List.mem_cons_of_mem _ (List.mem_append_right _ hc))) h0
          obtain ⟨vals, newS, arrS, s1, s2, s3, s4, s5, s6, s7⟩ :=
            eval_sons_loop attrtype_names eval_init nodes heap g.make
              (walk_owned nodes heap f) (fun H => walk_owned nodes H f)
              (graph_expr attrtype_names nodes heap f) (fun c => node_wf nodes heap c)
              hE (owned_sons e.1 (node_sons e.2) nd.sons) l1 xs hwl1 hxs
              (fun c hc => hok c (List.mem_cons_of_mem _ (List.mem_append_left _ hc)))
              (h0 ++ newA)
          have hlist : SerArg.eval_list g.make eval_init
              (ys ++ xs ++ nd.flags.map (fun f => SerArg.flag f.2)) h0
              = some (sent_attribs attrtype_names (node_attribs e.2) fs1
                  ++ (vals.map attr_value.ptr
                    ++ (nd.flags.map Prod.snd).map attr_value.data), h0 ++ newA ++ newS) := by
            have := eval_list_append g.make eval_init _ _ h0 _ _ _ _
              (eval_list_append g.make eval_init _ _ h0 _ _ _ _ a1 s1)
              (eval_flag_args g.make eval_init nd.flags (h0 ++ newA ++ newS))
            simpa [List.append_assoc] using this
          have hal : nd.attribs.length = (node_attribs e.2).length := by
            have := congrArg List.length hka
            simpa [declared_keys] using this
          have hfs1 : fs1.map Prod.fst = declared_keys e.1 (node_attribs e.2) := by
            rw [attrs_copied_keys _ _ _ _ hal a2, hka]
          have hsl : vals.length = (node_sons e.2).length := by
            have := congrArg List.length hks
            simp only [declared_keys, List.length_map] at this
            rw [s2, owned_sons_length e.1 (node_sons e.2) nd.sons this]
          have hfl : (nd.flags.map Prod.snd).length = (node_flags e.2).length := by
            have := congrArg List.length hkf
            simp only [declared_keys, List.length_map] at this
            rw [List.length_map, this]
          have hmk := SHLPmakeNodeVa_node attrtype_names nodes g eval_init hgen e nd.nodetype
            he (hreg e hmem) k1 k2 k3 nd.file nd.line nd.col fs1 hfs1 vals hsl
            (nd.flags.map Prod.snd) hfl (h0 ++ newA ++ newS)
          have hlenS : l1.length = arrS.length := s5.1.symm
          have hlenA : l2.length = arrA.length := a5.1.symm
          have hzip : List.zip (l1 ++ l2) (arrS ++ arrA)
              = List.zip l1 arrS ++ List.zip l2 arrA := List.zip_append hlenS
          have hsubS : ∀ p ∈ List.zip l1 arrS,
              p ∈ List.zip (a :: (l1 ++ l2)) ((h0 ++ newA ++ newS).length :: (arrS ++ arrA)) := by
            intro p hp
            rw [List.zip_cons_cons, hzip]
            exact List.mem_cons_of_mem _ (List.mem_append_left _ hp)
          have hsubA : ∀ p ∈ List.zip l2 arrA,
              p ∈ List.zip (a :: (l1 ++ l2)) ((h0 ++ newA ++ newS).length :: (arrS ++ arrA)) := by
            intro p hp
            rw [List.zip_cons_cons, hzip]
            exact List.mem_cons_of_mem _ (List.mem_append_right _ hp)
          have hnode : ∀ ext : List node_inst,
              (h0 ++ (newA ++ newS ++ [node_inst.mk nd.nodetype nd.file nd.line nd.col none
                (List.zipWith (fun s v => ((string_toupper e.1, string_toupper s.1), v))
                  (node_sons e.2) vals)
                (List.zipWith (rebuilt_attrib attrtype_names eval_init) (node_attribs e.2)
                  fs1)
                (List.zipWith (fun s v => ((string_toupper e.1, string_toupper s.1), v))
                  (node_flags e.2) (nd.flags.map Prod.snd))]) ++ ext)[
                  (h0 ++ newA ++ newS).length]?
                = some (node_inst.mk nd.nodetype nd.file nd.line nd.col none
                (List.zipWith (fun s v => ((string_toupper e.1, string_toupper s.1), v))
                  (node_sons e.2) vals)
                (List.zipWith (rebuilt_attrib attrtype_names eval_init) (node_attribs e.2)
                  fs1)
                (List.zipWith (fun s v => ((string_toupper e.1, string_toupper s.1), v))
                  (node_flags e.2) (nd.flags.map Prod.snd))) := by
            intro ext
            have : h0 ++ (newA ++ newS ++ [node_inst.mk nd.nodetype nd.file nd.line nd.col none
                (List.zipWith (fun s v => ((string_toupper e.1, string_toupper s.1), v))
                  (node_sons e.2) vals)
                (List.zipWith (rebuilt_attrib attrtype_names eval_init) (node_attribs e.2)
                  fs1)
                (List.zipWith (fun s v => ((string_toupper e.1, string_toupper s.1), v))
                  (node_flags e.2) (nd.flags.map Prod.snd))]) ++ ext
                = (h0 ++ newA ++ newS) ++ ([node_inst.mk nd.nodetype nd.file nd.line nd.col none
                (List.zipWith (fun s v => ((string_toupper e.1, string_toupper s.1), v))
                  (node_sons e.2) vals)
                (List.zipWith (rebuilt_attrib attrtype_names eval_init) (node_attribs e.2)
                  fs1)
                (List.zipWith (fun s v => ((string_toupper e.1, string_toupper s.1), v))
                  (node_flags e.2) (nd.flags.map Prod.snd))] ++ ext) := by
              simp only [List.append_assoc]
            rw [this, List.getElem?_append_right (Nat.le_refl _), Nat.sub_self]
            simp
          refine ⟨newA ++ newS ++ [node_inst.mk nd.nodetype nd.file nd.line nd.col none
              (List.zipWith (fun s v => ((string_toupper e.1, string_toupper s.1), v))
                (node_sons e.2) vals)
              (List.zipWith (rebuilt_attrib attrtype_names eval_init) (node_attribs e.2)
                fs1)
              (List.zipWith (fun s v => ((string_toupper e.1, string_toupper s.1), v))
                (node_flags e.2) (nd.flags.map Prod.snd))],
            (h0 ++ newA ++ newS).length :: (arrS ++ arrA), (h0 ++ newA ++ newS).length,
            ?_, rfl, rfl, ?_, ?_, ?_, ?_, ?_⟩
          · simp only [SerArg.eval, hlist, SHLPmakeNode, hmk]
            simp [List.append_assoc]
          · simp [a3, s3]
            omega
          · have := perm_built h0.length l1.length l2.length (h0 ++ newA ++ newS).length
              arrS arrA a4 (by
                have hh : (h0 ++ newA).length = h0.length + l2.length := by simp [a3]
                rw [hh] at s4
                exact s4) (by simp only [List.length_append, a3, s3])
            simpa [List.length_append] using this
          · refine ⟨by simp [hlenS, hlenA], ?_⟩
            intro p hp
            rw [List.zip_cons_cons] at hp
            rcases List.mem_cons.1 hp with hp | hp
            · subst hp
              refine ⟨by simp, by simp, nd,
                node_inst.mk nd.nodetype nd.file nd.line nd.col none
                  (List.zipWith (fun s v => ((string_toupper e.1, string_toupper s.1), v))
                    (node_sons e.2) vals)
                  (List.zipWith (rebuilt_attrib attrtype_names eval_init) (node_attribs e.2)
                    fs1)
                  (List.zipWith (fun s v => ((string_toupper e.1, string_toupper s.1), v))
                    (node_flags e.2) (nd.flags.map Prod.snd)),
                e, hnd, ?_, he, ?_⟩
              · have := hnode []
                simpa using this
              · refine ⟨rfl, rfl, rfl, rfl, ⟨?_, ?_⟩, ⟨fs1, ?_, rfl⟩, ?_⟩
                · simp only
                  rw [zipWith_keys_fst e.1 (node_sons e.2) vals hsl, hks]
                · simp only
                  rw [zipWith_keys_snd e.1 (node_sons e.2) vals hsl]
                  exact List.Forall₂.imp (fun x y hxy => son_copied_mono _ _ hsubS x y hxy) s6
                · exact attrs_copied_mono _ _ hsubA _ _ _ a2
                · exact flags_zip e.1 (node_flags e.2) nd.flags hkf
            · rw [hzip] at hp
              rcases List.mem_append.1 hp with hp | hp
              · have := built_ok_mono attrtype_names eval_init nodes heap _ _ l1 arrS
                  (h0 ++ newA).length h0.length (h0 ++ newA ++ newS)
                  [node_inst.mk nd.nodetype nd.file nd.line nd.col none
                    (List.zipWith (fun s v => ((string_toupper e.1, string_toupper s.1), v))
                      (node_sons e.2) vals)
                    (List.zipWith (rebuilt_attrib attrtype_names eval_init)
                      (node_attribs e.2) fs1)
                    (List.zipWith (fun s v => ((string_toupper e.1, string_toupper s.1), v))
                      (node_flags e.2) (nd.flags.map Prod.snd))]
                  hsubS (by simp) s5
                have h2 := this.2 p hp
                simpa [List.append_assoc] using h2
              · have := built_ok_mono attrtype_names eval_init nodes heap _ _ l2 arrA
                  h0.length h0.length (h0 ++ newA)
                  (newS ++ [node_inst.mk nd.nodetype nd.file nd.line nd.col none
                    (List.zipWith (fun s v => ((string_toupper e.1, string_toupper s.1), v))
                      (node_sons e.2) vals)
                    (List.zipWith (rebuilt_attrib attrtype_names eval_init)
                      (node_attribs e.2) fs1)
                    (List.zipWith (fun s v => ((string_toupper e.1, string_toupper s.1), v))
                      (node_flags e.2) (nd.flags.map Prod.snd))])
                  hsubA (Nat.le_refl _) a5
                have h2 := this.2 p hp
                simpa [List.append_assoc] using h2
          · intro ext
            simp only [walk_owned, hnode ext, he]
            rw [owned_sons_built _ e.1 (node_sons e.2) nd.sons vals s6,
              node_attr_targets_rebuilt attrtype_names eval_init (node_attribs e.2) fs1 hnp]
            have g1 := s7 ([node_inst.mk nd.nodetype nd.file nd.line nd.col none
                (List.zipWith (fun s v => ((string_toupper e.1, string_toupper s.1), v))
                  (node_sons e.2) vals)
                (List.zipWith (rebuilt_attrib attrtype_names eval_init) (node_attribs e.2)
                  fs1)
                (List.zipWith (fun s v => ((string_toupper e.1, string_toupper s.1), v))
                  (node_flags e.2) (nd.flags.map Prod.snd))] ++ ext)
            have g2 := a6 (newS ++ [node_inst.mk nd.nodetype nd.file nd.line nd.col none
                (List.zipWith (fun s v => ((string_toupper e.1, string_toupper s.1), v))
                  (node_sons e.2) vals)
                (List.zipWith (rebuilt_attrib attrtype_names eval_init) (node_attribs e.2)
                  fs1)
                (List.zipWith (fun s v => ((string_toupper e.1, string_toupper s.1), v))
                  (node_flags e.2) (nd.flags.map Prod.snd))] ++ ext)
            simp only [List.append_assoc] at g1 g2 ⊢
            rw [walk_list_append _ _ _ _ _ g1 g2]
          · simp [List.length_append]
            omega

/-! ## Stack positions -/

theorem SSfindPos_getElem (b : Nat) (st : List Nat) (q : Nat)
    (h : SSfindPos b st = some q) : st[q]? = some b := by
  induction st generalizing q with
  | nil => simp [SSfindPos] at h
  | cons x xs ih =>
    simp only [SSfindPos] at h
    by_cases hx : x = b
    · simp only [hx, if_true, Option.some.injEq] at h
      subst h
      simp [hx]
    · simp only [hx, if_false] at h
      cases hr : SSfindPos b xs with
      | none => simp [hr] at h
      | some j =>
        simp only [hr, Option.some.injEq] at h
        subst h
        simpa using ih j hr

theorem SSfindPos_of_mem (b : Nat) (st : List Nat) (h : b ∈ st) :
    ∃ q, SSfindPos b st = some q := by
  induction st with
  | nil => cases h
  | cons x xs ih =>
    simp only [SSfindPos]
    by_cases hx : x = b
    · exact ⟨0, by simp [hx]⟩
    · rcases List.mem_cons.1 h with h | h
      · exact absurd h.symm hx
      · obtain ⟨q, hq⟩ := ih h
        exact ⟨q + 1, by simp [hx, hq]⟩

theorem SSfindPos_of_getElem (st : List Nat) (hnd : st.Nodup) (j b : Nat)
    (h : st[j]? = some b) : SSfindPos b st = some j := by
  induction st generalizing j with
  | nil => simp at h
  | cons x xs ih =>
    simp only [List.nodup_cons] at hnd
    simp only [SSfindPos]
    cases j with
    | zero =>
      simp only [List.getElem?_cons_zero, Option.some.injEq] at h
      simp [h]
    | succ k =>
      simp only [List.getElem?_cons_succ] at h
      have hne : x ≠ b := by
        intro hx
        subst hx
        exact hnd.1 (List.mem_iff_getElem?.2 ⟨k, h⟩)
      simp [hne, ih hnd.2 k h]

/-! ## The cases of `SHLPfixLink` -/

theorem link_slots_spec_cons (N : String) (pos : Nat) (e : String × yajl_val)
    (rest : List (String × yajl_val)) :
    link_slots_spec N pos (e :: rest)
      = if is_link_attrib e = true then
          (pos, N, string_toupper e.1) :: link_slots_spec N (pos + 1) rest
        else link_slots_spec N pos rest := by
  by_cases h : is_link_attrib e = true
  · simp [link_slots_spec, List.filter_cons, h, List.enumFrom_cons]
  · simp [link_slots_spec, List.filter_cons, h]

theorem link_slots_spec_ge (N : String) (es : List (String × yajl_val)) :
    ∀ pos x, x ∈ link_slots_spec N pos es → pos ≤ x.1 := by
  induction es with
  | nil => intro pos x hx; simp [link_slots_spec] at hx
  | cons e rest ih =>
    intro pos x hx
    rw [link_slots_spec_cons] at hx
    split at hx
    · rcases List.mem_cons.1 hx with rfl | hx
      · exact Nat.le_refl _
      · exact Nat.le_of_succ_le (ih (pos + 1) x hx)
    · exact ih pos x hx

theorem FIX_switch_slot (N : String) (no fromp : Nat) (top : Option Nat)
    (heap : List node_inst) (tail : List FixStmt) (es : List (String × yajl_val)) :
    ∀ pos out, 2 ≤ pos → (∀ e ∈ es, (attrib_type_name e.2).isSome = true) →
      gen_serialize_helper_c_fixattribs N pos es = some out →
      ∀ A, (no, N, A) ∈ link_slots_spec N pos es →
        FIX_switch no fromp top heap (out ++ tail)
          = some (heap_set_attrib heap fromp (N, A) (attr_value.ptr top)) := by
  induction es with
  | nil => intro pos out _ _ _ A hmem; simp [link_slots_spec] at hmem
  | cons e rest ih =>
    intro pos out hpos htyped hgen A hmem
    have hrest : ∀ b ∈ rest, (attrib_type_name b.2).isSome = true :=
      fun b hb => htyped b (List.mem_cons_of_mem _ hb)
    have he := htyped e (List.mem_cons_self _ _)
    have hpos1 : ¬ pos = 1 := by omega
    cases ht : attrib_type_name e.2 with
    | none => simp [ht] at he
    | some t =>
      simp only [gen_serialize_helper_c_fixattribs, ht] at hgen
      rw [link_slots_spec_cons] at hmem
      by_cases hl : t = "Link" ∨ t = "CodeLink"
      · have hlink : is_link_attrib e = true := by
          simp [is_link_attrib, ht, hl]
        simp only [hl, decide_True, if_true] at hgen
        cases hg : gen_serialize_helper_c_fixattribs N (pos + 1) rest with
        | none => simp [hg] at hgen
        | some out1 =>
          simp only [hg, Option.some.injEq] at hgen
          subst hgen
          rw [if_pos hlink] at hmem
          simp only [hpos1, if_false, List.nil_append, List.cons_append, List.append_assoc,
            FIX_switch]
          rcases List.mem_cons.1 hmem with heq | hmem
          · simp only [Prod.mk.injEq] at heq
            obtain ⟨h1, _, h3⟩ := heq
            simp [h1, h3]
          · have hge := link_slots_spec_ge N rest (pos + 1) _ hmem
            simp only at hge
            have hne : ¬ pos = no := by omega
            cases rest with
            | nil => simp [link_slots_spec] at hmem
            | cons r rs =>
              simp only [hne, if_false, List.isEmpty_cons, Bool.false_eq_true, false_and,
                List.nil_append]
              exact ih (pos + 1) out1 (by omega) hrest hg A hmem
      · have hlink : ¬ is_link_attrib e = true := by
          simp [is_link_attrib, ht, hl]
        simp only [hl, decide_False, if_false, Bool.false_eq_true] at hgen
        cases hg : gen_serialize_helper_c_fixattribs N pos rest with
        | none => simp [hg] at hgen
        | some out1 =>
          simp only [hg, Option.some.injEq] at hgen
          subst hgen
          rw [if_neg hlink] at hmem
          cases rest with
          | nil => simp [link_slots_spec] at hmem
          | cons r rs =>
            simp only [List.isEmpty_cons, Bool.false_eq_true, false_and, if_false,
              List.nil_append]
            exact ih pos out1 hpos hrest hg A hmem

theorem FIX_run_slot (N : String) (no fromp : Nat) (top : Option Nat)
    (heap : List node_inst) (tail : List FixStmt) (es : List (String × yajl_val)) :
    ∀ out, (∀ e ∈ es, (attrib_type_name e.2).isSome = true) →
      gen_serialize_helper_c_fixattribs N 1 es = some out →
      ∀ A, (no, N, A) ∈ link_slots_spec N 1 es →
        FIX_run no fromp top heap (out ++ tail)
          = some (heap_set_attrib heap fromp (N, A) (attr_value.ptr top)) := by
  induction es with
  | nil => intro out _ _ A hmem; simp [link_slots_spec] at hmem
  | cons e rest ih =>
    intro out htyped hgen A hmem
    have hrest : ∀ b ∈ rest, (attrib_type_name b.2).isSome = true :=
      fun b hb => htyped b (List.mem_cons_of_mem _ hb)
    have he := htyped e (List.mem_cons_self _ _)
    cases ht : attrib_type_name e.2 with
    | none => simp [ht] at he
    | some t =>
      simp only [gen_serialize_helper_c_fixattribs, ht] at hgen
      rw [link_slots_spec_cons] at hmem
      by_cases hl : t = "Link" ∨ t = "CodeLink"
      · have hlink : is_link_attrib e = true := by
          simp [is_link_attrib, ht, hl]
        simp only [hl, decide_True, if_true] at hgen
        cases hg : gen_serialize_helper_c_fixattribs N (1 + 1) rest with
        | none => simp [hg] at hgen
        | some out1 =>
          simp only [hg, Option.some.injEq] at hgen
          subst hgen
          rw [if_pos hlink] at hmem
          simp only [List.cons_append, List.nil_append, List.append_assoc, FIX_run,
            FIX_switch]
          rcases List.mem_cons.1 hmem with heq | hmem
          · simp only [Prod.mk.injEq] at heq
            obtain ⟨h1, _, h3⟩ := heq
            simp [h1, h3]
          · have hge := link_slots_spec_ge N rest (1 + 1) _ hmem
            simp only at hge
            have hne : ¬ 1 = no := by omega
            cases rest with
            | nil => simp [link_slots_spec] at hmem
            | cons r rs =>
              simp only [hne, if_false, List.isEmpty_cons, Bool.false_eq_true, false_and,
                List.nil_append]
              exact FIX_switch_slot N no fromp top heap tail (r :: rs) 2 out1 (Nat.le_refl _)
                hrest hg A hmem
      · have hlink : ¬ is_link_attrib e = true := by
          simp [is_link_attrib, ht, hl]
        simp only [hl, decide_False, if_false, Bool.false_eq_true] at hgen
        cases hg : gen_serialize_helper_c_fixattribs N 1 rest with
        | none => simp [hg] at hgen
        | some out1 =>
          simp only [hg, Option.some.injEq] at hgen
          subst hgen
          rw [if_neg hlink] at hmem
          have hgt : ¬ 1 > 1 := by omega
          simp only [hgt, and_false, if_false, List.nil_append]
          exact ih out1 hrest hg A hmem

/-- A fix instruction for the slot `no` of a node of the schema entry `e`: the
generated `SHLPfixLink` assigns the node at the target position to the attribute of
that slot of the node at the source position. -/
theorem SHLPfixLink_slot (attrtype_names : List attrtype_name)
    (nodes : List (String × yajl_val)) (g : generated)
    (hgen : gen_serialize attrtype_names nodes = some g)
    (e : String × yajl_val) (t : String) (he : schema_node nodes t = some e)
    (htyped : attribs_typed e.2)
    (arr : List Nat) (H : List node_inst) (i q a1 b1 no : Nat) (A : String)
    (nd1 : node_inst) (hi : arr[i]? = some a1) (hq : arr[q]? = some b1)
    (hnd : H[a1]? = some nd1) (ht : nd1.nodetype = t)
    (hslot : (no, string_toupper e.1, A)
      ∈ link_slots_spec (string_toupper e.1) 1 (node_attribs e.2)) :
    SHLPfixLink g.fix arr H (fix_record.mk (some i) no (some q))
      = some (heap_set_attrib H a1 (string_toupper e.1, A) (attr_value.ptr (some b1))) := by
  obtain ⟨_, _, _, _, hfix⟩ := gen_serialize_tables attrtype_names nodes g hgen
  obtain ⟨body, hbody, hlook⟩ := node_loop_lookup "N_" gen_serialize_helper_c_fixcase
    nodes g.fix hfix t e he
  unfold gen_serialize_helper_c_fixcase at hbody
  simp only at hbody
  cases hg : gen_serialize_helper_c_fixattribs (string_toupper e.1) 1
      (object_entries (yajl_tree_get (some e.2) ["attributes"] yajl_type.t_object)) with
  | none => simp [hg] at hbody
  | some out =>
    simp only [hg, Option.some.injEq] at hbody
    subst hbody
    unfold SHLPfixLink
    simp only [hi, hq, hnd, ht, hlook]
    exact FIX_run_slot (string_toupper e.1) no a1 (some b1) H [FixStmt.break_]
      (node_attribs e.2) out htyped hg A hslot

theorem replay_fixes_append (fixcases : List (String × List FixStmt)) (arr : List Nat)
    (fs1 fs2 : List fix_record) (H : List node_inst) :
    replay_fixes fixcases arr (fs1 ++ fs2) H
      = match replay_fixes fixcases arr fs1 H with
        | none => none
        | some H1 => replay_fixes fixcases arr fs2 H1 := by
  induction fs1 generalizing H with
  | nil => rfl
  | cons f rest ih =>
    simp only [List.cons_append, replay_fixes]
    cases SHLPfixLink fixcases arr H f with
    | none => rfl
    | some H1 => exact ih H1

theorem field_set_middle {α : Type} (pre post : List ((String × String) × α))
    (key : String × String) (v v1 : α)
    (hpre : key ∉ pre.map Prod.fst) (hpost : key ∉ post.map Prod.fst) :
    field_set (pre ++ (key, v) :: post) key v1 = pre ++ (key, v1) :: post := by
  have h1 : field_set pre key v1 = pre := by
    apply field_set_same
    intro x hx hxk
    exact absurd (hxk ▸ List.mem_map_of_mem Prod.fst hx) hpre
  have h2 : field_set post key v1 = post := by
    apply field_set_same
    intro x hx hxk
    exact absurd (hxk ▸ List.mem_map_of_mem Prod.fst hx) hpost
  unfold field_set at h1 h2 ⊢
  simp [List.map_append, h1, h2]

/-! ## The replay of the fix instructions -/

theorem link_attrib_persisted (attrtype_names : List attrtype_name)
    (hlinkp : ∀ atn ∈ attrtype_names,
      atn.name = "Link" ∨ atn.name = "CodeLink" ∨ atn.name = "Node" → atn.persist = true)
    (e : String × yajl_val) (hreg : (attrib_atn attrtype_names e.2).isSome = true)
    (hl : is_link_attrib e = true) : attrib_persisted attrtype_names e = true := by
  cases hatn : attrib_atn attrtype_names e.2 with
  | none => simp [hatn] at hreg
  | some atn =>
    have hname := attrib_atn_name attrtype_names e.2 atn hatn
    have hmem : atn ∈ attrtype_names := by
      unfold attrib_atn at hatn
      simp only [hname] at hatn
      exact List.mem_of_find?_eq_some hatn
    have hn : atn.name = "Link" ∨ atn.name = "CodeLink" := by
      simpa [is_link_attrib, hname] using hl
    have hn3 : atn.name = "Link" ∨ atn.name = "CodeLink" ∨ atn.name = "Node" := by
      rcases hn with h | h
      · exact Or.inl h
      · exact Or.inr (Or.inl h)
    simp [attrib_persisted, hatn, hlinkp atn hmem hn3]

theorem rebuilt_keys_subset (attrtype_names : List attrtype_name)
    (eval_init : String → attr_value) (es : List (String × yajl_val))
    (fs : List ((String × String) × attr_value)) :
    ∀ k ∈ (List.zipWith (rebuilt_attrib attrtype_names eval_init) es fs).map Prod.fst,
      k ∈ fs.map Prod.fst := by
  induction es generalizing fs with
  | nil => intro k hk; simp at hk
  | cons e es1 ih =>
    cases fs with
    | nil => intro k hk; simp at hk
    | cons f fs1 =>
      intro k hk
      simp only [List.zipWith_cons_cons, List.map_cons, List.mem_cons] at hk ⊢
      rcases hk with hk | hk
      · exact Or.inl hk
      · exact Or.inr (ih fs1 k hk)

theorem edge_image_of_ok (st arr : List Nat) (hlen : st.length = arr.length)
    (p : Option Nat) (hp : ∀ b, p = some b → b ∈ st) :
    ∃ p1, edge_image st arr p = some p1 := by
  cases p with
  | none => exact ⟨none, rfl⟩
  | some b =>
    obtain ⟨q, hq⟩ := SSfindPos_of_mem b st (hp b rfl)
    have h1 := SSfindPos_getElem b st q hq
    have hlt : q < arr.length := by
      rw [← hlen]
      exact (List.getElem?_eq_some_iff.1 h1).1
    refine ⟨some arr[q], ?_⟩
    simp only [edge_image, hq]
    rw [List.getElem?_eq_getElem hlt]

/-- The fix instructions of one node, replayed: every `Link`/`CodeLink` attribute of
the copy of the node takes the node at the position of its original target, and
nothing else changes. -/
theorem replay_node_fixes (attrtype_names : List attrtype_name)
    (nodes : List (String × yajl_val)) (g : generated) (eval_init : String → attr_value)
    (hgen : gen_serialize attrtype_names nodes = some g)
    (hlinkp : ∀ atn ∈ attrtype_names,
      atn.name = "Link" ∨ atn.name = "CodeLink" ∨ atn.name = "Node" → atn.persist = true)
    (e : String × yajl_val) (t : String) (he : schema_node nodes t = some e)
    (htyped : attribs_typed e.2)
    (st arr : List Nat) (hlen : st.length = arr.length)
    (a i a1 : Nat) (hpos : SSfindPos a st = some i) (hi : arr[i]? = some a1)
    (file line col : Nat) (err : Option Nat) (sons : List ((String × String) × Option Nat))
    (flags : List ((String × String) × Int)) :
    ∀ (es : List (String × yajl_val)) (fs : List ((String × String) × attr_value)) (pos : Nat)
      (pre : List ((String × String) × attr_value)) (H : List node_inst),
      (∀ x ∈ es, (attrib_atn attrtype_names x.2).isSome = true) →
      fs.map Prod.fst = declared_keys e.1 es →
      (pre.map Prod.fst ++ declared_keys e.1 es).Nodup →
      (∀ x ∈ List.zip es fs, attrib_value_ok st x.1 x.2.2) →
      (∀ x ∈ link_slots_spec (string_toupper e.1) pos es,
        x ∈ link_slots_spec (string_toupper e.1) 1 (node_attribs e.2)) →
      H[a1]? = some (node_inst.mk t file line col err sons
        (pre ++ List.zipWith (rebuilt_attrib attrtype_names eval_init) es fs) flags) →
      replay_fixes g.fix arr (node_fixes st a pos es fs) H
        = some (H.set a1 (node_inst.mk t file line col err sons
            (pre ++ List.zipWith (fixed_attrib attrtype_names eval_init st arr) es fs)
            flags)) := by
  intro es
  induction es with
  | nil =>
    intro fs pos pre H _ hkeys _ _ _ hH
    have : fs = [] := by simpa [declared_keys] using hkeys
    subst this
    simp only [node_fixes, replay_fixes, List.zipWith_nil_left, List.append_nil] at hH ⊢
    rw [list_set_self _ _ _ hH]
  | cons e1 es1 ih =>
    intro fs pos pre H hreg hkeys hnodup hok hsub hH
    cases fs with
    | nil => simp [declared_keys] at hkeys
    | cons f fs1 =>
      simp only [declared_keys, List.map_cons, List.cons.injEq] at hkeys
      obtain ⟨hf, hfs1⟩ := hkeys
      have hreg1 : ∀ x ∈ es1, (attrib_atn attrtype_names x.2).isSome = true :=
        fun x hx => hreg x (List.mem_cons_of_mem _ hx)
      have hok1 : ∀ x ∈ List.zip es1 fs1, attrib_value_ok st x.1 x.2.2 :=
        fun x hx => hok x (by simp [List.zip_cons_cons, hx])
      have hokf := hok (e1, f) (by simp [List.zip_cons_cons])
      have hnodup1 : ∀ x : (String × String) × attr_value, x.1 = f.1 →
          ((pre ++ [x]).map Prod.fst ++ declared_keys e.1 es1).Nodup := by
        intro x hx
        have : (pre ++ [x]).map Prod.fst ++ declared_keys e.1 es1
            = pre.map Prod.fst ++ declared_keys e.1 (e1 :: es1) := by
          simp [declared_keys, hx, hf]
        rw [this]
        exact hnodup
      have hkpre : f.1 ∉ pre.map Prod.fst := by
        intro hc
        have := List.nodup_append.1 hnodup
        exact this.2.2 hc (by simp [declared_keys, hf])
      have hkpost : f.1 ∉
          (List.zipWith (rebuilt_attrib attrtype_names eval_init) es1 fs1).map Prod.fst := by
        intro hc
        have h1 := rebuilt_keys_subset attrtype_names eval_init es1 fs1 _ hc
        rw [hfs1] at h1
        have h2 := (List.nodup_append.1 hnodup).2.1
        simp only [declared_keys, List.map_cons, List.nodup_cons] at h2
        rw [hf] at h1
        exact h2.1 h1
      rw [link_slots_spec_cons] at hsub
      by_cases hl : is_link_attrib e1 = true
      · rw [if_pos hl] at hsub
        have hsub1 : ∀ x ∈ link_slots_spec (string_toupper e.1) (pos + 1) es1,
            x ∈ link_slots_spec (string_toupper e.1) 1 (node_attribs e.2) :=
          fun x hx => hsub x (List.mem_cons_of_mem _ hx)
        have hpers := link_attrib_persisted attrtype_names hlinkp e1
          (hreg e1 (List.mem_cons_self _ _)) hl
        obtain ⟨p, hp, hpm⟩ := hokf.1 hl
        simp only at hp
        have hreb : rebuilt_attrib attrtype_names eval_init e1 f
            = (f.1, attr_value.ptr none) := by
          simp [rebuilt_attrib, hpers, sent_value, hl]
        simp only [List.zipWith_cons_cons, hreb] at hH
        cases p with
        | none =>
          have hfixed : fixed_attrib attrtype_names eval_init st arr e1 f
              = (f.1, attr_value.ptr none) := by
            simp [fixed_attrib, hl, hp, edge_image]
          have hnf : node_fixes st a pos (e1 :: es1) (f :: fs1)
              = node_fixes st a (pos + 1) es1 fs1 := by
            simp [node_fixes, hl, hp]
          rw [hnf]
          have := ih fs1 (pos + 1) (pre ++ [(f.1, attr_value.ptr none)]) H hreg1 hfs1
            (hnodup1 _ rfl) hok1 hsub1 (by simpa [List.append_assoc] using hH)
          rw [this]
          simp [List.zipWith_cons_cons, hfixed, List.append_assoc]
        | some b =>
          obtain ⟨q, hq⟩ := SSfindPos_of_mem b st (hpm b rfl)
          have h1 := SSfindPos_getElem b st q hq
          have hlt : q < arr.length := by
            rw [← hlen]
            exact (List.getElem?_eq_some_iff.1 h1).1
          have hqa : arr[q]? = some arr[q] := List.getElem?_eq_getElem hlt
          have hfixed : fixed_attrib attrtype_names eval_init st arr e1 f
              = (f.1, attr_value.ptr (some arr[q])) := by
            simp [fixed_attrib, hl, hp, edge_image, hq, hqa]
          have hnf : node_fixes st a pos (e1 :: es1) (f :: fs1)
              = fix_record.mk (some i) pos (some q) :: node_fixes st a (pos + 1) es1 fs1 := by
            simp [node_fixes, hl, hp, hq, hpos]
          rw [hnf]
          have hslot := hsub _ (List.mem_cons_self _ _)
          have hstep := SHLPfixLink_slot attrtype_names nodes g hgen e t he htyped arr H
            i q a1 arr[q] pos (string_toupper e1.1) _ hi hqa hH rfl hslot
          have ha1 : a1 < H.length := (List.getElem?_eq_some_iff.1 hH).1
          simp only [replay_fixes, hstep, heap_set_attrib, hH]
          rw [← hf, field_set_middle pre _ f.1 _ _ hkpre hkpost]
          have := ih fs1 (pos + 1) (pre ++ [(f.1, attr_value.ptr (some arr[q]))])
            (H.set a1 (node_inst.mk t file line col err sons
              (pre ++ (f.1, attr_value.ptr (some arr[q]))
                :: List.zipWith (rebuilt_attrib attrtype_names eval_init) es1 fs1) flags))
            hreg1 hfs1 (hnodup1 _ rfl) hok1 hsub1
            (by rw [List.getElem?_set_self ha1]; simp [List.append_assoc])
          rw [this]
          simp [List.zipWith_cons_cons, hfixed, List.append_assoc, List.set_set]
      · rw [if_neg hl] at hsub
        have hfixed : fixed_attrib attrtype_names eval_init st arr e1 f
            = rebuilt_attrib attrtype_names eval_init e1 f := by
          simp [fixed_attrib, hl]
        have hnf : node_fixes st a pos (e1 :: es1) (f :: fs1)
            = node_fixes st a pos es1 fs1 := by
          simp [node_fixes, hl]
        rw [hnf]
        have := ih fs1 pos (pre ++ [rebuilt_attrib attrtype_names eval_init e1 f]) H hreg1 hfs1
          (hnodup1 _ rfl) hok1 hsub
          (by simpa [List.zipWith_cons_cons, List.append_assoc] using hH)
        rw [this]
        simp [List.zipWith_cons_cons, hfixed, List.append_assoc]

theorem zip_mem_index (st arr : List Nat) (p : Nat × Nat) (hp : p ∈ List.zip st arr) :
    ∃ i : Nat, st[i]? = some p.1 ∧ arr[i]? = some p.2 := by
  obtain ⟨n, hn⟩ := List.mem_iff_getElem?.1 hp
  exact ⟨n, List.getElem?_zip_eq_some.1 hn⟩

theorem attr_copied_value_ok (Z : List (Nat × Nat)) (st : List Nat) (e : String × yajl_val)
    (v v1 : attr_value) (hc : attr_copied Z e v v1) (hok : attrib_value_ok st e v) :
    attrib_value_ok st e v1 := by
  unfold attr_copied at hc
  by_cases hN : is_node_attrib e = true
  · rw [if_pos hN] at hc
    obtain ⟨p, p1, _, h2, _⟩ := hc
    refine ⟨fun hl => ?_, fun _ => ⟨p1, h2⟩⟩
    rw [node_attrib_not_link e hN] at hl
    cases hl
  · rw [if_neg hN] at hc
    rw [hc]
    exact hok

theorem attrs_copied_value_ok (Z : List (Nat × Nat)) (st : List Nat)
    (es : List (String × yajl_val)) (fs fs1 : List ((String × String) × attr_value))
    (hc : attrs_copied Z es fs fs1)
    (hok : ∀ x ∈ List.zip es fs, attrib_value_ok st x.1 x.2.2) :
    ∀ x ∈ List.zip es fs1, attrib_value_ok st x.1 x.2.2 := by
  unfold attrs_copied at hc
  induction es generalizing fs fs1 with
  | nil => intro x hx; simp at hx
  | cons e es1 ih =>
    cases fs with
    | nil =>
      simp only [List.zip_nil_right, List.forall₂_nil_left_iff] at hc
      subst hc
      intro x hx
      simp at hx
    | cons f fs2 =>
      simp only [List.zip_cons_cons] at hc
      cases fs1 with
      | nil => simp at hc
      | cons f1 fs3 =>
        simp only [List.forall₂_cons] at hc
        intro x hx
        simp only [List.zip_cons_cons, List.mem_cons] at hx
        rcases hx with hx | hx
        · subst hx
          exact attr_copied_value_ok Z st e f.2 f1.2 hc.1.2
            (hok (e, f) (by simp [List.zip_cons_cons]))
        · exact ih fs2 fs3 hc.2 (fun y hy => hok y (by simp [List.zip_cons_cons, hy])) x hx

/-- The fix instructions of a node read only its `Link`/`CodeLink` attributes, which
travel as they are. -/
theorem node_fixes_copied (Z : List (Nat × Nat)) (st : List Nat) (a : Nat)
    (es : List (String × yajl_val)) :
    ∀ (fs fs1 : List ((String × String) × attr_value)) (pos : Nat),
      attrs_copied Z es fs fs1 → node_fixes st a pos es fs1 = node_fixes st a pos es fs := by
  induction es with
  | nil => intro fs fs1 pos _; simp [node_fixes]
  | cons e es1 ih =>
    intro fs fs1 pos hc
    unfold attrs_copied at hc
    cases fs with
    | nil =>
      simp only [List.zip_nil_right, List.forall₂_nil_left_iff] at hc
      subst hc
      rfl
    | cons f fs2 =>
      simp only [List.zip_cons_cons] at hc
      cases fs1 with
      | nil => simp at hc
      | cons f1 fs3 =>
        simp only [List.forall₂_cons] at hc
        obtain ⟨⟨_, hv⟩, hrest⟩ := hc
        have hih := ih fs2 fs3
        by_cases hl : is_link_attrib e = true
        · have hN : ¬ is_node_attrib e = true := by
            intro hN
            rw [node_attrib_not_link e hN] at hl
            cases hl
          unfold attr_copied at hv
          rw [if_neg hN] at hv
          simp only [node_fixes, hl, if_true, hv, hih (pos + 1) hrest]
        · simp [node_fixes, hl, hih pos hrest]

/-- The fix instructions of a list of nodes, replayed on the copies of these nodes:
every copy takes its final attributes, and no other node of the heap changes. -/
theorem replay_graph_fixes (attrtype_names : List attrtype_name)
    (nodes : List (String × yajl_val)) (g : generated) (eval_init : String → attr_value)
    (heap : List node_inst)
    (hgen : gen_serialize attrtype_names nodes = some g)
    (hschema : schema_ok attrtype_names nodes)
    (st arr : List Nat) (hlen : st.length = arr.length) (hnodup : st.Nodup)
    (Z : List (Nat × Nat)) :
    ∀ (ps : List (Nat × Nat)) (H : List node_inst),
      (∀ p ∈ ps, p ∈ List.zip st arr) →
      (ps.map Prod.snd).Nodup →
      (∀ p ∈ ps, node_ok nodes heap st p.1) →
      (∀ p ∈ ps, ∃ nd nd1 e, heap[p.1]? = some nd ∧ H[p.2]? = some nd1
        ∧ schema_node nodes nd.nodetype = some e
        ∧ copy_of attrtype_names eval_init Z e nd nd1) →
      ∃ H1, replay_fixes g.fix arr (graph_fixes nodes heap st (ps.map Prod.fst)) H = some H1
        ∧ H1.length = H.length
        ∧ (∀ j, j ∉ ps.map Prod.snd → H1[j]? = H[j]?)
        ∧ ∀ p ∈ ps, ∃ nd nd1 e fs1, heap[p.1]? = some nd ∧ H[p.2]? = some nd1
            ∧ schema_node nodes nd.nodetype = some e
            ∧ copy_of attrtype_names eval_init Z e nd nd1
            ∧ attrs_copied Z (node_attribs e.2) nd.attribs fs1
            ∧ H1[p.2]? = some (node_inst.mk nd1.nodetype nd1.file nd1.line nd1.col nd1.error
                nd1.sons
                (List.zipWith (fixed_attrib attrtype_names eval_init st arr)
                  (node_attribs e.2) fs1)
                nd1.flags) := by
  intro ps
  induction ps with
  | nil =>
    intro H _ _ _ _
    exact ⟨H, rfl, rfl, fun _ _ => rfl, by intro p hp; cases hp⟩
  | cons p ps1 ih =>
    intro H hzip hnd hok hcopy
    simp only [List.map_cons, List.nodup_cons] at hnd
    obtain ⟨hp_notin, hnd1⟩ := hnd
    obtain ⟨nd, nd1, e, hheap, hH, he, hc⟩ := hcopy p (List.mem_cons_self _ _)
    obtain ⟨i, hsi, hai⟩ := zip_mem_index st arr p (hzip p (List.mem_cons_self _ _))
    have hpos := SSfindPos_of_getElem st hnodup i p.1 hsi
    obtain ⟨nd0, hnd0, e0, he0, hconf, hsupp, hattr⟩ := hok p (List.mem_cons_self _ _)
    rw [hheap] at hnd0
    cases hnd0
    rw [he] at he0
    cases he0
    obtain ⟨hmem, _⟩ := schema_node_mem nodes _ e he
    obtain ⟨hreg, hkeys, hlinkp⟩ := hschema
    obtain ⟨_, k2, _⟩ := hkeys e hmem
    obtain ⟨_, _, hka, _⟩ := hconf
    obtain ⟨c1, c2, c3, c4, c5, ⟨fs1, c6, c6b⟩, c7⟩ := hc
    have hal : nd.attribs.length = (node_attribs e.2).length := by
      have := congrArg List.length hka
      simpa [declared_keys] using this
    have hka1 : fs1.map Prod.fst = declared_keys e.1 (node_attribs e.2) := by
      rw [attrs_copied_keys Z _ _ _ hal c6, hka]
    have hattr1 := attrs_copied_value_ok Z st (node_attribs e.2) nd.attribs fs1 c6 hattr
    have ha1 : p.2 < H.length := (List.getElem?_eq_some_iff.1 hH).1
    have hH2 : H[p.2]? = some (node_inst.mk nd.nodetype nd1.file nd1.line nd1.col nd1.error
        nd1.sons ([] ++ List.zipWith (rebuilt_attrib attrtype_names eval_init)
          (node_attribs e.2) fs1) nd1.flags) := by
      rw [hH, List.nil_append, ← c6b, ← c1]
    have hnode := replay_node_fixes attrtype_names nodes g eval_init hgen hlinkp e nd.nodetype
      he (attribs_typed_of_registered attrtype_names e.2 (hreg e hmem)) st arr hlen p.1 i p.2
      hpos hai nd1.file nd1.line nd1.col nd1.error nd1.sons nd1.flags
      (node_attribs e.2) fs1 1 [] H (hreg e hmem) hka1 (by simpa using k2) hattr1
      (fun x hx => hx) hH2
    simp only [List.nil_append] at hnode
    rw [node_fixes_copied Z st p.1 (node_attribs e.2) nd.attribs fs1 1 c6] at hnode
    have hcopy1 : ∀ q ∈ ps1, ∃ ndq ndq1 eq, heap[q.1]? = some ndq
        ∧ (H.set p.2 (node_inst.mk nd.nodetype nd1.file nd1.line nd1.col nd1.error nd1.sons
            (List.zipWith (fixed_attrib attrtype_names eval_init st arr)
              (node_attribs e.2) fs1) nd1.flags))[q.2]? = some ndq1
        ∧ schema_node nodes ndq.nodetype = some eq
        ∧ copy_of attrtype_names eval_init Z eq ndq ndq1 := by
      intro q hq
      obtain ⟨ndq, ndq1, eq, h1, h2, h3, h4⟩ := hcopy q (List.mem_cons_of_mem _ hq)
      have hne : p.2 ≠ q.2 := by
        intro hc
        exact hp_notin (hc ▸ List.mem_map_of_mem Prod.snd hq)
      exact ⟨ndq, ndq1, eq, h1, by rw [List.getElem?_set_ne hne]; exact h2, h3, h4⟩
    obtain ⟨H1, r1, r2, r3, r4⟩ := ih _ (fun q hq => hzip q (List.mem_cons_of_mem _ hq)) hnd1
      (fun q hq => hok q (List.mem_cons_of_mem _ hq)) hcopy1
    refine ⟨H1, ?_, ?_, ?_, ?_⟩
    · simp only [List.map_cons, graph_fixes, List.flatMap_cons, hheap, he]
      rw [replay_fixes_append, hnode]
      simp only
      simp only [graph_fixes] at r1
      exact r1
    · rw [r2, List.length_set]
    · intro j hj
      simp only [List.map_cons, List.mem_cons, not_or] at hj
      rw [r3 j hj.2, List.getElem?_set_ne (fun hc => hj.1 hc.symm)]
    · intro q hq
      rcases List.mem_cons.1 hq with hq | hq
      · subst hq
        refine ⟨nd, nd1, e, fs1, hheap, hH, he, ⟨c1, c2, c3, c4, c5, ⟨fs1, c6, c6b⟩, c7⟩, c6, ?_⟩
        rw [r3 q.2 hp_notin, List.getElem?_set_self ha1, c1]
      · obtain ⟨ndq, ndq1, eq, fsq, h1, h2, h3, h4, h5, h6⟩ := r4 q hq
        have hne : p.2 ≠ q.2 := by
          intro hc
          exact hp_notin (hc ▸ List.mem_map_of_mem Prod.snd hq)
        rw [List.getElem?_set_ne hne] at h2
        exact ⟨ndq, ndq1, eq, fsq, h1, h2, h3, h4, h5, h6⟩

/-! ## The rebuilt graph matches the original -/

theorem son_copied_edge (st arr : List Nat) (hnodup : st.Nodup) (v v1 : Option Nat)
    (h : son_copied (List.zip st arr) v v1) : edge_image st arr v = some v1 := by
  rcases h with ⟨h1, h2⟩ | ⟨b, b1, h1, h2, h3⟩
  · rw [h1, h2]
    rfl
  · obtain ⟨i, hsi, hai⟩ := zip_mem_index st arr (b, b1) h3
    have hpos := SSfindPos_of_getElem st hnodup i b hsi
    simp only at hai
    rw [h1, h2]
    simp only [edge_image, hpos, hai]

theorem fixed_keys (attrtype_names : List attrtype_name) (eval_init : String → attr_value)
    (st arr : List Nat) (node_name : String) (es : List (String × yajl_val))
    (fs : List ((String × String) × attr_value))
    (hkeys : fs.map Prod.fst = declared_keys node_name es) :
    (List.zipWith (fixed_attrib attrtype_names eval_init st arr) es fs).map Prod.fst
      = fs.map Prod.fst := by
  induction es generalizing fs with
  | nil =>
    have : fs = [] := by simpa [declared_keys] using hkeys
    subst this
    simp
  | cons e es1 ih =>
    cases fs with
    | nil => simp [declared_keys] at hkeys
    | cons f fs1 =>
      simp only [declared_keys, List.map_cons, List.cons.injEq] at hkeys
      simp only [List.zipWith_cons_cons, List.map_cons, ih fs1 hkeys.2, List.cons.injEq,
        and_true]
      unfold fixed_attrib rebuilt_attrib
      split <;> rfl

theorem rebuilt_keys (attrtype_names : List attrtype_name) (eval_init : String → attr_value)
    (node_name : String) (es : List (String × yajl_val))
    (fs : List ((String × String) × attr_value))
    (hkeys : fs.map Prod.fst = declared_keys node_name es) :
    (List.zipWith (rebuilt_attrib attrtype_names eval_init) es fs).map Prod.fst
      = fs.map Prod.fst := by
  induction es generalizing fs with
  | nil =>
    have : fs = [] := by simpa [declared_keys] using hkeys
    subst this
    simp
  | cons e es1 ih =>
    cases fs with
    | nil => simp [declared_keys] at hkeys
    | cons f fs1 =>
      simp only [declared_keys, List.map_cons, List.cons.injEq] at hkeys
      simp only [List.zipWith_cons_cons, List.map_cons, ih fs1 hkeys.2, List.cons.injEq,
        and_true]
      rfl

theorem fixed_attrib_matches (attrtype_names : List attrtype_name)
    (eval_init : String → attr_value) (st arr : List Nat) (hlen : st.length = arr.length)
    (hnodup : st.Nodup) (e : String × yajl_val) (f f1 : (String × String) × attr_value)
    (hok : attrib_value_ok st e f.2)
    (hc : attr_copied (List.zip st arr) e f.2 f1.2) :
    attrib_matches attrtype_names st arr e f.2
      (fixed_attrib attrtype_names eval_init st arr e f1).2 := by
  unfold attrib_matches fixed_attrib
  unfold attr_copied at hc
  by_cases hl : is_link_attrib e = true
  · have hN : ¬ is_node_attrib e = true := by
      intro hN
      rw [node_attrib_not_link e hN] at hl
      cases hl
    rw [if_neg hN] at hc
    obtain ⟨p, hp, hpm⟩ := hok.1 hl
    obtain ⟨p1, hp1⟩ := edge_image_of_ok st arr hlen p hpm
    simp only [hl, true_or, if_true]
    refine ⟨p, p1, hp, ?_, hp1⟩
    simp only [hc, hp, hp1]
  · simp only [hl, Bool.false_eq_true, false_or, if_false, rebuilt_attrib, sent_value]
    by_cases hpers : attrib_persisted attrtype_names e = true
    · simp only [hpers, and_true, if_true]
      by_cases hn : is_node_attrib e = true
      · rw [if_pos hn] at hc
        obtain ⟨p, p1, h1, h2, h3⟩ := hc
        simp only [hn, if_true]
        exact ⟨p, p1, h1, h2, son_copied_edge st arr hnodup p p1 h3⟩
      · rw [if_neg hn] at hc
        simp only [hn, Bool.false_eq_true, if_false]
        exact hc
    · simp only [hpers, Bool.false_eq_true, and_false, if_false]

theorem fixed_attribs_match (attrtype_names : List attrtype_name)
    (eval_init : String → attr_value) (st arr : List Nat) (hlen : st.length = arr.length)
    (hnodup : st.Nodup)
    (es : List (String × yajl_val)) (fs fs1 : List ((String × String) × attr_value))
    (hok : ∀ x ∈ List.zip es fs, attrib_value_ok st x.1 x.2.2)
    (hc : attrs_copied (List.zip st arr) es fs fs1) :
    ∀ x ∈ List.zip es (List.zip fs
        (List.zipWith (fixed_attrib attrtype_names eval_init st arr) es fs1)),
      attrib_matches attrtype_names st arr x.1 x.2.1.2 x.2.2.2 := by
  unfold attrs_copied at hc
  induction es generalizing fs fs1 with
  | nil => intro x hx; simp at hx
  | cons e es1 ih =>
    cases fs with
    | nil => intro x hx; simp at hx
    | cons f fs2 =>
      simp only [List.zip_cons_cons] at hc
      cases fs1 with
      | nil => simp at hc
      | cons f1 fs3 =>
        simp only [List.forall₂_cons] at hc
        intro x hx
        simp only [List.zipWith_cons_cons, List.zip_cons_cons, List.mem_cons] at hx
        rcases hx with hx | hx
        · subst hx
          exact fixed_attrib_matches attrtype_names eval_init st arr hlen hnodup e f f1
            (hok (e, f) (by simp [List.zip_cons_cons])) hc.1.2
        · exact ih fs2 fs3 (fun y hy => hok y (by simp [List.zip_cons_cons, hy])) hc.2 x hx

theorem copied_sons_of_owned (Z : List (Nat × Nat)) (node_name : String)
    (es : List (String × yajl_val)) (sons sons1 : List ((String × String) × Option Nat))
    (hlen : sons.length = es.length)
    (hk : sons1.map Prod.fst = sons.map Prod.fst)
    (h : List.Forall₂ (son_copied Z) (owned_sons node_name es sons) (sons1.map Prod.snd))
    (hs : ∀ x ∈ List.zip es sons, (node_name, x.1.1) ∈ suppressed_sons → x.2.2 = none) :
    List.Forall₂ (fun x x1 => x1.1 = x.1 ∧ son_copied Z x.2 x1.2) sons sons1 := by
  induction es generalizing sons sons1 with
  | nil =>
    have h1 : sons = [] := by simpa using hlen
    subst h1
    have h2 : sons1 = [] := by simpa using hk
    subst h2
    exact List.Forall₂.nil
  | cons e es1 ih =>
    cases sons with
    | nil => simp at hlen
    | cons f fs =>
      cases sons1 with
      | nil => simp at hk
      | cons f1 fs1 =>
        simp only [List.length_cons, Nat.add_right_cancel_iff] at hlen
        simp only [List.map_cons, List.cons.injEq] at hk
        simp only [owned_sons, List.map_cons, List.forall₂_cons] at h
        refine List.Forall₂.cons ⟨hk.1, ?_⟩
          (ih fs fs1 hlen hk.2 h.2 (fun y hy => hs y (by simp [List.zip_cons_cons, hy])))
        by_cases hsup : (node_name, e.1) ∈ suppressed_sons
        · have h0 := hs (e, f) (by simp [List.zip_cons_cons]) hsup
          simp only at h0
          have h1 := h.1
          simp only [hsup, if_true] at h1
          rw [h0]
          exact h1
        · have h1 := h.1
          simp only [hsup, if_false] at h1
          exact h1

theorem fixed_node_matches (attrtype_names : List attrtype_name)
    (eval_init : String → attr_value) (st arr : List Nat) (hlen : st.length = arr.length)
    (hnodup : st.Nodup) (e : String × yajl_val) (nd nd1 : node_inst)
    (fs1 : List ((String × String) × attr_value))
    (hok : node_ok_entry st e nd)
    (hcopy : copy_of attrtype_names eval_init (List.zip st arr) e nd nd1)
    (hfs1 : attrs_copied (List.zip st arr) (node_attribs e.2) nd.attribs fs1) :
    node_matches attrtype_names st arr e nd
      (node_inst.mk nd1.nodetype nd1.file nd1.line nd1.col nd1.error nd1.sons
        (List.zipWith (fixed_attrib attrtype_names eval_init st arr)
          (node_attribs e.2) fs1)
        nd1.flags) := by
  obtain ⟨c1, c2, c3, c4, ⟨c5a, c5⟩, _, c7⟩ := hcopy
  obtain ⟨⟨_, hks, hka, _⟩, hsupp, hattr⟩ := hok
  have hal : nd.attribs.length = (node_attribs e.2).length := by
    have := congrArg List.length hka
    simpa [declared_keys] using this
  have hsl : nd.sons.length = (node_sons e.2).length := by
    have := congrArg List.length hks
    simpa [declared_keys] using this
  have hk1 := attrs_copied_keys _ _ _ _ hal hfs1
  refine ⟨c1, c2, c3, c4, ?_, ?_, ?_, c7⟩
  · exact List.Forall₂.imp
      (fun x x1 hx => ⟨hx.1, son_copied_edge st arr hnodup _ _ hx.2⟩)
      (copied_sons_of_owned _ e.1 (node_sons e.2) nd.sons nd1.sons hsl c5a c5 hsupp)
  · simp only
    rw [fixed_keys attrtype_names eval_init st arr e.1 (node_attribs e.2) fs1
      (by rw [hk1, hka]), hk1]
  · exact fixed_attribs_match attrtype_names eval_init st arr hlen hnodup (node_attribs e.2)
      nd.attribs fs1 hattr hfs1

/-! ## The nodes built conform to the schema -/

theorem suppressed_built (Z : List (Nat × Nat)) (node_name : String)
    (es : List (String × yajl_val)) (sons sons1 : List ((String × String) × Option Nat))
    (h : List.Forall₂ (son_copied Z) (owned_sons node_name es sons) (sons1.map Prod.snd)) :
    ∀ x ∈ List.zip es sons1, (node_name, x.1.1) ∈ suppressed_sons → x.2.2 = none := by
  induction es generalizing sons sons1 with
  | nil => intro x hx; simp at hx
  | cons e es1 ih =>
    cases sons1 with
    | nil => intro x hx; simp at hx
    | cons f1 fs1 =>
      cases sons with
      | nil => simp [owned_sons] at h
      | cons f fs =>
        simp only [owned_sons, List.map_cons, List.forall₂_cons] at h
        intro x hxm hsup
        simp only [List.zip_cons_cons, List.mem_cons] at hxm
        rcases hxm with hxm | hxm
        · subst hxm
          have h1 := h.1
          simp only at hsup
          simp only [hsup, if_true] at h1
          rcases h1 with ⟨_, h2⟩ | ⟨b, b1, h3, _, _⟩
          · exact h2
          · cases h3
        · exact ih fs fs1 h.2 x hxm hsup

theorem rebuilt_attrib_value_ok (attrtype_names : List attrtype_name)
    (eval_init : String → attr_value)
    (hlinkp : ∀ atn ∈ attrtype_names,
      atn.name = "Link" ∨ atn.name = "CodeLink" ∨ atn.name = "Node" → atn.persist = true)
    (Z : List (Nat × Nat)) (st1 : List Nat) (e : String × yajl_val) (v : attr_value)
    (f1 : (String × String) × attr_value)
    (hreg : (attrib_atn attrtype_names e.2).isSome = true)
    (hc : attr_copied Z e v f1.2) :
    attrib_value_ok st1 e (rebuilt_attrib attrtype_names eval_init e f1).2 := by
  refine ⟨fun hl => ?_, fun hN => ?_⟩
  · have hp := link_attrib_persisted attrtype_names hlinkp e hreg hl
    refine ⟨none, ?_, fun b hb => by cases hb⟩
    simp [rebuilt_attrib, hp, sent_value, hl]
  · have hp := node_attrib_persisted attrtype_names hlinkp e hreg hN
    have hl := node_attrib_not_link e hN
    unfold attr_copied at hc
    rw [if_pos hN] at hc
    obtain ⟨p, p1, _, h2, _⟩ := hc
    exact ⟨p1, by simp [rebuilt_attrib, hp, sent_value, hl, h2]⟩

theorem rebuilt_value_ok (attrtype_names : List attrtype_name)
    (eval_init : String → attr_value)
    (hlinkp : ∀ atn ∈ attrtype_names,
      atn.name = "Link" ∨ atn.name = "CodeLink" ∨ atn.name = "Node" → atn.persist = true)
    (Z : List (Nat × Nat)) (st1 : List Nat)
    (es : List (String × yajl_val)) (fs fs1 : List ((String × String) × attr_value))
    (hreg : ∀ x ∈ es, (attrib_atn attrtype_names x.2).isSome = true)
    (hc : attrs_copied Z es fs fs1) :
    ∀ x ∈ List.zip es (List.zipWith (rebuilt_attrib attrtype_names eval_init) es fs1),
      attrib_value_ok st1 x.1 x.2.2 := by
  unfold attrs_copied at hc
  induction es generalizing fs fs1 with
  | nil => intro x hx; simp at hx
  | cons e es1 ih =>
    cases fs with
    | nil =>
      simp only [List.zip_nil_right, List.forall₂_nil_left_iff] at hc
      subst hc
      intro x hx
      simp at hx
    | cons f fs2 =>
      simp only [List.zip_cons_cons] at hc
      cases fs1 with
      | nil => simp at hc
      | cons f1 fs3 =>
        simp only [List.forall₂_cons] at hc
        intro x hx
        simp only [List.zipWith_cons_cons, List.zip_cons_cons, List.mem_cons] at hx
        rcases hx with hx | hx
        · subst hx
          exact rebuilt_attrib_value_ok attrtype_names eval_init hlinkp Z st1 e f.2 f1
            (hreg e (List.mem_cons_self _ _)) hc.1.2
        · exact ih fs2 fs3 (fun y hy => hreg y (List.mem_cons_of_mem _ hy)) hc.2 x hx

/-- The node built for a node of the schema meets the conditions of the round trip,
whatever the graph its links are to point into: the sons the serialization does not
look at and its links are null. -/
theorem copy_node_ok (attrtype_names : List attrtype_name) (eval_init : String → attr_value)
    (hlinkp : ∀ atn ∈ attrtype_names,
      atn.name = "Link" ∨ atn.name = "CodeLink" ∨ atn.name = "Node" → atn.persist = true)
    (Z : List (Nat × Nat)) (st1 : List Nat) (e : String × yajl_val) (nd nd1 : node_inst)
    (hreg : ∀ x ∈ node_attribs e.2, (attrib_atn attrtype_names x.2).isSome = true)
    (hok : node_wf_entry e nd)
    (hc : copy_of attrtype_names eval_init Z e nd nd1) : node_ok_entry st1 e nd1 := by
  obtain ⟨c1, _, _, _, ⟨c5a, c5⟩, ⟨fs1, c6, c6b⟩, c7⟩ := hc
  obtain ⟨⟨ht, hks, hka, hkf⟩, _⟩ := hok
  have hal : nd.attribs.length = (node_attribs e.2).length := by
    have := congrArg List.length hka
    simpa [declared_keys] using this
  have hk1 := attrs_copied_keys Z _ _ _ hal c6
  refine ⟨⟨by rw [c1, ht], ?_, ?_, by rw [c7, hkf]⟩, ?_, ?_⟩
  · rw [c5a, hks]
  · rw [c6b, rebuilt_keys attrtype_names eval_init e.1 (node_attribs e.2) fs1
      (by rw [hk1, hka]), hk1, hka]
  · exact suppressed_built Z e.1 (node_sons e.2) nd.sons nd1.sons c5
  · rw [c6b]
    exact rebuilt_value_ok attrtype_names eval_init hlinkp Z st1 (node_attribs e.2)
      nd.attribs fs1 hreg c6

theorem built_nodes_ok (attrtype_names : List attrtype_name)
    (eval_init : String → attr_value) (nodes : List (String × yajl_val))
    (heap : List node_inst) (hschema : schema_ok attrtype_names nodes)
    (Z : List (Nat × Nat)) (st1 l arr : List Nat) (base : Nat) (hfull : List node_inst)
    (hb : built_ok attrtype_names eval_init nodes heap Z l arr base hfull)
    (hok : ∀ c ∈ l, node_wf nodes heap c) :
    ∀ c1 ∈ arr, node_ok nodes hfull st1 c1 := by
  intro c1 hc1
  obtain ⟨hlen, hall⟩ := hb
  obtain ⟨i, hi⟩ := List.mem_iff_getElem?.1 hc1
  have hilt : i < l.length := by
    rw [← hlen]
    exact (List.getElem?_eq_some_iff.1 hi).1
  have hli : l[i]? = some l[i] := List.getElem?_eq_getElem hilt
  have hmem : (l[i], c1) ∈ List.zip l arr :=
    List.mem_iff_getElem?.2 ⟨i, List.getElem?_zip_eq_some.2 ⟨hli, hi⟩⟩
  obtain ⟨_, _, nd, nd1, e, h1, h2, h3, h4⟩ := hall _ hmem
  obtain ⟨nd0, hnd0, e0, he0, hentry⟩ := hok l[i] (List.getElem_mem hilt)
  simp only at h1 h2
  rw [h1] at hnd0
  cases hnd0
  rw [h3] at he0
  cases he0
  obtain ⟨hmemE, _⟩ := schema_node_mem nodes _ e h3
  obtain ⟨hreg, _, hlinkp⟩ := hschema
  exact ⟨nd1, h2, e, by rw [h4.1]; exact h3,
    copy_node_ok attrtype_names eval_init hlinkp Z st1 e nd nd1 (hreg e hmemE) hentry h4⟩

/-! ## The round trip -/

/-- The serialization of a graph and the replay of its constructor expression: the
nodes built are the copies of the nodes of the graph, the root is built last, and the
position list the `SBT<node>` functions yield on the nodes built lists the copies in
the order of the position list of the graph. -/
theorem rebuild_spec (attrtype_names : List attrtype_name)
    (nodes : List (String × yajl_val)) (g : generated) (eval_init : String → attr_value)
    (fuel : Nat) (heap : List node_inst) (root : Nat) (st : List Nat)
    (hgen : gen_serialize attrtype_names nodes = some g)
    (hschema : schema_ok attrtype_names nodes)
    (hwalk : walk_owned nodes heap fuel root = some st)
    (hnodes : ∀ a ∈ st, node_wf nodes heap a) :
    ∃ t new arr a1,
      serialize g fuel heap root = some (stream.mk t (graph_fixes nodes heap st st) st)
      ∧ SerArg.eval g.make eval_init t [] = some (attr_value.ptr (some a1), new)
      ∧ arr.head? = some a1 ∧ new.length = st.length ∧ a1 + 1 = new.length
      ∧ List.Perm arr (List.range' 0 st.length)
      ∧ built_ok attrtype_names eval_init nodes heap (List.zip st arr) st arr 0 new
      ∧ SBT_call g.sbt fuel a1 (SbtState.mk new []) = some (some a1, SbtState.mk new arr) := by
  have hsbt := SBT_call_walk attrtype_names nodes g heap hgen hschema fuel root st []
    hwalk hnodes
  obtain ⟨t, hge, hset⟩ := SET_call_expr attrtype_names nodes g heap hgen hschema fuel
    root st hwalk hnodes
  have hsel := SEL_call_walk attrtype_names nodes g heap st hgen hschema fuel root st []
    hwalk hnodes
  obtain ⟨new, arr, a1, hev, hhead, _, hnl, hperm, hbuilt, hwalk1, hlast⟩ :=
    eval_graph_expr attrtype_names nodes g eval_init heap hgen hschema fuel root st t
      hwalk hnodes hge []
  have hw1 := hwalk1 []
  simp only [List.nil_append, List.length_nil] at hev hperm hbuilt hsbt hsel
  simp only [List.nil_append, List.append_nil] at hw1 hlast
  have hok1 := built_nodes_ok attrtype_names eval_init nodes heap hschema (List.zip st arr)
    arr st arr 0 new hbuilt hnodes
  have hsbt1 := SBT_call_walk attrtype_names nodes g new hgen hschema fuel a1 arr []
    hw1 (fun c hc => node_wf_of_ok nodes new arr c (hok1 c hc))
  simp only [List.nil_append] at hsbt1
  refine ⟨t, new, arr, a1, ?_, hev, hhead, hnl, hlast, hperm, hbuilt, hsbt1⟩
  simp only [serialize, hsbt, hset, hsel]

theorem roundtrip_spec (attrtype_names : List attrtype_name)
    (nodes : List (String × yajl_val)) (g : generated) (eval_init : String → attr_value)
    (fuel : Nat) (heap : List node_inst) (root : Nat) (st : List Nat)
    (hgen : gen_serialize attrtype_names nodes = some g)
    (hschema : schema_ok attrtype_names nodes)
    (hwalk : walk_owned nodes heap fuel root = some st) (hnodup : st.Nodup)
    (hnodes : ∀ a ∈ st, node_ok nodes heap st a) :
    ∃ s root1 heap1 array heap2, serialize g fuel heap root = some s ∧ s.stack = st
      ∧ SerArg.eval g.make eval_init s.expr [] = some (attr_value.ptr (some root1), heap1)
      ∧ SBT_call g.sbt fuel root1 (SbtState.mk heap1 [])
          = some (some root1, SbtState.mk heap1 array)
      ∧ replay_fixes g.fix array s.fixes heap1 = some heap2
      ∧ array.head? = some root1
      ∧ graph_iso attrtype_names nodes heap st heap2 array := by
  obtain ⟨t, new, arr, a1, hser, hev, hhead, hnl, _, hperm, hbuilt, hsbt1⟩ :=
    rebuild_spec attrtype_names nodes g eval_init fuel heap root st hgen hschema hwalk
      (fun a ha => node_wf_of_ok nodes heap st a (hnodes a ha))
  have hlen : st.length = arr.length := hbuilt.1.symm
  have harr : arr.Nodup := (List.Perm.nodup_iff hperm).2 (List.nodup_range' 0 st.length)
  have hfst : (List.zip st arr).map Prod.fst = st :=
    List.map_fst_zip st arr (Nat.le_of_eq hlen)
  have hsnd : (List.zip st arr).map Prod.snd = arr :=
    List.map_snd_zip st arr (Nat.le_of_eq hlen.symm)
  obtain ⟨H1, r1, r2, _, r4⟩ := replay_graph_fixes attrtype_names nodes g eval_init heap hgen
    hschema st arr hlen hnodup (List.zip st arr) (List.zip st arr) new (fun p hp => hp)
    (by rw [hsnd]; exact harr)
    (fun p hp => hnodes p.1 (List.of_mem_zip hp).1)
    (fun p hp => (hbuilt.2 p hp).2.2)
  rw [hfst] at r1
  refine ⟨stream.mk t (graph_fixes nodes heap st st) st, a1, new, arr, H1, hser, rfl, hev,
    hsbt1, r1, hhead, ?_⟩
  refine ⟨hlen, hnodup, harr, ?_, ?_⟩
  · rw [r2, hnl, hlen]
  · intro i a b hsi hai
    have hmem : (a, b) ∈ List.zip st arr :=
      List.mem_iff_getElem?.2 ⟨i, List.getElem?_zip_eq_some.2 ⟨hsi, hai⟩⟩
    obtain ⟨nd, nd1, e, fs1, h1, _, h3, h4, h5, h6⟩ := r4 (a, b) hmem
    obtain ⟨nd0, hnd0, e0, he0, hentry⟩ := hnodes a (List.of_mem_zip hmem).1
    simp only at h1 h6
    rw [h1] at hnd0
    cases hnd0
    rw [h3] at he0
    cases he0
    exact ⟨nd, _, e, h1, h6, h3,
      fixed_node_matches attrtype_names eval_init st arr hlen hnodup e nd nd1 fs1 hentry
        h4 h5⟩

/-- C1, as amended: for a schema whose attribute types are registered, whose accessor
keys are distinct per node and whose attribute types `Link`, `CodeLink` and `Node` are
persisted, and for a graph that is a tree under its owned edges (`walk_owned`, the walk
along the sons and the attributes of type `Node`, lists every node once), whose nodes
conform to the schema, whose sons `Fundef.Next`, `Fundef.Body`, `Typedef.Next` and
`Objdef.Next` are null and whose `Link`/`CodeLink` attributes are null or point into the
graph: the three generated phases serialize the graph, and the position list is the list
of its nodes; the constructor expression written by the `SET<node>` functions, evaluated
through `SHLPmakeNode` from the empty heap, builds a heap and returns its root; the
generated `SBT<node>` functions, run on the root built, leave that heap as it is and
yield a position list `array`; the fix instructions written by the `SEL<node>`
functions, replayed through `SHLPfixLink` against `array`, succeed; `array` starts with
the root built; and the graph after the fix instructions is isomorphic to the original
under node type, persisted attribute values and edge targets, by the correspondence of
the positions (so links that share a target share its copy). -/
theorem serialize_roundtrip (attrtype_names : List attrtype_name)
    (nodes : List (String × yajl_val)) (g : generated) (eval_init : String → attr_value)
    (fuel : Nat) (heap : List node_inst) (root : Nat) (st : List Nat)
    (hgen : gen_serialize attrtype_names nodes = some g)
    (hschema : schema_ok attrtype_names nodes)
    (hwalk : walk_owned nodes heap fuel root = some st) (hnodup : st.Nodup)
    (hnodes : ∀ a ∈ st, node_ok nodes heap st a) :
    ∃ s root1 heap1 array heap2, serialize g fuel heap root = some s ∧ s.stack = st
      ∧ SerArg.eval g.make eval_init s.expr [] = some (attr_value.ptr (some root1), heap1)
      ∧ SBT_call g.sbt fuel root1 (SbtState.mk heap1 [])
          = some (some root1, SbtState.mk heap1 array)
      ∧ replay_fixes g.fix array s.fixes heap1 = some heap2
      ∧ array.head? = some root1
      ∧ graph_iso attrtype_names nodes heap st heap2 array :=
  roundtrip_spec attrtype_names nodes g eval_init fuel heap root st hgen hschema hwalk hnodup
    hnodes

theorem serialize_roundtrip_witness :
    gen_serialize ex_attrtype_names ex_nodes_owned = some ex_generated_owned
      ∧ schema_ok ex_attrtype_names ex_nodes_owned
      ∧ walk_owned ex_nodes_owned ex_owned_graph 3 0 = some [0, 1, 2]
      ∧ heap_get_attrib ex_owned_graph 0 ("OBJDEF", "INIT") = some (attr_value.ptr (some 2))
      ∧ (∀ a ∈ [0, 1, 2], node_ok ex_nodes_owned ex_owned_graph [0, 1, 2] a)
      ∧ ∃ s root1 heap1 array heap2,
          serialize ex_generated_owned 3 ex_owned_graph 0 = some s ∧ s.stack = [0, 1, 2]
          ∧ SerArg.eval ex_generated_owned.make ex_eval_init s.expr []
              = some (attr_value.ptr (some root1), heap1)
          ∧ SBT_call ex_generated_owned.sbt 3 root1 (SbtState.mk heap1 [])
              = some (some root1, SbtState.mk heap1 array)
          ∧ replay_fixes ex_generated_owned.fix array s.fixes heap1 = some heap2
          ∧ array.head? = some root1
          ∧ graph_iso ex_attrtype_names ex_nodes_owned ex_owned_graph [0, 1, 2] heap2 array :=
  ⟨by decide, by decide, by decide, by decide, by decide,
   serialize_roundtrip ex_attrtype_names ex_nodes_owned ex_generated_owned ex_eval_init 3
     ex_owned_graph 0 [0, 1, 2] (by decide) (by decide) (by decide) (by decide) (by decide)⟩

/-- C1, counterexample: a `Fundef` node whose son `Body` is a node.  Both nodes are in
the graph, and the serialization and the reconstruction succeed, but neither the
`SBT<node>` nor the `SET<node>` of `Fundef` looks at `Body`: the position list is the
`Fundef` alone, `NULL` is written for `Body`, the heap built is the single `Fundef` node
with a null `Body`, it is the same after the fix instructions, and no list of positions
makes it isomorphic to the graph of the two nodes, nor to the `Fundef` alone, whose
`Body` has no image. -/
theorem serialize_roundtrip_body_lost :
    gen_serialize ex_attrtype_names ex_nodes = some ex_generated
      ∧ schema_ok ex_attrtype_names ex_nodes
      ∧ walk ex_fundef_graph 2 0 = some [0, 1]
      ∧ heap_get_son ex_fundef_graph 0 ("FUNDEF", "BODY") = some (some 1)
      ∧ (serialize ex_generated 2 ex_fundef_graph 0).map
          (fun s => (s.stack, SerArg.eval ex_generated.make ex_eval_init s.expr [],
            replay_fixes ex_generated.fix [0] s.fixes [ex_fundef_inst none none]))
        = some ([0], some (attr_value.ptr (some 0), [ex_fundef_inst none none]),
            some [ex_fundef_inst none none])
      ∧ SBT_call ex_generated.sbt 2 0 (SbtState.mk [ex_fundef_inst none none] [])
          = some (some 0, SbtState.mk [ex_fundef_inst none none] [0])
      ∧ (∀ array, ¬ graph_iso ex_attrtype_names ex_nodes ex_fundef_graph [0, 1]
          [ex_fundef_inst none none] array)
      ∧ ∀ array, ¬ graph_iso ex_attrtype_names ex_nodes ex_fundef_graph [0]
          [ex_fundef_inst none none] array := by
  refine ⟨by decide, by decide, by decide, by decide, by decide, by decide, ?_, ?_⟩
  · intro array hiso
    obtain ⟨h1, _, _, h4, _⟩ := hiso
    rw [← h1] at h4
    simp at h4
  · intro array hiso
    obtain ⟨h1, _, _, _, h5⟩ := hiso
    cases array with
    | nil => simp at h1
    | cons a1 rest =>
      obtain ⟨nd, nd1, e, hnd, _, _, hm⟩ := h5 0 0 a1 (by simp) (by simp)
      have hnd0 : nd = ex_fundef_inst (some 1) none := by
        have : ex_fundef_graph[0]? = some (ex_fundef_inst (some 1) none) := rfl
        rw [this] at hnd
        exact (Option.some.inj hnd).symm
      subst hnd0
      have hs := hm.2.2.2.2.1
      simp only [ex_fundef_inst] at hs
      obtain ⟨x1, rest1, hx, _, _⟩ := List.forall₂_cons_left_iff.1 hs
      have h2 := hx.2
      simp [edge_image, SSfindPos] at h2

/-! ## The edges of `SEL<node>` and `SBT<node>` -/

theorem sel_links_no_edge (node_name_upper : String) (attribs : List (String × yajl_val))
    (pos : Nat) (out : List SelStmt)
    (h : gen_serialize_link_c_links node_name_upper pos attribs = some out) :
    out.filterMap SelStmt.edge = [] := by
  induction attribs generalizing pos out with
  | nil =>
    simp only [gen_serialize_link_c_links, Option.some.injEq] at h
    subst h
    rfl
  | cons e rest ih =>
    simp only [gen_serialize_link_c_links] at h
    cases ht : attrib_type_name e.2 with
    | none => simp [ht] at h
    | some t =>
      simp only [ht] at h
      split at h
      · exact ih pos out h
      · cases hg : gen_serialize_link_c_links node_name_upper (pos + 1) rest with
        | none => simp [hg] at h
        | some o =>
          simp only [hg, Option.some.injEq] at h
          subst h
          simp only [List.filterMap_cons, SelStmt.edge]
          exact ih (pos + 1) o hg

theorem sbt_sons_filter (node_name : String) (sons : List (String × yajl_val)) :
    sons.flatMap (gen_serialize_buildstack_c_son node_name (string_toupper node_name))
      = (sons.filter (fun e => decide ((node_name, e.1) ∉ suppressed_sons))).map
          (fun e => SbtStmt.descend_son (string_toupper node_name) (string_toupper e.1)) := by
  induction sons with
  | nil => rfl
  | cons e rest ih =>
    rw [List.flatMap_cons, ih]
    obtain ⟨h1, _, _, h4⟩ := son_loops_suppression node_name e
    by_cases hs : (node_name, e.1) ∈ suppressed_sons
    · rw [h1.2 hs]
      simp [List.filter_cons, hs]
    · rw [(h4 hs).1]
      simp [List.filter_cons, hs]

theorem sel_sons_filter (node_name : String) (sons : List (String × yajl_val)) :
    sons.flatMap (gen_serialize_link_c_son node_name (string_toupper node_name))
      = (sons.filter (fun e => decide ((node_name, e.1) ∉ suppressed_sons))).map
          (fun e => SelStmt.descend_son (string_toupper node_name) (string_toupper e.1)) := by
  induction sons with
  | nil => rfl
  | cons e rest ih =>
    rw [List.flatMap_cons, ih]
    obtain ⟨_, h2, _, h4⟩ := son_loops_suppression node_name e
    by_cases hs : (node_name, e.1) ∈ suppressed_sons
    · rw [h2.2 hs]
      simp [List.filter_cons, hs]
    · rw [(h4 hs).2.1]
      simp [List.filter_cons, hs]

theorem flatMap_if_filter {α β : Type} (p : α → Bool) (f : α → β) (l : List α) :
    l.flatMap (fun e => if p e = true then [f e] else []) = (l.filter p).map f := by
  induction l with
  | nil => rfl
  | cons e rest ih =>
    rw [List.flatMap_cons, ih]
    by_cases hp : p e = true
    · simp [List.filter_cons, hp]
    · simp [List.filter_cons, hp]

theorem sbt_body_spec (node_name : String) (node : yajl_val) (htyped : attribs_typed node) :
    gen_serialize_buildstack_c_body node_name node = some (SBT_spec node_name node) := by
  rw [sbt_body_shape node_name node htyped, sbt_sons_filter,
    flatMap_if_filter is_node_attrib
      (fun e => SbtStmt.descend_attr (string_toupper node_name) (string_toupper e.1))]
  rfl

theorem sbt_spec_edges (node_name : String) (node : yajl_val) :
    (SBT_spec node_name node).filterMap SbtStmt.edge = edges_spec node_name node := by
  unfold SBT_spec edges_spec
  simp only [List.filterMap_append, List.filterMap_map]
  have h1 : ∀ l : List (String × yajl_val),
      List.filterMap (SbtStmt.edge ∘ fun e =>
          SbtStmt.descend_son (string_toupper node_name) (string_toupper e.1)) l
        = l.map (fun e => Edge.son (string_toupper node_name) (string_toupper e.1)) := by
    intro l
    induction l with
    | nil => rfl
    | cons e rest ih => simp [List.filterMap_cons, SbtStmt.edge, ih]
  have h2 : ∀ l : List (String × yajl_val),
      List.filterMap (SbtStmt.edge ∘ fun e =>
          SbtStmt.descend_attr (string_toupper node_name) (string_toupper e.1)) l
        = l.map (fun e => Edge.attr (string_toupper node_name) (string_toupper e.1)) := by
    intro l
    induction l with
    | nil => rfl
    | cons e rest ih => simp [List.filterMap_cons, SbtStmt.edge, ih]
  rw [h1, h2]
  simp [SbtStmt.edge]

theorem sel_body_edges (node_name : String) (node : yajl_val) (htyped : attribs_typed node) :
    (gen_serialize_link_c_body node_name node).map (List.filterMap SelStmt.edge)
      = some (edges_spec node_name node) := by
  obtain ⟨link_out, hl, hb⟩ := sel_body_shape node_name node htyped
  rw [hb, sel_sons_filter,
    flatMap_if_filter is_node_attrib
      (fun e => SelStmt.descend_attr (string_toupper node_name) (string_toupper e.1))]
  simp only [Option.map_some', List.filterMap_append, List.filterMap_map,
    sel_links_no_edge _ _ _ _ hl]
  have h1 : ∀ l : List (String × yajl_val),
      List.filterMap (SelStmt.edge ∘ fun e =>
          SelStmt.descend_son (string_toupper node_name) (string_toupper e.1)) l
        = l.map (fun e => Edge.son (string_toupper node_name) (string_toupper e.1)) := by
    intro l
    induction l with
    | nil => rfl
    | cons e rest ih => simp [List.filterMap_cons, SelStmt.edge, ih]
  have h2 : ∀ l : List (String × yajl_val),
      List.filterMap (SelStmt.edge ∘ fun e =>
          SelStmt.descend_attr (string_toupper node_name) (string_toupper e.1)) l
        = l.map (fun e => Edge.attr (string_toupper node_name) (string_toupper e.1)) := by
    intro l
    induction l with
    | nil => rfl
    | cons e rest ih => simp [List.filterMap_cons, SelStmt.edge, ih]
  rw [h1, h2]
  simp [SelStmt.edge, edges_spec]

/-- C11: for every node type whose attributes carry a type string, the sequence of
edges the generated `SEL<node>` descends into is the sequence of edges the generated
`SBT<node>` descends into, in membership and in order: both are the sons that are not
suppressed, in declaration order, followed by the attributes of type `Node`, in
declaration order. -/
theorem gen_serialize_walks_agree (node_name : String) (node : yajl_val)
    (htyped : attribs_typed node) :
    (gen_serialize_link_c_body node_name node).map (List.filterMap SelStmt.edge)
        = (gen_serialize_buildstack_c_body node_name node).map
            (List.filterMap SbtStmt.edge)
      ∧ (gen_serialize_buildstack_c_body node_name node).map (List.filterMap SbtStmt.edge)
        = some (edges_spec node_name node) := by
  have hsbt : (gen_serialize_buildstack_c_body node_name node).map
      (List.filterMap SbtStmt.edge) = some (edges_spec node_name node) := by
    rw [sbt_body_spec node_name node htyped, Option.map_some', sbt_spec_edges]
  exact ⟨by rw [hsbt]; exact sel_body_edges node_name node htyped, hsbt⟩

theorem gen_serialize_walks_agree_witness :
    attribs_typed ex_objdef
      ∧ edges_spec "Objdef" ex_objdef
        = [Edge.son "OBJDEF" "EXPR", Edge.attr "OBJDEF" "INIT", Edge.attr "OBJDEF" "SPEC"]
      ∧ (gen_serialize_link_c_body "Objdef" ex_objdef).map (List.filterMap SelStmt.edge)
        = (gen_serialize_buildstack_c_body "Objdef" ex_objdef).map
            (List.filterMap SbtStmt.edge)
      ∧ (gen_serialize_buildstack_c_body "Objdef" ex_objdef).map
          (List.filterMap SbtStmt.edge)
        = some (edges_spec "Objdef" ex_objdef) :=
  ⟨by decide, by decide, gen_serialize_walks_agree "Objdef" ex_objdef (by decide)⟩

/-- C12: the generated `SBT<node>` of a node type whose attributes carry a type string
is: the push of the node itself onto the position list, then one null-tested descent
per son that is not suppressed, in declaration order, then one null-tested descent per
attribute of type `Node`, in declaration order, and nothing else (no statement for a
`Link` or `CodeLink` attribute).  The push appends the node to the list; a descent
leaves the state alone on a null field and calls `TRAVdo` on the target otherwise. -/
theorem gen_serialize_buildstack_c_order (node_name : String) (node : yajl_val)
    (htyped : attribs_typed node) :
    gen_serialize_buildstack_c_body node_name node
        = some ([SbtStmt.dbug_enter, SbtStmt.sspush]
          ++ ((node_sons node).filter
                (fun e => decide ((node_name, e.1) ∉ suppressed_sons))).map
              (fun e => SbtStmt.descend_son (string_toupper node_name) (string_toupper e.1))
          ++ ((node_attribs node).filter is_node_attrib).map
              (fun e => SbtStmt.descend_attr (string_toupper node_name) (string_toupper e.1))
          ++ [SbtStmt.return_arg_node])
      ∧ (∀ call a s, SBT_step call a SbtStmt.sspush s
          = some (SbtState.mk s.heap (s.stack ++ [a])))
      ∧ (∀ call a s N S, heap_get_son s.heap a (N, S) = some none →
          SBT_step call a (SbtStmt.descend_son N S) s = some s)
      ∧ (∀ call a s N S b, heap_get_son s.heap a (N, S) = some (some b) →
          SBT_step call a (SbtStmt.descend_son N S) s
            = (call b s).map
                (fun r => SbtState.mk (heap_set_son r.2.heap a (N, S) r.1) r.2.stack))
      ∧ (∀ call a s N A, heap_get_attrib s.heap a (N, A) = some (attr_value.ptr none) →
          SBT_step call a (SbtStmt.descend_attr N A) s = some s)
      ∧ (∀ call a s N A b,
          heap_get_attrib s.heap a (N, A) = some (attr_value.ptr (some b)) →
          SBT_step call a (SbtStmt.descend_attr N A) s
            = (call b s).map
                (fun r => SbtState.mk
                  (heap_set_attrib r.2.heap a (N, A) (attr_value.ptr r.1)) r.2.stack)) := by
  refine ⟨sbt_body_spec node_name node htyped, fun _ _ _ => rfl, ?_, ?_, ?_, ?_⟩
  · intro call a s N S h
    simp only [SBT_step, h]
  · intro call a s N S b h
    simp only [SBT_step, h]
    cases call b s with
    | none => rfl
    | some r => rfl
  · intro call a s N A h
    simp only [SBT_step, h]
  · intro call a s N A b h
    simp only [SBT_step, h]
    cases call b s with
    | none => rfl
    | some r => rfl

theorem gen_serialize_buildstack_c_order_witness :
    attribs_typed ex_objdef
      ∧ gen_serialize_buildstack_c_body "Objdef" ex_objdef
        = some [SbtStmt.dbug_enter, SbtStmt.sspush, SbtStmt.descend_son "OBJDEF" "EXPR",
            SbtStmt.descend_attr "OBJDEF" "INIT", SbtStmt.descend_attr "OBJDEF" "SPEC",
            SbtStmt.return_arg_node] :=
  ⟨by decide,
   (gen_serialize_buildstack_c_order "Objdef" ex_objdef (by decide)).1.trans (by decide)⟩

/-! ## The fix instructions of one node -/

theorem SEL_links_run (call : Nat → List fix_record → Option (List fix_record))
    (heap : List node_inst) (st : List Nat) (a : Nat) (nd : node_inst) (node_name : String)
    (hnd : heap[a]? = some nd)
    (es : List (String × yajl_val)) (fs : List ((String × String) × attr_value))
    (hal : List.Forall₂ (aligned node_name nd.attribs) es fs)
    (hptr : ∀ x ∈ List.zip es fs, is_link_attrib x.1 = true → ∃ p, x.2.2 = attr_value.ptr p)
    (pos : Nat) (stmts : List SelStmt)
    (hgen : gen_serialize_link_c_links (string_toupper node_name) pos es = some stmts)
    (out : List fix_record) :
    run_steps (SEL_step call heap st a) stmts out
      = some (out ++ node_fixes st a pos es fs) := by
  induction hal generalizing pos stmts out with
  | nil =>
    simp only [gen_serialize_link_c_links, Option.some.injEq] at hgen
    subst hgen
    simp [run_steps, node_fixes]
  | @cons e f es1 fs1 hef _ ih =>
    obtain ⟨hkey, hget⟩ := hef
    have hok1 : ∀ x ∈ List.zip es1 fs1, is_link_attrib x.1 = true →
        ∃ p, x.2.2 = attr_value.ptr p :=
      fun x hx => hptr x (by simp [List.zip_cons_cons, hx])
    simp only [gen_serialize_link_c_links] at hgen
    cases ht : attrib_type_name e.2 with
    | none => simp [ht] at hgen
    | some t =>
      simp only [ht] at hgen
      by_cases hl : t ≠ "Link" ∧ t ≠ "CodeLink"
      · rw [if_pos hl] at hgen
        have hnl : is_link_attrib e = false := by
          simp [is_link_attrib, ht, hl.1, hl.2]
        simp only [node_fixes, hnl, Bool.false_eq_true, if_false]
        exact ih hok1 pos stmts hgen out
      · rw [if_neg hl] at hgen
        have hisl : is_link_attrib e = true := by
          simp only [is_link_attrib, ht, Option.some.injEq, decide_eq_true_eq]
          by_contra hc
          exact hl ⟨fun h => hc (Or.inl h), fun h => hc (Or.inr h)⟩
        cases hg : gen_serialize_link_c_links (string_toupper node_name) (pos + 1) es1 with
        | none => simp [hg] at hgen
        | some o =>
          simp only [hg, Option.some.injEq] at hgen
          subst hgen
          obtain ⟨p, hp⟩ := hptr (e, f) (by simp [List.zip_cons_cons]) hisl
          simp only at hp
          simp only [node_fixes, hisl, if_true, hp]
          simp only [run_steps, SEL_step, heap_get_attrib, hnd, ← hkey, hget, hp]
          cases p with
          | none =>
            simp only [List.nil_append]
            exact ih hok1 (pos + 1) o hg out
          | some b =>
            cases hq : SSfindPos b st with
            | none =>
              simp only [hq, List.nil_append]
              exact ih hok1 (pos + 1) o hg out
            | some q =>
              simp only [hq]
              rw [ih hok1 (pos + 1) o hg _]
              simp [List.append_assoc]

theorem node_fixes_mem (st : List Nat) (a : Nat) (es : List (String × yajl_val)) :
    ∀ (fs : List ((String × String) × attr_value)) (pos : Nat) (r : fix_record),
      r ∈ node_fixes st a pos es fs
        ↔ ∃ (j : Nat) (e : String × yajl_val) (f : (String × String) × attr_value)
            (b q : Nat),
            ((List.zip es fs).filter (fun x => is_link_attrib x.1))[j]? = some (e, f)
              ∧ f.2 = attr_value.ptr (some b) ∧ SSfindPos b st = some q
              ∧ r = fix_record.mk (SSfindPos a st) (pos + j) (some q) := by
  induction es with
  | nil =>
    intro fs pos r
    simp [node_fixes]
  | cons e es ih =>
    intro fs pos r
    cases fs with
    | nil => simp [node_fixes]
    | cons f fs =>
      by_cases hl : is_link_attrib e = true
      · have hfil : (List.zip (e :: es) (f :: fs)).filter (fun x => is_link_attrib x.1)
            = (e, f) :: (List.zip es fs).filter (fun x => is_link_attrib x.1) := by
          simp [List.zip_cons_cons, List.filter_cons, hl]
        rw [hfil]
        simp only [node_fixes, hl, if_true, List.mem_append]
        constructor
        · rintro (hx | hx)
          · cases hf : f.2 with
            | data d => simp [hf] at hx
            | ptr p =>
              cases p with
              | none => simp [hf] at hx
              | some b =>
                cases hq : SSfindPos b st with
                | none => simp [hf, hq] at hx
                | some q =>
                  simp only [hf, hq, List.mem_singleton] at hx
                  exact ⟨0, e, f, b, q, List.getElem?_cons_zero, hf, hq, by rw [hx]; rfl⟩
          · obtain ⟨j, e1, f1, b, q, hj, hf, hq, hr⟩ := (ih fs (pos + 1) r).1 hx
            refine ⟨j + 1, e1, f1, b, q, ?_, hf, hq, ?_⟩
            · rw [List.getElem?_cons_succ]
              exact hj
            · rw [hr]
              congr 1
              omega
        · rintro ⟨j, e1, f1, b, q, hj, hf, hq, hr⟩
          cases j with
          | zero =>
            left
            simp only [List.getElem?_cons_zero, Option.some.injEq, Prod.mk.injEq] at hj
            obtain ⟨rfl, rfl⟩ := hj
            simp only [hf, hq, List.mem_singleton]
            rw [hr]
            rfl
          | succ j =>
            right
            rw [List.getElem?_cons_succ] at hj
            refine (ih fs (pos + 1) r).2 ⟨j, e1, f1, b, q, hj, hf, hq, ?_⟩
            rw [hr]
            congr 1
            omega
      · have hfil : (List.zip (e :: es) (f :: fs)).filter (fun x => is_link_attrib x.1)
            = (List.zip es fs).filter (fun x => is_link_attrib x.1) := by
          simp [List.zip_cons_cons, List.filter_cons, hl]
        rw [hfil]
        simp only [node_fixes, hl, if_false]
        exact ih fs pos r

theorem SEL_fix_records_spec (call : Nat → List fix_record → Option (List fix_record))
    (heap : List node_inst) (stack : List Nat) (a : Nat) (nd : node_inst)
    (node_name : String) (node : yajl_val) (hnd : heap[a]? = some nd)
    (htyped : attribs_typed node)
    (hkeys : nd.attribs.map Prod.fst = declared_keys node_name (node_attribs node))
    (hnodup : (declared_keys node_name (node_attribs node)).Nodup)
    (hptr : ∀ x ∈ List.zip (node_attribs node) nd.attribs, is_link_attrib x.1 = true →
      ∃ p, x.2.2 = attr_value.ptr p)
    (out : List fix_record) :
    ∃ stmts recs,
      gen_serialize_link_c_links (string_toupper node_name) 1 (node_attribs node)
          = some stmts
        ∧ run_steps (SEL_step call heap stack a) stmts out = some (out ++ recs)
        ∧ (∀ r, r ∈ recs
            ↔ ∃ (j : Nat) (e : String × yajl_val) (f : (String × String) × attr_value)
                (b q : Nat),
                ((List.zip (node_attribs node) nd.attribs).filter
                    (fun x => is_link_attrib x.1))[j]? = some (e, f)
                  ∧ f.2 = attr_value.ptr (some b) ∧ SSfindPos b stack = some q
                  ∧ r = fix_record.mk (SSfindPos a stack) (j + 1) (some q))
        ∧ ∀ r ∈ recs, r.to_pos ≠ none := by
  obtain ⟨stmts, hstmts, _⟩ := sel_body_shape node_name node htyped
  have hal := aligned_of_keys node_name (node_attribs node) nd.attribs hkeys hnodup
  have hmem : ∀ r, r ∈ node_fixes stack a 1 (node_attribs node) nd.attribs
      ↔ ∃ (j : Nat) (e : String × yajl_val) (f : (String × String) × attr_value)
          (b q : Nat),
          ((List.zip (node_attribs node) nd.attribs).filter
              (fun x => is_link_attrib x.1))[j]? = some (e, f)
            ∧ f.2 = attr_value.ptr (some b) ∧ SSfindPos b stack = some q
            ∧ r = fix_record.mk (SSfindPos a stack) (j + 1) (some q) := by
    intro r
    rw [node_fixes_mem stack a (node_attribs node) nd.attribs 1 r]
    constructor
    · rintro ⟨j, e, f, b, q, h1, h2, h3, h4⟩
      exact ⟨j, e, f, b, q, h1, h2, h3, by rw [h4, Nat.add_comm]⟩
    · rintro ⟨j, e, f, b, q, h1, h2, h3, h4⟩
      exact ⟨j, e, f, b, q, h1, h2, h3, by rw [h4, Nat.add_comm]⟩
  refine ⟨stmts, node_fixes stack a 1 (node_attribs node) nd.attribs, hstmts,
    SEL_links_run call heap stack a nd node_name hnd (node_attribs node) nd.attribs hal hptr
      1 stmts hstmts out, hmem, ?_⟩
  intro r hr
  obtain ⟨j, e, f, b, q, _, _, _, h4⟩ := (hmem r).1 hr
  rw [h4]
  simp

/-- C13: let `a` be a node whose attribute fields are those its node type declares
(distinct accessor keys, every `Link`/`CodeLink` field a node pointer).  The fix
statements of the generated `SEL<node>`, run on `a`, append to the stream exactly the
records `recs` such that: a record is in `recs` iff it is
`(SSfindPos a, j + 1, SSfindPos b)` for the `j`-th (from 0) `Link`/`CodeLink` attribute
in declaration order, whose field is the non-null pointer `b` and whose target `b` has
a stack position.  So a link that is null or whose target has no stack position gives
no record, and no record has the not-found sentinel as its `to` position. -/
theorem SEL_fix_records (call : Nat → List fix_record → Option (List fix_record))
    (heap : List node_inst) (stack : List Nat) (a : Nat) (nd : node_inst)
    (node_name : String) (node : yajl_val) (hnd : heap[a]? = some nd)
    (htyped : attribs_typed node)
    (hkeys : nd.attribs.map Prod.fst = declared_keys node_name (node_attribs node))
    (hnodup : (declared_keys node_name (node_attribs node)).Nodup)
    (hptr : ∀ x ∈ List.zip (node_attribs node) nd.attribs, is_link_attrib x.1 = true →
      ∃ p, x.2.2 = attr_value.ptr p)
    (out : List fix_record) :
    ∃ stmts recs,
      gen_serialize_link_c_links (string_toupper node_name) 1 (node_attribs node)
          = some stmts
        ∧ run_steps (SEL_step call heap stack a) stmts out = some (out ++ recs)
        ∧ (∀ r, r ∈ recs
            ↔ ∃ (j : Nat) (e : String × yajl_val) (f : (String × String) × attr_value)
                (b q : Nat),
                ((List.zip (node_attribs node) nd.attribs).filter
                    (fun x => is_link_attrib x.1))[j]? = some (e, f)
                  ∧ f.2 = attr_value.ptr (some b) ∧ SSfindPos b stack = some q
                  ∧ r = fix_record.mk (SSfindPos a stack) (j + 1) (some q))
        ∧ ∀ r ∈ recs, r.to_pos ≠ none :=
  SEL_fix_records_spec call heap stack a nd node_name node hnd htyped hkeys hnodup hptr out

theorem SEL_fix_records_witness :
    attribs_typed ex_id
      ∧ (declared_keys "Id" (node_attribs ex_id)).Nodup
      ∧ ∃ stmts recs,
        gen_serialize_link_c_links (string_toupper "Id") 1 (node_attribs ex_id) = some stmts
          ∧ run_steps (SEL_step (fun _ o => some o)
                [ex_id_inst (some 5) 20 (some 1), ex_id_inst none 40 none] [0, 1] 0)
              stmts [] = some ([] ++ recs)
          ∧ (∀ r, r ∈ recs
              ↔ ∃ (j : Nat) (e : String × yajl_val) (f : (String × String) × attr_value)
                  (b q : Nat),
                  ((List.zip (node_attribs ex_id)
                      (ex_id_inst (some 5) 20 (some 1)).attribs).filter
                      (fun x => is_link_attrib x.1))[j]? = some (e, f)
                    ∧ f.2 = attr_value.ptr (some b) ∧ SSfindPos b [0, 1] = some q
                    ∧ r = fix_record.mk (SSfindPos 0 [0, 1]) (j + 1) (some q))
          ∧ ∀ r ∈ recs, r.to_pos ≠ none :=
  ⟨by decide, by decide,
   SEL_fix_records (fun _ o => some o)
     [ex_id_inst (some 5) 20 (some 1), ex_id_inst none 40 none] [0, 1] 0
     (ex_id_inst (some 5) 20 (some 1)) "Id" ex_id rfl (by decide) (by decide) (by decide)
     (by
       intro x hx hl
       have hL : List.zip (node_attribs ex_id) (ex_id_inst (some 5) 20 (some 1)).attribs
           = [(("Avis", ex_attr "Link"), (("ID", "AVIS"), attr_value.ptr (some 5))),
              (("Name", ex_attr "String"), (("ID", "NAME"), attr_value.data 20)),
              (("Decl", ex_attr "CodeLink"), (("ID", "DECL"), attr_value.ptr (some 1)))] := rfl
       rw [hL] at hx
       simp only [List.mem_cons, List.mem_singleton, List.not_mem_nil, or_false] at hx
       rcases hx with rfl | rfl | rfl
       · exact ⟨_, rfl⟩
       · exact absurd hl (by decide)
       · exact ⟨_, rfl⟩)
     []⟩

/-! ## The cases of the two switches of the helper -/

theorem node_loop_keys {β : Type} (item_name : String → String)
    (item : String → yajl_val → Option β) (nodes : List (String × yajl_val)) :
    ∀ out, node_loop item_name item nodes = some out →
      out.map Prod.fst = nodes.map (fun n => item_name n.1) := by
  induction nodes with
  | nil =>
    intro out h
    simp only [node_loop, emit_loop, Option.some.injEq] at h
    subst h
    rfl
  | cons n rest ih =>
    intro out h
    rw [node_loop_cons] at h
    cases hi : item n.1 n.2 with
    | none => simp [hi] at h
    | some b =>
      cases hr : node_loop item_name item rest with
      | none => simp [hi, hr] at h
      | some outs =>
        simp only [hi, hr, Option.some.injEq] at h
        subst h
        simp only [List.map_cons, ih outs hr]

theorem lookup_none_of_keys {β : Type} (l : List (String × β)) (k : String)
    (h : k ∉ l.map Prod.fst) : l.lookup k = none := by
  induction l with
  | nil => rfl
  | cons x rest ih =>
    simp only [List.map_cons, List.mem_cons, not_or] at h
    have hne : (k == x.1) = false := by
      simp only [beq_eq_false_iff_ne, ne_eq]
      exact h.1
    obtain ⟨x1, x2⟩ := x
    simp only [List.lookup, hne]
    exact ih h.2

theorem case_label_not_mem (nodes : List (String × yajl_val)) (tag : String)
    (h : ∀ n ∈ nodes, string_tolower n.1 ≠ tag) :
    "N_" ++ tag ∉ nodes.map (fun n => case_label n.1) := by
  intro hmem
  obtain ⟨n, hn, heq⟩ := List.mem_map.1 hmem
  exact h n hn (string_append_left_cancel "N_" _ _ heq)

theorem helper_cases_spec (attrtype_names : List attrtype_name)
    (nodes : List (String × yajl_val)) (mk : List (String × List MakeStmt))
    (fx : List (String × List FixStmt))
    (hmk : gen_serialize_helper_c_make attrtype_names nodes = some mk)
    (hfx : gen_serialize_helper_c_fix nodes = some fx) :
    mk.map Prod.fst = nodes.map (fun n => case_label n.1)
      ∧ fx.map Prod.fst = nodes.map (fun n => case_label n.1)
      ∧ ∀ tag, (∀ n ∈ nodes, string_tolower n.1 ≠ tag) →
          (∀ eval_init file line col args heap,
            SHLPmakeNodeVa mk eval_init tag file line col args heap = none)
          ∧ (∀ stack heap nd (from_pos fromp no : Nat) to_pos,
              stack[from_pos]? = some fromp → heap[fromp]? = some nd → nd.nodetype = tag →
              SHLPfixLink fx stack heap (fix_record.mk (some from_pos) no to_pos) = none) := by
  have h1 := node_loop_keys _ _ nodes mk hmk
  have h2 := node_loop_keys _ _ nodes fx hfx
  refine ⟨h1, h2, ?_⟩
  intro tag htag
  have hnot := case_label_not_mem nodes tag htag
  constructor
  · intro eval_init file line col args heap
    have hl : mk.lookup ("N_" ++ tag) = none :=
      lookup_none_of_keys mk _ (by rw [h1]; exact hnot)
    simp only [SHLPmakeNodeVa, hl]
  · intro stack heap nd from_pos fromp no to_pos hfrom hnd ht
    have hl : fx.lookup ("N_" ++ nd.nodetype) = none := by
      rw [ht]
      exact lookup_none_of_keys fx _ (by rw [h2]; exact hnot)
    simp only [SHLPfixLink, hfrom]
    cases to_pos with
    | none => simp only [hnd, hl]
    | some q =>
      cases hq : stack[q]? with
      | none => simp only [hq]
      | some t => simp only [hq, hnd, hl]

/-- C14: the switch of the generated `SHLPmakeNodeVa` and the type switch of the
generated `SHLPfixLink` both have exactly one case per node type of the schema,
labelled `N_<lower-case node name>`, in schema order.  A type tag that is not the
lower-case name of a node of the schema (such as `undefined`) has no case: the
constructor, and the fix of a resolved `from` node with that tag, reach the default
branch `DBUG_UNREACHABLE ("Invalid node type found")` (the result `none`). -/
theorem gen_serialize_helper_c_cases (attrtype_names : List attrtype_name)
    (nodes : List (String × yajl_val)) (mk : List (String × List MakeStmt))
    (fx : List (String × List FixStmt))
    (hmk : gen_serialize_helper_c_make attrtype_names nodes = some mk)
    (hfx : gen_serialize_helper_c_fix nodes = some fx) :
    mk.map Prod.fst = nodes.map (fun n => case_label n.1)
      ∧ fx.map Prod.fst = nodes.map (fun n => case_label n.1)
      ∧ ∀ tag, (∀ n ∈ nodes, string_tolower n.1 ≠ tag) →
          (∀ eval_init file line col args heap,
            SHLPmakeNodeVa mk eval_init tag file line col args heap = none)
          ∧ (∀ stack heap nd (from_pos fromp no : Nat) to_pos,
              stack[from_pos]? = some fromp → heap[fromp]? = some nd → nd.nodetype = tag →
              SHLPfixLink fx stack heap (fix_record.mk (some from_pos) no to_pos) = none) :=
  helper_cases_spec attrtype_names nodes mk fx hmk hfx

theorem gen_serialize_helper_c_cases_witness :
    gen_serialize_helper_c_make ex_attrtype_names ex_nodes = some ex_generated.make
      ∧ gen_serialize_helper_c_fix ex_nodes = some ex_generated.fix
      ∧ (∀ n ∈ ex_nodes, string_tolower n.1 ≠ "undefined")
      ∧ ex_generated.make.map Prod.fst = ["N_fundef", "N_arg", "N_id", "N_typedef"]
      ∧ ex_generated.fix.map Prod.fst = ["N_fundef", "N_arg", "N_id", "N_typedef"]
      ∧ SHLPmakeNodeVa ex_generated.make ex_eval_init "undefined" 1 2 3 [] [] = none
      ∧ SHLPfixLink ex_generated.fix [0]
          [node_inst.mk "undefined" 1 2 3 none [] [] []] (fix_record.mk (some 0) 1 none)
        = none :=
  ⟨by decide, by decide, by decide,
   (gen_serialize_helper_c_cases ex_attrtype_names ex_nodes ex_generated.make
      ex_generated.fix (by decide) (by decide)).1.trans (by decide),
   (gen_serialize_helper_c_cases ex_attrtype_names ex_nodes ex_generated.make
      ex_generated.fix (by decide) (by decide)).2.1.trans (by decide),
   ((gen_serialize_helper_c_cases ex_attrtype_names ex_nodes ex_generated.make
      ex_generated.fix (by decide) (by decide)).2.2 "undefined" (by decide)).1
      ex_eval_init 1 2 3 [] [],
   ((gen_serialize_helper_c_cases ex_attrtype_names ex_nodes ex_generated.make
      ex_generated.fix (by decide) (by decide)).2.2 "undefined" (by decide)).2
      [0] [node_inst.mk "undefined" 1 2 3 none [] [] []]
      (node_inst.mk "undefined" 1 2 3 none [] [] []) 0 0 1 none rfl rfl rfl⟩

/-! ## `SHLPfixLink` outside and inside the slot range -/

theorem link_slots_spec_lt (N : String) (es : List (String × yajl_val)) :
    ∀ pos x, x ∈ link_slots_spec N pos es →
      x.1 < pos + (es.filter is_link_attrib).length := by
  induction es with
  | nil => intro pos x hx; simp [link_slots_spec] at hx
  | cons e rest ih =>
    intro pos x hx
    rw [link_slots_spec_cons] at hx
    by_cases hl : is_link_attrib e = true
    · rw [if_pos hl] at hx
      rw [List.filter_cons, if_pos hl, List.length_cons]
      rcases List.mem_cons.1 hx with rfl | hx
      · simp only
        omega
      · have := ih (pos + 1) x hx
        omega
    · rw [if_neg hl] at hx
      rw [List.filter_cons, if_neg hl]
      exact ih pos x hx

theorem link_slot_of_index (N : String) (es : List (String × yajl_val)) :
    ∀ (pos j : Nat) (l : String × yajl_val), (es.filter is_link_attrib)[j]? = some l →
      (pos + j, N, string_toupper l.1) ∈ link_slots_spec N pos es := by
  induction es with
  | nil => intro pos j l h; simp at h
  | cons e rest ih =>
    intro pos j l h
    rw [link_slots_spec_cons]
    by_cases hl : is_link_attrib e = true
    · rw [if_pos hl]
      rw [List.filter_cons, if_pos hl] at h
      cases j with
      | zero =>
        simp only [List.getElem?_cons_zero, Option.some.injEq] at h
        subst h
        exact List.mem_cons_self _ _
      | succ j =>
        rw [List.getElem?_cons_succ] at h
        have := ih (pos + 1) j l h
        rw [show pos + (j + 1) = pos + 1 + j by omega]
        exact List.mem_cons_of_mem _ this
    · rw [if_neg hl]
      rw [List.filter_cons, if_neg hl] at h
      exact ih pos j l h

theorem FIX_switch_miss (N : String) (no fromp : Nat) (top : Option Nat)
    (heap : List node_inst) (tail : List FixStmt) (es : List (String × yajl_val)) :
    ∀ pos out, 2 ≤ pos → (∀ e ∈ es, (attrib_type_name e.2).isSome = true) →
      gen_serialize_helper_c_fixattribs N pos es = some out → es ≠ [] →
      (∀ x ∈ link_slots_spec N pos es, x.1 ≠ no) →
        FIX_switch no fromp top heap (out ++ tail) = some heap := by
  induction es with
  | nil => intro pos out _ _ _ hne _; exact absurd rfl hne
  | cons e rest ih =>
    intro pos out hpos htyped hgen _ hmiss
    have hrest : ∀ b ∈ rest, (attrib_type_name b.2).isSome = true :=
      fun b hb => htyped b (List.mem_cons_of_mem _ hb)
    have he := htyped e (List.mem_cons_self _ _)
    have hpos1 : ¬ pos = 1 := by omega
    cases ht : attrib_type_name e.2 with
    | none => simp [ht] at he
    | some t =>
      simp only [gen_serialize_helper_c_fixattribs, ht] at hgen
      rw [link_slots_spec_cons] at hmiss
      by_cases hl : t = "Link" ∨ t = "CodeLink"
      · have hlink : is_link_attrib e = true := by
          simp [is_link_attrib, ht, hl]
        simp only [hl, decide_True, if_true] at hgen
        cases hg : gen_serialize_helper_c_fixattribs N (pos + 1) rest with
        | none => simp [hg] at hgen
        | some out1 =>
          simp only [hg, Option.some.injEq] at hgen
          subst hgen
          rw [if_pos hlink] at hmiss
          have hne : ¬ pos = no := hmiss _ (List.mem_cons_self _ _)
          have hmiss1 : ∀ x ∈ link_slots_spec N (pos + 1) rest, x.1 ≠ no :=
            fun x hx => hmiss x (List.mem_cons_of_mem _ hx)
          simp only [hpos1, if_false, List.nil_append, List.cons_append, List.append_assoc,
            FIX_switch, hne]
          cases rest with
          | nil =>
            have hgt : pos + 1 > 1 := by omega
            simp only [List.isEmpty_nil, hgt, and_self, if_true, List.cons_append,
              FIX_switch]
          | cons r rs =>
            simp only [List.isEmpty_cons, Bool.false_eq_true, false_and, if_false,
              List.nil_append]
            exact ih (pos + 1) out1 (by omega) hrest hg (List.cons_ne_nil _ _) hmiss1
      · have hlink : ¬ is_link_attrib e = true := by
          simp [is_link_attrib, ht, hl]
        simp only [hl, decide_False, if_false, Bool.false_eq_true] at hgen
        cases hg : gen_serialize_helper_c_fixattribs N pos rest with
        | none => simp [hg] at hgen
        | some out1 =>
          simp only [hg, Option.some.injEq] at hgen
          subst hgen
          rw [if_neg hlink] at hmiss
          cases rest with
          | nil =>
            have hgt : pos > 1 := by omega
            simp only [List.isEmpty_nil, hgt, and_self, if_true, List.nil_append,
              List.cons_append, FIX_switch]
          | cons r rs =>
            simp only [List.isEmpty_cons, Bool.false_eq_true, false_and, if_false,
              List.nil_append]
            exact ih pos out1 hpos hrest hg (List.cons_ne_nil _ _) hmiss

theorem FIX_run_miss (N : String) (no fromp : Nat) (top : Option Nat)
    (heap : List node_inst) (tail : List FixStmt) (es : List (String × yajl_val)) :
    ∀ out, (∀ e ∈ es, (attrib_type_name e.2).isSome = true) →
      gen_serialize_helper_c_fixattribs N 1 es = some out →
      (∀ x ∈ link_slots_spec N 1 es, x.1 ≠ no) →
        FIX_run no fromp top heap (out ++ FixStmt.break_ :: tail) = some heap := by
  induction es with
  | nil =>
    intro out _ hgen _
    simp only [gen_serialize_helper_c_fixattribs, Option.some.injEq] at hgen
    subst hgen
    rfl
  | cons e rest ih =>
    intro out htyped hgen hmiss
    have hrest : ∀ b ∈ rest, (attrib_type_name b.2).isSome = true :=
      fun b hb => htyped b (List.mem_cons_of_mem _ hb)
    have he := htyped e (List.mem_cons_self _ _)
    cases ht : attrib_type_name e.2 with
    | none => simp [ht] at he
    | some t =>
      simp only [gen_serialize_helper_c_fixattribs, ht] at hgen
      rw [link_slots_spec_cons] at hmiss
      by_cases hl : t = "Link" ∨ t = "CodeLink"
      · have hlink : is_link_attrib e = true := by
          simp [is_link_attrib, ht, hl]
        simp only [hl, decide_True, if_true] at hgen
        cases hg : gen_serialize_helper_c_fixattribs N (1 + 1) rest with
        | none => simp [hg] at hgen
        | some out1 =>
          simp only [hg, Option.some.injEq] at hgen
          subst hgen
          rw [if_pos hlink] at hmiss
          have hne : ¬ 1 = no := hmiss _ (List.mem_cons_self _ _)
          have hmiss1 : ∀ x ∈ link_slots_spec N (1 + 1) rest, x.1 ≠ no :=
            fun x hx => hmiss x (List.mem_cons_of_mem _ hx)
          simp only [List.cons_append, List.nil_append, List.append_assoc, FIX_run,
            FIX_switch, hne, if_false]
          cases rest with
          | nil =>
            have hgt : 1 + 1 > 1 := by omega
            simp only [List.isEmpty_nil, hgt, and_self, if_true, List.cons_append,
              FIX_switch]
          | cons r rs =>
            simp only [List.isEmpty_cons, Bool.false_eq_true, false_and, if_false,
              List.nil_append]
            exact FIX_switch_miss N no fromp top heap (FixStmt.break_ :: tail) (r :: rs) 2
              out1 (Nat.le_refl _) hrest hg (List.cons_ne_nil _ _) hmiss1
      · have hlink : ¬ is_link_attrib e = true := by
          simp [is_link_attrib, ht, hl]
        simp only [hl, decide_False, if_false, Bool.false_eq_true] at hgen
        cases hg : gen_serialize_helper_c_fixattribs N 1 rest with
        | none => simp [hg] at hgen
        | some out1 =>
          simp only [hg, Option.some.injEq] at hgen
          subst hgen
          rw [if_neg hlink] at hmiss
          have hgt : ¬ 1 > 1 := by omega
          simp only [hgt, and_false, if_false, List.nil_append]
          exact ih out1 hrest hg hmiss

theorem SHLPfixLink_case (nodes : List (String × yajl_val))
    (fx : List (String × List FixStmt)) (hfx : gen_serialize_helper_c_fix nodes = some fx)
    (e : String × yajl_val) (t : String) (he : schema_node nodes t = some e)
    (stack : List Nat) (heap : List node_inst) (from_pos fromp no : Nat)
    (to_pos top : Option Nat) (nd : node_inst)
    (hfrom : stack[from_pos]? = some fromp)
    (hnull : to_pos = none → top = none)
    (hto : ∀ q, to_pos = some q → ∃ b, stack[q]? = some b ∧ top = some b)
    (hnd : heap[fromp]? = some nd) (ht : nd.nodetype = t) :
    ∃ out, gen_serialize_helper_c_fixattribs (string_toupper e.1) 1 (node_attribs e.2)
        = some out
      ∧ SHLPfixLink fx stack heap (fix_record.mk (some from_pos) no to_pos)
        = FIX_run no fromp top heap (out ++ [FixStmt.break_]) := by
  obtain ⟨body, hbody, hlook⟩ := node_loop_lookup "N_" gen_serialize_helper_c_fixcase
    nodes fx hfx t e he
  unfold gen_serialize_helper_c_fixcase at hbody
  simp only at hbody
  cases hg : gen_serialize_helper_c_fixattribs (string_toupper e.1) 1
      (object_entries (yajl_tree_get (some e.2) ["attributes"] yajl_type.t_object)) with
  | none => simp [hg] at hbody
  | some out =>
    simp only [hg, Option.some.injEq] at hbody
    subst hbody
    refine ⟨out, hg, ?_⟩
    unfold SHLPfixLink
    cases to_pos with
    | none =>
      rw [hnull rfl]
      simp only [hfrom, hnd, ht, hlook]
    | some q =>
      obtain ⟨b, hb, htop⟩ := hto q rfl
      rw [htop]
      simp only [hfrom, hb, hnd, ht, hlook]

theorem SHLPfixLink_miss (nodes : List (String × yajl_val))
    (fx : List (String × List FixStmt)) (hfx : gen_serialize_helper_c_fix nodes = some fx)
    (e : String × yajl_val) (t : String) (he : schema_node nodes t = some e)
    (htyped : attribs_typed e.2)
    (stack : List Nat) (heap : List node_inst) (from_pos fromp no : Nat)
    (to_pos : Option Nat) (nd : node_inst)
    (hfrom : stack[from_pos]? = some fromp)
    (hto : ∀ q, to_pos = some q → ∃ b, stack[q]? = some b)
    (hnd : heap[fromp]? = some nd) (ht : nd.nodetype = t)
    (hno : no < 1 ∨ (link_attribs e.2).length < no) :
    SHLPfixLink fx stack heap (fix_record.mk (some from_pos) no to_pos) = some heap := by
  have htop : ∃ top : Option Nat, (to_pos = none → top = none)
      ∧ ∀ q, to_pos = some q → ∃ b, stack[q]? = some b ∧ top = some b := by
    cases to_pos with
    | none => exact ⟨none, ⟨fun _ => rfl, fun q hq => (by cases hq)⟩⟩
    | some q =>
      obtain ⟨b, hb⟩ := hto q rfl
      refine ⟨some b, ⟨fun h => (by cases h), fun q1 hq1 => ?_⟩⟩
      cases hq1
      exact ⟨b, hb, rfl⟩
  obtain ⟨top, h1, h2⟩ := htop
  obtain ⟨out, hout, hrun⟩ := SHLPfixLink_case nodes fx hfx e t he stack heap
    from_pos fromp no to_pos top nd hfrom h1 h2 hnd ht
  rw [hrun]
  refine FIX_run_miss (string_toupper e.1) no fromp top heap [] (node_attribs e.2) out
    htyped hout ?_
  intro x hx hxe
  have hge := link_slots_spec_ge _ _ 1 x hx
  have hlt := link_slots_spec_lt _ _ 1 x hx
  unfold link_attribs at hno
  omega

/-- C15, as amended: a slot number outside `1..k`, where `k` is the number of
`Link`/`CodeLink` attributes of the type of the resolved `from` node (`k` may be 0), is
ignored by the generated `SHLPfixLink`: no case of the inner `switch (no)` matches, its
`default: break;` (or, for `k = 0`, the plain `break;` of the node case) is reached,
and the function returns normally with no field changed. -/
theorem SHLPfixLink_slot_out_of_range (nodes : List (String × yajl_val))
    (fx : List (String × List FixStmt)) (hfx : gen_serialize_helper_c_fix nodes = some fx)
    (e : String × yajl_val) (t : String) (he : schema_node nodes t = some e)
    (htyped : attribs_typed e.2)
    (stack : List Nat) (heap : List node_inst) (from_pos fromp no : Nat)
    (to_pos : Option Nat) (nd : node_inst)
    (hfrom : stack[from_pos]? = some fromp)
    (hto : ∀ q, to_pos = some q → ∃ b, stack[q]? = some b)
    (hnd : heap[fromp]? = some nd) (ht : nd.nodetype = t)
    (hno : no < 1 ∨ (link_attribs e.2).length < no) :
    SHLPfixLink fx stack heap (fix_record.mk (some from_pos) no to_pos) = some heap :=
  SHLPfixLink_miss nodes fx hfx e t he htyped stack heap from_pos fromp no to_pos nd hfrom
    hto hnd ht hno

theorem SHLPfixLink_slot_out_of_range_witness :
    gen_serialize_helper_c_fix ex_nodes = some ex_generated.fix
      ∧ schema_node ex_nodes "id" = some ("Id", ex_id)
      ∧ (link_attribs ex_id).length = 2
      ∧ SHLPfixLink ex_generated.fix [0, 1]
          [ex_id_inst none 20 none, ex_id_inst none 40 none] (fix_record.mk (some 0) 3 (some 1))
        = some [ex_id_inst none 20 none, ex_id_inst none 40 none] :=
  ⟨by decide, rfl, by decide,
   SHLPfixLink_slot_out_of_range ex_nodes ex_generated.fix (by decide) ("Id", ex_id) "id"
     rfl (by decide) [0, 1] [ex_id_inst none 20 none, ex_id_inst none 40 none] 0 0 3
     (some 1) (ex_id_inst none 20 none) rfl
     (fun q hq => by cases hq; exact ⟨1, rfl⟩) rfl rfl (Or.inr (by decide))⟩

/-- C15, counterexample: the type `Id` has the two link attributes `Avis` and `Decl`,
the type `Typedef` has none.  The fix of slot 3 of an `Id` node, of slot 0 of an `Id`
node and of slot 1 of a `Typedef` node do not fail: each returns normally and leaves
the heap as it was. -/
theorem SHLPfixLink_slot_out_of_range_returns :
    (link_attribs ex_id).length = 2
      ∧ SHLPfixLink ex_generated.fix [0] [ex_id_inst none 20 none]
          (fix_record.mk (some 0) 3 none) = some [ex_id_inst none 20 none]
      ∧ SHLPfixLink ex_generated.fix [0] [ex_id_inst none 20 none]
          (fix_record.mk (some 0) 0 none) = some [ex_id_inst none 20 none]
      ∧ (link_attribs ex_typedef).length = 0
      ∧ SHLPfixLink ex_generated.fix [0]
          [node_inst.mk "typedef" 1 2 3 none [(("TYPEDEF", "NEXT"), none)] [] []]
          (fix_record.mk (some 0) 1 none)
        = some [node_inst.mk "typedef" 1 2 3 none [(("TYPEDEF", "NEXT"), none)] [] []] := by
  decide

/-- C16, as amended: when the `from` position of a fix record is the not-found
sentinel, the generated `SHLPfixLink` skips its whole body (the guard
`if (from != SERSTACK_NOT_FOUND)`) and returns normally without patching anything,
whatever the slot number and the `to` position are. -/
theorem SHLPfixLink_from_not_found (fixcases : List (String × List FixStmt))
    (stack : List Nat) (heap : List node_inst) (f : fix_record)
    (hfrom : f.from_pos = none) :
    SHLPfixLink fixcases stack heap f = some heap := by
  unfold SHLPfixLink
  rw [hfrom]

theorem SHLPfixLink_from_not_found_witness :
    (fix_record.mk none 1 (some 1)).from_pos = none
      ∧ SHLPfixLink ex_generated.fix [0, 1]
          [ex_id_inst none 20 none, ex_id_inst none 40 none] (fix_record.mk none 1 (some 1))
        = some [ex_id_inst none 20 none, ex_id_inst none 40 none] :=
  ⟨rfl, SHLPfixLink_from_not_found ex_generated.fix [0, 1]
     [ex_id_inst none 20 none, ex_id_inst none 40 none] (fix_record.mk none 1 (some 1)) rfl⟩

/-- C16, counterexample: a fix record whose `from` position is the not-found sentinel
does not make the generated `SHLPfixLink` fail: it returns normally, and the heap is
as it was (the link `Avis` of the node is not patched). -/
theorem SHLPfixLink_from_not_found_returns :
    SHLPfixLink ex_generated.fix [0] [ex_id_inst none 20 none]
        (fix_record.mk none 1 (some 0))
      = some [ex_id_inst none 20 none]
    ∧ SHLPfixLink ex_generated.fix [0] [ex_id_inst none 20 none]
        (fix_record.mk none 1 (some 0)) ≠ none := by
  decide

/-! ## The frame of `SHLPfixLink` -/

theorem field_split {α : Type} (fields : List ((String × String) × α))
    (key : String × String) (hmem : key ∈ fields.map Prod.fst)
    (hnodup : (fields.map Prod.fst).Nodup) :
    ∃ pre v post, fields = pre ++ (key, v) :: post
      ∧ key ∉ pre.map Prod.fst ∧ key ∉ post.map Prod.fst := by
  obtain ⟨kv, hkv, hk⟩ := List.mem_map.1 hmem
  obtain ⟨pre, post, hsplit⟩ := List.append_of_mem hkv
  obtain ⟨k, v⟩ := kv
  simp only at hk
  subst hk
  refine ⟨pre, v, post, hsplit, ?_, ?_⟩
  · intro hp
    rw [hsplit, List.map_append, List.map_cons] at hnodup
    have := (List.nodup_append.1 hnodup).2.2
    exact this hp (List.mem_cons_self _ _)
  · intro hp
    rw [hsplit, List.map_append, List.map_cons] at hnodup
    have := (List.nodup_cons.1 (List.nodup_append.1 hnodup).2.1).1
    exact this hp

theorem SHLPfixLink_frame_spec (nodes : List (String × yajl_val))
    (fx : List (String × List FixStmt)) (hfx : gen_serialize_helper_c_fix nodes = some fx)
    (e : String × yajl_val) (t : String) (he : schema_node nodes t = some e)
    (htyped : attribs_typed e.2)
    (stack : List Nat) (heap : List node_inst) (from_pos fromp no : Nat)
    (to_pos top : Option Nat) (nd : node_inst) (l : String × yajl_val)
    (hfrom : stack[from_pos]? = some fromp)
    (hnull : to_pos = none → top = none)
    (hto : ∀ q, to_pos = some q → ∃ b, stack[q]? = some b ∧ top = some b)
    (hnd : heap[fromp]? = some nd) (ht : nd.nodetype = t)
    (hkeys : nd.attribs.map Prod.fst = declared_keys e.1 (node_attribs e.2))
    (hnodup : (declared_keys e.1 (node_attribs e.2)).Nodup)
    (hno : 1 ≤ no) (hl : (link_attribs e.2)[no - 1]? = some l) :
    ∃ pre v post,
      nd.attribs = pre ++ ((string_toupper e.1, string_toupper l.1), v) :: post
        ∧ (string_toupper e.1, string_toupper l.1) ∉ pre.map Prod.fst
        ∧ (string_toupper e.1, string_toupper l.1) ∉ post.map Prod.fst
        ∧ SHLPfixLink fx stack heap (fix_record.mk (some from_pos) no to_pos)
          = some (heap.set fromp
              (node_inst.mk nd.nodetype nd.file nd.line nd.col nd.error nd.sons
                (pre ++ ((string_toupper e.1, string_toupper l.1), attr_value.ptr top)
                  :: post)
                nd.flags)) := by
  obtain ⟨out, hout, hrun⟩ := SHLPfixLink_case nodes fx hfx e t he stack heap
    from_pos fromp no to_pos top nd hfrom hnull hto hnd ht
  have hslot := link_slot_of_index (string_toupper e.1) (node_attribs e.2) 1 (no - 1) l hl
  rw [show 1 + (no - 1) = no by omega] at hslot
  have hfix := FIX_run_slot (string_toupper e.1) no fromp top heap [FixStmt.break_]
    (node_attribs e.2) out htyped hout (string_toupper l.1) hslot
  have hlmem : l ∈ node_attribs e.2 := by
    have : l ∈ link_attribs e.2 := List.mem_iff_getElem?.2 ⟨no - 1, hl⟩
    exact (List.mem_filter.1 this).1
  have hkmem : (string_toupper e.1, string_toupper l.1) ∈ nd.attribs.map Prod.fst := by
    rw [hkeys]
    exact List.mem_map.2 ⟨l, hlmem, rfl⟩
  obtain ⟨pre, v, post, hsplit, hpre, hpost⟩ := field_split nd.attribs _ hkmem
    (by rw [hkeys]; exact hnodup)
  refine ⟨pre, v, post, hsplit, hpre, hpost, ?_⟩
  rw [hrun, hfix]
  simp only [heap_set_attrib, hnd]
  rw [hsplit, field_set_middle pre post _ v _ hpre hpost]

/-- C17: let the node type of the resolved `from` node have the `Link`/`CodeLink`
attributes `l_1 .. l_k` in declaration order, `k ≥ 1`, and let `no` be in `1..k`.  On a
node whose attribute fields are those its type declares (distinct accessor keys) the
generated `SHLPfixLink` returns the heap in which the `from` node differs from before
in exactly one place: the field of the attribute `l_no` now holds the node at the
position `to`, or null when `to` is the not-found sentinel.  Every other attribute,
every son and every flag of the node, its type tag and location, and every other node
are as they were. -/
theorem SHLPfixLink_frame (nodes : List (String × yajl_val))
    (fx : List (String × List FixStmt)) (hfx : gen_serialize_helper_c_fix nodes = some fx)
    (e : String × yajl_val) (t : String) (he : schema_node nodes t = some e)
    (htyped : attribs_typed e.2)
    (stack : List Nat) (heap : List node_inst) (from_pos fromp no : Nat)
    (to_pos top : Option Nat) (nd : node_inst) (l : String × yajl_val)
    (hfrom : stack[from_pos]? = some fromp)
    (hnull : to_pos = none → top = none)
    (hto : ∀ q, to_pos = some q → ∃ b, stack[q]? = some b ∧ top = some b)
    (hnd : heap[fromp]? = some nd) (ht : nd.nodetype = t)
    (hkeys : nd.attribs.map Prod.fst = declared_keys e.1 (node_attribs e.2))
    (hnodup : (declared_keys e.1 (node_attribs e.2)).Nodup)
    (hno : 1 ≤ no) (hl : (link_attribs e.2)[no - 1]? = some l) :
    ∃ pre v post,
      nd.attribs = pre ++ ((string_toupper e.1, string_toupper l.1), v) :: post
        ∧ (string_toupper e.1, string_toupper l.1) ∉ pre.map Prod.fst
        ∧ (string_toupper e.1, string_toupper l.1) ∉ post.map Prod.fst
        ∧ SHLPfixLink fx stack heap (fix_record.mk (some from_pos) no to_pos)
          = some (heap.set fromp
              (node_inst.mk nd.nodetype nd.file nd.line nd.col nd.error nd.sons
                (pre ++ ((string_toupper e.1, string_toupper l.1), attr_value.ptr top)
                  :: post)
                nd.flags)) :=
  SHLPfixLink_frame_spec nodes fx hfx e t he htyped stack heap from_pos fromp no to_pos top
    nd l hfrom hnull hto hnd ht hkeys hnodup hno hl

theorem SHLPfixLink_frame_witness :
    gen_serialize_helper_c_fix ex_nodes = some ex_generated.fix
      ∧ schema_node ex_nodes "id" = some ("Id", ex_id)
      ∧ (link_attribs ex_id)[2 - 1]? = some ("Decl", ex_attr "CodeLink")
      ∧ SHLPfixLink ex_generated.fix [0, 1]
          [ex_id_inst (some 0) 20 none, ex_id_inst none 40 none]
          (fix_record.mk (some 0) 2 (some 1))
        = some [ex_id_inst (some 0) 20 (some 1), ex_id_inst none 40 none]
      ∧ SHLPfixLink ex_generated.fix [0, 1]
          [ex_id_inst (some 0) 20 (some 1), ex_id_inst none 40 none]
          (fix_record.mk (some 0) 1 none)
        = some [ex_id_inst none 20 (some 1), ex_id_inst none 40 none]
      ∧ ∃ pre v post,
        (ex_id_inst (some 0) 20 none).attribs
            = pre ++ ((string_toupper "Id", string_toupper "Decl"), v) :: post
          ∧ (string_toupper "Id", string_toupper "Decl") ∉ pre.map Prod.fst
          ∧ (string_toupper "Id", string_toupper "Decl") ∉ post.map Prod.fst
          ∧ SHLPfixLink ex_generated.fix [0, 1]
              [ex_id_inst (some 0) 20 none, ex_id_inst none 40 none]
              (fix_record.mk (some 0) 2 (some 1))
            = some ([ex_id_inst (some 0) 20 none, ex_id_inst none 40 none].set 0
                (node_inst.mk "id" 4 5 6 none []
                  (pre ++ ((string_toupper "Id", string_toupper "Decl"),
                    attr_value.ptr (some 1)) :: post)
                  [])) :=
  ⟨by decide, rfl, rfl, by decide, by decide,
   SHLPfixLink_frame ex_nodes ex_generated.fix (by decide) ("Id", ex_id) "id" rfl
     (by decide) [0, 1] [ex_id_inst (some 0) 20 none, ex_id_inst none 40 none] 0 0 2
     (some 1) (some 1) (ex_id_inst (some 0) 20 none) ("Decl", ex_attr "CodeLink") rfl
     (fun h => by cases h) (fun q hq => by cases hq; exact ⟨1, rfl, rfl⟩) rfl rfl
     (by decide) (by decide) (by decide) rfl⟩

/-! ## The constructor and the position list of the nodes built -/

theorem SHLPmakeNode_array_spec (attrtype_names : List attrtype_name)
    (nodes : List (String × yajl_val)) (g : generated) (eval_init : String → attr_value)
    (fuel : Nat) (heap : List node_inst) (root : Nat) (st : List Nat)
    (hgen : gen_serialize attrtype_names nodes = some g)
    (hschema : schema_ok attrtype_names nodes)
    (hwalk : walk_owned nodes heap fuel root = some st)
    (hnodes : ∀ a ∈ st, node_wf nodes heap a) :
    (∀ a ∈ st, ∃ nd e, heap[a]? = some nd ∧ schema_node nodes nd.nodetype = some e
        ∧ ∀ (h : List node_inst) (fs : List ((String × String) × attr_value))
            (son_vals : List (Option Nat)) (flag_vals : List Int),
            fs.map Prod.fst = declared_keys e.1 (node_attribs e.2) →
            son_vals.length = (node_sons e.2).length →
            flag_vals.length = (node_flags e.2).length →
            SHLPmakeNode g.make eval_init nd.nodetype nd.file nd.line nd.col
                (sent_attribs attrtype_names (node_attribs e.2) fs
                  ++ (son_vals.map attr_value.ptr ++ flag_vals.map attr_value.data)) h
              = some (h.length, h ++ [node_inst.mk nd.nodetype nd.file nd.line nd.col none
                  (List.zipWith (fun s v => ((string_toupper e.1, string_toupper s.1), v))
                    (node_sons e.2) son_vals)
                  (List.zipWith (rebuilt_attrib attrtype_names eval_init) (node_attribs e.2)
                    fs)
                  (List.zipWith (fun s v => ((string_toupper e.1, string_toupper s.1), v))
                    (node_flags e.2) flag_vals)]))
      ∧ ∃ s root1 heap1 array, serialize g fuel heap root = some s ∧ s.stack = st
        ∧ SerArg.eval g.make eval_init s.expr [] = some (attr_value.ptr (some root1), heap1)
        ∧ heap1.length = st.length ∧ root1 + 1 = heap1.length
        ∧ SBT_call g.sbt fuel root1 (SbtState.mk heap1 [])
            = some (some root1, SbtState.mk heap1 array)
        ∧ array.length = st.length ∧ array.Nodup
        ∧ ∀ (i a : Nat), st[i]? = some a →
            ∃ a1 nd nd1 e, array[i]? = some a1 ∧ heap[a]? = some nd
              ∧ heap1[a1]? = some nd1 ∧ schema_node nodes nd.nodetype = some e
              ∧ copy_of attrtype_names eval_init (List.zip st array) e nd nd1 := by
  constructor
  · intro a ha
    obtain ⟨nd, hnd, e, he, _⟩ := hnodes a ha
    obtain ⟨hmem, _⟩ := schema_node_mem nodes _ e he
    obtain ⟨hreg, hkeys, _⟩ := hschema
    obtain ⟨k1, k2, k3⟩ := hkeys e hmem
    refine ⟨nd, e, hnd, he, ?_⟩
    intro h fs son_vals flag_vals hfs hsl hfl
    unfold SHLPmakeNode
    exact SHLPmakeNodeVa_node attrtype_names nodes g eval_init hgen e nd.nodetype he
      (hreg e hmem) k1 k2 k3 nd.file nd.line nd.col fs hfs son_vals hsl flag_vals hfl h
  · obtain ⟨t, new, arr, a1, hser, hev, _, hnl, hlast, hperm, hbuilt, hsbt1⟩ :=
      rebuild_spec attrtype_names nodes g eval_init fuel heap root st hgen hschema hwalk
        hnodes
    have harr : arr.Nodup := (List.Perm.nodup_iff hperm).2 (List.nodup_range' 0 st.length)
    refine ⟨stream.mk t (graph_fixes nodes heap st st) st, a1, new, arr, hser, rfl, hev, hnl,
      hlast, hsbt1, hbuilt.1, harr, ?_⟩
    intro i a hi
    have hlt : i < arr.length := by
      rw [hbuilt.1]
      exact (List.getElem?_eq_some_iff.1 hi).1
    have hai : arr[i]? = some arr[i] := List.getElem?_eq_getElem hlt
    have hmem : (a, arr[i]) ∈ List.zip st arr :=
      List.mem_iff_getElem?.2 ⟨i, List.getElem?_zip_eq_some.2 ⟨hi, hai⟩⟩
    obtain ⟨_, _, nd, nd1, e, h1, h2, h3, h4⟩ := hbuilt.2 _ hmem
    exact ⟨arr[i], nd, nd1, e, hai, h1, h2, h3, h4⟩

/-- C18, as amended: the generated constructor pushes nothing.  Let the schema have
registered attribute types, distinct accessor keys per node and persisted types `Link`,
`CodeLink` and `Node`, and let `st` be the nodes of a graph along the edges the
serialization descends into (`walk_owned`: the sons other than `Fundef.Next`,
`Fundef.Body`, `Typedef.Next` and `Objdef.Next`, and the attributes of type `Node`), each
a node of the schema whose `Link`, `CodeLink` and `Node` attributes are pointers.  The
Construct record of every node of `st`, replayed through `SHLPmakeNode` on any heap,
appends the node built to the heap and returns its address, and that is all it does.
The argument expressions of a record are evaluated before the record is replayed, so the
replay of the whole stream from the empty heap builds one node per node of `st`, the
root last.  The position list of the nodes built is the one the generated `SBT<node>`
functions yield when run on the root built: they leave the heap as it is, the list is as
long as the position list of phase 1 and without repetition, and the node at each of
its indices is the copy of the node that phase 1 put at that stack position, its sons
and the targets of its `Node` attributes being the nodes at the positions of the
original ones. -/
theorem SHLPmakeNode_array (attrtype_names : List attrtype_name)
    (nodes : List (String × yajl_val)) (g : generated) (eval_init : String → attr_value)
    (fuel : Nat) (heap : List node_inst) (root : Nat) (st : List Nat)
    (hgen : gen_serialize attrtype_names nodes = some g)
    (hschema : schema_ok attrtype_names nodes)
    (hwalk : walk_owned nodes heap fuel root = some st)
    (hnodes : ∀ a ∈ st, node_wf nodes heap a) :
    (∀ a ∈ st, ∃ nd e, heap[a]? = some nd ∧ schema_node nodes nd.nodetype = some e
        ∧ ∀ (h : List node_inst) (fs : List ((String × String) × attr_value))
            (son_vals : List (Option Nat)) (flag_vals : List Int),
            fs.map Prod.fst = declared_keys e.1 (node_attribs e.2) →
            son_vals.length = (node_sons e.2).length →
            flag_vals.length = (node_flags e.2).length →
            SHLPmakeNode g.make eval_init nd.nodetype nd.file nd.line nd.col
                (sent_attribs attrtype_names (node_attribs e.2) fs
                  ++ (son_vals.map attr_value.ptr ++ flag_vals.map attr_value.data)) h
              = some (h.length, h ++ [node_inst.mk nd.nodetype nd.file nd.line nd.col none
                  (List.zipWith (fun s v => ((string_toupper e.1, string_toupper s.1), v))
                    (node_sons e.2) son_vals)
                  (List.zipWith (rebuilt_attrib attrtype_names eval_init) (node_attribs e.2)
                    fs)
                  (List.zipWith (fun s v => ((string_toupper e.1, string_toupper s.1), v))
                    (node_flags e.2) flag_vals)]))
      ∧ ∃ s root1 heap1 array, serialize g fuel heap root = some s ∧ s.stack = st
        ∧ SerArg.eval g.make eval_init s.expr [] = some (attr_value.ptr (some root1), heap1)
        ∧ heap1.length = st.length ∧ root1 + 1 = heap1.length
        ∧ SBT_call g.sbt fuel root1 (SbtState.mk heap1 [])
            = some (some root1, SbtState.mk heap1 array)
        ∧ array.length = st.length ∧ array.Nodup
        ∧ ∀ (i a : Nat), st[i]? = some a →
            ∃ a1 nd nd1 e, array[i]? = some a1 ∧ heap[a]? = some nd
              ∧ heap1[a1]? = some nd1 ∧ schema_node nodes nd.nodetype = some e
              ∧ copy_of attrtype_names eval_init (List.zip st array) e nd nd1 :=
  SHLPmakeNode_array_spec attrtype_names nodes g eval_init fuel heap root st hgen hschema
    hwalk hnodes

theorem SHLPmakeNode_array_witness :
    gen_serialize ex_attrtype_names ex_nodes_owned = some ex_generated_owned
      ∧ schema_ok ex_attrtype_names ex_nodes_owned
      ∧ walk_owned ex_nodes_owned ex_owned_chain 3 0 = some [0, 1, 2]
      ∧ heap_get_son ex_owned_chain 0 ("OBJDEF", "NEXT") = some (some 3)
      ∧ heap_get_attrib ex_owned_chain 0 ("OBJDEF", "DECL") = some (attr_value.ptr (some 3))
      ∧ (∀ a ∈ [0, 1, 2], node_wf ex_nodes_owned ex_owned_chain a)
      ∧ (∀ a ∈ [0, 1, 2], ∃ nd e, ex_owned_chain[a]? = some nd
          ∧ schema_node ex_nodes_owned nd.nodetype = some e
          ∧ ∀ (h : List node_inst) (fs : List ((String × String) × attr_value))
              (son_vals : List (Option Nat)) (flag_vals : List Int),
              fs.map Prod.fst = declared_keys e.1 (node_attribs e.2) →
              son_vals.length = (node_sons e.2).length →
              flag_vals.length = (node_flags e.2).length →
              SHLPmakeNode ex_generated_owned.make ex_eval_init nd.nodetype nd.file nd.line
                  nd.col
                  (sent_attribs ex_attrtype_names (node_attribs e.2) fs
                    ++ (son_vals.map attr_value.ptr ++ flag_vals.map attr_value.data)) h
                = some (h.length, h ++ [node_inst.mk nd.nodetype nd.file nd.line nd.col none
                    (List.zipWith (fun s v => ((string_toupper e.1, string_toupper s.1), v))
                      (node_sons e.2) son_vals)
                    (List.zipWith (rebuilt_attrib ex_attrtype_names ex_eval_init)
                      (node_attribs e.2) fs)
                    (List.zipWith (fun s v => ((string_toupper e.1, string_toupper s.1), v))
                      (node_flags e.2) flag_vals)]))
      ∧ ∃ s root1 heap1 array,
          serialize ex_generated_owned 3 ex_owned_chain 0 = some s ∧ s.stack = [0, 1, 2]
          ∧ SerArg.eval ex_generated_owned.make ex_eval_init s.expr []
              = some (attr_value.ptr (some root1), heap1)
          ∧ heap1.length = [0, 1, 2].length ∧ root1 + 1 = heap1.length
          ∧ SBT_call ex_generated_owned.sbt 3 root1 (SbtState.mk heap1 [])
              = some (some root1, SbtState.mk heap1 array)
          ∧ array.length = [0, 1, 2].length ∧ array.Nodup
          ∧ ∀ (i a : Nat), [0, 1, 2][i]? = some a →
              ∃ a1 nd nd1 e, array[i]? = some a1 ∧ ex_owned_chain[a]? = some nd
                ∧ heap1[a1]? = some nd1 ∧ schema_node ex_nodes_owned nd.nodetype = some e
                ∧ copy_of ex_attrtype_names ex_eval_init (List.zip [0, 1, 2] array) e nd nd1 :=
  ⟨by decide, by decide, by decide, by decide, by decide, by decide,
   SHLPmakeNode_array ex_attrtype_names ex_nodes_owned ex_generated_owned ex_eval_init 3
     ex_owned_chain 0 [0, 1, 2] (by decide) (by decide) (by decide) (by decide)⟩

theorem ex_arg_id_stream :
    (serialize ex_generated 2
        [ex_arg_inst (some 1) none 10 11 (some 1) 1, ex_id_inst none 20 none] 0).map
      (fun s => (s.stack, s.fixes.map (fun f => (f.from_pos, f.no, f.to_pos))))
      = some ([0, 1], [(some 0, 1, some 1)]) := by
  decide

theorem ex_arg_id_built :
    (serialize ex_generated 2
        [ex_arg_inst (some 1) none 10 11 (some 1) 1, ex_id_inst none 20 none] 0).bind
      (fun s => SerArg.eval ex_generated.make ex_eval_init s.expr [])
      = some (attr_value.ptr (some 1),
          [ex_id_inst none 20 none, ex_arg_inst (some 0) none 10 11 none 1]) := by
  decide

theorem ex_arg_id_creation_order_fixes :
    (serialize ex_generated 2
        [ex_arg_inst (some 1) none 10 11 (some 1) 1, ex_id_inst none 20 none] 0).bind
      (fun s => replay_fixes ex_generated.fix [0, 1] s.fixes
        [ex_id_inst none 20 none, ex_arg_inst (some 0) none 10 11 none 1])
      = some [ex_id_inst (some 1) 20 none, ex_arg_inst (some 0) none 10 11 none 1] := by
  decide

/-- C18, counterexample: the Construct record of an `Id` node replayed through the
generated constructor on the empty heap: the node is built at the address 0, and the
address and the heap are all the constructor returns; it has no position array to push
to.  Nor is the order of creation the order of phase 1.  For an `Arg` that owns an `Id`
as its son `Avis` and links to it by its attribute `Decl`, phase 1 gives the positions
0 and 1 to the `Arg` and the `Id`, and the fix instruction is `(0, 1, 1)`; the replay
builds the `Id` first (address 0) and the `Arg` last (address 1).  The fix instruction
replayed against the nodes in their order of creation sets a link of the wrong node:
the link `Decl` of the `Arg` stays null, and the `Id` gets a link `Avis` the original
does not have. -/
theorem SHLPmakeNode_array_unchanged :
    SHLPmakeNode ex_generated.make ex_eval_init "id" 4 5 6
        [attr_value.ptr none, attr_value.data 40, attr_value.ptr none] []
      = some (0, [ex_id_inst none 40 none])
    ∧ (serialize ex_generated 2
        [ex_arg_inst (some 1) none 10 11 (some 1) 1, ex_id_inst none 20 none] 0).map
      (fun s => (s.stack, s.fixes.map (fun f => (f.from_pos, f.no, f.to_pos))))
      = some ([0, 1], [(some 0, 1, some 1)])
    ∧ (serialize ex_generated 2
        [ex_arg_inst (some 1) none 10 11 (some 1) 1, ex_id_inst none 20 none] 0).bind
      (fun s => SerArg.eval ex_generated.make ex_eval_init s.expr [])
      = some (attr_value.ptr (some 1),
          [ex_id_inst none 20 none, ex_arg_inst (some 0) none 10 11 none 1])
    ∧ (serialize ex_generated 2
        [ex_arg_inst (some 1) none 10 11 (some 1) 1, ex_id_inst none 20 none] 0).bind
      (fun s => replay_fixes ex_generated.fix [0, 1] s.fixes
        [ex_id_inst none 20 none, ex_arg_inst (some 0) none 10 11 none 1])
      = some [ex_id_inst (some 1) 20 none, ex_arg_inst (some 0) none 10 11 none 1] :=
  ⟨by decide, ex_arg_id_stream, ex_arg_id_built, ex_arg_id_creation_order_fixes⟩

/-! ## The reset walk `CHKRST` -/

theorem chkrst_body_shape (node_name : String) (node : yajl_val) :
    gen_check_reset_c_body node_name node
      = some ([ChkrstStmt.dbug_enter, ChkrstStmt.clear_visited]
        ++ (node_sons node).map (fun e =>
            ChkrstStmt.descend_son (string_toupper node_name) (string_toupper e.1))
        ++ [ChkrstStmt.return_arg_node]) := rfl

theorem chkrst_sons (N : String) (es : List (String × yajl_val)) :
    (es.map (fun e => ChkrstStmt.descend_son N (string_toupper e.1))).filterMap
        ChkrstStmt.son
      = es.map (fun e => (N, string_toupper e.1)) := by
  induction es with
  | nil => rfl
  | cons e rest ih => simp [List.filterMap_cons, ChkrstStmt.son, ih]

theorem chkrst_body_sons (node_name : String) (node : yajl_val) :
    (gen_check_reset_c_body node_name node).map (List.filterMap ChkrstStmt.son)
      = some (declared_keys node_name (node_sons node)) := by
  rw [chkrst_body_shape]
  simp only [Option.map_some', List.filterMap_append, chkrst_sons]
  simp [ChkrstStmt.son, declared_keys]

/-- C19: for every node type the generated `CHKRST<node>` is: the clearing of the
visited marker of the node, then one null-tested descent per declared son, in
declaration order, then the return.  The sons it descends into are all the declared
sons (a son named `Next` like any other, whatever the name of the node type is: there
is no test on the node name or on the son name).  The clearing sets the marker of the
node to `FALSE`; a descent leaves the state alone on a null son and calls `TRAVdo` on
the son otherwise. -/
theorem gen_check_reset_c_order (node_name : String) (node : yajl_val) :
    gen_check_reset_c_body node_name node
        = some ([ChkrstStmt.dbug_enter, ChkrstStmt.clear_visited]
          ++ (node_sons node).map (fun e =>
              ChkrstStmt.descend_son (string_toupper node_name) (string_toupper e.1))
          ++ [ChkrstStmt.return_arg_node])
      ∧ (gen_check_reset_c_body node_name node).map (List.filterMap ChkrstStmt.son)
        = some (declared_keys node_name (node_sons node))
      ∧ (∀ call a s, CHKRST_step call a ChkrstStmt.clear_visited s
          = some (ChkState.mk s.heap (s.checkvisited.set a false)))
      ∧ (∀ call a s N S, heap_get_son s.heap a (N, S) = some none →
          CHKRST_step call a (ChkrstStmt.descend_son N S) s = some s)
      ∧ (∀ call a s N S b, heap_get_son s.heap a (N, S) = some (some b) →
          CHKRST_step call a (ChkrstStmt.descend_son N S) s
            = (call b s).map
                (fun r => ChkState.mk (heap_set_son r.2.heap a (N, S) r.1)
                  r.2.checkvisited)) := by
  refine ⟨chkrst_body_shape node_name node, chkrst_body_sons node_name node,
    fun _ _ _ => rfl, ?_, ?_⟩
  · intro call a s N S h
    simp only [CHKRST_step, h]
  · intro call a s N S b h
    simp only [CHKRST_step, h]
    cases call b s with
    | none => rfl
    | some r => rfl

theorem gen_check_reset_c_order_witness :
    gen_check_reset_c_body "Fundef" ex_fundef
        = some [ChkrstStmt.dbug_enter, ChkrstStmt.clear_visited,
            ChkrstStmt.descend_son "FUNDEF" "BODY", ChkrstStmt.descend_son "FUNDEF" "NEXT",
            ChkrstStmt.return_arg_node]
      ∧ gen_check_reset_c_body "Typedef" ex_typedef
        = some [ChkrstStmt.dbug_enter, ChkrstStmt.clear_visited,
            ChkrstStmt.descend_son "TYPEDEF" "NEXT", ChkrstStmt.return_arg_node]
      ∧ heap_get_son ex_fundef_chain 2 ("FUNDEF", "NEXT") = some none
      ∧ CHKRST_step (fun _ _ => none) 2 (ChkrstStmt.descend_son "FUNDEF" "NEXT")
          (ChkState.mk ex_fundef_chain []) = some (ChkState.mk ex_fundef_chain [])
      ∧ heap_get_son ex_fundef_chain 1 ("FUNDEF", "NEXT") = some (some 2)
      ∧ CHKRST_step (fun b s => some (some b, s)) 1 (ChkrstStmt.descend_son "FUNDEF" "NEXT")
          (ChkState.mk ex_fundef_chain [])
        = (some (some 2, ChkState.mk ex_fundef_chain [])).map
            (fun r => ChkState.mk (heap_set_son r.2.heap 1 ("FUNDEF", "NEXT") r.1)
              r.2.checkvisited) :=
  ⟨(gen_check_reset_c_order "Fundef" ex_fundef).1.trans (by decide),
   (gen_check_reset_c_order "Typedef" ex_typedef).1.trans (by decide),
   by decide,
   (gen_check_reset_c_order "Fundef" ex_fundef).2.2.2.1 (fun _ _ => none) 2
     (ChkState.mk ex_fundef_chain []) "FUNDEF" "NEXT" (by decide),
   by decide,
   (gen_check_reset_c_order "Fundef" ex_fundef).2.2.2.2 (fun b s => some (some b, s)) 1
     (ChkState.mk ex_fundef_chain []) "FUNDEF" "NEXT" 2 (by decide)⟩

/-! ## The reset walk on a graph -/

theorem clear_marks_append (m : List Bool) (l1 l2 : List Nat) :
    clear_marks m (l1 ++ l2) = clear_marks (clear_marks m l1) l2 := by
  unfold clear_marks
  rw [List.foldl_append]

theorem clear_marks_length (l : List Nat) :
    ∀ m : List Bool, (clear_marks m l).length = m.length := by
  induction l with
  | nil => intro m; rfl
  | cons x xs ih =>
    intro m
    have : clear_marks m (x :: xs) = clear_marks (m.set x false) xs := rfl
    rw [this, ih, List.length_set]

theorem clear_marks_not_mem (l : List Nat) :
    ∀ (m : List Bool) (c : Nat), c ∉ l → (clear_marks m l)[c]? = m[c]? := by
  induction l with
  | nil => intro m c _; rfl
  | cons x xs ih =>
    intro m c hc
    have : clear_marks m (x :: xs) = clear_marks (m.set x false) xs := rfl
    rw [this, ih (m.set x false) c (fun h => hc (List.mem_cons_of_mem _ h))]
    have hne : x ≠ c := fun h => hc (h ▸ List.mem_cons_self _ _)
    rw [List.getElem?_set_ne hne]

theorem clear_marks_mem (l : List Nat) :
    ∀ (m : List Bool) (c : Nat), c ∈ l → c < m.length →
      (clear_marks m l)[c]? = some false := by
  induction l with
  | nil => intro m c hc; cases hc
  | cons x xs ih =>
    intro m c hc hlt
    have : clear_marks m (x :: xs) = clear_marks (m.set x false) xs := rfl
    rw [this]
    by_cases hxs : c ∈ xs
    · exact ih (m.set x false) c hxs (by rw [List.length_set]; exact hlt)
    · have hcx : c = x := by
        rcases List.mem_cons.1 hc with h | h
        · exact h
        · exact absurd h hxs
      subst hcx
      rw [clear_marks_not_mem xs (m.set c false) c hxs]
      simp [List.getElem?_set, hlt]

theorem CHKRST_sons_loop (call : Nat → ChkState → Option (Option Nat × ChkState)) (a : Nat)
    (heap : List node_inst) (nd : node_inst) (node_name : String)
    (w : Nat → Option (List Nat)) (P : Nat → Prop)
    (hnd : heap[a]? = some nd) (hkeys : (nd.sons.map Prod.fst).Nodup)
    (hcall : ∀ b l m, w b = some l → (∀ c ∈ l, P c) →
      call b (ChkState.mk heap m) = some (some b, ChkState.mk heap (clear_marks m l)))
    (es : List (String × yajl_val)) (fs : List ((String × String) × Option Nat))
    (hal : List.Forall₂ (aligned node_name nd.sons) es fs)
    (l : List Nat) (hw : walk_list w (fs.map Prod.snd) = some l) (hP : ∀ c ∈ l, P c)
    (m : List Bool) :
    run_steps (CHKRST_step call a)
        (es.map (fun e =>
          ChkrstStmt.descend_son (string_toupper node_name) (string_toupper e.1)))
        (ChkState.mk heap m)
      = some (ChkState.mk heap (clear_marks m l)) := by
  induction hal generalizing l m with
  | nil =>
    simp only [List.map_nil, walk_list, Option.some.injEq] at hw
    subst hw
    rfl
  | @cons e f es1 fs1 hef _ ih =>
    obtain ⟨hkey, hget⟩ := hef
    rw [List.map_cons]
    cases hv : f.2 with
    | none =>
      have hw1 : walk_list w (fs1.map Prod.snd) = some l := by
        simpa [walk_list, hv] using hw
      simp only [run_steps, CHKRST_step, heap_get_son, hnd, ← hkey, hget, hv]
      exact ih l hw1 hP m
    | some b =>
      simp only [List.map_cons, hv, walk_list] at hw
      cases hb : w b with
      | none => simp [hb] at hw
      | some lb =>
        simp only [hb] at hw
        cases hr : walk_list w (fs1.map Prod.snd) with
        | none => simp [hr] at hw
        | some ls =>
          simp only [hr, Option.some.injEq] at hw
          subst hw
          have hcb := hcall b lb m hb (fun c hc => hP c (List.mem_append_left _ hc))
          have hget2 : field_get nd.sons f.1 = some (some b) := by rw [hget, hv]
          simp only [run_steps, CHKRST_step, heap_get_son, hnd, ← hkey, hget2, hcb,
            heap_set_son_same heap a nd f.1 (some b) hnd hkeys hget2]
          rw [ih ls hr (fun c hc => hP c (List.mem_append_right _ hc)) (clear_marks m lb)]
          rw [clear_marks_append]

/-- On a graph whose nodes have the sons their types declare, the reset walk from `a`
clears the markers of exactly the nodes under `a` and leaves the heap as it was. -/
theorem CHKRST_call_walk (nodes : List (String × yajl_val))
    (funs : List (String × List ChkrstStmt)) (hgen : gen_check_reset_c nodes = some funs)
    (heap : List node_inst) :
    ∀ fuel a l m, walk heap fuel a = some l →
      (∀ c ∈ l, sons_declared nodes heap c) →
      CHKRST_call funs fuel a (ChkState.mk heap m)
        = some (some a, ChkState.mk heap (clear_marks m l)) := by
  intro fuel
  induction fuel with
  | zero => intro a l m hw; simp [walk] at hw
  | succ f ih =>
    intro a l m hw hok
    simp only [walk] at hw
    cases hnd : heap[a]? with
    | none => simp [hnd] at hw
    | some nd =>
      simp only [hnd] at hw
      cases hwl : walk_list (walk heap f) (nd.sons.map Prod.snd) with
      | none => simp [hwl] at hw
      | some l1 =>
        simp only [hwl, Option.some.injEq] at hw
        subst hw
        obtain ⟨nd1, hnd1, e, he, hk, hnodup⟩ := hok a (List.mem_cons_self _ _)
        rw [hnd] at hnd1
        cases hnd1
        obtain ⟨body, hbody, hlook⟩ := node_loop_lookup "CHKRST" gen_check_reset_c_body
          nodes funs hgen nd.nodetype e he
        rw [chkrst_body_shape] at hbody
        simp only [CHKRST_call, hnd, hlook, CHKRST_run]
        rw [← Option.some.inj hbody]
        rw [run_until_end _ _ _ _ _ (by
          intro st hst
          simp only [List.mem_append, List.mem_cons, List.mem_singleton, List.not_mem_nil,
            or_false, List.mem_map] at hst
          rcases hst with (rfl | rfl) | ⟨x, _, rfl⟩
          · rfl
          · rfl
          · rfl) rfl]
        rw [run_steps_append]
        simp only [run_steps, CHKRST_step]
        rw [CHKRST_sons_loop (CHKRST_call funs f) a heap nd e.1 (walk heap f)
          (fun c => sons_declared nodes heap c) hnd (hk ▸ hnodup)
          (fun b l m hb hl => ih b l m hb hl)
          (node_sons e.2) nd.sons (aligned_of_keys e.1 _ _ hk hnodup) l1 hwl
          (fun c hc => hok c (List.mem_cons_of_mem _ hc)) (m.set a false)]
        rfl

theorem walk_head (heap : List node_inst) (fuel a : Nat) (l : List Nat)
    (h : walk heap fuel a = some l) : a ∈ l := by
  cases fuel with
  | zero => simp [walk] at h
  | succ f =>
    simp only [walk] at h
    cases hnd : heap[a]? with
    | none => simp [hnd] at h
    | some nd =>
      simp only [hnd] at h
      cases hwl : walk_list (walk heap f) (nd.sons.map Prod.snd) with
      | none => simp [hwl] at h
      | some l1 =>
        simp only [hwl, Option.some.injEq] at h
        subst h
        exact List.mem_cons_self _ _

theorem field_set_keys {α : Type} (fields : List ((String × String) × α))
    (key : String × String) (v : α) :
    (field_set fields key v).map Prod.fst = fields.map Prod.fst := by
  unfold field_set
  induction fields with
  | nil => rfl
  | cons kv rest ih =>
    simp only [List.map_cons, ih]
    by_cases h : kv.1 = key
    · simp [h]
    · simp [h]

theorem field_set_twice {α : Type} (fields : List ((String × String) × α))
    (key : String × String) (v v1 : α) :
    field_set (field_set fields key v) key v1 = field_set fields key v1 := by
  unfold field_set
  induction fields with
  | nil => rfl
  | cons kv rest ih =>
    simp only [List.map_cons, ih]
    by_cases h : kv.1 = key
    · simp [h]
    · simp [h]

theorem getElem?_lt {α : Type} (l : List α) (i : Nat) (x : α) (h : l[i]? = some x) :
    i < l.length := by
  by_contra hc
  rw [List.getElem?_eq_none (Nat.le_of_not_lt hc)] at h
  cases h

theorem heap_set_son_restore (heap : List node_inst) (a : Nat) (nd : node_inst)
    (key : String × String) (v x : Option Nat) (hnd : heap[a]? = some nd)
    (hkeys : (nd.sons.map Prod.fst).Nodup) (hget : field_get nd.sons key = some v) :
    heap_set_son (heap_set_son heap a key x) a key v = heap := by
  have hlt := getElem?_lt heap a nd hnd
  have h1 : heap_set_son heap a key x
      = heap.set a (node_inst.mk nd.nodetype nd.file nd.line nd.col nd.error
          (field_set nd.sons key x) nd.attribs nd.flags) := by
    unfold heap_set_son
    simp only [hnd]
  rw [h1]
  unfold heap_set_son
  have h2 : (heap.set a (node_inst.mk nd.nodetype nd.file nd.line nd.col nd.error
      (field_set nd.sons key x) nd.attribs nd.flags))[a]?
      = some (node_inst.mk nd.nodetype nd.file nd.line nd.col nd.error
          (field_set nd.sons key x) nd.attribs nd.flags) := by
    simp [List.getElem?_set, hlt]
  simp only [h2]
  rw [List.set_set, field_set_twice, field_set_of_get _ _ _ hkeys hget]
  exact list_set_self _ _ _ hnd

theorem CHKRSTdoTreeCheckReset_spec (nodes : List (String × yajl_val))
    (funs : List (String × List ChkrstStmt)) (hgen : gen_check_reset_c nodes = some funs)
    (heap : List node_inst) (marks : List Bool) (fuel a : Nat) (nd : node_inst)
    (nxt : Option Nat) (l : List Nat)
    (hnd : heap[a]? = some nd) (htype : nd.nodetype = "fundef")
    (hnext : field_get nd.sons ("FUNDEF", "NEXT") = some nxt)
    (hwalk : walk (heap_set_son heap a ("FUNDEF", "NEXT") none) fuel a = some l)
    (hok : ∀ c ∈ l, sons_declared nodes (heap_set_son heap a ("FUNDEF", "NEXT") none) c) :
    CHKRSTdoTreeCheckReset true funs fuel a (ChkState.mk heap marks)
      = some (a, ChkState.mk heap (clear_marks marks l)) := by
  have hlt := getElem?_lt heap a nd hnd
  have h1 : heap_set_son heap a ("FUNDEF", "NEXT") none
      = heap.set a (node_inst.mk nd.nodetype nd.file nd.line nd.col nd.error
          (field_set nd.sons ("FUNDEF", "NEXT") none) nd.attribs nd.flags) := by
    unfold heap_set_son
    simp only [hnd]
  have h2 : (heap_set_son heap a ("FUNDEF", "NEXT") none)[a]?
      = some (node_inst.mk nd.nodetype nd.file nd.line nd.col nd.error
          (field_set nd.sons ("FUNDEF", "NEXT") none) nd.attribs nd.flags) := by
    rw [h1]
    simp [List.getElem?_set, hlt]
  have hkeys : (nd.sons.map Prod.fst).Nodup := by
    obtain ⟨nd1, hnd1, e, _, hk, hnodup⟩ := hok a (walk_head _ _ _ _ hwalk)
    rw [h2] at hnd1
    cases hnd1
    simp only [field_set_keys] at hk
    rw [hk]
    exact hnodup
  have hcall := CHKRST_call_walk nodes funs hgen (heap_set_son heap a ("FUNDEF", "NEXT") none)
    fuel a l marks hwalk hok
  have hc1 : ¬ ¬ (nd.nodetype = "module" ∨ nd.nodetype = "fundef") :=
    fun h => h (Or.inr htype)
  have hc2 : ¬ ¬ (nd.nodetype = "module" ∨ True) := fun h => h (Or.inr trivial)
  have hget : heap_get_son heap a ("FUNDEF", "NEXT") = some nxt := by
    unfold heap_get_son
    simp only [hnd, hnext]
  unfold CHKRSTdoTreeCheckReset
  simp only [hnd]
  rw [if_neg hc1, if_neg hc2]
  unfold CHKRST_detach
  rw [if_pos htype]
  simp only [hget, hcall]
  unfold CHKRST_restore
  simp only [h2, htype, if_true]
  rw [heap_set_son_restore heap a nd ("FUNDEF", "NEXT") nxt none hnd hkeys hnext]

/-- C20: let `a` be a `Fundef` node of a chain of function definitions, `nxt` its
`Next` field, and `l` the nodes under `a` once `Next` is detached (the subtree of the
definition itself), all with the sons their types declare.  With
`global.local_funs_grouped` set (the assertion of the driver) the generated
`CHKRSTdoTreeCheckReset` returns `a`; on return the heap is what it was, so the `Next`
field of `a` is `nxt` again; the visited marker of every node of `l` is cleared and
the marker of every node outside `l` (the other definitions of the chain and their
subtrees) is what it was. -/
theorem CHKRSTdoTreeCheckReset_scope (nodes : List (String × yajl_val))
    (funs : List (String × List ChkrstStmt)) (hgen : gen_check_reset_c nodes = some funs)
    (heap : List node_inst) (marks : List Bool) (fuel a : Nat) (nd : node_inst)
    (nxt : Option Nat) (l : List Nat)
    (hnd : heap[a]? = some nd) (htype : nd.nodetype = "fundef")
    (hnext : field_get nd.sons ("FUNDEF", "NEXT") = some nxt)
    (hwalk : walk (heap_set_son heap a ("FUNDEF", "NEXT") none) fuel a = some l)
    (hok : ∀ c ∈ l, sons_declared nodes (heap_set_son heap a ("FUNDEF", "NEXT") none) c) :
    CHKRSTdoTreeCheckReset true funs fuel a (ChkState.mk heap marks)
        = some (a, ChkState.mk heap (clear_marks marks l))
      ∧ heap_get_son heap a ("FUNDEF", "NEXT") = some nxt
      ∧ (∀ c ∈ l, c < marks.length → (clear_marks marks l)[c]? = some false)
      ∧ (∀ c, c ∉ l → (clear_marks marks l)[c]? = marks[c]?) := by
  refine ⟨CHKRSTdoTreeCheckReset_spec nodes funs hgen heap marks fuel a nd nxt l hnd htype
    hnext hwalk hok, ?_, fun c hc hlt => clear_marks_mem l marks c hc hlt,
    fun c hc => clear_marks_not_mem l marks c hc⟩
  unfold heap_get_son
  simp only [hnd, hnext]

theorem CHKRSTdoTreeCheckReset_scope_witness :
    gen_check_reset_c ex_nodes = some ex_CHKRST_funs
      ∧ ex_fundef_chain[1]? = some (ex_fundef_inst (some 4) (some 2))
      ∧ walk (heap_set_son ex_fundef_chain 1 ("FUNDEF", "NEXT") none) 2 1 = some [1, 4]
      ∧ clear_marks [true, true, true, true, true, true] [1, 4]
        = [true, false, true, true, false, true]
      ∧ CHKRSTdoTreeCheckReset true ex_CHKRST_funs 2 1
          (ChkState.mk ex_fundef_chain [true, true, true, true, true, true])
        = some (1, ChkState.mk ex_fundef_chain
            (clear_marks [true, true, true, true, true, true] [1, 4]))
      ∧ heap_get_son ex_fundef_chain 1 ("FUNDEF", "NEXT") = some (some 2)
      ∧ (∀ c ∈ [1, 4], c < [true, true, true, true, true, true].length →
          (clear_marks [true, true, true, true, true, true] [1, 4])[c]? = some false)
      ∧ (∀ c, c ∉ [1, 4] → (clear_marks [true, true, true, true, true, true] [1, 4])[c]?
          = [true, true, true, true, true, true][c]?) :=
  ⟨by decide, rfl, by decide, by decide,
   CHKRSTdoTreeCheckReset_scope ex_nodes ex_CHKRST_funs (by decide) ex_fundef_chain
     [true, true, true, true, true, true] 2 1 (ex_fundef_inst (some 4) (some 2)) (some 2)
     [1, 4] rfl rfl (by decide) (by decide) (by decide)⟩

/-! ## The generated enumerations -/

theorem enum_values_cons_none (k : Nat) (name : String) (rest : List Enumerator) :
    enum_values k (Enumerator.mk name none :: rest) = (name, k) :: enum_values (k + 1) rest :=
  rfl

theorem enum_values_cons_some (k v : Nat) (name : String) (rest : List Enumerator) :
    enum_values k (Enumerator.mk name (some v) :: rest)
      = (name, v) :: enum_values (v + 1) rest :=
  rfl

theorem enum_values_unvalued (f : String × yajl_val → String) (rest : List Enumerator) :
    ∀ (l : List (String × yajl_val)) (k : Nat),
      enum_values k (l.map (fun n => Enumerator.mk (f n) none) ++ rest)
        = (l.enumFrom k).map (fun p => (f p.2, p.1)) ++ enum_values (k + l.length) rest := by
  intro l
  induction l with
  | nil => intro k; rfl
  | cons x xs ih =>
    intro k
    show enum_values k (Enumerator.mk (f x) none
        :: (xs.map (fun n => Enumerator.mk (f n) none) ++ rest)) = _
    rw [enum_values_cons_none, ih (k + 1)]
    have hk : k + 1 + xs.length = k + (x :: xs).length := by
      simp only [List.length_cons]
      omega
    rw [hk]
    rfl

theorem gen_types_nodetype_h_spec (nodes : List (String × yajl_val)) :
    enum_values 0 (gen_types_nodetype_h nodes).nodetype
      = ("N_undefined", 0)
        :: (nodes.enumFrom 1).map (fun p => ("N_" ++ string_tolower p.2.1, p.1)) := by
  have h := enum_values_unvalued (fun n => "N_" ++ string_tolower n.1) [] nodes 1
  rw [List.append_nil] at h
  show enum_values 0 (Enumerator.mk "N_undefined" (some 0)
      :: nodes.map (fun n => Enumerator.mk ("N_" ++ string_tolower n.1) none)) = _
  rw [enum_values_cons_some, h]
  simp [enum_values]

theorem gen_types_trav_h_spec (traversals : List (String × yajl_val)) :
    enum_values 0 (gen_types_trav_h traversals)
      = ("TR_undefined", 0)
        :: ((traversals.enumFrom 1).map (fun p => ("TR_" ++ string_tolower p.2.1, p.1))
          ++ [("TR_anonymous", traversals.length + 1)]) := by
  have h := enum_values_unvalued (fun n => "TR_" ++ string_tolower n.1)
    [Enumerator.mk "TR_anonymous" none] traversals 1
  show enum_values 0 (Enumerator.mk "TR_undefined" (some 0)
      :: (traversals.map (fun n => Enumerator.mk ("TR_" ++ string_tolower n.1) none)
        ++ [Enumerator.mk "TR_anonymous" none])) = _
  rw [enum_values_cons_some, h]
  simp [enum_values, Nat.add_comm]

theorem enumFrom_map_getElem? {α β γ : Type} (f : α → β) (g : Nat → β → γ) :
    ∀ (l : List α) (k i : Nat) (x : α), l[i]? = some x →
      ((l.enumFrom k).map (fun p => g p.1 (f p.2)))[i]? = some (g (k + i) (f x)) := by
  intro l k i x h
  rw [List.getElem?_map, List.getElem?_enumFrom, h]
  rfl

/-- C24: in the `enum` that `gen_types_nodetype_h` writes, `N_undefined` comes first
with the value 0 and is followed by `N_<lower>` for each node in schema order, so the
`k`-th node type (counted from 1) has the enum value `k`; `MAX_NODES` is defined as the
number of node types, which is the value of the last enumerator (the last node type)
and not that value plus one. -/
theorem gen_types_nodetype_h_values (nodes : List (String × yajl_val)) :
    (gen_types_nodetype_h nodes).nodetype.head? = some (Enumerator.mk "N_undefined" (some 0))
      ∧ (gen_types_nodetype_h nodes).nodetype.tail
          = nodes.map (fun n => Enumerator.mk ("N_" ++ string_tolower n.1) none)
      ∧ (enum_values 0 (gen_types_nodetype_h nodes).nodetype)[0]? = some ("N_undefined", 0)
      ∧ (∀ k n, nodes[k]? = some n →
          (enum_values 0 (gen_types_nodetype_h nodes).nodetype)[k + 1]?
            = some ("N_" ++ string_tolower n.1, k + 1))
      ∧ (gen_types_nodetype_h nodes).MAX_NODES = nodes.length
      ∧ ((enum_values 0 (gen_types_nodetype_h nodes).nodetype).getLast?.map Prod.snd
          = some (gen_types_nodetype_h nodes).MAX_NODES)
      ∧ ((enum_values 0 (gen_types_nodetype_h nodes).nodetype).getLast?.map
            (fun p => p.2 + 1)
          ≠ some (gen_types_nodetype_h nodes).MAX_NODES) := by
  have hspec := gen_types_nodetype_h_spec nodes
  have hlast : (enum_values 0 (gen_types_nodetype_h nodes).nodetype).getLast?.map Prod.snd
      = some nodes.length := by
    rw [hspec]
    rcases List.eq_nil_or_concat nodes with h | ⟨l, x, h⟩
    · subst h
      rfl
    · subst h
      simp [List.enumFrom_append, List.getLast?_cons, Nat.add_comm]
  refine ⟨rfl, rfl, ?_, ?_, rfl, hlast, ?_⟩
  · rw [hspec, List.getElem?_cons_zero]
  · intro k n hk
    rw [hspec, List.getElem?_cons_succ]
    have := enumFrom_map_getElem? (fun n : String × yajl_val => "N_" ++ string_tolower n.1)
      (fun (i : Nat) (s : String) => (s, i)) nodes 1 k n hk
    rw [Nat.add_comm 1 k] at this
    exact this
  · intro hc
    cases hl : (enum_values 0 (gen_types_nodetype_h nodes).nodetype).getLast? with
    | none => rw [hl] at hc; cases hc
    | some p =>
      rw [hl] at hc hlast
      simp only [Option.map_some', Option.some.injEq] at hc hlast
      have : (gen_types_nodetype_h nodes).MAX_NODES = nodes.length := rfl
      omega

theorem gen_types_nodetype_h_values_witness :
    enum_values 0 (gen_types_nodetype_h ex_nodes).nodetype
        = [("N_undefined", 0), ("N_fundef", 1), ("N_arg", 2), ("N_id", 3), ("N_typedef", 4)]
      ∧ (gen_types_nodetype_h ex_nodes).MAX_NODES = 4
      ∧ ((gen_types_nodetype_h ex_nodes).nodetype.head? = some (Enumerator.mk "N_undefined" (some 0))
      ∧ (gen_types_nodetype_h ex_nodes).nodetype.tail
          = ex_nodes.map (fun n => Enumerator.mk ("N_" ++ string_tolower n.1) none)
      ∧ (enum_values 0 (gen_types_nodetype_h ex_nodes).nodetype)[0]? = some ("N_undefined", 0)
      ∧ (∀ k n, ex_nodes[k]? = some n →
          (enum_values 0 (gen_types_nodetype_h ex_nodes).nodetype)[k + 1]?
            = some ("N_" ++ string_tolower n.1, k + 1))
      ∧ (gen_types_nodetype_h ex_nodes).MAX_NODES = ex_nodes.length
      ∧ ((enum_values 0 (gen_types_nodetype_h ex_nodes).nodetype).getLast?.map Prod.snd
          = some (gen_types_nodetype_h ex_nodes).MAX_NODES)
      ∧ ((enum_values 0 (gen_types_nodetype_h ex_nodes).nodetype).getLast?.map
            (fun p => p.2 + 1)
          ≠ some (gen_types_nodetype_h ex_nodes).MAX_NODES)) :=
  ⟨by decide, by decide, gen_types_nodetype_h_values ex_nodes⟩

/-- C25: in the `enum` that `gen_types_trav_h` writes, `TR_undefined` comes first with
the value 0, then `TR_<lower>` for each traversal in schema order (the `k`-th, counted
from 1, with the value `k`), and `TR_anonymous` last; for `n` traversals `TR_anonymous`
has the value `n + 1`. -/
theorem gen_types_trav_h_values (traversals : List (String × yajl_val)) :
    gen_types_trav_h traversals
        = Enumerator.mk "TR_undefined" (some 0)
          :: (traversals.map (fun t => Enumerator.mk ("TR_" ++ string_tolower t.1) none)
            ++ [Enumerator.mk "TR_anonymous" none])
      ∧ (enum_values 0 (gen_types_trav_h traversals))[0]? = some ("TR_undefined", 0)
      ∧ (∀ k t, traversals[k]? = some t →
          (enum_values 0 (gen_types_trav_h traversals))[k + 1]?
            = some ("TR_" ++ string_tolower t.1, k + 1))
      ∧ (enum_values 0 (gen_types_trav_h traversals)).getLast?
          = some ("TR_anonymous", traversals.length + 1)
      ∧ (enum_values 0 (gen_types_trav_h traversals)).length = traversals.length + 2 := by
  have hspec := gen_types_trav_h_spec traversals
  refine ⟨rfl, ?_, ?_, ?_, ?_⟩
  · rw [hspec, List.getElem?_cons_zero]
  · intro k t hk
    rw [hspec, List.getElem?_cons_succ]
    have := enumFrom_map_getElem? (fun n : String × yajl_val => "TR_" ++ string_tolower n.1)
      (fun (i : Nat) (s : String) => (s, i)) traversals 1 k t hk
    rw [Nat.add_comm 1 k] at this
    rw [List.getElem?_append_left]
    · exact this
    · rw [List.length_map, List.enumFrom_length]
      exact getElem?_lt traversals k t hk
  · rw [hspec, ← List.cons_append, List.getLast?_append]
    rfl
  · rw [hspec]
    simp

theorem gen_types_trav_h_values_witness :
    enum_values 0 (gen_types_trav_h [("Free", yajl_val.object []), ("Chkm", yajl_val.object [])])
        = [("TR_undefined", 0), ("TR_free", 1), ("TR_chkm", 2), ("TR_anonymous", 3)]
      ∧ (gen_types_trav_h [("Free", yajl_val.object []), ("Chkm", yajl_val.object [])]
        = Enumerator.mk "TR_undefined" (some 0)
          :: ([("Free", yajl_val.object []), ("Chkm", yajl_val.object [])].map (fun t => Enumerator.mk ("TR_" ++ string_tolower t.1) none)
            ++ [Enumerator.mk "TR_anonymous" none])
      ∧ (enum_values 0 (gen_types_trav_h [("Free", yajl_val.object []), ("Chkm", yajl_val.object [])]))[0]? = some ("TR_undefined", 0)
      ∧ (∀ k t, [("Free", yajl_val.object []), ("Chkm", yajl_val.object [])][k]? = some t →
          (enum_values 0 (gen_types_trav_h [("Free", yajl_val.object []), ("Chkm", yajl_val.object [])]))[k + 1]?
            = some ("TR_" ++ string_tolower t.1, k + 1))
      ∧ (enum_values 0 (gen_types_trav_h [("Free", yajl_val.object []), ("Chkm", yajl_val.object [])])).getLast?
          = some ("TR_anonymous", [("Free", yajl_val.object []), ("Chkm", yajl_val.object [])].length + 1)
      ∧ (enum_values 0 (gen_types_trav_h [("Free", yajl_val.object []), ("Chkm", yajl_val.object [])])).length = [("Free", yajl_val.object []), ("Chkm", yajl_val.object [])].length + 2) :=
  ⟨by decide, gen_types_trav_h_values [("Free", yajl_val.object []), ("Chkm", yajl_val.object [])]⟩

/-! ## The generated check functions -/

theorem chkm_attrib_loop (attrtype_names : List attrtype_name) (node_name_upper : String)
    (attribs : List (String × yajl_val))
    (hreg : ∀ e ∈ attribs, (attrib_atn attrtype_names e.2).isSome = true) :
    emit_loop (gen_check_node_c_attrib attrtype_names node_name_upper) attribs
      = some ((attribs.filter (is_touched_attrib attrtype_names)).map
          (fun e => ChkmStmt.touch_attr node_name_upper (string_toupper e.1))) := by
  rw [emit_loop_eq_flatMap _ (fun e =>
    if is_touched_attrib attrtype_names e = true then
      [ChkmStmt.touch_attr node_name_upper (string_toupper e.1)] else [])]
  · rw [flatMap_if_filter]
  · intro e he
    have := hreg e he
    unfold gen_check_node_c_attrib is_touched_attrib attrib_copy_type
    cases h : attrib_atn attrtype_names e.2 with
    | none => rw [h] at this; cases this
    | some atn => cases hc : atn.copy_type <;> simp [hc]

theorem chkm_son_loop (node_name_upper : String) (sons : List (String × yajl_val)) :
    sons.flatMap (gen_check_node_c_son node_name_upper)
      = (sons.filter (fun e => e.1 ≠ "Next")).map
          (fun e => ChkmStmt.chkmtrav_son node_name_upper (string_toupper e.1)) := by
  induction sons with
  | nil => rfl
  | cons x xs ih =>
    rw [List.flatMap_cons, ih]
    unfold gen_check_node_c_son
    by_cases h : x.1 = "Next"
    · simp [h]
    · simp [h]

theorem chkm_body_shape (attrtype_names : List attrtype_name) (node_name : String)
    (node : yajl_val) (hreg : attribs_registered attrtype_names node)
    (hnext : next_son_is_object node) :
    gen_check_node_c_body attrtype_names node_name node
      = some (CHKM_spec node_name node
          ((node_attribs node).filter (is_touched_attrib attrtype_names))) := by
  have hl := chkm_attrib_loop attrtype_names (string_toupper node_name) (node_attribs node) hreg
  have hs := chkm_son_loop (string_toupper node_name) (node_sons node)
  have hn := next_isSome_eq_has_son node hnext
  unfold node_attribs at hl
  unfold node_sons at hs
  unfold gen_check_node_c_body CHKM_spec
  simp only [hl, hs, hn]
  rfl

theorem gen_check_node_c_touches_spec (attrtype_names : List attrtype_name)
    (node_name : String) (node : yajl_val) (hreg : attribs_registered attrtype_names node) :
    (∃ body, gen_check_node_c_body attrtype_names node_name node = some body
        ∧ body.filterMap ChkmStmt.touched_attr
          = ((node_attribs node).filter (is_touched_attrib attrtype_names)).map
              (fun e => (string_toupper node_name, string_toupper e.1)))
      ∧ ∀ e ∈ node_attribs node,
          (attrib_copy_type attrtype_names e = some attr_copy_type.act_node →
            gen_check_node_c_attrib attrtype_names (string_toupper node_name) e
              = some [ChkmStmt.touch_attr (string_toupper node_name) (string_toupper e.1)])
          ∧ (attrib_copy_type attrtype_names e = some attr_copy_type.act_literal
              ∨ attrib_copy_type attrtype_names e = some attr_copy_type.act_function →
            gen_check_node_c_attrib attrtype_names (string_toupper node_name) e = some []) := by
  constructor
  · have hl := chkm_attrib_loop attrtype_names (string_toupper node_name) (node_attribs node)
      hreg
    have hs := chkm_son_loop (string_toupper node_name) (node_sons node)
    unfold node_attribs at hl
    unfold node_sons at hs
    unfold gen_check_node_c_body
    simp only [hl, hs]
    refine ⟨_, rfl, ?_⟩
    simp only [List.filterMap_append, List.filterMap_map]
    have h1 : List.filterMap ChkmStmt.touched_attr
        [ChkmStmt.dbug_enter, ChkmStmt.touch_node, ChkmStmt.chkmtrav_error] = [] := rfl
    have h2 : ∀ c : Prop, ∀ _ : Decidable c, List.filterMap ChkmStmt.touched_attr
        (if c then [ChkmStmt.chkmtrav_son (string_toupper node_name) "NEXT"] else []) = [] := by
      intro c _
      split <;> rfl
    have h3 : List.filterMap ChkmStmt.touched_attr [ChkmStmt.return_arg_node] = [] := rfl
    have h4 : ∀ l : List (String × yajl_val), List.filterMap (ChkmStmt.touched_attr ∘ fun e =>
        ChkmStmt.chkmtrav_son (string_toupper node_name) (string_toupper e.1)) l = [] := by
      intro l
      induction l with
      | nil => rfl
      | cons x xs ih => simp [List.filterMap_cons, ChkmStmt.touched_attr]
    have h5 : ∀ l : List (String × yajl_val), List.filterMap (ChkmStmt.touched_attr ∘ fun e =>
        ChkmStmt.touch_attr (string_toupper node_name) (string_toupper e.1)) l
        = l.map (fun e => (string_toupper node_name, string_toupper e.1)) := by
      intro l
      induction l with
      | nil => rfl
      | cons x xs ih => simpa [List.filterMap_cons, ChkmStmt.touched_attr] using ih
    rw [h1, h2, h3, h4, h5]
    simp [node_attribs]
  · intro e he
    have := hreg e he
    unfold gen_check_node_c_attrib attrib_copy_type
    cases h : attrib_atn attrtype_names e.2 with
    | none => rw [h] at this; cases this
    | some atn => cases hc : atn.copy_type <;> simp [hc]

/-- What the attribute loop of `gen_check_node_c` does: for every node type whose
attributes have registered types, the generated `CHKM<node>` has a touch for every
attribute whose type is of Node disposition, in declaration order, and for no other
attribute. -/
theorem gen_check_node_c_touches (attrtype_names : List attrtype_name)
    (node_name : String) (node : yajl_val) (hreg : attribs_registered attrtype_names node) :
    (∃ body, gen_check_node_c_body attrtype_names node_name node = some body
        ∧ body.filterMap ChkmStmt.touched_attr
          = ((node_attribs node).filter (is_touched_attrib attrtype_names)).map
              (fun e => (string_toupper node_name, string_toupper e.1)))
      ∧ ∀ e ∈ node_attribs node,
          (attrib_copy_type attrtype_names e = some attr_copy_type.act_node →
            gen_check_node_c_attrib attrtype_names (string_toupper node_name) e
              = some [ChkmStmt.touch_attr (string_toupper node_name) (string_toupper e.1)])
          ∧ (attrib_copy_type attrtype_names e = some attr_copy_type.act_literal
              ∨ attrib_copy_type attrtype_names e = some attr_copy_type.act_function →
            gen_check_node_c_attrib attrtype_names (string_toupper node_name) e = some []) :=
  gen_check_node_c_touches_spec attrtype_names node_name node hreg

theorem gen_check_node_c_touches_witness :
    attribs_registered ex_attrtype_names ex_objdef
      ∧ gen_check_node_c_body ex_attrtype_names "Objdef" ex_objdef
        = some [ChkmStmt.dbug_enter, ChkmStmt.touch_node, ChkmStmt.chkmtrav_error,
            ChkmStmt.chkmtrav_son "OBJDEF" "NEXT", ChkmStmt.touch_attr "OBJDEF" "INIT",
            ChkmStmt.touch_attr "OBJDEF" "SPEC", ChkmStmt.chkmtrav_son "OBJDEF" "EXPR",
            ChkmStmt.return_arg_node]
      ∧ ((∃ body, gen_check_node_c_body ex_attrtype_names "Objdef" ex_objdef = some body
          ∧ body.filterMap ChkmStmt.touched_attr
            = ((node_attribs ex_objdef).filter (is_touched_attrib ex_attrtype_names)).map
                (fun e => (string_toupper "Objdef", string_toupper e.1)))
        ∧ ∀ e ∈ node_attribs ex_objdef,
            (attrib_copy_type ex_attrtype_names e = some attr_copy_type.act_node →
              gen_check_node_c_attrib ex_attrtype_names (string_toupper "Objdef") e
                = some [ChkmStmt.touch_attr (string_toupper "Objdef") (string_toupper e.1)])
            ∧ (attrib_copy_type ex_attrtype_names e = some attr_copy_type.act_literal
                ∨ attrib_copy_type ex_attrtype_names e = some attr_copy_type.act_function →
              gen_check_node_c_attrib ex_attrtype_names (string_toupper "Objdef") e
                = some [])) :=
  ⟨by decide, by decide,
   gen_check_node_c_touches ex_attrtype_names "Objdef" ex_objdef (by decide)⟩

/-- C21 fails on the code.  The comment above `gen_check_node_c` says that each
`CHKM<node>` "calls Touch for all attributes", and the spec that the check marks every
Function- or Node-disposition attribute.  The attribute `Name` of the example node
`Objdef` has the type `String`, which is of Function disposition: by the comment and by
the spec `CHKMobjdef` touches it, and touches `NAME`, `INIT`, `DECL` and `SPEC`.  The
attribute loop of `gen_check_node_c` writes nothing for `Name`; the generated
`CHKMobjdef` touches `INIT` and `SPEC` only, the two attributes of Node disposition, and
is not the body with the touches the comment and the spec demand. -/
theorem gen_check_node_c_function_untouched :
    attrib_copy_type ex_attrtype_names ("Name", ex_attr "String")
        = some attr_copy_type.act_function
      ∧ (node_attribs ex_objdef)[0]? = some ("Name", ex_attr "String")
      ∧ is_claimed_touched_attrib ex_attrtype_names ("Name", ex_attr "String") = true
      ∧ ((node_attribs ex_objdef).filter (is_claimed_touched_attrib ex_attrtype_names)).map
          (fun e => ("OBJDEF", string_toupper e.1))
        = [("OBJDEF", "NAME"), ("OBJDEF", "INIT"), ("OBJDEF", "DECL"), ("OBJDEF", "SPEC")]
      ∧ gen_check_node_c_attrib ex_attrtype_names "OBJDEF" ("Name", ex_attr "String")
        = some []
      ∧ (gen_check_node_c_body ex_attrtype_names "Objdef" ex_objdef).map
          (List.filterMap ChkmStmt.touched_attr)
        = some [("OBJDEF", "INIT"), ("OBJDEF", "SPEC")]
      ∧ gen_check_node_c_body ex_attrtype_names "Objdef" ex_objdef
          ≠ some (CHKM_spec "Objdef" ex_objdef
              ((node_attribs ex_objdef).filter (is_claimed_touched_attrib ex_attrtype_names))) :=
  ⟨by decide, rfl, by decide, by decide, by decide, by decide, by decide⟩

/-! ## The order of `CHKM<node>` and of `FREE<node>` -/

theorem free_attribs_visits (attrtype_names : List attrtype_name) (kept : List String)
    (node_name_upper : String) (attribs : List (String × yajl_val)) :
    ∀ v ∈ (FREE_spec_attribs attrtype_names kept node_name_upper attribs).filterMap
        FreeStmt.visit, Visit.is_descent v = false := by
  intro v hv
  obtain ⟨st, hst, hvis⟩ := List.mem_filterMap.1 hv
  unfold FREE_spec_attribs at hst
  obtain ⟨e, _, hst⟩ := List.mem_flatMap.1 hst
  unfold FREE_spec_attrib at hst
  cases h : attrib_atn attrtype_names e.2 with
  | none => simp [h] at hst
  | some atn =>
    simp only [h] at hst
    split at hst
    · simp only [List.mem_singleton] at hst
      subst hst
      simp only [FreeStmt.visit, Option.some.injEq] at hvis
      subst hvis
      rfl
    · simp at hst

theorem free_sons_visits (node_name_upper : String) (sons : List (String × yajl_val)) :
    (FREE_spec_sons node_name_upper sons).filterMap FreeStmt.visit
      = (sons.filter (fun e => e.1 ≠ "Next")).map
          (fun e => Visit.son node_name_upper (string_toupper e.1)) := by
  unfold FREE_spec_sons
  generalize sons.filter (fun e => e.1 ≠ "Next") = l
  induction l with
  | nil => rfl
  | cons x xs ih =>
    rw [List.map_cons, List.filterMap_cons, ih]
    rfl

theorem chkm_sons_visits (node_name_upper : String) (l : List (String × yajl_val)) :
    (l.map (fun e => ChkmStmt.chkmtrav_son node_name_upper (string_toupper e.1))).filterMap
        ChkmStmt.visit
      = l.map (fun e => Visit.son node_name_upper (string_toupper e.1)) := by
  induction l with
  | nil => rfl
  | cons x xs ih =>
    rw [List.map_cons, List.filterMap_cons, ih]
    rfl

theorem chkm_attribs_visits (node_name_upper : String) (l : List (String × yajl_val)) :
    (l.map (fun e => ChkmStmt.touch_attr node_name_upper (string_toupper e.1))).filterMap
        ChkmStmt.visit
      = l.map (fun e => Visit.attr node_name_upper (string_toupper e.1)) := by
  induction l with
  | nil => rfl
  | cons x xs ih =>
    rw [List.map_cons, List.filterMap_cons, ih]
    rfl

theorem gen_check_node_c_order_spec (attrtype_names : List attrtype_name)
    (node_name : String) (node : yajl_val) (hreg : attribs_registered attrtype_names node)
    (hnext : next_son_is_object node) :
    gen_check_node_c_body attrtype_names node_name node
        = some (CHKM_spec node_name node
            ((node_attribs node).filter (is_touched_attrib attrtype_names)))
      ∧ (CHKM_spec node_name node
            ((node_attribs node).filter (is_touched_attrib attrtype_names))).filterMap
          ChkmStmt.visit
        = [Visit.error]
          ++ (if has_son node "Next" then [Visit.son (string_toupper node_name) "NEXT"]
              else [])
          ++ ((node_attribs node).filter (is_touched_attrib attrtype_names)).map
              (fun e => Visit.attr (string_toupper node_name) (string_toupper e.1))
          ++ ((node_sons node).filter (fun e => e.1 ≠ "Next")).map
              (fun e => Visit.son (string_toupper node_name) (string_toupper e.1))
      ∧ ∃ fbody fattrs, gen_free_node_c_body attrtype_names node_name node = some fbody
        ∧ (∀ v ∈ fattrs, Visit.is_descent v = false)
        ∧ fbody.filterMap FreeStmt.visit
          = [Visit.error]
            ++ (if has_son node "Next" then [Visit.son (string_toupper node_name) "NEXT"]
                else [])
            ++ fattrs
            ++ ((node_sons node).filter (fun e => e.1 ≠ "Next")).map
                (fun e => Visit.son (string_toupper node_name) (string_toupper e.1)) := by
  refine ⟨chkm_body_shape attrtype_names node_name node hreg hnext, ?_, ?_⟩
  · unfold CHKM_spec
    simp only [List.filterMap_append, chkm_sons_visits, chkm_attribs_visits]
    have h1 : List.filterMap ChkmStmt.visit
        [ChkmStmt.dbug_enter, ChkmStmt.touch_node, ChkmStmt.chkmtrav_error]
          = [Visit.error] := rfl
    have h3 : List.filterMap ChkmStmt.visit [ChkmStmt.return_arg_node] = [] := rfl
    rw [h1, h3, List.append_nil]
    cases has_son node "Next" <;> rfl
  · have hshape := gen_free_node_c_body_shape attrtype_names node_name node hreg
    rw [next_isSome_eq_has_son node hnext] at hshape
    refine ⟨_, _, hshape, free_attribs_visits attrtype_names
      (if node_name = "Fundef" then fundef_kept_tested else []) (string_toupper node_name)
      (node_attribs node), ?_⟩
    simp only [List.filterMap_append, free_sons_visits]
    have h1 : List.filterMap FreeStmt.visit [FreeStmt.dbug_enter] = [] := rfl
    have h2 : List.filterMap FreeStmt.visit
        (if node_name = "Fundef" then [FreeStmt.zombify] else [FreeStmt.decl_result])
          = [] := by
      split <;> rfl
    have h3 : List.filterMap FreeStmt.visit [FreeStmt.freetrav_error] = [Visit.error] := rfl
    have h4 : List.filterMap FreeStmt.visit
        (if has_son node "Next" = true then
          [FreeStmt.freecond_next (string_toupper node_name)] else [])
          = (if has_son node "Next" = true then
              [Visit.son (string_toupper node_name) "NEXT"] else []) := by
      split <;> rfl
    have h5 : List.filterMap FreeStmt.visit
        (if node_name = "Fundef" then [FreeStmt.return_arg_node]
          else (if has_son node "Next" = true then
              [FreeStmt.result_next (string_toupper node_name)] else [])
            ++ [FreeStmt.memfree, FreeStmt.return_result]) = [] := by
      split
      · rfl
      · split <;> rfl
    rw [h1, h2, h3, h4, h5]
    simp

/-- C22: for a node type whose attributes have registered types and whose son `Next`,
if it has one, is described by a JSON object, the generated `CHKM<node>` touches the
node, descends into `NODE_ERROR`, then into the son `Next` if the type has one, then
performs its attribute touches, then descends into every other son in declaration
order, and returns.  The generated `FREE<node>` of the same node type works on
`NODE_ERROR`, on `Next`, on attributes and on the remaining sons in the same order:
both start with `NODE_ERROR`, have the same descent into `Next` next, then only
attribute sub-operations, and then the same descents into the remaining sons. -/
theorem gen_check_node_c_order (attrtype_names : List attrtype_name)
    (node_name : String) (node : yajl_val) (hreg : attribs_registered attrtype_names node)
    (hnext : next_son_is_object node) :
    gen_check_node_c_body attrtype_names node_name node
        = some (CHKM_spec node_name node
            ((node_attribs node).filter (is_touched_attrib attrtype_names)))
      ∧ (CHKM_spec node_name node
            ((node_attribs node).filter (is_touched_attrib attrtype_names))).filterMap
          ChkmStmt.visit
        = [Visit.error]
          ++ (if has_son node "Next" then [Visit.son (string_toupper node_name) "NEXT"]
              else [])
          ++ ((node_attribs node).filter (is_touched_attrib attrtype_names)).map
              (fun e => Visit.attr (string_toupper node_name) (string_toupper e.1))
          ++ ((node_sons node).filter (fun e => e.1 ≠ "Next")).map
              (fun e => Visit.son (string_toupper node_name) (string_toupper e.1))
      ∧ ∃ fbody fattrs, gen_free_node_c_body attrtype_names node_name node = some fbody
        ∧ (∀ v ∈ fattrs, Visit.is_descent v = false)
        ∧ fbody.filterMap FreeStmt.visit
          = [Visit.error]
            ++ (if has_son node "Next" then [Visit.son (string_toupper node_name) "NEXT"]
                else [])
            ++ fattrs
            ++ ((node_sons node).filter (fun e => e.1 ≠ "Next")).map
                (fun e => Visit.son (string_toupper node_name) (string_toupper e.1)) :=
  gen_check_node_c_order_spec attrtype_names node_name node hreg hnext

theorem gen_check_node_c_order_witness :
    attribs_registered ex_attrtype_names ex_objdef
      ∧ next_son_is_object ex_objdef
      ∧ (gen_check_node_c_body ex_attrtype_names "Objdef" ex_objdef).map
          (List.filterMap ChkmStmt.visit)
        = some [Visit.error, Visit.son "OBJDEF" "NEXT", Visit.attr "OBJDEF" "INIT",
            Visit.attr "OBJDEF" "SPEC", Visit.son "OBJDEF" "EXPR"]
      ∧ (gen_free_node_c_body ex_attrtype_names "Objdef" ex_objdef).map
          (List.filterMap FreeStmt.visit)
        = some [Visit.error, Visit.son "OBJDEF" "NEXT", Visit.attr "OBJDEF" "NAME",
            Visit.attr "OBJDEF" "INIT", Visit.attr "OBJDEF" "DECL",
            Visit.attr "OBJDEF" "SPEC", Visit.son "OBJDEF" "EXPR"]
      ∧ (gen_check_node_c_body ex_attrtype_names "Objdef" ex_objdef
          = some (CHKM_spec "Objdef" ex_objdef
              ((node_attribs ex_objdef).filter (is_touched_attrib ex_attrtype_names)))
        ∧ (CHKM_spec "Objdef" ex_objdef
              ((node_attribs ex_objdef).filter (is_touched_attrib ex_attrtype_names))).filterMap
            ChkmStmt.visit
          = [Visit.error]
            ++ (if has_son ex_objdef "Next" then [Visit.son (string_toupper "Objdef") "NEXT"]
                else [])
            ++ ((node_attribs ex_objdef).filter (is_touched_attrib ex_attrtype_names)).map
                (fun e => Visit.attr (string_toupper "Objdef") (string_toupper e.1))
            ++ ((node_sons ex_objdef).filter (fun e => e.1 ≠ "Next")).map
                (fun e => Visit.son (string_toupper "Objdef") (string_toupper e.1))
        ∧ ∃ fbody fattrs, gen_free_node_c_body ex_attrtype_names "Objdef" ex_objdef
            = some fbody
          ∧ (∀ v ∈ fattrs, Visit.is_descent v = false)
          ∧ fbody.filterMap FreeStmt.visit
            = [Visit.error]
              ++ (if has_son ex_objdef "Next" then
                    [Visit.son (string_toupper "Objdef") "NEXT"] else [])
              ++ fattrs
              ++ ((node_sons ex_objdef).filter (fun e => e.1 ≠ "Next")).map
                  (fun e => Visit.son (string_toupper "Objdef") (string_toupper e.1))) :=
  ⟨by decide, by decide, by decide, by decide,
   gen_check_node_c_order ex_attrtype_names "Objdef" ex_objdef (by decide) (by decide)⟩

/-! ## One sub-operation per declared son -/

theorem count_keyed_one {β : Type} [DecidableEq β] (F : String → String → β)
    (hF : ∀ a b c d, F a b = F c d → a = c ∧ b = d) (NODE : String)
    (l : List (String × yajl_val))
    (hnodup : (l.map (fun e => (NODE, string_toupper e.1))).Nodup)
    (e : String × yajl_val) (he : e ∈ l) :
    (l.map (fun e => F NODE (string_toupper e.1))).count (F NODE (string_toupper e.1)) = 1 := by
  have hinj : Function.Injective (fun k : String × String => F k.1 k.2) := by
    intro k1 k2 h
    obtain ⟨h1, h2⟩ := hF _ _ _ _ h
    exact Prod.ext h1 h2
  have hnd := List.Nodup.map hinj hnodup
  rw [List.map_map] at hnd
  exact List.count_eq_one_of_mem hnd (List.mem_map.2 ⟨e, he, rfl⟩)

theorem count_keyed_zero {β : Type} [DecidableEq β] (F : String → String → β)
    (hF : ∀ a b c d, F a b = F c d → a = c ∧ b = d) (NODE SON : String)
    (l : List (String × yajl_val)) (h : ∀ x ∈ l, string_toupper x.1 ≠ SON) :
    (l.map (fun e => F NODE (string_toupper e.1))).count (F NODE SON) = 0 := by
  apply List.count_eq_zero.2
  intro hmem
  obtain ⟨x, hx, hxe⟩ := List.mem_map.1 hmem
  exact h x hx (hF _ _ _ _ hxe).2

theorem keys_inj (node_name : String) (sons : List (String × yajl_val))
    (hkeys : (declared_keys node_name sons).Nodup) (x y : String × yajl_val)
    (hx : x ∈ sons) (hy : y ∈ sons) (h : string_toupper x.1 = string_toupper y.1) :
    x = y :=
  List.inj_on_of_nodup_map hkeys hx hy (by rw [h])

theorem filter_keys_nodup (node_name : String) (sons : List (String × yajl_val))
    (hkeys : (declared_keys node_name sons).Nodup) (p : String × yajl_val → Bool) :
    ((sons.filter p).map (fun e => (string_toupper node_name, string_toupper e.1))).Nodup :=
  List.Nodup.sublist (List.Sublist.map _ (List.filter_sublist sons)) hkeys

theorem has_son_of_mem (node : yajl_val) (e : String × yajl_val) (he : e ∈ node_sons node)
    (h : e.1 = "Next") : has_son node "Next" = true := by
  unfold has_son
  rw [List.any_eq_true]
  exact ⟨e, he, by simp [h]⟩

theorem mem_of_has_son (node : yajl_val) (h : has_son node "Next" = true) :
    ∃ e ∈ node_sons node, e.1 = "Next" := by
  unfold has_son at h
  rw [List.any_eq_true] at h
  obtain ⟨e, he, h1⟩ := h
  exact ⟨e, he, by simpa using h1⟩

theorem free_attribs_mem (attrtype_names : List attrtype_name) (kept : List String)
    (node_name_upper : String) (attribs : List (String × yajl_val)) (st : FreeStmt)
    (hst : st ∈ FREE_spec_attribs attrtype_names kept node_name_upper attribs) :
    ∃ e T, e ∈ attribs ∧ st = FreeStmt.freeattrib node_name_upper (string_toupper e.1) T := by
  unfold FREE_spec_attribs at hst
  obtain ⟨e, he, hst⟩ := List.mem_flatMap.1 hst
  unfold FREE_spec_attrib at hst
  cases h : attrib_atn attrtype_names e.2 with
  | none => simp [h] at hst
  | some atn =>
    simp only [h] at hst
    split at hst
    · simp only [List.mem_singleton] at hst
      exact ⟨e, atn.name, he, hst⟩
    · simp at hst

theorem upper_Next : string_toupper "Next" = "NEXT" := by decide

theorem free_body_count_son (attrtype_names : List attrtype_name) (node_name : String)
    (node : yajl_val) (SON : String) :
    ([FreeStmt.dbug_enter]
        ++ (if node_name = "Fundef" then [FreeStmt.zombify] else [FreeStmt.decl_result])
        ++ [FreeStmt.freetrav_error]
        ++ (if has_son node "Next" = true
            then [FreeStmt.freecond_next (string_toupper node_name)] else [])
        ++ FREE_spec_attribs attrtype_names
            (if node_name = "Fundef" then fundef_kept_tested else [])
            (string_toupper node_name) (node_attribs node)
        ++ FREE_spec_sons (string_toupper node_name) (node_sons node)
        ++ (if node_name = "Fundef" then [FreeStmt.return_arg_node]
            else (if has_son node "Next" = true
                  then [FreeStmt.result_next (string_toupper node_name)] else [])
              ++ [FreeStmt.memfree, FreeStmt.return_result])).count
        (FreeStmt.freetrav_son (string_toupper node_name) SON)
      = (FREE_spec_sons (string_toupper node_name) (node_sons node)).count
          (FreeStmt.freetrav_son (string_toupper node_name) SON) := by
  have hattr : (FREE_spec_attribs attrtype_names
      (if node_name = "Fundef" then fundef_kept_tested else [])
      (string_toupper node_name) (node_attribs node)).count
        (FreeStmt.freetrav_son (string_toupper node_name) SON) = 0 := by
    apply List.count_eq_zero.2
    intro hmem
    obtain ⟨e, T, _, h⟩ := free_attribs_mem _ _ _ _ _ hmem
    cases h
  simp only [List.count_append, hattr]
  by_cases hF : node_name = "Fundef" <;> by_cases hN : has_son node "Next" = true <;>
    simp [hF, hN, List.count_cons]

theorem free_body_count_next (attrtype_names : List attrtype_name) (node_name : String)
    (node : yajl_val) :
    ([FreeStmt.dbug_enter]
        ++ (if node_name = "Fundef" then [FreeStmt.zombify] else [FreeStmt.decl_result])
        ++ [FreeStmt.freetrav_error]
        ++ (if has_son node "Next" = true
            then [FreeStmt.freecond_next (string_toupper node_name)] else [])
        ++ FREE_spec_attribs attrtype_names
            (if node_name = "Fundef" then fundef_kept_tested else [])
            (string_toupper node_name) (node_attribs node)
        ++ FREE_spec_sons (string_toupper node_name) (node_sons node)
        ++ (if node_name = "Fundef" then [FreeStmt.return_arg_node]
            else (if has_son node "Next" = true
                  then [FreeStmt.result_next (string_toupper node_name)] else [])
              ++ [FreeStmt.memfree, FreeStmt.return_result])).count
        (FreeStmt.freecond_next (string_toupper node_name))
      = if has_son node "Next" = true then 1 else 0 := by
  have hattr : (FREE_spec_attribs attrtype_names
      (if node_name = "Fundef" then fundef_kept_tested else [])
      (string_toupper node_name) (node_attribs node)).count
        (FreeStmt.freecond_next (string_toupper node_name)) = 0 := by
    apply List.count_eq_zero.2
    intro hmem
    obtain ⟨e, T, _, h⟩ := free_attribs_mem _ _ _ _ _ hmem
    cases h
  have hsons : (FREE_spec_sons (string_toupper node_name) (node_sons node)).count
        (FreeStmt.freecond_next (string_toupper node_name)) = 0 := by
    apply List.count_eq_zero.2
    intro hmem
    unfold FREE_spec_sons at hmem
    obtain ⟨e, _, h⟩ := List.mem_map.1 hmem
    cases h
  simp only [List.count_append, hattr, hsons]
  by_cases hF : node_name = "Fundef" <;> by_cases hN : has_son node "Next" = true <;>
    simp [hF, hN, List.count_cons]

theorem chkm_body_count_son (node_name : String) (node : yajl_val)
    (touched : List (String × yajl_val)) (SON : String) :
    (CHKM_spec node_name node touched).count
        (ChkmStmt.chkmtrav_son (string_toupper node_name) SON)
      = (if has_son node "Next" = true ∧ SON = "NEXT" then 1 else 0)
        + (((node_sons node).filter (fun e => e.1 ≠ "Next")).map
            (fun e => ChkmStmt.chkmtrav_son (string_toupper node_name)
              (string_toupper e.1))).count
            (ChkmStmt.chkmtrav_son (string_toupper node_name) SON) := by
  have hattr : (touched.map (fun e => ChkmStmt.touch_attr (string_toupper node_name)
      (string_toupper e.1))).count
        (ChkmStmt.chkmtrav_son (string_toupper node_name) SON) = 0 := by
    apply List.count_eq_zero.2
    intro hmem
    obtain ⟨e, _, h⟩ := List.mem_map.1 hmem
    cases h
  unfold CHKM_spec
  simp only [List.count_append, hattr]
  by_cases hN : has_son node "Next" = true <;> by_cases hS : SON = "NEXT" <;>
    simp [hN, hS, List.count_cons, eq_comm]

theorem gen_son_operations_once_spec
    (attrtype_names : List attrtype_name)
    (node_name : String) (node : yajl_val) (hreg : attribs_registered attrtype_names node)
    (hobj : ∀ e ∈ node_sons node, e.2.type = yajl_type.t_object)
    (hkeys : (declared_keys node_name (node_sons node)).Nodup) :
    ∃ fbody cbody, gen_free_node_c_body attrtype_names node_name node = some fbody
      ∧ gen_check_node_c_body attrtype_names node_name node = some cbody
      ∧ ∀ e ∈ node_sons node,
          cbody.count (ChkmStmt.chkmtrav_son (string_toupper node_name) (string_toupper e.1))
              = 1
            ∧ (e.1 = "Next" →
                fbody.count (FreeStmt.freecond_next (string_toupper node_name)) = 1
                  ∧ fbody.count (FreeStmt.freetrav_son (string_toupper node_name)
                      (string_toupper e.1)) = 0)
            ∧ (e.1 ≠ "Next" →
                fbody.count (FreeStmt.freetrav_son (string_toupper node_name)
                    (string_toupper e.1)) = 1
                  ∧ (string_toupper e.1 = "NEXT" →
                      fbody.count (FreeStmt.freecond_next (string_toupper node_name)) = 0)) := by
  have hnext : next_son_is_object node := fun e he _ => hobj e he
  have hshape := gen_free_node_c_body_shape attrtype_names node_name node hreg
  rw [next_isSome_eq_has_son node hnext] at hshape
  refine ⟨_, _, hshape, chkm_body_shape attrtype_names node_name node hreg hnext, ?_⟩
  intro e he
  have hfilt := filter_keys_nodup node_name (node_sons node) hkeys (fun e => e.1 ≠ "Next")
  have hFinj : ∀ a b c d, FreeStmt.freetrav_son a b = FreeStmt.freetrav_son c d
      → a = c ∧ b = d := by
    intro a b c d h
    cases h
    exact ⟨rfl, rfl⟩
  have hCinj : ∀ a b c d, ChkmStmt.chkmtrav_son a b = ChkmStmt.chkmtrav_son c d
      → a = c ∧ b = d := by
    intro a b c d h
    cases h
    exact ⟨rfl, rfl⟩
  by_cases hN : e.1 = "Next"
  · have hhas := has_son_of_mem node e he hN
    have hup : string_toupper e.1 = "NEXT" := by rw [hN]; exact upper_Next
    have hnone : ∀ x ∈ (node_sons node).filter (fun e => e.1 ≠ "Next"),
        string_toupper x.1 ≠ string_toupper e.1 := by
      intro x hx hxe
      have hx1 := List.mem_filter.1 hx
      have := keys_inj node_name (node_sons node) hkeys x e hx1.1 he hxe
      rw [this] at hx1
      simp [hN] at hx1
    refine ⟨?_, fun _ => ⟨?_, ?_⟩, fun h => absurd hN h⟩
    · rw [chkm_body_count_son, count_keyed_zero ChkmStmt.chkmtrav_son hCinj _ _ _ hnone]
      simp [hhas, hup]
    · rw [free_body_count_next]
      simp [hhas]
    · rw [free_body_count_son]
      unfold FREE_spec_sons
      exact count_keyed_zero FreeStmt.freetrav_son hFinj _ _ _ hnone
  · have hmem : e ∈ (node_sons node).filter (fun e => e.1 ≠ "Next") :=
      List.mem_filter.2 ⟨he, by simp [hN]⟩
    have hno : string_toupper e.1 = "NEXT" → has_son node "Next" = false := by
      intro hup
      cases hh : has_son node "Next" with
      | false => rfl
      | true =>
        obtain ⟨x, hx, hx1⟩ := mem_of_has_son node hh
        have := keys_inj node_name (node_sons node) hkeys e x he hx
          (by rw [hup, hx1]; exact upper_Next.symm)
        rw [this] at hN
        exact absurd hx1 hN
    refine ⟨?_, fun h => absurd h hN, fun _ => ⟨?_, ?_⟩⟩
    · rw [chkm_body_count_son,
        count_keyed_one ChkmStmt.chkmtrav_son hCinj _ _ hfilt e hmem]
      by_cases hup : string_toupper e.1 = "NEXT"
      · simp [hno hup]
      · simp [hup]
    · rw [free_body_count_son]
      unfold FREE_spec_sons
      exact count_keyed_one FreeStmt.freetrav_son hFinj _ _ hfilt e hmem
    · intro hup
      rw [free_body_count_next]
      simp [hno hup]

/-- C30: for a node type (`Fundef` included) whose attributes have registered types,
whose son entries are JSON objects and whose sons have distinct accessor names, and
for every declared son: the generated `FREE<node>` contains exactly one destroy
sub-operation for that son, the stop-marker-guarded `FREECOND` statement if the son is
`Next` and the unguarded `FREETRAV` statement otherwise, and not the other form; the
generated `CHKM<node>` contains exactly one descent into that son. -/
theorem gen_son_operations_once
    (attrtype_names : List attrtype_name)
    (node_name : String) (node : yajl_val) (hreg : attribs_registered attrtype_names node)
    (hobj : ∀ e ∈ node_sons node, e.2.type = yajl_type.t_object)
    (hkeys : (declared_keys node_name (node_sons node)).Nodup) :
    ∃ fbody cbody, gen_free_node_c_body attrtype_names node_name node = some fbody
      ∧ gen_check_node_c_body attrtype_names node_name node = some cbody
      ∧ ∀ e ∈ node_sons node,
          cbody.count (ChkmStmt.chkmtrav_son (string_toupper node_name) (string_toupper e.1))
              = 1
            ∧ (e.1 = "Next" →
                fbody.count (FreeStmt.freecond_next (string_toupper node_name)) = 1
                  ∧ fbody.count (FreeStmt.freetrav_son (string_toupper node_name)
                      (string_toupper e.1)) = 0)
            ∧ (e.1 ≠ "Next" →
                fbody.count (FreeStmt.freetrav_son (string_toupper node_name)
                    (string_toupper e.1)) = 1
                  ∧ (string_toupper e.1 = "NEXT" →
                      fbody.count (FreeStmt.freecond_next (string_toupper node_name)) = 0)) :=
  gen_son_operations_once_spec attrtype_names node_name node hreg hobj hkeys

theorem gen_son_operations_once_witness :
    attribs_registered ex_attrtype_names ex_fundef
      ∧ (∀ e ∈ node_sons ex_fundef, e.2.type = yajl_type.t_object)
      ∧ (declared_keys "Fundef" (node_sons ex_fundef)).Nodup
      ∧ (gen_free_node_c_body ex_attrtype_names "Fundef" ex_fundef).map
          (fun b => (b.count (FreeStmt.freecond_next "FUNDEF"),
            b.count (FreeStmt.freetrav_son "FUNDEF" "BODY"),
            b.count (FreeStmt.freetrav_son "FUNDEF" "NEXT")))
        = some (1, 1, 0)
      ∧ (gen_check_node_c_body ex_attrtype_names "Fundef" ex_fundef).map
          (fun b => (b.count (ChkmStmt.chkmtrav_son "FUNDEF" "NEXT"),
            b.count (ChkmStmt.chkmtrav_son "FUNDEF" "BODY")))
        = some (1, 1)
      ∧ ∃ fbody cbody, gen_free_node_c_body ex_attrtype_names "Fundef" ex_fundef = some fbody
        ∧ gen_check_node_c_body ex_attrtype_names "Fundef" ex_fundef = some cbody
        ∧ ∀ e ∈ node_sons ex_fundef,
            cbody.count (ChkmStmt.chkmtrav_son (string_toupper "Fundef") (string_toupper e.1))
                = 1
              ∧ (e.1 = "Next" →
                  fbody.count (FreeStmt.freecond_next (string_toupper "Fundef")) = 1
                    ∧ fbody.count (FreeStmt.freetrav_son (string_toupper "Fundef")
                        (string_toupper e.1)) = 0)
              ∧ (e.1 ≠ "Next" →
                  fbody.count (FreeStmt.freetrav_son (string_toupper "Fundef")
                      (string_toupper e.1)) = 1
                    ∧ (string_toupper e.1 = "NEXT" →
                        fbody.count (FreeStmt.freecond_next (string_toupper "Fundef"))
                          = 0)) :=
  ⟨by decide, by decide, by decide, by decide, by decide,
   gen_son_operations_once ex_attrtype_names "Fundef" ex_fundef (by decide) (by decide)
     (by decide)⟩

/-! ## The assignments of a `SHLPmakeNodeVa` case -/

theorem make_attribs_assigned (attrtype_names : List attrtype_name) (node_name_upper : String)
    (attribs : List (String × yajl_val)) :
    (attribs.map (fun e =>
        if attrib_persisted attrtype_names e = true then
          MakeStmt.attr_va_arg node_name_upper (string_toupper e.1)
            (attrib_va_type attrtype_names e)
        else
          MakeStmt.attr_init node_name_upper (string_toupper e.1)
            (attrib_init attrtype_names e))).filterMap MakeStmt.assigned
      = attribs.map (fun e => Slot.attr node_name_upper (string_toupper e.1)) := by
  induction attribs with
  | nil => rfl
  | cons x xs ih =>
    rw [List.map_cons, List.filterMap_cons, ih, List.map_cons]
    by_cases h : attrib_persisted attrtype_names x = true
    · simp [h, MakeStmt.assigned]
    · simp [h, MakeStmt.assigned]

theorem make_sons_assigned (node_name_upper : String) (l : List (String × yajl_val)) :
    (l.map (fun e => MakeStmt.son_va_arg node_name_upper (string_toupper e.1))).filterMap
        MakeStmt.assigned
      = l.map (fun e => Slot.son node_name_upper (string_toupper e.1)) := by
  induction l with
  | nil => rfl
  | cons x xs ih =>
    rw [List.map_cons, List.filterMap_cons, ih]
    rfl

theorem make_flags_assigned (node_name_upper : String) (l : List (String × yajl_val)) :
    (l.map (fun e => MakeStmt.flag_va_arg node_name_upper (string_toupper e.1))).filterMap
        MakeStmt.assigned
      = l.map (fun e => Slot.flag node_name_upper (string_toupper e.1)) := by
  induction l with
  | nil => rfl
  | cons x xs ih =>
    rw [List.map_cons, List.filterMap_cons, ih]
    rfl

theorem MAKE_step_args (eval_init : String → attr_value) (node_type : String)
    (sfile lineno col : Nat) (s s1 : MakeState) :
    (∀ NODE ATTR init,
        MAKE_step eval_init node_type sfile lineno col (MakeStmt.attr_init NODE ATTR init) s
          = some s1 → s1.args = s.args)
      ∧ (∀ NODE ATTR type,
        MAKE_step eval_init node_type sfile lineno col (MakeStmt.attr_va_arg NODE ATTR type) s
          = some s1 → ∃ v, s.args = v :: s1.args)
      ∧ (∀ NODE SON,
        MAKE_step eval_init node_type sfile lineno col (MakeStmt.son_va_arg NODE SON) s
          = some s1 → ∃ v, s.args = v :: s1.args)
      ∧ (∀ NODE FLAG,
        MAKE_step eval_init node_type sfile lineno col (MakeStmt.flag_va_arg NODE FLAG) s
          = some s1 → ∃ v, s.args = v :: s1.args) := by
  obtain ⟨x, args, heap⟩ := s
  refine ⟨?_, ?_, ?_, ?_⟩
  · intro NODE ATTR init h
    cases x with
    | none => simp [MAKE_step] at h
    | some p =>
      cases hp : heap[p]? with
      | none => simp [MAKE_step, hp] at h
      | some nd =>
        simp only [MAKE_step, hp, Option.some.injEq] at h
        subst h
        rfl
  · intro NODE ATTR type h
    cases x with
    | none => simp [MAKE_step] at h
    | some p =>
      cases args with
      | nil => simp [MAKE_step] at h
      | cons v rest =>
        cases hp : heap[p]? with
        | none => simp [MAKE_step, hp] at h
        | some nd =>
          simp only [MAKE_step, hp, Option.some.injEq] at h
          subst h
          exact ⟨v, rfl⟩
  · intro NODE SON h
    cases x with
    | none => simp [MAKE_step] at h
    | some p =>
      cases args with
      | nil => simp [MAKE_step] at h
      | cons v rest =>
        cases v with
        | data d => simp [MAKE_step] at h
        | ptr q =>
          cases hp : heap[p]? with
          | none => simp [MAKE_step, hp] at h
          | some nd =>
            simp only [MAKE_step, hp, Option.some.injEq] at h
            subst h
            exact ⟨_, rfl⟩
  · intro NODE FLAG h
    cases x with
    | none => simp [MAKE_step] at h
    | some p =>
      cases args with
      | nil => simp [MAKE_step] at h
      | cons v rest =>
        cases v with
        | ptr q => simp [MAKE_step] at h
        | data d =>
          cases hp : heap[p]? with
          | none => simp [MAKE_step, hp] at h
          | some nd =>
            simp only [MAKE_step, hp, Option.some.injEq] at h
            subst h
            exact ⟨_, rfl⟩

theorem flatMap_ite_singleton {α β : Type} (p : α → Prop) [DecidablePred p] (f g : α → β)
    (l : List α) :
    l.flatMap (fun e => if p e then [f e] else [g e])
      = l.map (fun e => if p e then f e else g e) := by
  induction l with
  | nil => rfl
  | cons x xs ih =>
    rw [List.flatMap_cons, ih, List.map_cons]
    by_cases hp : p x
    · simp only [hp, if_true]
      rfl
    · simp only [hp, if_false]
      rfl

theorem make_spec_shape (attrtype_names : List attrtype_name) (node_name : String)
    (node : yajl_val) (hreg : attribs_registered attrtype_names node) :
    gen_serialize_helper_c_case attrtype_names node_name node
      = some (MAKE_spec attrtype_names node_name node) := by
  rw [make_body_shape attrtype_names node_name node hreg, flatMap_ite_singleton]
  rfl

theorem SHLPmakeNodeVa_assigns_spec
    (attrtype_names : List attrtype_name)
    (node_name : String) (node : yajl_val) (hreg : attribs_registered attrtype_names node) :
    gen_serialize_helper_c_case attrtype_names node_name node
        = some (MAKE_spec attrtype_names node_name node)
      ∧ (MAKE_spec attrtype_names node_name node).filterMap MakeStmt.assigned
        = (node_attribs node).map
            (fun e => Slot.attr (string_toupper node_name) (string_toupper e.1))
          ++ (node_sons node).map
            (fun e => Slot.son (string_toupper node_name) (string_toupper e.1))
          ++ (node_flags node).map
            (fun e => Slot.flag (string_toupper node_name) (string_toupper e.1))
      ∧ ∀ (eval_init : String → attr_value) (node_type : String) (sfile lineno col : Nat)
          (s s1 : MakeState),
          (∀ NODE ATTR init,
            MAKE_step eval_init node_type sfile lineno col (MakeStmt.attr_init NODE ATTR init) s
              = some s1 → s1.args = s.args)
          ∧ (∀ NODE ATTR type,
            MAKE_step eval_init node_type sfile lineno col
                (MakeStmt.attr_va_arg NODE ATTR type) s
              = some s1 → ∃ v, s.args = v :: s1.args)
          ∧ (∀ NODE SON,
            MAKE_step eval_init node_type sfile lineno col (MakeStmt.son_va_arg NODE SON) s
              = some s1 → ∃ v, s.args = v :: s1.args)
          ∧ (∀ NODE FLAG,
            MAKE_step eval_init node_type sfile lineno col (MakeStmt.flag_va_arg NODE FLAG) s
              = some s1 → ∃ v, s.args = v :: s1.args) := by
  refine ⟨make_spec_shape attrtype_names node_name node hreg, ?_, ?_⟩
  · unfold MAKE_spec
    simp only [List.filterMap_append, make_attribs_assigned, make_sons_assigned,
      make_flags_assigned]
    have e0 : [MakeStmt.alloc (string_toupper node_name)].filterMap MakeStmt.assigned = [] :=
      rfl
    have e1 : (if (node_sons node).length ≠ 0 then
        [MakeStmt.set_sons (string_tolower node_name) (string_toupper node_name)]
        else []).filterMap MakeStmt.assigned = [] := by split <;> rfl
    have e2 : (if (node_flags node).length ≠ 0 ∨ (node_attribs node).length ≠ 0 then
        [MakeStmt.set_attribs (string_tolower node_name) (string_toupper node_name)]
        else []).filterMap MakeStmt.assigned = [] := by split <;> rfl
    have e3 : [MakeStmt.break_].filterMap MakeStmt.assigned = [] := rfl
    rw [e0, e1, e2, e3]
    simp
  · intro eval_init node_type sfile lineno col s s1
    exact MAKE_step_args eval_init node_type sfile lineno col s s1

/-- C26: for a node type whose attributes have registered types, the case generated
for it in `SHLPmakeNodeVa` assigns, after the allocation, every declared attribute
exactly once and in declaration order, with `va_arg` (the next stream argument) if the
type of the attribute is persisted and with the default initializer of the type
otherwise; after the attributes it assigns every son and then every flag exactly once,
each with `va_arg`.  An assignment from the initializer leaves the stream arguments as
they are; an assignment with `va_arg` takes the first of them. -/
theorem SHLPmakeNodeVa_assigns
    (attrtype_names : List attrtype_name)
    (node_name : String) (node : yajl_val) (hreg : attribs_registered attrtype_names node) :
    gen_serialize_helper_c_case attrtype_names node_name node
        = some (MAKE_spec attrtype_names node_name node)
      ∧ (MAKE_spec attrtype_names node_name node).filterMap MakeStmt.assigned
        = (node_attribs node).map
            (fun e => Slot.attr (string_toupper node_name) (string_toupper e.1))
          ++ (node_sons node).map
            (fun e => Slot.son (string_toupper node_name) (string_toupper e.1))
          ++ (node_flags node).map
            (fun e => Slot.flag (string_toupper node_name) (string_toupper e.1))
      ∧ ∀ (eval_init : String → attr_value) (node_type : String) (sfile lineno col : Nat)
          (s s1 : MakeState),
          (∀ NODE ATTR init,
            MAKE_step eval_init node_type sfile lineno col (MakeStmt.attr_init NODE ATTR init) s
              = some s1 → s1.args = s.args)
          ∧ (∀ NODE ATTR type,
            MAKE_step eval_init node_type sfile lineno col
                (MakeStmt.attr_va_arg NODE ATTR type) s
              = some s1 → ∃ v, s.args = v :: s1.args)
          ∧ (∀ NODE SON,
            MAKE_step eval_init node_type sfile lineno col (MakeStmt.son_va_arg NODE SON) s
              = some s1 → ∃ v, s.args = v :: s1.args)
          ∧ (∀ NODE FLAG,
            MAKE_step eval_init node_type sfile lineno col (MakeStmt.flag_va_arg NODE FLAG) s
              = some s1 → ∃ v, s.args = v :: s1.args) :=
  SHLPmakeNodeVa_assigns_spec attrtype_names node_name node hreg

theorem SHLPmakeNodeVa_assigns_witness :
    attribs_registered ex_attrtype_names ex_fundef
      ∧ gen_serialize_helper_c_case ex_attrtype_names "Fundef" ex_fundef
        = some [MakeStmt.alloc "FUNDEF", MakeStmt.set_sons "fundef" "FUNDEF",
            MakeStmt.set_attribs "fundef" "FUNDEF",
            MakeStmt.attr_va_arg "FUNDEF" "NAME" "char *",
            MakeStmt.attr_va_arg "FUNDEF" "IMPL" "node *",
            MakeStmt.attr_init "FUNDEF" "DFM" "NULL",
            MakeStmt.attr_va_arg "FUNDEF" "LINE" "int",
            MakeStmt.son_va_arg "FUNDEF" "BODY", MakeStmt.son_va_arg "FUNDEF" "NEXT",
            MakeStmt.flag_va_arg "FUNDEF" "ISINLINE", MakeStmt.break_]
      ∧ (gen_serialize_helper_c_case ex_attrtype_names "Fundef" ex_fundef
          = some (MAKE_spec ex_attrtype_names "Fundef" ex_fundef)
        ∧ (MAKE_spec ex_attrtype_names "Fundef" ex_fundef).filterMap MakeStmt.assigned
          = (node_attribs ex_fundef).map
              (fun e => Slot.attr (string_toupper "Fundef") (string_toupper e.1))
            ++ (node_sons ex_fundef).map
              (fun e => Slot.son (string_toupper "Fundef") (string_toupper e.1))
            ++ (node_flags ex_fundef).map
              (fun e => Slot.flag (string_toupper "Fundef") (string_toupper e.1))
        ∧ ∀ (eval_init : String → attr_value) (node_type : String) (sfile lineno col : Nat)
            (s s1 : MakeState),
            (∀ NODE ATTR init,
              MAKE_step eval_init node_type sfile lineno col
                  (MakeStmt.attr_init NODE ATTR init) s
                = some s1 → s1.args = s.args)
            ∧ (∀ NODE ATTR type,
              MAKE_step eval_init node_type sfile lineno col
                  (MakeStmt.attr_va_arg NODE ATTR type) s
                = some s1 → ∃ v, s.args = v :: s1.args)
            ∧ (∀ NODE SON,
              MAKE_step eval_init node_type sfile lineno col (MakeStmt.son_va_arg NODE SON) s
                = some s1 → ∃ v, s.args = v :: s1.args)
            ∧ (∀ NODE FLAG,
              MAKE_step eval_init node_type sfile lineno col
                  (MakeStmt.flag_va_arg NODE FLAG) s
                = some s1 → ∃ v, s.args = v :: s1.args)) :=
  ⟨by decide, by decide,
   SHLPmakeNodeVa_assigns ex_attrtype_names "Fundef" ex_fundef (by decide)⟩

/-! ## What decides whether an attribute is sent -/

theorem attrib_atn_of_type (attrtype_names : List attrtype_name) (v w : yajl_val)
    (h : attrib_type_name v = attrib_type_name w) :
    attrib_atn attrtype_names v = attrib_atn attrtype_names w := by
  unfold attrib_atn
  rw [h]

theorem attrib_sent_by_type_spec (attrtype_names : List attrtype_name)
    (node_name_upper : String) (e : String × yajl_val) (atn : attrtype_name)
    (hatn : attrib_atn attrtype_names e.2 = some atn) :
    (atn.persist = true →
        gen_serialize_node_c_attrib attrtype_names node_name_upper e
            = some [SetStmt.write_comma,
                SetStmt.sat_serialize atn.name node_name_upper (string_toupper e.1)]
          ∧ gen_serialize_helper_c_attrib attrtype_names node_name_upper e
            = some [MakeStmt.attr_va_arg node_name_upper (string_toupper e.1)
                (va_arg_type atn)])
      ∧ (atn.persist = false →
        gen_serialize_node_c_attrib attrtype_names node_name_upper e = some []
          ∧ gen_serialize_helper_c_attrib attrtype_names node_name_upper e
            = some [MakeStmt.attr_init node_name_upper (string_toupper e.1) atn.init])
      ∧ ∀ v : yajl_val, attrib_type_name v = attrib_type_name e.2 →
          gen_serialize_node_c_attrib attrtype_names node_name_upper (e.1, v)
              = gen_serialize_node_c_attrib attrtype_names node_name_upper e
            ∧ gen_serialize_helper_c_attrib attrtype_names node_name_upper (e.1, v)
              = gen_serialize_helper_c_attrib attrtype_names node_name_upper e := by
  refine ⟨?_, ?_, ?_⟩
  · intro hp
    unfold gen_serialize_node_c_attrib gen_serialize_helper_c_attrib
    simp [hatn, hp]
  · intro hp
    unfold gen_serialize_node_c_attrib gen_serialize_helper_c_attrib
    simp [hatn, hp]
  · intro v hv
    have := attrib_atn_of_type attrtype_names v e.2 hv
    unfold gen_serialize_node_c_attrib gen_serialize_helper_c_attrib
    rw [this]
    exact ⟨rfl, rfl⟩

/-- C27, as amended: for every node attribute whose type is registered, whether it is
emitted into the Construct record by `SET<node>` and read back by the constructor is
decided by the persisted flag of its AttributeType alone: if the flag is set,
`SET<node>` writes the value and the constructor reads it with `va_arg`; if it is not,
`SET<node>` writes nothing and the constructor assigns the default initializer.  An
entry of the same name and type gets the same statements whatever else the schema
writes in it, so a persisted override of the attribute itself has no effect. -/
theorem attrib_sent_by_type (attrtype_names : List attrtype_name)
    (node_name_upper : String) (e : String × yajl_val) (atn : attrtype_name)
    (hatn : attrib_atn attrtype_names e.2 = some atn) :
    (atn.persist = true →
        gen_serialize_node_c_attrib attrtype_names node_name_upper e
            = some [SetStmt.write_comma,
                SetStmt.sat_serialize atn.name node_name_upper (string_toupper e.1)]
          ∧ gen_serialize_helper_c_attrib attrtype_names node_name_upper e
            = some [MakeStmt.attr_va_arg node_name_upper (string_toupper e.1)
                (va_arg_type atn)])
      ∧ (atn.persist = false →
        gen_serialize_node_c_attrib attrtype_names node_name_upper e = some []
          ∧ gen_serialize_helper_c_attrib attrtype_names node_name_upper e
            = some [MakeStmt.attr_init node_name_upper (string_toupper e.1) atn.init])
      ∧ ∀ v : yajl_val, attrib_type_name v = attrib_type_name e.2 →
          gen_serialize_node_c_attrib attrtype_names node_name_upper (e.1, v)
              = gen_serialize_node_c_attrib attrtype_names node_name_upper e
            ∧ gen_serialize_helper_c_attrib attrtype_names node_name_upper (e.1, v)
              = gen_serialize_helper_c_attrib attrtype_names node_name_upper e :=
  attrib_sent_by_type_spec attrtype_names node_name_upper e atn hatn

theorem attrib_sent_by_type_witness :
    attrib_atn ex_attrtype_names ex_attr_override_true
        = some (attrtype_name.mk "DFMask" "dfmask_t *" (some "void *") "NULL"
            attr_copy_type.act_function false)
      ∧ ((false = true →
          gen_serialize_node_c_attrib ex_attrtype_names "FUNDEF" ("Dfm", ex_attr_override_true)
              = some [SetStmt.write_comma,
                  SetStmt.sat_serialize "DFMask" "FUNDEF" (string_toupper "Dfm")]
            ∧ gen_serialize_helper_c_attrib ex_attrtype_names "FUNDEF"
                ("Dfm", ex_attr_override_true)
              = some [MakeStmt.attr_va_arg "FUNDEF" (string_toupper "Dfm")
                  (va_arg_type (attrtype_name.mk "DFMask" "dfmask_t *" (some "void *") "NULL"
                    attr_copy_type.act_function false))])
        ∧ (false = false →
          gen_serialize_node_c_attrib ex_attrtype_names "FUNDEF" ("Dfm", ex_attr_override_true)
              = some []
            ∧ gen_serialize_helper_c_attrib ex_attrtype_names "FUNDEF"
                ("Dfm", ex_attr_override_true)
              = some [MakeStmt.attr_init "FUNDEF" (string_toupper "Dfm") "NULL"])
        ∧ ∀ v : yajl_val, attrib_type_name v = attrib_type_name ex_attr_override_true →
            gen_serialize_node_c_attrib ex_attrtype_names "FUNDEF" ("Dfm", v)
                = gen_serialize_node_c_attrib ex_attrtype_names "FUNDEF"
                    ("Dfm", ex_attr_override_true)
              ∧ gen_serialize_helper_c_attrib ex_attrtype_names "FUNDEF" ("Dfm", v)
                = gen_serialize_helper_c_attrib ex_attrtype_names "FUNDEF"
                    ("Dfm", ex_attr_override_true)) :=
  ⟨by decide,
   attrib_sent_by_type ex_attrtype_names "FUNDEF" ("Dfm", ex_attr_override_true)
     (attrtype_name.mk "DFMask" "dfmask_t *" (some "void *") "NULL"
       attr_copy_type.act_function false) (by decide)⟩

/-- C27, counterexample: an attribute entry of the type `DFMask`, whose persisted flag
is not set, that carries its own `persist: true`: `SET<node>` writes nothing for it and
the constructor assigns the default initializer, as for the entry without the key.  An
attribute entry of the persisted type `String` that carries its own `persist: false`
is written by `SET<node>` and read back with `va_arg`. -/
theorem attrib_override_not_read :
    yajl_tree_get (some ex_attr_override_true) ["persist"] yajl_type.t_true = some yajl_val.true_
      ∧ gen_serialize_node_c_attrib ex_attrtype_names "FUNDEF" ("Dfm", ex_attr_override_true)
        = some []
      ∧ gen_serialize_helper_c_attrib ex_attrtype_names "FUNDEF" ("Dfm", ex_attr_override_true)
        = some [MakeStmt.attr_init "FUNDEF" "DFM" "NULL"]
      ∧ yajl_tree_get (some ex_attr_override_false) ["persist"] yajl_type.t_false
        = some yajl_val.false_
      ∧ gen_serialize_node_c_attrib ex_attrtype_names "FUNDEF" ("Name", ex_attr_override_false)
        = some [SetStmt.write_comma, SetStmt.sat_serialize "String" "FUNDEF" "NAME"]
      ∧ gen_serialize_helper_c_attrib ex_attrtype_names "FUNDEF"
          ("Name", ex_attr_override_false)
        = some [MakeStmt.attr_va_arg "FUNDEF" "NAME" "char *"] :=
  ⟨rfl, by decide, by decide, rfl, by decide, by decide⟩

/-! ## The generated layout structures -/

theorem forall₂_mem_right {α β : Type} (R : α → β → Prop) :
    ∀ (l1 : List α) (l2 : List β), List.Forall₂ R l1 l2 → ∀ b ∈ l2, ∃ a ∈ l1, R a b := by
  intro l1 l2 h
  induction h with
  | nil => intro b hb; cases hb
  | cons hab _ ih =>
    intro b hb
    rcases List.mem_cons.1 hb with h1 | h1
    · subst h1
      exact ⟨_, List.mem_cons_self _ _, hab⟩
    · obtain ⟨a, ha, hr⟩ := ih b h1
      exact ⟨a, List.mem_cons_of_mem _ ha, hr⟩

theorem attribs_h_attrib_loop (attrtype_names : List attrtype_name)
    (attribs : List (String × yajl_val))
    (hreg : ∀ e ∈ attribs, (attrib_atn attrtype_names e.2).isSome = true) :
    ∃ members, emit_loop (gen_attribs_h_attrib attrtype_names) attribs = some members := by
  refine ⟨_, emit_loop_eq_flatMap _ (fun e =>
    match attrib_atn attrtype_names e.2 with
    | none => []
    | some atn => [(MemberType.plain atn.ctype, e.1)]) attribs ?_⟩
  intro e he
  have := hreg e he
  unfold gen_attribs_h_attrib
  cases h : attrib_atn attrtype_names e.2 with
  | none => rw [h] at this; cases this
  | some atn => simp [h]

theorem attribs_h_struct_shape (attrtype_names : List attrtype_name) (node_name : String)
    (node : yajl_val) (hreg : attribs_registered attrtype_names node) :
    ∃ members, gen_attribs_h_struct attrtype_names node_name node
      = some (if (node_flags node).length = 0 ∧ (node_attribs node).length = 0 then none
          else some (StructDef.mk ("ATTRIBS_N_" ++ string_toupper node_name) members
            ((node_flags node).map Prod.fst))) := by
  obtain ⟨members, hm⟩ := attribs_h_attrib_loop attrtype_names (node_attribs node) hreg
  refine ⟨members, ?_⟩
  unfold node_attribs at hm
  unfold gen_attribs_h_struct node_flags node_attribs
  simp only [hm]
  split <;> rfl

theorem gen_attribs_h_shape (attrtype_names : List attrtype_name)
    (nodes : List (String × yajl_val)) (hreg : schema_registered attrtype_names nodes) :
    gen_attribs_h attrtype_names nodes
      = some (attribs_h.mk
          (nodes.flatMap (fun n =>
            match gen_attribs_h_struct attrtype_names n.1 n.2 with
            | some (some d) => [d]
            | _ => []))
          (nodes.filterMap (fun n => gen_attribs_h_member n.1 n.2))) := by
  unfold gen_attribs_h
  rw [emit_loop_eq_flatMap _ (fun n =>
    match gen_attribs_h_struct attrtype_names n.1 n.2 with
    | some (some d) => [d]
    | _ => [])]
  intro n hn
  obtain ⟨members, hm⟩ := attribs_h_struct_shape attrtype_names n.1 n.2 (hreg n hn)
  rw [hm]
  by_cases hc : (node_flags n.2).length = 0 ∧ (node_attribs n.2).length = 0
  · rw [if_pos hc]
  · rw [if_neg hc]

theorem make_cases_mem (attrtype_names : List attrtype_name)
    (nodes : List (String × yajl_val)) (hreg : schema_registered attrtype_names nodes) :
    ∃ cases, gen_serialize_helper_c_make attrtype_names nodes = some cases
      ∧ ∀ c ∈ cases, ∃ n ∈ nodes, c.2 = MAKE_spec attrtype_names n.1 n.2 := by
  obtain ⟨out, hout, hall⟩ := node_loop_forall₂ (fun node_name => "N_" ++ string_tolower node_name)
    (gen_serialize_helper_c_case attrtype_names) nodes (by
      intro n hn
      rw [make_spec_shape attrtype_names n.1 n.2 (hreg n hn)]
      rfl)
  refine ⟨out, hout, ?_⟩
  intro c hc
  obtain ⟨n, hn, _, h2⟩ := forall₂_mem_right _ _ _ hall c hc
  rw [make_spec_shape attrtype_names n.1 n.2 (hreg n hn)] at h2
  exact ⟨n, hn, (Option.some.inj h2).symm⟩

theorem make_spec_mem (attrtype_names : List attrtype_name) (node_name : String)
    (node : yajl_val) (st : MakeStmt) (hst : st ∈ MAKE_spec attrtype_names node_name node) :
    st = MakeStmt.alloc (string_toupper node_name)
      ∨ (st = MakeStmt.set_sons (string_tolower node_name) (string_toupper node_name)
          ∧ (node_sons node).length ≠ 0)
      ∨ (st = MakeStmt.set_attribs (string_tolower node_name) (string_toupper node_name)
          ∧ ((node_flags node).length ≠ 0 ∨ (node_attribs node).length ≠ 0))
      ∨ st.struct_refs = [] := by
  unfold MAKE_spec at hst
  simp only [List.mem_append] at hst
  rcases hst with (((((h | h) | h) | h) | h) | h) | h
  · left
    simpa using h
  · right; left
    split at h
    · rename_i hc
      exact ⟨by simpa using h, hc⟩
    · cases h
  · right; right; left
    split at h
    · rename_i hc
      exact ⟨by simpa using h, hc⟩
    · cases h
  · right; right; right
    obtain ⟨e, _, he⟩ := List.mem_map.1 h
    subst he
    split <;> rfl
  · right; right; right
    obtain ⟨e, _, he⟩ := List.mem_map.1 h
    subst he
    rfl
  · right; right; right
    obtain ⟨e, _, he⟩ := List.mem_map.1 h
    subst he
    rfl
  · right; right; right
    have : st = MakeStmt.break_ := by simpa using h
    subst this
    rfl

theorem make_spec_set_sons (attrtype_names : List attrtype_name) (node_name : String)
    (node : yajl_val) :
    MakeStmt.set_sons (string_tolower node_name) (string_toupper node_name)
        ∈ MAKE_spec attrtype_names node_name node
      ↔ (node_sons node).length ≠ 0 := by
  constructor
  · intro h
    rcases make_spec_mem attrtype_names node_name node _ h with h1 | h1 | h1 | h1
    · cases h1
    · exact h1.2
    · cases h1.1
    · cases h1
  · intro h
    unfold MAKE_spec
    simp only [List.mem_append]
    left; left; left; left; left; right
    rw [if_pos h]
    exact List.mem_singleton.2 rfl

theorem make_spec_set_attribs (attrtype_names : List attrtype_name) (node_name : String)
    (node : yajl_val) :
    MakeStmt.set_attribs (string_tolower node_name) (string_toupper node_name)
        ∈ MAKE_spec attrtype_names node_name node
      ↔ ((node_flags node).length ≠ 0 ∨ (node_attribs node).length ≠ 0) := by
  constructor
  · intro h
    rcases make_spec_mem attrtype_names node_name node _ h with h1 | h1 | h1 | h1
    · cases h1
    · cases h1.1
    · exact h1.2
    · cases h1
  · intro h
    unfold MAKE_spec
    simp only [List.mem_append]
    left; left; left; left; right
    rw [if_pos h]
    exact List.mem_singleton.2 rfl

theorem sons_struct_defined (nodes : List (String × yajl_val)) (n : String × yajl_val)
    (hn : n ∈ nodes) (h : (node_sons n.2).length ≠ 0) :
    "SONS_N_" ++ string_toupper n.1 ∈ (gen_sons_h nodes).structs.map StructDef.tag := by
  apply List.mem_map.2
  refine ⟨StructDef.mk ("SONS_N_" ++ string_toupper n.1)
    ((node_sons n.2).map (fun e => (MemberType.plain "node *", e.1))) [], ?_, rfl⟩
  unfold gen_sons_h
  apply List.mem_filterMap.2
  refine ⟨n, hn, ?_⟩
  unfold gen_sons_h_struct
  unfold node_sons at h
  simp only [h, if_false]
  rfl

theorem attribs_struct_defined (attrtype_names : List attrtype_name)
    (nodes : List (String × yajl_val)) (hreg : schema_registered attrtype_names nodes)
    (ah : attribs_h) (hah : gen_attribs_h attrtype_names nodes = some ah)
    (n : String × yajl_val) (hn : n ∈ nodes)
    (h : (node_flags n.2).length ≠ 0 ∨ (node_attribs n.2).length ≠ 0) :
    "ATTRIBS_N_" ++ string_toupper n.1 ∈ ah.structs.map StructDef.tag := by
  rw [gen_attribs_h_shape attrtype_names nodes hreg] at hah
  have hah1 := Option.some.inj hah
  subst hah1
  obtain ⟨members, hm⟩ := attribs_h_struct_shape attrtype_names n.1 n.2 (hreg n hn)
  have hc : ¬ ((node_flags n.2).length = 0 ∧ (node_attribs n.2).length = 0) := by
    rintro ⟨h1, h2⟩
    rcases h with h | h
    · exact h h1
    · exact h h2
  rw [if_neg hc] at hm
  apply List.mem_map.2
  refine ⟨StructDef.mk ("ATTRIBS_N_" ++ string_toupper n.1) members
    ((node_flags n.2).map Prod.fst), ?_, rfl⟩
  apply List.mem_flatMap.2
  refine ⟨n, hn, ?_⟩
  rw [hm]
  exact List.mem_singleton.2 rfl

theorem not_zero_and_iff (a b : Nat) : ¬ (a = 0 ∧ b = 0) ↔ (a ≠ 0 ∨ b ≠ 0) := by
  omega

theorem gen_sons_h_struct_eq (node_name : String) (node : yajl_val) :
    gen_sons_h_struct node_name node
      = if (node_sons node).length = 0 then none
        else some (StructDef.mk ("SONS_N_" ++ string_toupper node_name)
          ((node_sons node).map (fun e => (MemberType.plain "node *", e.1))) []) := rfl

theorem gen_sons_h_member_eq (node_name : String) (node : yajl_val) :
    gen_sons_h_member node_name node
      = if (node_sons node).length = 0 then none
        else some (MemberType.struct_ptr ("SONS_N_" ++ string_toupper node_name),
          "N_" ++ string_tolower node_name) := rfl

theorem gen_attribs_h_member_eq (node_name : String) (node : yajl_val) :
    gen_attribs_h_member node_name node
      = if (node_flags node).length = 0 ∧ (node_attribs node).length = 0 then none
        else some (MemberType.struct_ptr ("ATTRIBS_N_" ++ string_toupper node_name),
          "N_" ++ string_tolower node_name) := rfl

theorem gen_node_alloc_h_struct_eq (node_name : String) (node : yajl_val) :
    (gen_node_alloc_h_struct node_name node).members
      = [(MemberType.plain "node", "nodestructure")]
        ++ (if (node_sons node).length ≠ 0 then
              [(MemberType.struct_ ("SONS_N_" ++ string_toupper node_name), "sonstructure")]
            else [])
        ++ (if (node_flags node).length ≠ 0 ∨ (node_attribs node).length ≠ 0 then
              [(MemberType.struct_ ("ATTRIBS_N_" ++ string_toupper node_name),
                "attributestructure")]
            else []) := rfl

theorem alloc_member_cases (node_name : String) (node : yajl_val) (m : MemberType × String)
    (hm : m ∈ (gen_node_alloc_h_struct node_name node).members) :
    m = (MemberType.plain "node", "nodestructure")
      ∨ (m = (MemberType.struct_ ("SONS_N_" ++ string_toupper node_name), "sonstructure")
          ∧ (node_sons node).length ≠ 0)
      ∨ (m = (MemberType.struct_ ("ATTRIBS_N_" ++ string_toupper node_name),
            "attributestructure")
          ∧ ((node_flags node).length ≠ 0 ∨ (node_attribs node).length ≠ 0)) := by
  rw [gen_node_alloc_h_struct_eq] at hm
  rcases List.mem_append.1 hm with h | h
  · rcases List.mem_append.1 h with h | h
    · exact Or.inl (List.mem_singleton.1 h)
    · by_cases hc : (node_sons node).length ≠ 0
      · rw [if_pos hc] at h
        exact Or.inr (Or.inl ⟨List.mem_singleton.1 h, hc⟩)
      · rw [if_neg hc] at h
        cases h
  · by_cases hc : (node_flags node).length ≠ 0 ∨ (node_attribs node).length ≠ 0
    · rw [if_pos hc] at h
      exact Or.inr (Or.inr ⟨List.mem_singleton.1 h, hc⟩)
    · rw [if_neg hc] at h
      cases h

theorem generated_structs_defined_spec
    (attrtype_names : List attrtype_name)
    (nodes : List (String × yajl_val)) (hreg : schema_registered attrtype_names nodes) :
    (∀ n ∈ nodes,
        ((gen_sons_h_struct n.1 n.2).map StructDef.tag
            = if (node_sons n.2).length ≠ 0 then some ("SONS_N_" ++ string_toupper n.1)
              else none)
          ∧ (gen_sons_h_member n.1 n.2
            = if (node_sons n.2).length ≠ 0 then
                some (MemberType.struct_ptr ("SONS_N_" ++ string_toupper n.1),
                  "N_" ++ string_tolower n.1)
              else none)
          ∧ ((MemberType.struct_ ("SONS_N_" ++ string_toupper n.1), "sonstructure")
              ∈ (gen_node_alloc_h_struct n.1 n.2).members ↔ (node_sons n.2).length ≠ 0)
          ∧ (MakeStmt.set_sons (string_tolower n.1) (string_toupper n.1)
              ∈ MAKE_spec attrtype_names n.1 n.2 ↔ (node_sons n.2).length ≠ 0)
          ∧ (∃ d, gen_attribs_h_struct attrtype_names n.1 n.2 = some d
              ∧ d.map StructDef.tag
                = if (node_flags n.2).length ≠ 0 ∨ (node_attribs n.2).length ≠ 0 then
                    some ("ATTRIBS_N_" ++ string_toupper n.1)
                  else none)
          ∧ (gen_attribs_h_member n.1 n.2
            = if (node_flags n.2).length ≠ 0 ∨ (node_attribs n.2).length ≠ 0 then
                some (MemberType.struct_ptr ("ATTRIBS_N_" ++ string_toupper n.1),
                  "N_" ++ string_tolower n.1)
              else none)
          ∧ ((MemberType.struct_ ("ATTRIBS_N_" ++ string_toupper n.1), "attributestructure")
              ∈ (gen_node_alloc_h_struct n.1 n.2).members
                ↔ ((node_flags n.2).length ≠ 0 ∨ (node_attribs n.2).length ≠ 0))
          ∧ (MakeStmt.set_attribs (string_tolower n.1) (string_toupper n.1)
              ∈ MAKE_spec attrtype_names n.1 n.2
                ↔ ((node_flags n.2).length ≠ 0 ∨ (node_attribs n.2).length ≠ 0))
          ∧ gen_serialize_helper_c_case attrtype_names n.1 n.2
            = some (MAKE_spec attrtype_names n.1 n.2))
      ∧ ∃ ah cases, gen_attribs_h attrtype_names nodes = some ah
        ∧ gen_serialize_helper_c_make attrtype_names nodes = some cases
        ∧ (∀ m ∈ (gen_sons_h nodes).SONUNION ++ ah.ATTRIBUNION, ∀ t,
            m.1.struct_ref = some t
              → t ∈ defined_structs (gen_sons_h nodes) ah (gen_node_alloc_h nodes))
        ∧ (∀ d ∈ gen_node_alloc_h nodes, ∀ m ∈ d.members, ∀ t,
            m.1.struct_ref = some t
              → t ∈ defined_structs (gen_sons_h nodes) ah (gen_node_alloc_h nodes))
        ∧ (∀ c ∈ cases, ∀ st ∈ c.2, ∀ t ∈ MakeStmt.struct_refs st,
            t ∈ defined_structs (gen_sons_h nodes) ah (gen_node_alloc_h nodes)) := by
  constructor
  · intro n hn
    refine ⟨?_, ?_, ?_, make_spec_set_sons attrtype_names n.1 n.2, ?_, ?_, ?_,
      make_spec_set_attribs attrtype_names n.1 n.2,
      make_spec_shape attrtype_names n.1 n.2 (hreg n hn)⟩
    · rw [gen_sons_h_struct_eq]
      by_cases h : (node_sons n.2).length = 0
      · rw [if_pos h, if_neg (fun hc => hc h)]
        rfl
      · rw [if_neg h, if_pos h]
        rfl
    · rw [gen_sons_h_member_eq]
      by_cases h : (node_sons n.2).length = 0
      · rw [if_pos h, if_neg (fun hc => hc h)]
      · rw [if_neg h, if_pos h]
    · constructor
      · intro hmem
        rcases alloc_member_cases n.1 n.2 _ hmem with h | h | h
        · cases h
        · exact h.2
        · simp at h
      · intro hc
        rw [gen_node_alloc_h_struct_eq, if_pos hc]
        simp
    · obtain ⟨members, hm⟩ := attribs_h_struct_shape attrtype_names n.1 n.2 (hreg n hn)
      refine ⟨_, hm, ?_⟩
      by_cases h : (node_flags n.2).length = 0 ∧ (node_attribs n.2).length = 0
      · rw [if_pos h, if_neg (fun hc => (not_zero_and_iff _ _).2 hc h)]
        rfl
      · rw [if_neg h, if_pos ((not_zero_and_iff _ _).1 h)]
        rfl
    · rw [gen_attribs_h_member_eq]
      by_cases h : (node_flags n.2).length = 0 ∧ (node_attribs n.2).length = 0
      · rw [if_pos h, if_neg (fun hc => (not_zero_and_iff _ _).2 hc h)]
      · rw [if_neg h, if_pos ((not_zero_and_iff _ _).1 h)]
    · constructor
      · intro hmem
        rcases alloc_member_cases n.1 n.2 _ hmem with h | h | h
        · cases h
        · simp at h
        · exact h.2
      · intro hc
        rw [gen_node_alloc_h_struct_eq, if_pos hc]
        simp
  · obtain ⟨cases, hcases, hmem⟩ := make_cases_mem attrtype_names nodes hreg
    have hah := gen_attribs_h_shape attrtype_names nodes hreg
    refine ⟨_, cases, hah, hcases, ?_, ?_, ?_⟩
    · intro m hm t ht
      unfold defined_structs
      rw [List.map_append, List.map_append]
      rcases List.mem_append.1 hm with h | h
      · obtain ⟨n, hn, hmn⟩ := List.mem_filterMap.1 h
        rw [gen_sons_h_member_eq] at hmn
        by_cases hc : (node_sons n.2).length = 0
        · rw [if_pos hc] at hmn
          cases hmn
        · rw [if_neg hc] at hmn
          have hmn1 := Option.some.inj hmn
          subst hmn1
          have := Option.some.inj ht
          subst this
          exact List.mem_append_left _ (List.mem_append_left _
            (sons_struct_defined nodes n hn hc))
      · obtain ⟨n, hn, hmn⟩ := List.mem_filterMap.1 h
        rw [gen_attribs_h_member_eq] at hmn
        by_cases hc : (node_flags n.2).length = 0 ∧ (node_attribs n.2).length = 0
        · rw [if_pos hc] at hmn
          cases hmn
        · rw [if_neg hc] at hmn
          have hmn1 := Option.some.inj hmn
          subst hmn1
          have := Option.some.inj ht
          subst this
          exact List.mem_append_left _ (List.mem_append_right _
            (attribs_struct_defined attrtype_names nodes hreg _ hah n hn
              ((not_zero_and_iff _ _).1 hc)))
    · intro d hd m hm t ht
      unfold defined_structs
      rw [List.map_append, List.map_append]
      obtain ⟨n, hn, hdn⟩ := List.mem_map.1 hd
      subst hdn
      rcases alloc_member_cases n.1 n.2 m hm with h | h | h
      · subst h
        cases ht
      · obtain ⟨h1, hc⟩ := h
        subst h1
        have := Option.some.inj ht
        subst this
        exact List.mem_append_left _ (List.mem_append_left _
          (sons_struct_defined nodes n hn hc))
      · obtain ⟨h1, hc⟩ := h
        subst h1
        have := Option.some.inj ht
        subst this
        exact List.mem_append_left _ (List.mem_append_right _
          (attribs_struct_defined attrtype_names nodes hreg _ hah n hn hc))
    · intro c hc st hst t ht
      unfold defined_structs
      rw [List.map_append, List.map_append]
      obtain ⟨n, hn, hcn⟩ := hmem c hc
      rw [hcn] at hst
      rcases make_spec_mem attrtype_names n.1 n.2 st hst with h | h | h | h
      · subst h
        have : t = "NODE_ALLOC_N_" ++ string_toupper n.1 := List.mem_singleton.1 ht
        subst this
        apply List.mem_append_right
        apply List.mem_map.2
        exact ⟨gen_node_alloc_h_struct n.1 n.2, List.mem_map.2 ⟨n, hn, rfl⟩, rfl⟩
      · obtain ⟨h1, h2⟩ := h
        subst h1
        have : t = "SONS_N_" ++ string_toupper n.1 := List.mem_singleton.1 ht
        subst this
        exact List.mem_append_left _ (List.mem_append_left _
          (sons_struct_defined nodes n hn h2))
      · obtain ⟨h1, h2⟩ := h
        subst h1
        have : t = "ATTRIBS_N_" ++ string_toupper n.1 := List.mem_singleton.1 ht
        subst this
        exact List.mem_append_left _ (List.mem_append_right _
          (attribs_struct_defined attrtype_names nodes hreg _ hah n hn h2))
      · rw [h] at ht
        cases ht

/-- C29: for a schema whose attributes have registered types and for every node of it:
`gen_sons_h` defines `struct SONS_N_<NODE>` iff the node has at least one son, and
exactly then `union SONUNION` gets the member for the node, `struct NODE_ALLOC_N_<NODE>`
gets the field `sonstructure` and the constructor sets the sons pointer;
`gen_attribs_h` defines `struct ATTRIBS_N_<NODE>` iff the node has at least one
attribute or flag, and exactly then `union ATTRIBUNION` gets the member, the
allocation structure gets the field `attributestructure` and the constructor sets the
attribs pointer.  Hence every `struct` tag that a union member, a field of an
allocation structure or a statement of the constructor refers to is defined in one of
the three generated headers. -/
theorem generated_structs_defined
    (attrtype_names : List attrtype_name)
    (nodes : List (String × yajl_val)) (hreg : schema_registered attrtype_names nodes) :
    (∀ n ∈ nodes,
        ((gen_sons_h_struct n.1 n.2).map StructDef.tag
            = if (node_sons n.2).length ≠ 0 then some ("SONS_N_" ++ string_toupper n.1)
              else none)
          ∧ (gen_sons_h_member n.1 n.2
            = if (node_sons n.2).length ≠ 0 then
                some (MemberType.struct_ptr ("SONS_N_" ++ string_toupper n.1),
                  "N_" ++ string_tolower n.1)
              else none)
          ∧ ((MemberType.struct_ ("SONS_N_" ++ string_toupper n.1), "sonstructure")
              ∈ (gen_node_alloc_h_struct n.1 n.2).members ↔ (node_sons n.2).length ≠ 0)
          ∧ (MakeStmt.set_sons (string_tolower n.1) (string_toupper n.1)
              ∈ MAKE_spec attrtype_names n.1 n.2 ↔ (node_sons n.2).length ≠ 0)
          ∧ (∃ d, gen_attribs_h_struct attrtype_names n.1 n.2 = some d
              ∧ d.map StructDef.tag
                = if (node_flags n.2).length ≠ 0 ∨ (node_attribs n.2).length ≠ 0 then
                    some ("ATTRIBS_N_" ++ string_toupper n.1)
                  else none)
          ∧ (gen_attribs_h_member n.1 n.2
            = if (node_flags n.2).length ≠ 0 ∨ (node_attribs n.2).length ≠ 0 then
                some (MemberType.struct_ptr ("ATTRIBS_N_" ++ string_toupper n.1),
                  "N_" ++ string_tolower n.1)
              else none)
          ∧ ((MemberType.struct_ ("ATTRIBS_N_" ++ string_toupper n.1), "attributestructure")
              ∈ (gen_node_alloc_h_struct n.1 n.2).members
                ↔ ((node_flags n.2).length ≠ 0 ∨ (node_attribs n.2).length ≠ 0))
          ∧ (MakeStmt.set_attribs (string_tolower n.1) (string_toupper n.1)
              ∈ MAKE_spec attrtype_names n.1 n.2
                ↔ ((node_flags n.2).length ≠ 0 ∨ (node_attribs n.2).length ≠ 0))
          ∧ gen_serialize_helper_c_case attrtype_names n.1 n.2
            = some (MAKE_spec attrtype_names n.1 n.2))
      ∧ ∃ ah cases, gen_attribs_h attrtype_names nodes = some ah
        ∧ gen_serialize_helper_c_make attrtype_names nodes = some cases
        ∧ (∀ m ∈ (gen_sons_h nodes).SONUNION ++ ah.ATTRIBUNION, ∀ t,
            m.1.struct_ref = some t
              → t ∈ defined_structs (gen_sons_h nodes) ah (gen_node_alloc_h nodes))
        ∧ (∀ d ∈ gen_node_alloc_h nodes, ∀ m ∈ d.members, ∀ t,
            m.1.struct_ref = some t
              → t ∈ defined_structs (gen_sons_h nodes) ah (gen_node_alloc_h nodes))
        ∧ (∀ c ∈ cases, ∀ st ∈ c.2, ∀ t ∈ MakeStmt.struct_refs st,
            t ∈ defined_structs (gen_sons_h nodes) ah (gen_node_alloc_h nodes)) :=
  generated_structs_defined_spec attrtype_names nodes hreg

theorem generated_structs_defined_witness :
    schema_registered ex_attrtype_names ex_nodes
      ∧ (gen_sons_h ex_nodes).structs.map StructDef.tag
        = ["SONS_N_FUNDEF", "SONS_N_ARG", "SONS_N_TYPEDEF"]
      ∧ (gen_attribs_h ex_attrtype_names ex_nodes).map
          (fun ah => ah.structs.map StructDef.tag)
        = some ["ATTRIBS_N_FUNDEF", "ATTRIBS_N_ARG", "ATTRIBS_N_ID"]
      ∧ gen_node_alloc_h_struct "Id" ex_id
        = StructDef.mk "NODE_ALLOC_N_ID"
            [(MemberType.plain "node", "nodestructure"),
             (MemberType.struct_ "ATTRIBS_N_ID", "attributestructure")] []
      ∧ ((∀ n ∈ ex_nodes,
        ((gen_sons_h_struct n.1 n.2).map StructDef.tag
            = if (node_sons n.2).length ≠ 0 then some ("SONS_N_" ++ string_toupper n.1)
              else none)
          ∧ (gen_sons_h_member n.1 n.2
            = if (node_sons n.2).length ≠ 0 then
                some (MemberType.struct_ptr ("SONS_N_" ++ string_toupper n.1),
                  "N_" ++ string_tolower n.1)
              else none)
          ∧ ((MemberType.struct_ ("SONS_N_" ++ string_toupper n.1), "sonstructure")
              ∈ (gen_node_alloc_h_struct n.1 n.2).members ↔ (node_sons n.2).length ≠ 0)
          ∧ (MakeStmt.set_sons (string_tolower n.1) (string_toupper n.1)
              ∈ MAKE_spec ex_attrtype_names n.1 n.2 ↔ (node_sons n.2).length ≠ 0)
          ∧ (∃ d, gen_attribs_h_struct ex_attrtype_names n.1 n.2 = some d
              ∧ d.map StructDef.tag
                = if (node_flags n.2).length ≠ 0 ∨ (node_attribs n.2).length ≠ 0 then
                    some ("ATTRIBS_N_" ++ string_toupper n.1)
                  else none)
          ∧ (gen_attribs_h_member n.1 n.2
            = if (node_flags n.2).length ≠ 0 ∨ (node_attribs n.2).length ≠ 0 then
                some (MemberType.struct_ptr ("ATTRIBS_N_" ++ string_toupper n.1),
                  "N_" ++ string_tolower n.1)
              else none)
          ∧ ((MemberType.struct_ ("ATTRIBS_N_" ++ string_toupper n.1), "attributestructure")
              ∈ (gen_node_alloc_h_struct n.1 n.2).members
                ↔ ((node_flags n.2).length ≠ 0 ∨ (node_attribs n.2).length ≠ 0))
          ∧ (MakeStmt.set_attribs (string_tolower n.1) (string_toupper n.1)
              ∈ MAKE_spec ex_attrtype_names n.1 n.2
                ↔ ((node_flags n.2).length ≠ 0 ∨ (node_attribs n.2).length ≠ 0))
          ∧ gen_serialize_helper_c_case ex_attrtype_names n.1 n.2
            = some (MAKE_spec ex_attrtype_names n.1 n.2))
      ∧ ∃ ah cases, gen_attribs_h ex_attrtype_names ex_nodes = some ah
        ∧ gen_serialize_helper_c_make ex_attrtype_names ex_nodes = some cases
        ∧ (∀ m ∈ (gen_sons_h ex_nodes).SONUNION ++ ah.ATTRIBUNION, ∀ t,
            m.1.struct_ref = some t
              → t ∈ defined_structs (gen_sons_h ex_nodes) ah (gen_node_alloc_h ex_nodes))
        ∧ (∀ d ∈ gen_node_alloc_h ex_nodes, ∀ m ∈ d.members, ∀ t,
            m.1.struct_ref = some t
              → t ∈ defined_structs (gen_sons_h ex_nodes) ah (gen_node_alloc_h ex_nodes))
        ∧ (∀ c ∈ cases, ∀ st ∈ c.2, ∀ t ∈ MakeStmt.struct_refs st,
            t ∈ defined_structs (gen_sons_h ex_nodes) ah (gen_node_alloc_h ex_nodes))) :=
  ⟨by decide, by decide, by decide, by decide,
   generated_structs_defined ex_attrtype_names ex_nodes (by decide)⟩

/-! ## Heaps with ranked owned edges -/

theorem heap_ranked_of_graph (nodes : List (String × yajl_val)) (with_error : Bool)
    (rank : Nat → Nat) (heap : List node_inst)
    (h : graph_ranked nodes with_error rank heap) :
    heap_ranked nodes with_error true rank heap := by
  intro a nd hnd
  exact h (a, nd) (List.mk_mem_enum_iff_getElem?.2 hnd)

theorem node_ranked_weaken (nodes : List (String × yajl_val))
    (we wa we1 wa1 : Bool) (hwe : we1 = true → we = true) (hwa : wa1 = true → wa = true)
    (rank : Nat → Nat) (n a : Nat) (nd : node_inst)
    (h : node_ranked nodes we wa rank n a nd) : node_ranked nodes we1 wa1 rank n a nd := by
  obtain ⟨e, he, h1, h2, h3, h4, h5⟩ := h
  exact ⟨e, he, h1, h2, fun hw => h3 (hwe hw), h4, fun hw => h5 (hwa hw)⟩

theorem heap_ranked_weaken (nodes : List (String × yajl_val))
    (we wa we1 wa1 : Bool) (hwe : we1 = true → we = true) (hwa : wa1 = true → wa = true)
    (rank : Nat → Nat) (heap : List node_inst)
    (h : heap_ranked nodes we wa rank heap) : heap_ranked nodes we1 wa1 rank heap :=
  fun a nd hnd => node_ranked_weaken nodes we wa we1 wa1 hwe hwa rank _ a nd (h a nd hnd)

theorem heap_ranked_set (nodes : List (String × yajl_val)) (we wa : Bool)
    (rank : Nat → Nat) (heap : List node_inst) (a : Nat) (nd1 : node_inst)
    (h : heap_ranked nodes we wa rank heap)
    (h1 : node_ranked nodes we wa rank heap.length a nd1) :
    heap_ranked nodes we wa rank (heap.set a nd1) := by
  intro b nd hnd
  rw [List.length_set]
  rw [List.getElem?_set] at hnd
  by_cases hab : a = b
  · subst hab
    rw [if_pos rfl] at hnd
    split at hnd
    · cases hnd
      exact h1
    · cases hnd
  · rw [if_neg hab] at hnd
    exact h b nd hnd

theorem heap_tags_set (heap : List node_inst) (a : Nat) (nd nd1 : node_inst)
    (hnd : heap[a]? = some nd) (ht : nd1.nodetype = nd.nodetype) :
    heap_tags (heap.set a nd1) = heap_tags heap := by
  unfold heap_tags
  rw [List.map_set, ht]
  apply list_set_self
  rw [List.getElem?_map, hnd]
  rfl

theorem heap_tags_get (heap : List node_inst) (tags : List String)
    (h : heap_tags heap = tags) (a : Nat) (ha : a < tags.length) :
    ∃ nd, heap[a]? = some nd ∧ tags[a]? = some nd.nodetype := by
  subst h
  unfold heap_tags at ha ⊢
  rw [List.length_map] at ha
  refine ⟨heap[a], List.getElem?_eq_getElem ha, ?_⟩
  rw [List.getElem?_map, List.getElem?_eq_getElem ha]
  rfl

theorem heap_tags_length (heap : List node_inst) (tags : List String)
    (h : heap_tags heap = tags) : heap.length = tags.length := by
  subst h
  unfold heap_tags
  rw [List.length_map]

theorem field_get_of_key {α : Type} (fields : List ((String × String) × α))
    (key : String × String) (h : key ∈ fields.map Prod.fst) :
    ∃ v, field_get fields key = some v ∧ (key, v) ∈ fields := by
  induction fields with
  | nil => cases h
  | cons kv rest ih =>
    by_cases hk : kv.1 = key
    · refine ⟨kv.2, ?_, ?_⟩
      · unfold field_get
        simp [List.find?_cons, hk]
      · rw [← hk]
        exact List.mem_cons_self _ _
    · have hmem : key ∈ rest.map Prod.fst := by
        rw [List.map_cons] at h
        rcases List.mem_cons.1 h with h1 | h1
        · exact absurd h1.symm hk
        · exact h1
      obtain ⟨v, hv, hin⟩ := ih hmem
      refine ⟨v, ?_, List.mem_cons_of_mem _ hin⟩
      rw [field_get_cons_ne kv rest key hk]
      exact hv

theorem field_set_mem {α : Type} (fields : List ((String × String) × α))
    (key : String × String) (v : α) (kv : (String × String) × α)
    (h : kv ∈ field_set fields key v) : kv ∈ fields ∨ kv.2 = v := by
  unfold field_set at h
  obtain ⟨x, hx, hxe⟩ := List.mem_map.1 h
  by_cases hk : x.1 = key
  · rw [if_pos hk] at hxe
    right
    rw [← hxe]
  · rw [if_neg hk] at hxe
    left
    rw [← hxe]
    exact hx

theorem field_set_mem_key {α : Type} (fields : List ((String × String) × α))
    (key : String × String) (v : α) (kv : (String × String) × α)
    (h : kv ∈ field_set fields key v) : (kv ∈ fields ∧ kv.1 ≠ key) ∨ (kv.1 = key ∧ kv.2 = v) := by
  unfold field_set at h
  obtain ⟨x, hx, hxe⟩ := List.mem_map.1 h
  by_cases hk : x.1 = key
  · rw [if_pos hk] at hxe
    right
    rw [← hxe]
    exact ⟨hk, rfl⟩
  · rw [if_neg hk] at hxe
    left
    rw [← hxe]
    exact ⟨hx, hk⟩

/-! ## Assignments that keep the rank condition -/

theorem node_ranked_set_error (nodes : List (String × yajl_val)) (we wa : Bool)
    (rank : Nat → Nat) (n a : Nat) (nd : node_inst) (r : Option Nat)
    (h : node_ranked nodes we wa rank n a nd) (hr : owned_ok rank n a r) :
    node_ranked nodes we wa rank n a
      (node_inst.mk nd.nodetype nd.file nd.line nd.col r nd.sons nd.attribs nd.flags) := by
  obtain ⟨e, he, h1, h2, _, h4, h5⟩ := h
  exact ⟨e, he, h1, h2, fun _ => hr, h4, h5⟩

theorem node_ranked_set_son (nodes : List (String × yajl_val)) (we wa : Bool)
    (rank : Nat → Nat) (n a : Nat) (nd : node_inst) (key : String × String) (r : Option Nat)
    (h : node_ranked nodes we wa rank n a nd) (hr : owned_ok rank n a r) :
    node_ranked nodes we wa rank n a
      (node_inst.mk nd.nodetype nd.file nd.line nd.col nd.error (field_set nd.sons key r)
        nd.attribs nd.flags) := by
  obtain ⟨e, he, h1, h2, h3, h4, h5⟩ := h
  refine ⟨e, he, ?_, h2, h3, ?_, h5⟩
  · show (field_set nd.sons key r).map Prod.fst = _
    rw [field_set_keys]
    exact h1
  · intro kv hkv
    rcases field_set_mem nd.sons key r kv hkv with h6 | h6
    · exact h4 kv h6
    · rw [h6]
      exact hr

theorem node_ranked_set_attrib (nodes : List (String × yajl_val)) (we wa : Bool)
    (rank : Nat → Nat) (n a : Nat) (nd : node_inst) (key : String × String) (v : attr_value)
    (h : node_ranked nodes we wa rank n a nd)
    (hv : wa = true → attr_owned_ok rank n a v) :
    node_ranked nodes we wa rank n a
      (node_inst.mk nd.nodetype nd.file nd.line nd.col nd.error nd.sons
        (field_set nd.attribs key v) nd.flags) := by
  obtain ⟨e, he, h1, h2, h3, h4, h5⟩ := h
  refine ⟨e, he, h1, ?_, h3, h4, ?_⟩
  · show (field_set nd.attribs key v).map Prod.fst = _
    rw [field_set_keys]
    exact h2
  · intro hw ent hent hnode kv hkv hkey
    rcases field_set_mem nd.attribs key v kv hkv with h6 | h6
    · exact h5 hw ent hent hnode kv h6 hkey
    · rw [h6]
      exact hv hw

theorem heap_ranked_set_error (nodes : List (String × yajl_val)) (we wa : Bool)
    (rank : Nat → Nat) (heap : List node_inst) (a : Nat) (r : Option Nat)
    (h : heap_ranked nodes we wa rank heap) (hr : owned_ok rank heap.length a r) :
    heap_ranked nodes we wa rank (heap_set_error heap a r) := by
  unfold heap_set_error
  cases hnd : heap[a]? with
  | none => exact h
  | some nd =>
    exact heap_ranked_set nodes we wa rank heap a _ h
      (node_ranked_set_error nodes we wa rank _ a nd r (h a nd hnd) hr)

theorem heap_ranked_set_son (nodes : List (String × yajl_val)) (we wa : Bool)
    (rank : Nat → Nat) (heap : List node_inst) (a : Nat) (key : String × String)
    (r : Option Nat)
    (h : heap_ranked nodes we wa rank heap) (hr : owned_ok rank heap.length a r) :
    heap_ranked nodes we wa rank (heap_set_son heap a key r) := by
  unfold heap_set_son
  cases hnd : heap[a]? with
  | none => exact h
  | some nd =>
    exact heap_ranked_set nodes we wa rank heap a _ h
      (node_ranked_set_son nodes we wa rank _ a nd key r (h a nd hnd) hr)

theorem heap_ranked_set_attrib (nodes : List (String × yajl_val)) (we wa : Bool)
    (rank : Nat → Nat) (heap : List node_inst) (a : Nat) (key : String × String)
    (v : attr_value)
    (h : heap_ranked nodes we wa rank heap)
    (hv : wa = true → attr_owned_ok rank heap.length a v) :
    heap_ranked nodes we wa rank (heap_set_attrib heap a key v) := by
  unfold heap_set_attrib
  cases hnd : heap[a]? with
  | none => exact h
  | some nd =>
    exact heap_ranked_set nodes we wa rank heap a _ h
      (node_ranked_set_attrib nodes we wa rank _ a nd key v (h a nd hnd) hv)

theorem heap_tags_set_error (heap : List node_inst) (a : Nat) (r : Option Nat) :
    heap_tags (heap_set_error heap a r) = heap_tags heap := by
  unfold heap_set_error
  cases hnd : heap[a]? with
  | none => rfl
  | some nd => exact heap_tags_set heap a nd _ hnd rfl

theorem heap_tags_set_son (heap : List node_inst) (a : Nat) (key : String × String)
    (r : Option Nat) :
    heap_tags (heap_set_son heap a key r) = heap_tags heap := by
  unfold heap_set_son
  cases hnd : heap[a]? with
  | none => rfl
  | some nd => exact heap_tags_set heap a nd _ hnd rfl

theorem heap_tags_set_attrib (heap : List node_inst) (a : Nat) (key : String × String)
    (v : attr_value) :
    heap_tags (heap_set_attrib heap a key v) = heap_tags heap := by
  unfold heap_set_attrib
  cases hnd : heap[a]? with
  | none => rfl
  | some nd => exact heap_tags_set heap a nd _ hnd rfl

/-! ## Reading the fields of a ranked node -/

theorem ranked_entry (nodes : List (String × yajl_val)) (we wa : Bool)
    (rank : Nat → Nat) (n a : Nat) (nd : node_inst) (e : String × yajl_val)
    (h : node_ranked nodes we wa rank n a nd)
    (he : schema_node nodes nd.nodetype = some e) :
    node_ranked_entry we wa rank n a nd e := by
  obtain ⟨e1, he1, h1⟩ := h
  have : e1 = e := by
    have h2 : schema_node nodes nd.nodetype = some e1 := he1
    rw [he] at h2
    exact (Option.some.inj h2).symm
  rw [← this]
  exact h1

theorem ranked_get_son (nodes : List (String × yajl_val)) (we wa : Bool)
    (rank : Nat → Nat) (heap : List node_inst) (a : Nat) (nd : node_inst)
    (e son : String × yajl_val)
    (h : heap_ranked nodes we wa rank heap) (hnd : heap[a]? = some nd)
    (he : schema_node nodes nd.nodetype = some e) (hson : son ∈ node_sons e.2) :
    ∃ p, heap_get_son heap a (string_toupper e.1, string_toupper son.1) = some p
      ∧ owned_ok rank heap.length a p := by
  obtain ⟨h1, _, _, h4, _⟩ := ranked_entry nodes we wa rank _ a nd e (h a nd hnd) he
  have hkey : (string_toupper e.1, string_toupper son.1) ∈ nd.sons.map Prod.fst := by
    rw [h1]
    exact List.mem_map.2 ⟨son, hson, rfl⟩
  obtain ⟨p, hp, hin⟩ := field_get_of_key nd.sons _ hkey
  refine ⟨p, ?_, h4 _ hin⟩
  unfold heap_get_son
  rw [hnd]
  exact hp

theorem ranked_get_attrib (nodes : List (String × yajl_val)) (we wa : Bool)
    (rank : Nat → Nat) (heap : List node_inst) (a : Nat) (nd : node_inst)
    (e ent : String × yajl_val)
    (h : heap_ranked nodes we wa rank heap) (hnd : heap[a]? = some nd)
    (he : schema_node nodes nd.nodetype = some e) (hent : ent ∈ node_attribs e.2) :
    ∃ v, heap_get_attrib heap a (string_toupper e.1, string_toupper ent.1) = some v
      ∧ (wa = true → is_node_attrib ent = true → attr_owned_ok rank heap.length a v) := by
  obtain ⟨_, h2, _, _, h5⟩ := ranked_entry nodes we wa rank _ a nd e (h a nd hnd) he
  have hkey : (string_toupper e.1, string_toupper ent.1) ∈ nd.attribs.map Prod.fst := by
    rw [h2]
    exact List.mem_map.2 ⟨ent, hent, rfl⟩
  obtain ⟨v, hv, hin⟩ := field_get_of_key nd.attribs _ hkey
  refine ⟨v, ?_, fun hw hnode => h5 hw ent hent hnode _ hin rfl⟩
  unfold heap_get_attrib
  rw [hnd]
  exact hv

theorem owned_ok_of_le (rank : Nat → Nat) (n a b : Nat) (r : Option Nat)
    (hb : rank b < rank a) (hr : ∀ x ∈ r, x < n ∧ rank x ≤ rank b) :
    owned_ok rank n a r := by
  intro x hx
  obtain ⟨h1, h2⟩ := hr x hx
  exact ⟨h1, Nat.lt_of_le_of_lt h2 hb⟩

theorem run_steps_inv {S Stmt : Type} (step : Stmt → S → Option S) (P : S → Prop)
    (l : List Stmt) (h : ∀ st ∈ l, ∀ s, P s → ∃ s1, step st s = some s1 ∧ P s1) :
    ∀ s, P s → ∃ s1, run_steps step l s = some s1 ∧ P s1 := by
  induction l with
  | nil => intro s hs; exact ⟨s, rfl, hs⟩
  | cons st rest ih =>
    intro s hs
    obtain ⟨s1, hs1, hp1⟩ := h st (List.mem_cons_self _ _) s hs
    obtain ⟨s2, hs2, hp2⟩ := ih (fun x hx => h x (List.mem_cons_of_mem _ hx)) s1 hp1
    refine ⟨s2, ?_, hp2⟩
    simp only [run_steps, hs1]
    exact hs2

/-! ## The check walk on a ranked heap -/

theorem next_isSome_mem (node : yajl_val)
    (h : (yajl_tree_get (yajl_tree_get (some node) ["sons"] .t_object) ["Next"]
      .t_object).isSome = true) :
    ∃ son ∈ node_sons node, son.1 = "Next" := by
  rw [tree_get_key_isSome] at h
  cases hf : (object_entries (yajl_tree_get (some node) ["sons"] .t_object)).find?
      (fun e => e.1 == "Next") with
  | none => simp [hf] at h
  | some e =>
    refine ⟨e, List.mem_of_find?_eq_some hf, ?_⟩
    have := List.find?_some hf
    simpa using this

theorem chkm_body_stmts (attrtype_names : List attrtype_name) (node_name : String)
    (node : yajl_val) (hreg : attribs_registered attrtype_names node) :
    ∃ pre, gen_check_node_c_body attrtype_names node_name node
        = some (pre ++ [ChkmStmt.return_arg_node])
      ∧ ∀ st ∈ pre, st = ChkmStmt.dbug_enter ∨ st = ChkmStmt.touch_node
          ∨ st = ChkmStmt.chkmtrav_error
          ∨ (∃ ent ∈ node_attribs node,
              st = ChkmStmt.touch_attr (string_toupper node_name) (string_toupper ent.1))
          ∨ (∃ son ∈ node_sons node,
              st = ChkmStmt.chkmtrav_son (string_toupper node_name)
                (string_toupper son.1)) := by
  have hl := chkm_attrib_loop attrtype_names (string_toupper node_name) (node_attribs node)
    hreg
  have hs := chkm_son_loop (string_toupper node_name) (node_sons node)
  unfold node_attribs at hl
  unfold node_sons at hs
  unfold gen_check_node_c_body
  simp only [hl, hs]
  refine ⟨_, rfl, ?_⟩
  intro st hst
  simp only [List.mem_append] at hst
  rcases hst with ((h | h) | h) | h
  · simp only [List.mem_cons, List.mem_singleton, List.not_mem_nil, or_false] at h
    rcases h with h | h | h
    · exact Or.inl h
    · exact Or.inr (Or.inl h)
    · exact Or.inr (Or.inr (Or.inl h))
  · right; right; right; right
    by_cases hn : (yajl_tree_get (yajl_tree_get (some node) ["sons"] .t_object) ["Next"]
        .t_object).isSome = true
    · rw [if_pos hn] at h
      obtain ⟨son, hson, hname⟩ := next_isSome_mem node hn
      refine ⟨son, hson, ?_⟩
      rw [List.mem_singleton.1 h, hname, upper_Next]
    · rw [if_neg hn] at h
      cases h
  · right; right; right; left
    obtain ⟨ent, hent, he⟩ := List.mem_map.1 h
    exact ⟨ent, (List.mem_filter.1 hent).1, he.symm⟩
  · right; right; right; right
    obtain ⟨son, hson, he⟩ := List.mem_map.1 h
    exact ⟨son, (List.mem_filter.1 hson).1, he.symm⟩

theorem CHKMTRAV_ranked (nodes : List (String × yajl_val)) (wa : Bool) (rank : Nat → Nat)
    (tags : List String) (call : Nat → ChkmState → Option (Option Nat × ChkmState)) (a : Nat)
    (hcall : ∀ b s, b < tags.length → rank b < rank a →
      heap_ranked nodes true wa rank s.heap → heap_tags s.heap = tags →
      ∃ r s1, call b s = some (r, s1) ∧ heap_ranked nodes true wa rank s1.heap
        ∧ heap_tags s1.heap = tags ∧ ∀ x ∈ r, x < tags.length ∧ rank x ≤ rank b)
    (p : Option Nat) (hp : owned_ok rank tags.length a p) (s : ChkmState)
    (hP : heap_ranked nodes true wa rank s.heap) (hT : heap_tags s.heap = tags) :
    ∃ r s1, CHKMTRAV call p s = some (r, s1) ∧ heap_ranked nodes true wa rank s1.heap
      ∧ heap_tags s1.heap = tags ∧ owned_ok rank tags.length a r := by
  cases p with
  | none =>
    refine ⟨none, s, rfl, hP, hT, ?_⟩
    intro x hx
    cases hx
  | some b =>
    obtain ⟨hb1, hb2⟩ := hp b rfl
    obtain ⟨r, s1, hc, hP1, hT1, hr⟩ := hcall b s hb1 hb2 hP hT
    exact ⟨r, s1, hc, hP1, hT1, owned_ok_of_le rank _ a b r hb2 hr⟩

theorem CHKM_step_ranked (nodes : List (String × yajl_val)) (wa : Bool) (rank : Nat → Nat)
    (tags : List String) (call : Nat → ChkmState → Option (Option Nat × ChkmState)) (a : Nat)
    (t : String) (e : String × yajl_val)
    (hta : tags[a]? = some t) (he : schema_node nodes t = some e)
    (hcall : ∀ b s, b < tags.length → rank b < rank a →
      heap_ranked nodes true wa rank s.heap → heap_tags s.heap = tags →
      ∃ r s1, call b s = some (r, s1) ∧ heap_ranked nodes true wa rank s1.heap
        ∧ heap_tags s1.heap = tags ∧ ∀ x ∈ r, x < tags.length ∧ rank x ≤ rank b)
    (st : ChkmStmt)
    (hst : st = ChkmStmt.dbug_enter ∨ st = ChkmStmt.touch_node
      ∨ st = ChkmStmt.chkmtrav_error
      ∨ (∃ ent ∈ node_attribs e.2,
          st = ChkmStmt.touch_attr (string_toupper e.1) (string_toupper ent.1))
      ∨ (∃ son ∈ node_sons e.2,
          st = ChkmStmt.chkmtrav_son (string_toupper e.1) (string_toupper son.1)))
    (s : ChkmState)
    (hPT : heap_ranked nodes true wa rank s.heap ∧ heap_tags s.heap = tags) :
    ∃ s1, CHKM_step call a st s = some s1
      ∧ heap_ranked nodes true wa rank s1.heap ∧ heap_tags s1.heap = tags := by
  obtain ⟨hP, hT⟩ := hPT
  have ha : a < tags.length := getElem?_lt tags a t hta
  obtain ⟨nd, hnd, htag⟩ := heap_tags_get s.heap tags hT a ha
  have hlen := heap_tags_length s.heap tags hT
  have hnt : nd.nodetype = t := by
    rw [hta] at htag
    exact (Option.some.inj htag).symm
  have he1 : schema_node nodes nd.nodetype = some e := by rw [hnt]; exact he
  rcases hst with h | h | h | ⟨ent, hent, h⟩ | ⟨son, hson, h⟩
  · subst h
    exact ⟨s, rfl, hP, hT⟩
  · subst h
    exact ⟨_, rfl, hP, hT⟩
  · subst h
    have hown : owned_ok rank tags.length a nd.error := by
      have := (ranked_entry nodes true wa rank _ a nd e (hP a nd hnd) he1).2.2.1 rfl
      rw [hlen] at this
      exact this
    obtain ⟨r, s1, hc, hP1, hT1, hr⟩ := CHKMTRAV_ranked nodes wa rank tags call a hcall
      nd.error hown s hP hT
    refine ⟨ChkmState.mk (heap_set_error s1.heap a r) s1.touched, ?_, ?_, ?_⟩
    · simp only [CHKM_step, hnd, hc]
    · apply heap_ranked_set_error nodes true wa rank s1.heap a r hP1
      rw [heap_tags_length s1.heap tags hT1]
      exact hr
    · show heap_tags (heap_set_error s1.heap a r) = tags
      rw [heap_tags_set_error]
      exact hT1
  · subst h
    obtain ⟨v, hv, _⟩ := ranked_get_attrib nodes true wa rank s.heap a nd e ent hP hnd he1 hent
    refine ⟨CHKMtouch v s, ?_, hP, hT⟩
    simp only [CHKM_step, hv]
  · subst h
    obtain ⟨p, hp, hown⟩ := ranked_get_son nodes true wa rank s.heap a nd e son hP hnd he1 hson
    rw [hlen] at hown
    obtain ⟨r, s1, hc, hP1, hT1, hr⟩ := CHKMTRAV_ranked nodes wa rank tags call a hcall
      p hown s hP hT
    refine ⟨ChkmState.mk (heap_set_son s1.heap a
      (string_toupper e.1, string_toupper son.1) r) s1.touched, ?_, ?_, ?_⟩
    · simp only [CHKM_step, hp, hc]
    · apply heap_ranked_set_son nodes true wa rank s1.heap a _ r hP1
      rw [heap_tags_length s1.heap tags hT1]
      exact hr
    · show heap_tags (heap_set_son s1.heap a _ r) = tags
      rw [heap_tags_set_son]
      exact hT1

theorem CHKM_call_total (attrtype_names : List attrtype_name)
    (nodes : List (String × yajl_val)) (funs : List (String × List ChkmStmt))
    (hgen : gen_check_node_c attrtype_names nodes = some funs)
    (hreg : schema_registered attrtype_names nodes)
    (wa : Bool) (rank : Nat → Nat) (tags : List String) :
    ∀ n a s, a < tags.length → rank a < n →
      heap_ranked nodes true wa rank s.heap → heap_tags s.heap = tags →
      ∃ s1, CHKM_call funs n a s = some (some a, s1)
        ∧ heap_ranked nodes true wa rank s1.heap ∧ heap_tags s1.heap = tags := by
  intro n
  induction n with
  | zero => intro a s _ hr; exact absurd hr (Nat.not_lt_zero _)
  | succ n ih =>
    intro a s ha hr hP hT
    obtain ⟨nd, hnd, htag⟩ := heap_tags_get s.heap tags hT a ha
    obtain ⟨e, he, _⟩ := hP a nd hnd
    have he : schema_node nodes nd.nodetype = some e := he
    obtain ⟨body, hbody, hlook⟩ := node_loop_lookup "CHKM"
      (gen_check_node_c_body attrtype_names) nodes funs hgen nd.nodetype e he
    obtain ⟨pre, hpre, hstmts⟩ := chkm_body_stmts attrtype_names e.1 e.2
      (hreg e (schema_node_mem nodes nd.nodetype e he).1)
    rw [hpre] at hbody
    have hb := (Option.some.inj hbody).symm
    subst hb
    have hnoret : ∀ st ∈ pre, ChkmStmt.is_return st = false := by
      intro st hst
      rcases hstmts st hst with h | h | h | ⟨_, _, h⟩ | ⟨_, _, h⟩ <;> (subst h; rfl)
    have hcall : ∀ b s, b < tags.length → rank b < rank a →
        heap_ranked nodes true wa rank s.heap → heap_tags s.heap = tags →
        ∃ r s1, CHKM_call funs n b s = some (r, s1) ∧ heap_ranked nodes true wa rank s1.heap
          ∧ heap_tags s1.heap = tags ∧ ∀ x ∈ r, x < tags.length ∧ rank x ≤ rank b := by
      intro b s0 hb hrb hP0 hT0
      obtain ⟨s1, h1, h2, h3⟩ := ih b s0 hb (by omega) hP0 hT0
      refine ⟨some b, s1, h1, h2, h3, ?_⟩
      intro x hx
      cases hx
      exact ⟨hb, Nat.le_refl _⟩
    obtain ⟨s1, hrun, hP1, hT1⟩ := run_steps_inv (CHKM_step (CHKM_call funs n) a)
      (fun s => heap_ranked nodes true wa rank s.heap ∧ heap_tags s.heap = tags) pre
      (fun st hst s0 hs0 => CHKM_step_ranked nodes wa rank tags (CHKM_call funs n) a
        nd.nodetype e htag he hcall st (hstmts st hst) s0 hs0) s ⟨hP, hT⟩
    refine ⟨s1, ?_, hP1, hT1⟩
    simp only [CHKM_call, hnd, hlook, CHKM_run]
    rw [run_until_end ChkmStmt.is_return _ pre ChkmStmt.return_arg_node s hnoret rfl, hrun]

/-! ## The stack-building walk and the reset walk on a ranked heap -/

theorem sbt_body_stmts (node_name : String) (node : yajl_val) (htyped : attribs_typed node) :
    ∃ pre, gen_serialize_buildstack_c_body node_name node
        = some (pre ++ [SbtStmt.return_arg_node])
      ∧ ∀ st ∈ pre, st = SbtStmt.dbug_enter ∨ st = SbtStmt.sspush
          ∨ (∃ son ∈ node_sons node,
              st = SbtStmt.descend_son (string_toupper node_name) (string_toupper son.1))
          ∨ (∃ ent ∈ node_attribs node, is_node_attrib ent = true
              ∧ st = SbtStmt.descend_attr (string_toupper node_name)
                (string_toupper ent.1)) := by
  refine ⟨_, sbt_body_shape node_name node htyped, ?_⟩
  intro st hst
  simp only [List.mem_append] at hst
  rcases hst with (h | h) | h
  · simp only [List.mem_cons, List.mem_singleton, List.not_mem_nil, or_false] at h
    rcases h with h | h
    · exact Or.inl h
    · exact Or.inr (Or.inl h)
  · right; right; left
    obtain ⟨son, hson, h1⟩ := List.mem_flatMap.1 h
    refine ⟨son, hson, ?_⟩
    unfold gen_serialize_buildstack_c_son at h1
    split at h1
    · cases h1
    · split at h1
      · cases h1
      · exact List.mem_singleton.1 h1
  · right; right; right
    obtain ⟨ent, hent, h1⟩ := List.mem_flatMap.1 h
    by_cases hn : is_node_attrib ent = true
    · rw [if_pos hn] at h1
      exact ⟨ent, hent, hn, List.mem_singleton.1 h1⟩
    · rw [if_neg hn] at h1
      cases h1

theorem SBT_step_ranked (nodes : List (String × yajl_val)) (we : Bool) (rank : Nat → Nat)
    (tags : List String) (call : Nat → SbtState → Option (Option Nat × SbtState)) (a : Nat)
    (t : String) (e : String × yajl_val)
    (hta : tags[a]? = some t) (he : schema_node nodes t = some e)
    (hcall : ∀ b s, b < tags.length → rank b < rank a →
      heap_ranked nodes we true rank s.heap → heap_tags s.heap = tags →
      ∃ r s1, call b s = some (r, s1) ∧ heap_ranked nodes we true rank s1.heap
        ∧ heap_tags s1.heap = tags ∧ ∀ x ∈ r, x < tags.length ∧ rank x ≤ rank b)
    (st : SbtStmt)
    (hst : st = SbtStmt.dbug_enter ∨ st = SbtStmt.sspush
      ∨ (∃ son ∈ node_sons e.2,
          st = SbtStmt.descend_son (string_toupper e.1) (string_toupper son.1))
      ∨ (∃ ent ∈ node_attribs e.2, is_node_attrib ent = true
          ∧ st = SbtStmt.descend_attr (string_toupper e.1) (string_toupper ent.1)))
    (s : SbtState)
    (hPT : heap_ranked nodes we true rank s.heap ∧ heap_tags s.heap = tags) :
    ∃ s1, SBT_step call a st s = some s1
      ∧ heap_ranked nodes we true rank s1.heap ∧ heap_tags s1.heap = tags := by
  obtain ⟨hP, hT⟩ := hPT
  have ha : a < tags.length := getElem?_lt tags a t hta
  obtain ⟨nd, hnd, htag⟩ := heap_tags_get s.heap tags hT a ha
  have hlen := heap_tags_length s.heap tags hT
  have hnt : nd.nodetype = t := by
    rw [hta] at htag
    exact (Option.some.inj htag).symm
  have he1 : schema_node nodes nd.nodetype = some e := by rw [hnt]; exact he
  rcases hst with h | h | ⟨son, hson, h⟩ | ⟨ent, hent, hnode, h⟩
  · subst h
    exact ⟨s, rfl, hP, hT⟩
  · subst h
    exact ⟨_, rfl, hP, hT⟩
  · subst h
    obtain ⟨p, hp, hown⟩ := ranked_get_son nodes we true rank s.heap a nd e son hP hnd he1 hson
    rw [hlen] at hown
    cases p with
    | none =>
      refine ⟨s, ?_, hP, hT⟩
      simp only [SBT_step, hp]
    | some b =>
      obtain ⟨hb1, hb2⟩ := hown b rfl
      obtain ⟨r, s1, hc, hP1, hT1, hr⟩ := hcall b s hb1 hb2 hP hT
      refine ⟨SbtState.mk (heap_set_son s1.heap a
        (string_toupper e.1, string_toupper son.1) r) s1.stack, ?_, ?_, ?_⟩
      · simp only [SBT_step, hp, hc]
      · apply heap_ranked_set_son nodes we true rank s1.heap a _ r hP1
        rw [heap_tags_length s1.heap tags hT1]
        exact owned_ok_of_le rank _ a b r hb2 hr
      · show heap_tags (heap_set_son s1.heap a _ r) = tags
        rw [heap_tags_set_son]
        exact hT1
  · subst h
    obtain ⟨v, hv, hown⟩ := ranked_get_attrib nodes we true rank s.heap a nd e ent hP hnd he1
      hent
    have hown1 := hown rfl hnode
    rw [hlen] at hown1
    cases v with
    | data d => exact absurd hown1 (fun h => h)
    | ptr p =>
      cases p with
      | none =>
        refine ⟨s, ?_, hP, hT⟩
        simp only [SBT_step, hv]
      | some b =>
        obtain ⟨hb1, hb2⟩ := hown1 b rfl
        obtain ⟨r, s1, hc, hP1, hT1, hr⟩ := hcall b s hb1 hb2 hP hT
        refine ⟨SbtState.mk (heap_set_attrib s1.heap a
          (string_toupper e.1, string_toupper ent.1) (attr_value.ptr r)) s1.stack, ?_, ?_, ?_⟩
        · simp only [SBT_step, hv, hc]
        · apply heap_ranked_set_attrib nodes we true rank s1.heap a _ _ hP1
          intro _
          rw [heap_tags_length s1.heap tags hT1]
          exact owned_ok_of_le rank _ a b r hb2 hr
        · show heap_tags (heap_set_attrib s1.heap a _ _) = tags
          rw [heap_tags_set_attrib]
          exact hT1

theorem SBT_call_total (attrtype_names : List attrtype_name)
    (nodes : List (String × yajl_val)) (funs : List (String × List SbtStmt))
    (hgen : gen_serialize_buildstack_c nodes = some funs)
    (hreg : schema_registered attrtype_names nodes)
    (we : Bool) (rank : Nat → Nat) (tags : List String) :
    ∀ n a s, a < tags.length → rank a < n →
      heap_ranked nodes we true rank s.heap → heap_tags s.heap = tags →
      ∃ s1, SBT_call funs n a s = some (some a, s1)
        ∧ heap_ranked nodes we true rank s1.heap ∧ heap_tags s1.heap = tags := by
  intro n
  induction n with
  | zero => intro a s _ hr; exact absurd hr (Nat.not_lt_zero _)
  | succ n ih =>
    intro a s ha hr hP hT
    obtain ⟨nd, hnd, htag⟩ := heap_tags_get s.heap tags hT a ha
    obtain ⟨e, he, _⟩ := hP a nd hnd
    have he : schema_node nodes nd.nodetype = some e := he
    obtain ⟨body, hbody, hlook⟩ := node_loop_lookup "SBT"
      gen_serialize_buildstack_c_body nodes funs hgen nd.nodetype e he
    obtain ⟨pre, hpre, hstmts⟩ := sbt_body_stmts e.1 e.2
      (attribs_typed_of_registered attrtype_names e.2
        (hreg e (schema_node_mem nodes nd.nodetype e he).1))
    rw [hpre] at hbody
    have hb := (Option.some.inj hbody).symm
    subst hb
    have hnoret : ∀ st ∈ pre, SbtStmt.is_return st = false := by
      intro st hst
      rcases hstmts st hst with h | h | ⟨_, _, h⟩ | ⟨_, _, _, h⟩ <;> (subst h; rfl)
    have hcall : ∀ b s, b < tags.length → rank b < rank a →
        heap_ranked nodes we true rank s.heap → heap_tags s.heap = tags →
        ∃ r s1, SBT_call funs n b s = some (r, s1) ∧ heap_ranked nodes we true rank s1.heap
          ∧ heap_tags s1.heap = tags ∧ ∀ x ∈ r, x < tags.length ∧ rank x ≤ rank b := by
      intro b s0 hb hrb hP0 hT0
      obtain ⟨s1, h1, h2, h3⟩ := ih b s0 hb (by omega) hP0 hT0
      refine ⟨some b, s1, h1, h2, h3, ?_⟩
      intro x hx
      cases hx
      exact ⟨hb, Nat.le_refl _⟩
    obtain ⟨s1, hrun, hP1, hT1⟩ := run_steps_inv (SBT_step (SBT_call funs n) a)
      (fun s => heap_ranked nodes we true rank s.heap ∧ heap_tags s.heap = tags) pre
      (fun st hst s0 hs0 => SBT_step_ranked nodes we rank tags (SBT_call funs n) a
        nd.nodetype e htag he hcall st (hstmts st hst) s0 hs0) s ⟨hP, hT⟩
    refine ⟨s1, ?_, hP1, hT1⟩
    simp only [SBT_call, hnd, hlook, SBT_run]
    rw [run_until_end SbtStmt.is_return _ pre SbtStmt.return_arg_node s hnoret rfl, hrun]

theorem CHKRST_step_ranked (nodes : List (String × yajl_val)) (we wa : Bool)
    (rank : Nat → Nat)
    (tags : List String) (call : Nat → ChkState → Option (Option Nat × ChkState)) (a : Nat)
    (t : String) (e : String × yajl_val)
    (hta : tags[a]? = some t) (he : schema_node nodes t = some e)
    (hcall : ∀ b s, b < tags.length → rank b < rank a →
      heap_ranked nodes we wa rank s.heap → heap_tags s.heap = tags →
      ∃ r s1, call b s = some (r, s1) ∧ heap_ranked nodes we wa rank s1.heap
        ∧ heap_tags s1.heap = tags ∧ ∀ x ∈ r, x < tags.length ∧ rank x ≤ rank b)
    (st : ChkrstStmt)
    (hst : st = ChkrstStmt.dbug_enter ∨ st = ChkrstStmt.clear_visited
      ∨ (∃ son ∈ node_sons e.2,
          st = ChkrstStmt.descend_son (string_toupper e.1) (string_toupper son.1)))
    (s : ChkState)
    (hPT : heap_ranked nodes we wa rank s.heap ∧ heap_tags s.heap = tags) :
    ∃ s1, CHKRST_step call a st s = some s1
      ∧ heap_ranked nodes we wa rank s1.heap ∧ heap_tags s1.heap = tags := by
  obtain ⟨hP, hT⟩ := hPT
  have ha : a < tags.length := getElem?_lt tags a t hta
  obtain ⟨nd, hnd, htag⟩ := heap_tags_get s.heap tags hT a ha
  have hlen := heap_tags_length s.heap tags hT
  have hnt : nd.nodetype = t := by
    rw [hta] at htag
    exact (Option.some.inj htag).symm
  have he1 : schema_node nodes nd.nodetype = some e := by rw [hnt]; exact he
  rcases hst with h | h | ⟨son, hson, h⟩
  · subst h
    exact ⟨s, rfl, hP, hT⟩
  · subst h
    exact ⟨_, rfl, hP, hT⟩
  · subst h
    obtain ⟨p, hp, hown⟩ := ranked_get_son nodes we wa rank s.heap a nd e son hP hnd he1 hson
    rw [hlen] at hown
    cases p with
    | none =>
      refine ⟨s, ?_, hP, hT⟩
      simp only [CHKRST_step, hp]
    | some b =>
      obtain ⟨hb1, hb2⟩ := hown b rfl
      obtain ⟨r, s1, hc, hP1, hT1, hr⟩ := hcall b s hb1 hb2 hP hT
      refine ⟨ChkState.mk (heap_set_son s1.heap a
        (string_toupper e.1, string_toupper son.1) r) s1.checkvisited, ?_, ?_, ?_⟩
      · simp only [CHKRST_step, hp, hc]
      · apply heap_ranked_set_son nodes we wa rank s1.heap a _ r hP1
        rw [heap_tags_length s1.heap tags hT1]
        exact owned_ok_of_le rank _ a b r hb2 hr
      · show heap_tags (heap_set_son s1.heap a _ r) = tags
        rw [heap_tags_set_son]
        exact hT1

theorem CHKRST_call_total (nodes : List (String × yajl_val))
    (funs : List (String × List ChkrstStmt))
    (hgen : gen_check_reset_c nodes = some funs)
    (we wa : Bool) (rank : Nat → Nat) (tags : List String) :
    ∀ n a s, a < tags.length → rank a < n →
      heap_ranked nodes we wa rank s.heap → heap_tags s.heap = tags →
      ∃ s1, CHKRST_call funs n a s = some (some a, s1)
        ∧ heap_ranked nodes we wa rank s1.heap ∧ heap_tags s1.heap = tags := by
  intro n
  induction n with
  | zero => intro a s _ hr; exact absurd hr (Nat.not_lt_zero _)
  | succ n ih =>
    intro a s ha hr hP hT
    obtain ⟨nd, hnd, htag⟩ := heap_tags_get s.heap tags hT a ha
    obtain ⟨e, he, _⟩ := hP a nd hnd
    have he : schema_node nodes nd.nodetype = some e := he
    obtain ⟨body, hbody, hlook⟩ := node_loop_lookup "CHKRST"
      gen_check_reset_c_body nodes funs hgen nd.nodetype e he
    rw [chkrst_body_shape] at hbody
    have hb := (Option.some.inj hbody).symm
    subst hb
    have hstmts : ∀ st ∈ [ChkrstStmt.dbug_enter, ChkrstStmt.clear_visited]
        ++ (node_sons e.2).map (fun x =>
          ChkrstStmt.descend_son (string_toupper e.1) (string_toupper x.1)),
        st = ChkrstStmt.dbug_enter ∨ st = ChkrstStmt.clear_visited
          ∨ (∃ son ∈ node_sons e.2,
              st = ChkrstStmt.descend_son (string_toupper e.1) (string_toupper son.1)) := by
      intro st hst
      rcases List.mem_append.1 hst with h | h
      · simp only [List.mem_cons, List.mem_singleton, List.not_mem_nil, or_false] at h
        rcases h with h | h
        · exact Or.inl h
        · exact Or.inr (Or.inl h)
      · obtain ⟨son, hson, h1⟩ := List.mem_map.1 h
        exact Or.inr (Or.inr ⟨son, hson, h1.symm⟩)
    have hnoret : ∀ st ∈ [ChkrstStmt.dbug_enter, ChkrstStmt.clear_visited]
        ++ (node_sons e.2).map (fun x =>
          ChkrstStmt.descend_son (string_toupper e.1) (string_toupper x.1)),
        ChkrstStmt.is_return st = false := by
      intro st hst
      rcases hstmts st hst with h | h | ⟨_, _, h⟩ <;> (subst h; rfl)
    have hcall : ∀ b s, b < tags.length → rank b < rank a →
        heap_ranked nodes we wa rank s.heap → heap_tags s.heap = tags →
        ∃ r s1, CHKRST_call funs n b s = some (r, s1) ∧ heap_ranked nodes we wa rank s1.heap
          ∧ heap_tags s1.heap = tags ∧ ∀ x ∈ r, x < tags.length ∧ rank x ≤ rank b := by
      intro b s0 hb hrb hP0 hT0
      obtain ⟨s1, h1, h2, h3⟩ := ih b s0 hb (by omega) hP0 hT0
      refine ⟨some b, s1, h1, h2, h3, ?_⟩
      intro x hx
      cases hx
      exact ⟨hb, Nat.le_refl _⟩
    obtain ⟨s1, hrun, hP1, hT1⟩ := run_steps_inv (CHKRST_step (CHKRST_call funs n) a)
      (fun s => heap_ranked nodes we wa rank s.heap ∧ heap_tags s.heap = tags) _
      (fun st hst s0 hs0 => CHKRST_step_ranked nodes we wa rank tags (CHKRST_call funs n) a
        nd.nodetype e htag he hcall st (hstmts st hst) s0 hs0) s ⟨hP, hT⟩
    refine ⟨s1, ?_, hP1, hT1⟩
    simp only [CHKRST_call, hnd, hlook, CHKRST_run]
    rw [run_until_end ChkrstStmt.is_return _ _ ChkrstStmt.return_arg_node s hnoret rfl, hrun]

/-! ## The destroy walk on a ranked heap -/

theorem free_body_stmts (attrtype_names : List attrtype_name) (node_name : String)
    (node : yajl_val) (hreg : attribs_registered attrtype_names node) :
    ∃ pre tail, gen_free_node_c_body attrtype_names node_name node = some (pre ++ tail)
      ∧ (∀ st ∈ pre, st = FreeStmt.dbug_enter ∨ st = FreeStmt.zombify
          ∨ st = FreeStmt.decl_result ∨ st = FreeStmt.freetrav_error
          ∨ (st = FreeStmt.freecond_next (string_toupper node_name)
              ∧ ∃ son ∈ node_sons node, son.1 = "Next")
          ∨ (∃ ent ∈ node_attribs node, ∃ T,
              st = FreeStmt.freeattrib (string_toupper node_name) (string_toupper ent.1) T)
          ∨ (∃ son ∈ node_sons node,
              st = FreeStmt.freetrav_son (string_toupper node_name) (string_toupper son.1)))
      ∧ (tail = [FreeStmt.return_arg_node]
          ∨ tail = [FreeStmt.memfree, FreeStmt.return_result]
          ∨ (tail = [FreeStmt.result_next (string_toupper node_name), FreeStmt.memfree,
                FreeStmt.return_result]
              ∧ ∃ son ∈ node_sons node, son.1 = "Next")) := by
  refine ⟨_, _, gen_free_node_c_body_shape attrtype_names node_name node hreg, ?_, ?_⟩
  · intro st hst
    simp only [List.mem_append] at hst
    rcases hst with ((((h | h) | h) | h) | h) | h
    · exact Or.inl (List.mem_singleton.1 h)
    · by_cases hF : node_name = "Fundef"
      · rw [if_pos hF] at h
        exact Or.inr (Or.inl (List.mem_singleton.1 h))
      · rw [if_neg hF] at h
        exact Or.inr (Or.inr (Or.inl (List.mem_singleton.1 h)))
    · exact Or.inr (Or.inr (Or.inr (Or.inl (List.mem_singleton.1 h))))
    · right; right; right; right; left
      by_cases hn : (yajl_tree_get (yajl_tree_get (some node) ["sons"] .t_object) ["Next"]
          .t_object).isSome = true
      · rw [if_pos hn] at h
        exact ⟨List.mem_singleton.1 h, next_isSome_mem node hn⟩
      · rw [if_neg hn] at h
        cases h
    · right; right; right; right; right; left
      obtain ⟨ent, T, hent, h1⟩ := free_attribs_mem _ _ _ _ _ h
      exact ⟨ent, hent, T, h1⟩
    · right; right; right; right; right; right
      unfold FREE_spec_sons at h
      obtain ⟨son, hson, h1⟩ := List.mem_map.1 h
      exact ⟨son, (List.mem_filter.1 hson).1, h1.symm⟩
  · by_cases hF : node_name = "Fundef"
    · rw [if_pos hF]
      exact Or.inl rfl
    · rw [if_neg hF]
      by_cases hn : (yajl_tree_get (yajl_tree_get (some node) ["sons"] .t_object) ["Next"]
          .t_object).isSome = true
      · rw [if_pos hn]
        exact Or.inr (Or.inr ⟨rfl, next_isSome_mem node hn⟩)
      · rw [if_neg hn]
        exact Or.inr (Or.inl rfl)

theorem FREETRAV_ranked (nodes : List (String × yajl_val)) (rank : Nat → Nat)
    (tags : List String) (call : Nat → FreeState → Option (Option Nat × FreeState)) (a : Nat)
    (hcall : ∀ b s, b < tags.length → rank b < rank a →
      heap_ranked nodes true false rank s.heap → heap_tags s.heap = tags →
      ∃ r s1, call b s = some (r, s1) ∧ heap_ranked nodes true false rank s1.heap
        ∧ heap_tags s1.heap = tags ∧ ∀ x ∈ r, x < tags.length ∧ rank x ≤ rank b)
    (p : Option Nat) (hp : owned_ok rank tags.length a p) (s : FreeState)
    (hP : heap_ranked nodes true false rank s.heap) (hT : heap_tags s.heap = tags) :
    ∃ r s1, FREETRAV call p s = some (r, s1) ∧ heap_ranked nodes true false rank s1.heap
      ∧ heap_tags s1.heap = tags ∧ owned_ok rank tags.length a r := by
  cases p with
  | none =>
    refine ⟨none, s, rfl, hP, hT, ?_⟩
    intro x hx
    cases hx
  | some b =>
    obtain ⟨hb1, hb2⟩ := hp b rfl
    obtain ⟨r, s1, hc, hP1, hT1, hr⟩ := hcall b s hb1 hb2 hP hT
    exact ⟨r, s1, hc, hP1, hT1, owned_ok_of_le rank _ a b r hb2 hr⟩

theorem FREE_step_ranked (nodes : List (String × yajl_val)) (rank : Nat → Nat)
    (tags : List String)
    (ext : String → attr_value → Nat → FreeState → attr_value × FreeState)
    (hext : ∀ T v p s, (ext T v p s).2.heap = s.heap)
    (call : Nat → FreeState → Option (Option Nat × FreeState)) (flag : Option Nat) (a : Nat)
    (t : String) (e : String × yajl_val)
    (hta : tags[a]? = some t) (he : schema_node nodes t = some e)
    (hcall : ∀ b s, b < tags.length → rank b < rank a →
      heap_ranked nodes true false rank s.heap → heap_tags s.heap = tags →
      ∃ r s1, call b s = some (r, s1) ∧ heap_ranked nodes true false rank s1.heap
        ∧ heap_tags s1.heap = tags ∧ ∀ x ∈ r, x < tags.length ∧ rank x ≤ rank b)
    (st : FreeStmt)
    (hst : st = FreeStmt.dbug_enter ∨ st = FreeStmt.zombify
      ∨ st = FreeStmt.decl_result ∨ st = FreeStmt.freetrav_error
      ∨ (st = FreeStmt.freecond_next (string_toupper e.1)
          ∧ ∃ son ∈ node_sons e.2, son.1 = "Next")
      ∨ (∃ ent ∈ node_attribs e.2, ∃ T,
          st = FreeStmt.freeattrib (string_toupper e.1) (string_toupper ent.1) T)
      ∨ (∃ son ∈ node_sons e.2,
          st = FreeStmt.freetrav_son (string_toupper e.1) (string_toupper son.1)))
    (s : FreeState)
    (hP : heap_ranked nodes true false rank s.heap) (hT : heap_tags s.heap = tags) :
    ∃ s1, FREE_step ext call flag st (FreeLocals.mk (some a) none) s
        = some (FreeLocals.mk (some a) none, s1)
      ∧ heap_ranked nodes true false rank s1.heap ∧ heap_tags s1.heap = tags := by
  have ha : a < tags.length := getElem?_lt tags a t hta
  obtain ⟨nd, hnd, htag⟩ := heap_tags_get s.heap tags hT a ha
  have hlen := heap_tags_length s.heap tags hT
  have hnt : nd.nodetype = t := by
    rw [hta] at htag
    exact (Option.some.inj htag).symm
  have he1 : schema_node nodes nd.nodetype = some e := by rw [hnt]; exact he
  rcases hst with h | h | h | h | ⟨h, son, hson, hname⟩ | ⟨ent, hent, T, h⟩ | ⟨son, hson, h⟩
  · subst h
    exact ⟨s, rfl, hP, hT⟩
  · subst h
    exact ⟨FreeState.mk s.heap s.freed (a :: s.zombies), rfl, hP, hT⟩
  · subst h
    exact ⟨s, rfl, hP, hT⟩
  · subst h
    have hown : owned_ok rank tags.length a nd.error := by
      have := (ranked_entry nodes true false rank _ a nd e (hP a nd hnd) he1).2.2.1 rfl
      rw [hlen] at this
      exact this
    obtain ⟨r, s1, hc, hP1, hT1, hr⟩ := FREETRAV_ranked nodes rank tags call a hcall
      nd.error hown s hP hT
    refine ⟨FreeState.mk (heap_set_error s1.heap a r) s1.freed s1.zombies, ?_, ?_, ?_⟩
    · simp only [FREE_step, hnd, hc]
    · apply heap_ranked_set_error nodes true false rank s1.heap a r hP1
      rw [heap_tags_length s1.heap tags hT1]
      exact hr
    · show heap_tags (heap_set_error s1.heap a r) = tags
      rw [heap_tags_set_error]
      exact hT1
  · subst h
    obtain ⟨p, hp, hown⟩ := ranked_get_son nodes true false rank s.heap a nd e son hP hnd he1
      hson
    rw [hname, upper_Next] at hp
    rw [hlen] at hown
    have hres : ∃ r s1, FREECOND call flag (some a) p s = some (r, s1)
        ∧ heap_ranked nodes true false rank s1.heap
        ∧ heap_tags s1.heap = tags ∧ owned_ok rank tags.length a r := by
      unfold FREECOND
      by_cases hf : flag ≠ some a
      · rw [if_pos hf]
        exact FREETRAV_ranked nodes rank tags call a hcall p hown s hP hT
      · rw [if_neg hf]
        exact ⟨p, s, rfl, hP, hT, hown⟩
    obtain ⟨r, s1, hc, hP1, hT1, hr⟩ := hres
    refine ⟨FreeState.mk (heap_set_son s1.heap a (string_toupper e.1, "NEXT") r) s1.freed
      s1.zombies, ?_, ?_, ?_⟩
    · simp only [FREE_step, hp, hc]
    · apply heap_ranked_set_son nodes true false rank s1.heap a _ r hP1
      rw [heap_tags_length s1.heap tags hT1]
      exact hr
    · show heap_tags (heap_set_son s1.heap a _ r) = tags
      rw [heap_tags_set_son]
      exact hT1
  · subst h
    obtain ⟨v, hv, _⟩ := ranked_get_attrib nodes true false rank s.heap a nd e ent hP hnd he1
      hent
    have hheap := hext T v a s
    refine ⟨FreeState.mk (heap_set_attrib (ext T v a s).2.heap a
      (string_toupper e.1, string_toupper ent.1) (ext T v a s).1) (ext T v a s).2.freed
      (ext T v a s).2.zombies, ?_, ?_, ?_⟩
    · simp only [FREE_step, hv]
    · apply heap_ranked_set_attrib nodes true false rank _ a _ _
      · rw [hheap]
        exact hP
      · intro h
        cases h
    · show heap_tags (heap_set_attrib _ a _ _) = tags
      rw [heap_tags_set_attrib, hheap]
      exact hT
  · subst h
    obtain ⟨p, hp, hown⟩ := ranked_get_son nodes true false rank s.heap a nd e son hP hnd he1
      hson
    rw [hlen] at hown
    obtain ⟨r, s1, hc, hP1, hT1, hr⟩ := FREETRAV_ranked nodes rank tags call a hcall
      p hown s hP hT
    refine ⟨FreeState.mk (heap_set_son s1.heap a
      (string_toupper e.1, string_toupper son.1) r) s1.freed s1.zombies, ?_, ?_, ?_⟩
    · simp only [FREE_step, hp, hc]
    · apply heap_ranked_set_son nodes true false rank s1.heap a _ r hP1
      rw [heap_tags_length s1.heap tags hT1]
      exact hr
    · show heap_tags (heap_set_son s1.heap a _ r) = tags
      rw [heap_tags_set_son]
      exact hT1

theorem FREE_steps_inv
    (ext : String → attr_value → Nat → FreeState → attr_value × FreeState)
    (call : Nat → FreeState → Option (Option Nat × FreeState)) (flag : Option Nat)
    (loc : FreeLocals) (P : FreeState → Prop) (l : List FreeStmt)
    (h : ∀ st ∈ l, ∀ s, P s → ∃ s1, FREE_step ext call flag st loc s = some (loc, s1) ∧ P s1) :
    ∀ s, P s → ∃ s1, FREE_steps ext call flag l loc s = some (loc, s1) ∧ P s1 := by
  induction l with
  | nil => intro s hs; exact ⟨s, rfl, hs⟩
  | cons st rest ih =>
    intro s hs
    obtain ⟨s1, hs1, hp1⟩ := h st (List.mem_cons_self _ _) s hs
    obtain ⟨s2, hs2, hp2⟩ := ih (fun x hx => h x (List.mem_cons_of_mem _ hx)) s1 hp1
    refine ⟨s2, ?_, hp2⟩
    simp only [FREE_steps, hs1]
    exact hs2

theorem FREE_call_total (attrtype_names : List attrtype_name)
    (nodes : List (String × yajl_val)) (funs : List (String × List FreeStmt))
    (hgen : gen_free_node_c attrtype_names nodes = some funs)
    (hreg : schema_registered attrtype_names nodes)
    (ext : String → attr_value → Nat → FreeState → attr_value × FreeState)
    (hext : ∀ T v p s, (ext T v p s).2.heap = s.heap)
    (flag : Option Nat) (rank : Nat → Nat) (tags : List String) :
    ∀ n a s, a < tags.length → rank a < n →
      heap_ranked nodes true false rank s.heap → heap_tags s.heap = tags →
      ∃ r s1, FREE_call ext funs n flag a s = some (r, s1)
        ∧ heap_ranked nodes true false rank s1.heap ∧ heap_tags s1.heap = tags
        ∧ ∀ x ∈ r, x < tags.length ∧ rank x ≤ rank a := by
  intro n
  induction n with
  | zero => intro a s _ hr; exact absurd hr (Nat.not_lt_zero _)
  | succ n ih =>
    intro a s ha hr hP hT
    obtain ⟨nd, hnd, htag⟩ := heap_tags_get s.heap tags hT a ha
    obtain ⟨e, he, _⟩ := hP a nd hnd
    have he : schema_node nodes nd.nodetype = some e := he
    obtain ⟨body, hbody, hlook⟩ := node_loop_lookup "FREE"
      (gen_free_node_c_body attrtype_names) nodes funs hgen nd.nodetype e he
    obtain ⟨pre, tail, hpre, hstmts, htail⟩ := free_body_stmts attrtype_names e.1 e.2
      (hreg e (schema_node_mem nodes nd.nodetype e he).1)
    rw [hpre] at hbody
    have hb := (Option.some.inj hbody).symm
    subst hb
    have hnoret : ∀ st ∈ pre, FreeStmt.is_return st = false := by
      intro st hst
      rcases hstmts st hst with h | h | h | h | ⟨h, _⟩ | ⟨_, _, _, h⟩ | ⟨_, _, h⟩ <;>
        (subst h; rfl)
    have hcall : ∀ b s, b < tags.length → rank b < rank a →
        heap_ranked nodes true false rank s.heap → heap_tags s.heap = tags →
        ∃ r s1, FREE_call ext funs n flag b s = some (r, s1)
          ∧ heap_ranked nodes true false rank s1.heap
          ∧ heap_tags s1.heap = tags ∧ ∀ x ∈ r, x < tags.length ∧ rank x ≤ rank b := by
      intro b s0 hb hrb hP0 hT0
      exact ih b s0 hb (by omega) hP0 hT0
    obtain ⟨s1, hrun, hP1, hT1⟩ := FREE_steps_inv ext (FREE_call ext funs n flag) flag
      (FreeLocals.mk (some a) none)
      (fun s => heap_ranked nodes true false rank s.heap ∧ heap_tags s.heap = tags) pre
      (fun st hst s0 hs0 => FREE_step_ranked nodes rank tags ext hext
        (FREE_call ext funs n flag) flag a nd.nodetype e htag he hcall st (hstmts st hst)
        s0 hs0.1 hs0.2) s ⟨hP, hT⟩
    have hstart : FREE_call ext funs (n + 1) flag a s
        = FREE_run ext (FREE_call ext funs n flag) flag tail (FreeLocals.mk (some a) none)
            s1 := by
      simp only [FREE_call, hnd, hlook]
      rw [FREE_run_append ext _ flag pre tail _ s hnoret, hrun]
    rw [hstart]
    rcases htail with h | h | ⟨h, son, hson, hname⟩
    · subst h
      refine ⟨some a, s1, rfl, hP1, hT1, ?_⟩
      intro x hx
      cases hx
      exact ⟨ha, Nat.le_refl _⟩
    · subst h
      refine ⟨none, FreeState.mk s1.heap (a :: s1.freed) s1.zombies, rfl, hP1, hT1, ?_⟩
      intro x hx
      cases hx
    · subst h
      obtain ⟨nd1, hnd1, htag1⟩ := heap_tags_get s1.heap tags hT1 a ha
      have he1 : schema_node nodes nd1.nodetype = some e := by
        have : nd1.nodetype = nd.nodetype := by
          rw [htag] at htag1
          exact (Option.some.inj htag1).symm
        rw [this]
        exact he
      obtain ⟨p, hp, hown⟩ := ranked_get_son nodes true false rank s1.heap a nd1 e son hP1
        hnd1 he1 hson
      rw [hname, upper_Next] at hp
      rw [heap_tags_length s1.heap tags hT1] at hown
      refine ⟨p, FreeState.mk s1.heap (a :: s1.freed) s1.zombies, ?_, hP1, hT1, ?_⟩
      · simp only [FREE_run, FREE_step, hp]
      · intro x hx
        obtain ⟨h1, h2⟩ := hown x hx
        exact ⟨h1, Nat.le_of_lt h2⟩

/-! ## The check walk leaves the tree as it is -/

theorem heap_set_error_same (heap : List node_inst) (a : Nat) (nd : node_inst)
    (hnd : heap[a]? = some nd) : heap_set_error heap a nd.error = heap := by
  unfold heap_set_error
  rw [hnd]
  exact list_set_self heap a _ hnd

theorem run_until_keeps {S Stmt : Type} (is_end : Stmt → Bool) (step : Stmt → S → Option S)
    (P : S → Prop) (hstep : ∀ st s s1, P s → step st s = some s1 → P s1) :
    ∀ (l : List Stmt) (s s1 : S), P s → run_until is_end step l s = some s1 → P s1 := by
  intro l
  induction l with
  | nil => intro s s1 _ h; cases h
  | cons st rest ih =>
    intro s s1 hP h
    unfold run_until at h
    by_cases he : is_end st = true
    · rw [if_pos he] at h
      cases h
      exact hP
    · rw [if_neg he] at h
      cases hs : step st s with
      | none => rw [hs] at h; cases h
      | some s2 =>
        rw [hs] at h
        exact ih s2 s1 (hstep st s s2 hP hs) h

theorem CHKMTRAV_frame (call : Nat → ChkmState → Option (Option Nat × ChkmState))
    (heap : List node_inst)
    (hcall : ∀ b s r s1, s.heap = heap → call b s = some (r, s1) →
      r = some b ∧ s1.heap = heap)
    (p r : Option Nat) (s s1 : ChkmState) (hs : s.heap = heap)
    (h : CHKMTRAV call p s = some (r, s1)) : r = p ∧ s1.heap = heap := by
  cases p with
  | none =>
    simp only [CHKMTRAV, Option.some.injEq, Prod.mk.injEq] at h
    obtain ⟨h1, h2⟩ := h
    subst h1
    subst h2
    exact ⟨rfl, hs⟩
  | some b => exact hcall b s r s1 hs h

theorem CHKM_step_frame (call : Nat → ChkmState → Option (Option Nat × ChkmState))
    (heap : List node_inst) (hnodup : ∀ nd ∈ heap, (nd.sons.map Prod.fst).Nodup)
    (hcall : ∀ b s r s1, s.heap = heap → call b s = some (r, s1) →
      r = some b ∧ s1.heap = heap)
    (a : Nat) (st : ChkmStmt) (s s1 : ChkmState) (hs : s.heap = heap)
    (h : CHKM_step call a st s = some s1) : s1.heap = heap := by
  cases st with
  | dbug_enter =>
    simp only [CHKM_step, Option.some.injEq] at h
    rw [← h]
    exact hs
  | touch_node =>
    simp only [CHKM_step, Option.some.injEq] at h
    rw [← h]
    exact hs
  | chkmtrav_error =>
    cases hnd : s.heap[a]? with
    | none => simp [CHKM_step, hnd] at h
    | some nd =>
      cases hc : CHKMTRAV call nd.error s with
      | none => simp [CHKM_step, hnd, hc] at h
      | some x =>
        obtain ⟨r, s2⟩ := x
        simp only [CHKM_step, hnd, hc, Option.some.injEq] at h
        obtain ⟨hr, hs2⟩ := CHKMTRAV_frame call heap hcall nd.error r s s2 hs hc
        rw [← h]
        show heap_set_error s2.heap a r = heap
        rw [hs2, hr]
        rw [hs] at hnd
        exact heap_set_error_same heap a nd hnd
  | touch_attr NODE ATTR =>
    cases hv : heap_get_attrib s.heap a (NODE, ATTR) with
    | none => simp [CHKM_step, hv] at h
    | some v =>
      simp only [CHKM_step, hv, Option.some.injEq] at h
      rw [← h]
      exact hs
  | chkmtrav_son NODE SON =>
    cases hp : heap_get_son s.heap a (NODE, SON) with
    | none => simp [CHKM_step, hp] at h
    | some p =>
      cases hc : CHKMTRAV call p s with
      | none => simp [CHKM_step, hp, hc] at h
      | some x =>
        obtain ⟨r, s2⟩ := x
        simp only [CHKM_step, hp, hc, Option.some.injEq] at h
        obtain ⟨hr, hs2⟩ := CHKMTRAV_frame call heap hcall p r s s2 hs hc
        rw [← h]
        show heap_set_son s2.heap a (NODE, SON) r = heap
        rw [hs2, hr]
        rw [hs] at hp
        unfold heap_get_son at hp
        cases hnd : heap[a]? with
        | none => rw [hnd] at hp; cases hp
        | some nd =>
          rw [hnd] at hp
          exact heap_set_son_same heap a nd (NODE, SON) p hnd
            (hnodup nd (List.mem_iff_getElem?.2 ⟨a, hnd⟩)) hp
  | return_arg_node =>
    simp only [CHKM_step, Option.some.injEq] at h
    rw [← h]
    exact hs

theorem CHKM_call_frame (funs : List (String × List ChkmStmt)) (heap : List node_inst)
    (hnodup : ∀ nd ∈ heap, (nd.sons.map Prod.fst).Nodup) :
    ∀ n a s r s1, s.heap = heap → CHKM_call funs n a s = some (r, s1) →
      r = some a ∧ s1.heap = heap := by
  intro n
  induction n with
  | zero => intro a s r s1 _ h; cases h
  | succ n ih =>
    intro a s r s1 hs h
    cases hnd : s.heap[a]? with
    | none => simp [CHKM_call, hnd] at h
    | some nd =>
      cases hl : funs.lookup ("CHKM" ++ nd.nodetype) with
      | none => simp [CHKM_call, hnd, hl] at h
      | some body =>
        simp only [CHKM_call, hnd, hl, CHKM_run] at h
        cases hrun : run_until ChkmStmt.is_return (CHKM_step (CHKM_call funs n) a) body s with
        | none => rw [hrun] at h; cases h
        | some s2 =>
          rw [hrun] at h
          simp only [Option.some.injEq, Prod.mk.injEq] at h
          obtain ⟨h1, h2⟩ := h
          refine ⟨h1.symm, ?_⟩
          rw [← h2]
          exact run_until_keeps ChkmStmt.is_return (CHKM_step (CHKM_call funs n) a)
            (fun s => s.heap = heap)
            (fun st s0 s3 hP hstep => CHKM_step_frame (CHKM_call funs n) heap hnodup
              (fun b s4 r4 s5 h4 h5 => ih b s4 r4 s5 h4 h5) a st s0 s3 hP hstep)
            body s s2 hs hrun

theorem CHKM_tree_unchanged_spec
    (attrtype_names : List attrtype_name)
    (nodes : List (String × yajl_val)) (funs : List (String × List ChkmStmt))
    (hgen : gen_check_node_c attrtype_names nodes = some funs)
    (hreg : schema_registered attrtype_names nodes)
    (hkeys : ∀ n ∈ nodes, (declared_keys n.1 (node_sons n.2)).Nodup)
    (rank : Nat → Nat) (heap : List node_inst)
    (hgraph : graph_ranked nodes true rank heap)
    (a : Nat) (ha : a < heap.length) (n : Nat) (hn : rank a < n) (touched : List attr_value) :
    ∃ touched1, CHKM_call funs n a (ChkmState.mk heap touched)
      = some (some a, ChkmState.mk heap touched1) := by
  have hP := heap_ranked_of_graph nodes true rank heap hgraph
  have hnodup : ∀ nd ∈ heap, (nd.sons.map Prod.fst).Nodup := by
    intro nd hnd
    obtain ⟨i, hi⟩ := List.mem_iff_getElem?.1 hnd
    obtain ⟨e, he, h1, _⟩ := hP i nd hi
    rw [h1]
    exact hkeys e (schema_node_mem nodes nd.nodetype e he).1
  obtain ⟨s1, hcall, _, _⟩ := CHKM_call_total attrtype_names nodes funs hgen hreg true rank
    (heap_tags heap) n a (ChkmState.mk heap touched)
    (by unfold heap_tags; rw [List.length_map]; exact ha) hn hP rfl
  have hframe := (CHKM_call_frame funs heap hnodup n a (ChkmState.mk heap touched) (some a) s1
    rfl hcall).2
  refine ⟨s1.touched, ?_⟩
  rw [hcall]
  obtain ⟨h1, t1⟩ := s1
  simp only at hframe
  rw [hframe]

/-- C28: let the schema have registered attribute types and distinct accessor names
for the sons of a node, and let the heap be a finite node graph of the schema whose
owned edges (`NODE_ERROR`, the sons and the attributes of type `Node`) are acyclic,
as in a tree.  Then the generated check operation, run on any node of the heap with
fuel above the rank of the node, returns its argument node, and the heap after the
run is the heap before it: every son field, `Next` and `NODE_ERROR` that the
functions `CHKM<node>` reassign receives the value it already held.  Only the record
of touched blocks grows. -/
theorem CHKM_tree_unchanged
    (attrtype_names : List attrtype_name)
    (nodes : List (String × yajl_val)) (funs : List (String × List ChkmStmt))
    (hgen : gen_check_node_c attrtype_names nodes = some funs)
    (hreg : schema_registered attrtype_names nodes)
    (hkeys : ∀ n ∈ nodes, (declared_keys n.1 (node_sons n.2)).Nodup)
    (rank : Nat → Nat) (heap : List node_inst)
    (hgraph : graph_ranked nodes true rank heap)
    (a : Nat) (ha : a < heap.length) (n : Nat) (hn : rank a < n) (touched : List attr_value) :
    ∃ touched1, CHKM_call funs n a (ChkmState.mk heap touched)
      = some (some a, ChkmState.mk heap touched1) :=
  CHKM_tree_unchanged_spec attrtype_names nodes funs hgen hreg hkeys rank heap hgraph a ha n
    hn touched

theorem CHKM_tree_unchanged_witness :
    gen_check_node_c ex_attrtype_names ex_nodes = some ex_CHKM_funs
      ∧ schema_registered ex_attrtype_names ex_nodes
      ∧ (∀ n ∈ ex_nodes, (declared_keys n.1 (node_sons n.2)).Nodup)
      ∧ graph_ranked ex_nodes true (fun a => 4 - a) ex_graph
      ∧ CHKM_call ex_CHKM_funs 5 0 (ChkmState.mk ex_graph [])
        = some (some 0, ChkmState.mk ex_graph
            [attr_value.ptr (some 0), attr_value.ptr (some 2), attr_value.ptr (some 3),
             attr_value.ptr (some 1)])
      ∧ ∃ touched1, CHKM_call ex_CHKM_funs 5 0 (ChkmState.mk ex_graph [])
        = some (some 0, ChkmState.mk ex_graph touched1) :=
  ⟨by decide, by decide, by decide, by decide, by decide,
   CHKM_tree_unchanged ex_attrtype_names ex_nodes ex_CHKM_funs (by decide) (by decide)
     (by decide) (fun a => 4 - a) ex_graph (by decide) 0 (by decide) 5 (by decide) []⟩

/-! ## Termination of the generated walks -/

theorem walks_terminate_spec (attrtype_names : List attrtype_name)
    (nodes : List (String × yajl_val))
    (free : List (String × List FreeStmt)) (chkrst : List (String × List ChkrstStmt))
    (chkm : List (String × List ChkmStmt)) (sbt : List (String × List SbtStmt))
    (hfree : gen_free_node_c attrtype_names nodes = some free)
    (hchkrst : gen_check_reset_c nodes = some chkrst)
    (hchkm : gen_check_node_c attrtype_names nodes = some chkm)
    (hsbt : gen_serialize_buildstack_c nodes = some sbt)
    (hreg : schema_registered attrtype_names nodes)
    (ext : String → attr_value → Nat → FreeState → attr_value × FreeState)
    (hext : ∀ T v p s, (ext T v p s).2.heap = s.heap)
    (rank : Nat → Nat) (heap : List node_inst)
    (hgraph : graph_ranked nodes true rank heap)
    (a : Nat) (ha : a < heap.length) (n : Nat) (hn : rank a < n) :
    (∀ flag freed zombies, ∃ r s1,
        FREE_call ext free n flag a (FreeState.mk heap freed zombies) = some (r, s1))
      ∧ (∀ marks, ∃ s1, CHKRST_call chkrst n a (ChkState.mk heap marks) = some (some a, s1))
      ∧ (∀ touched, ∃ s1, CHKM_call chkm n a (ChkmState.mk heap touched) = some (some a, s1))
      ∧ (∀ stack, ∃ s1, SBT_call sbt n a (SbtState.mk heap stack) = some (some a, s1)) := by
  have hP := heap_ranked_of_graph nodes true rank heap hgraph
  have ha1 : a < (heap_tags heap).length := by
    unfold heap_tags
    rw [List.length_map]
    exact ha
  refine ⟨?_, ?_, ?_, ?_⟩
  · intro flag freed zombies
    obtain ⟨r, s1, h, _⟩ := FREE_call_total attrtype_names nodes free hfree hreg ext hext flag
      rank (heap_tags heap) n a (FreeState.mk heap freed zombies) ha1 hn
      (heap_ranked_weaken nodes true true true false (fun h => h) (fun h => by cases h) rank
        heap hP) rfl
    exact ⟨r, s1, h⟩
  · intro marks
    obtain ⟨s1, h, _⟩ := CHKRST_call_total nodes chkrst hchkrst true true rank
      (heap_tags heap) n a (ChkState.mk heap marks) ha1 hn hP rfl
    exact ⟨s1, h⟩
  · intro touched
    obtain ⟨s1, h, _⟩ := CHKM_call_total attrtype_names nodes chkm hchkm hreg true rank
      (heap_tags heap) n a (ChkmState.mk heap touched) ha1 hn hP rfl
    exact ⟨s1, h⟩
  · intro stack
    obtain ⟨s1, h, _⟩ := SBT_call_total attrtype_names nodes sbt hsbt hreg true rank
      (heap_tags heap) n a (SbtState.mk heap stack) ha1 hn hP rfl
    exact ⟨s1, h⟩

/-- C23, as amended: let the schema have registered attribute types, and let the heap
be a finite node graph of the schema whose owned edges are acyclic when the edge
`NODE_ERROR` is counted among them: there is a rank that decreases along every
`NODE_ERROR` edge, every son edge and every attribute of type `Node`; `Link` and
`CodeLink` attributes are not restricted.  Then the generated destroy, reset, check and
stack-building walks return on every node of the heap, with any fuel above the rank of
the node (the destroy walk with attribute destructors that leave the node fields
alone). -/
theorem walks_terminate (attrtype_names : List attrtype_name)
    (nodes : List (String × yajl_val))
    (free : List (String × List FreeStmt)) (chkrst : List (String × List ChkrstStmt))
    (chkm : List (String × List ChkmStmt)) (sbt : List (String × List SbtStmt))
    (hfree : gen_free_node_c attrtype_names nodes = some free)
    (hchkrst : gen_check_reset_c nodes = some chkrst)
    (hchkm : gen_check_node_c attrtype_names nodes = some chkm)
    (hsbt : gen_serialize_buildstack_c nodes = some sbt)
    (hreg : schema_registered attrtype_names nodes)
    (ext : String → attr_value → Nat → FreeState → attr_value × FreeState)
    (hext : ∀ T v p s, (ext T v p s).2.heap = s.heap)
    (rank : Nat → Nat) (heap : List node_inst)
    (hgraph : graph_ranked nodes true rank heap)
    (a : Nat) (ha : a < heap.length) (n : Nat) (hn : rank a < n) :
    (∀ flag freed zombies, ∃ r s1,
        FREE_call ext free n flag a (FreeState.mk heap freed zombies) = some (r, s1))
      ∧ (∀ marks, ∃ s1, CHKRST_call chkrst n a (ChkState.mk heap marks) = some (some a, s1))
      ∧ (∀ touched, ∃ s1, CHKM_call chkm n a (ChkmState.mk heap touched) = some (some a, s1))
      ∧ (∀ stack, ∃ s1, SBT_call sbt n a (SbtState.mk heap stack) = some (some a, s1)) :=
  walks_terminate_spec attrtype_names nodes free chkrst chkm sbt hfree hchkrst hchkm hsbt hreg
    ext hext rank heap hgraph a ha n hn

theorem walks_terminate_witness :
    gen_free_node_c ex_attrtype_names ex_nodes = some ex_FREE_funs
      ∧ gen_check_reset_c ex_nodes = some ex_CHKRST_funs
      ∧ gen_check_node_c ex_attrtype_names ex_nodes = some ex_CHKM_funs
      ∧ gen_serialize_buildstack_c ex_nodes = some ex_SBT_funs
      ∧ schema_registered ex_attrtype_names ex_nodes
      ∧ graph_ranked ex_nodes true (fun a => 4 - a) ex_graph
      ∧ (FREE_call ex_FREEattrib ex_FREE_funs 5 none 0 (FreeState.mk ex_graph [] [])).map
          (fun x => (x.1, x.2.freed)) = some (none, [0, 1, 2, 3])
      ∧ (SBT_call ex_SBT_funs 5 0 (SbtState.mk ex_graph [])).map (fun x => (x.1, x.2.stack))
        = some (some 0, [0, 1, 2, 3])
      ∧ ((∀ flag freed zombies, ∃ r s1,
          FREE_call ex_FREEattrib ex_FREE_funs 5 flag 0 (FreeState.mk ex_graph freed zombies)
            = some (r, s1))
        ∧ (∀ marks, ∃ s1, CHKRST_call ex_CHKRST_funs 5 0 (ChkState.mk ex_graph marks)
            = some (some 0, s1))
        ∧ (∀ touched, ∃ s1, CHKM_call ex_CHKM_funs 5 0 (ChkmState.mk ex_graph touched)
            = some (some 0, s1))
        ∧ (∀ stack, ∃ s1, SBT_call ex_SBT_funs 5 0 (SbtState.mk ex_graph stack)
            = some (some 0, s1))) :=
  ⟨by decide, by decide, by decide, by decide, by decide, by decide, by decide, by decide,
   walks_terminate ex_attrtype_names ex_nodes ex_FREE_funs ex_CHKRST_funs ex_CHKM_funs
     ex_SBT_funs (by decide) (by decide) (by decide) (by decide) (by decide) ex_FREEattrib
     (fun _ _ _ _ => rfl) (fun a => 4 - a) ex_graph (by decide) 0 (by decide) 5 (by decide)⟩

theorem FREE_error_loop_spec :
    ∀ fuel flag freed zombies,
      FREE_call ex_FREEattrib ex_FREE_funs fuel flag 0 (FreeState.mk ex_error_loop freed zombies)
        = none := by
  have hbody : ex_FREE_funs.lookup "FREEtypedef"
      = some [FreeStmt.dbug_enter, FreeStmt.decl_result, FreeStmt.freetrav_error,
          FreeStmt.freecond_next "TYPEDEF", FreeStmt.result_next "TYPEDEF", FreeStmt.memfree,
          FreeStmt.return_result] := by decide
  intro fuel
  induction fuel with
  | zero => intro flag freed zombies; rfl
  | succ n ih =>
    intro flag freed zombies
    have hnd : (FreeState.mk ex_error_loop freed zombies).heap[0]?
        = some (node_inst.mk "typedef" 1 2 3 (some 0) [(("TYPEDEF", "NEXT"), none)] [] []) :=
      rfl
    have hl : ex_FREE_funs.lookup ("FREE" ++ "typedef") = ex_FREE_funs.lookup "FREEtypedef" :=
      rfl
    simp only [FREE_call, hnd, hl, hbody, FREE_run, FREE_step, FREETRAV, ih]

theorem CHKM_error_loop_spec :
    ∀ fuel touched,
      CHKM_call ex_CHKM_funs fuel 0 (ChkmState.mk ex_error_loop touched) = none := by
  have hbody : ex_CHKM_funs.lookup "CHKMtypedef"
      = some [ChkmStmt.dbug_enter, ChkmStmt.touch_node, ChkmStmt.chkmtrav_error,
          ChkmStmt.chkmtrav_son "TYPEDEF" "NEXT", ChkmStmt.return_arg_node] := by decide
  intro fuel
  induction fuel with
  | zero => intro touched; rfl
  | succ n ih =>
    intro touched
    have hnd : (ChkmState.mk ex_error_loop touched).heap[0]?
        = some (node_inst.mk "typedef" 1 2 3 (some 0) [(("TYPEDEF", "NEXT"), none)] [] []) :=
      rfl
    have hl : ex_CHKM_funs.lookup ("CHKM" ++ "typedef") = ex_CHKM_funs.lookup "CHKMtypedef" :=
      rfl
    have hnd2 : ∀ t, (CHKMtouch (attr_value.ptr (some 0))
        (ChkmState.mk ex_error_loop t)).heap[0]?
        = some (node_inst.mk "typedef" 1 2 3 (some 0) [(("TYPEDEF", "NEXT"), none)] [] []) :=
      fun _ => rfl
    simp only [CHKM_call, hnd, hl, hbody, CHKM_run, run_until, ChkmStmt.is_return,
      CHKM_step, CHKMTRAV, hnd2, CHKMtouch, ih]
    simp

/-- C23, counterexample: a heap of one node of the example type `Typedef` whose
`NODE_ERROR` is the node itself.  Its sons and its attributes of type `Node` form no
cycle (its only son is null), yet the generated destroy walk and the generated check
walk, which both descend into `NODE_ERROR`, return with no amount of fuel. -/
theorem walks_loop_on_error_cycle :
    graph_ranked ex_nodes false (fun _ => 0) ex_error_loop
      ∧ (∀ fuel flag freed zombies,
          FREE_call ex_FREEattrib ex_FREE_funs fuel flag 0
            (FreeState.mk ex_error_loop freed zombies) = none)
      ∧ (∀ fuel touched,
          CHKM_call ex_CHKM_funs fuel 0 (ChkmState.mk ex_error_loop touched) = none) :=
  ⟨by decide, FREE_error_loop_spec, CHKM_error_loop_spec⟩

/-! ## The value `FREE<node>` returns on a graph -/

theorem FREE_returns_next_spec (attrtype_names : List attrtype_name)
    (nodes : List (String × yajl_val)) (funs : List (String × List FreeStmt))
    (hgen : gen_free_node_c attrtype_names nodes = some funs)
    (hreg : schema_registered attrtype_names nodes)
    (ext : String → attr_value → Nat → FreeState → attr_value × FreeState)
    (hext : ∀ T v p s, (ext T v p s).2.heap = s.heap)
    (rank : Nat → Nat) (heap : List node_inst)
    (hgraph : graph_ranked nodes true rank heap)
    (a : Nat) (nd : node_inst) (e : String × yajl_val)
    (hnd : heap[a]? = some nd) (he : schema_node nodes nd.nodetype = some e)
    (hname : e.1 ≠ "Fundef") (hobj : next_son_is_object e.2)
    (n : Nat) (hn : rank a < n) (flag : Option Nat) (freed zombies : List Nat) :
    ∃ r s1, FREE_call ext funs n flag a (FreeState.mk heap freed zombies) = some (r, s1)
      ∧ a ∈ s1.freed
      ∧ (has_son e.2 "Next" = true →
          heap_get_son s1.heap a (string_toupper e.1, "NEXT") = some r)
      ∧ (has_son e.2 "Next" = false → r = none) := by
  have hP := heap_ranked_of_graph nodes true rank heap hgraph
  have ha1 : a < (heap_tags heap).length := by
    unfold heap_tags
    rw [List.length_map]
    exact (List.getElem?_eq_some_iff.1 hnd).1
  obtain ⟨r, s1, hrun, _⟩ := FREE_call_total attrtype_names nodes funs hgen hreg ext hext flag
    rank (heap_tags heap) n a (FreeState.mk heap freed zombies) ha1 hn
    (heap_ranked_weaken nodes true true true false (fun h => h) (fun h => by cases h) rank
      heap hP) rfl
  obtain ⟨hmem, htl⟩ := schema_node_mem nodes nd.nodetype e he
  obtain ⟨body, hbody, hlook⟩ := node_loop_lookup "FREE"
    (gen_free_node_c_body attrtype_names) nodes funs hgen nd.nodetype e he
  have hfun : funs.lookup ("FREE" ++ string_tolower e.1)
      = gen_free_node_c_body attrtype_names e.1 e.2 := by
    rw [htl, hlook, hbody]
  have h := FREE_returns_next_of_run ext attrtype_names funs e.1 e.2 n flag a
    (FreeState.mk heap freed zombies) s1 r nd hname (hreg e hmem) hobj hnd htl.symm hfun hrun
  refine ⟨r, s1, hrun, ?_, fun hh => (h.1 hh).1, fun hh => (h.2 hh).1⟩
  cases hh : has_son e.2 "Next"
  · exact (h.2 hh).2
  · exact (h.1 hh).2

/-- C7: let the schema have registered attribute types and let the heap be a finite
node graph of the schema whose owned edges (the sons, the attributes of type `Node` and
`NODE_ERROR`) are acyclic.  For every node of the heap whose type is not `Fundef`, the
generated `FREE<node>` returns with any fuel above the rank of the node, for every stop
marker, and releases the node; the value returned is, if the type has a son `Next`,
the value the field `<NODE>_NEXT` of the node holds after the guarded destroy of the
tail (read back just before the node is released), and null if the type has no son
`Next`. -/
theorem FREE_returns_next (attrtype_names : List attrtype_name)
    (nodes : List (String × yajl_val)) (funs : List (String × List FreeStmt))
    (hgen : gen_free_node_c attrtype_names nodes = some funs)
    (hreg : schema_registered attrtype_names nodes)
    (ext : String → attr_value → Nat → FreeState → attr_value × FreeState)
    (hext : ∀ T v p s, (ext T v p s).2.heap = s.heap)
    (rank : Nat → Nat) (heap : List node_inst)
    (hgraph : graph_ranked nodes true rank heap)
    (a : Nat) (nd : node_inst) (e : String × yajl_val)
    (hnd : heap[a]? = some nd) (he : schema_node nodes nd.nodetype = some e)
    (hname : e.1 ≠ "Fundef") (hobj : next_son_is_object e.2)
    (n : Nat) (hn : rank a < n) (flag : Option Nat) (freed zombies : List Nat) :
    ∃ r s1, FREE_call ext funs n flag a (FreeState.mk heap freed zombies) = some (r, s1)
      ∧ a ∈ s1.freed
      ∧ (has_son e.2 "Next" = true →
          heap_get_son s1.heap a (string_toupper e.1, "NEXT") = some r)
      ∧ (has_son e.2 "Next" = false → r = none) :=
  FREE_returns_next_spec attrtype_names nodes funs hgen hreg ext hext rank heap hgraph a nd e
    hnd he hname hobj n hn flag freed zombies

theorem FREE_returns_next_witness :
    gen_free_node_c ex_attrtype_names ex_nodes = some ex_FREE_funs
      ∧ schema_registered ex_attrtype_names ex_nodes
      ∧ graph_ranked ex_nodes true (fun a => 4 - a) ex_graph
      ∧ ex_graph[0]? = some (ex_arg_inst (some 1) (some 2) 10 11 (some 3) 1)
      ∧ schema_node ex_nodes "arg" = some ("Arg", ex_arg)
      ∧ next_son_is_object ex_arg ∧ has_son ex_arg "Next" = true
      ∧ (FREE_call ex_FREEattrib ex_FREE_funs 5 (some 0) 0 (FreeState.mk ex_graph [] [])).map
          (fun x => (x.1, x.2.freed, heap_get_son x.2.heap 0 ("ARG", "NEXT")))
        = some (some 2, [0, 1], some (some 2))
      ∧ ∃ r s1, FREE_call ex_FREEattrib ex_FREE_funs 5 (some 0) 0
            (FreeState.mk ex_graph [] []) = some (r, s1)
          ∧ 0 ∈ s1.freed
          ∧ (has_son ex_arg "Next" = true →
              heap_get_son s1.heap 0 (string_toupper "Arg", "NEXT") = some r)
          ∧ (has_son ex_arg "Next" = false → r = none) :=
  ⟨by decide, by decide, by decide, by decide, rfl, by decide, by decide, by decide,
   FREE_returns_next ex_attrtype_names ex_nodes ex_FREE_funs (by decide) (by decide)
     ex_FREEattrib (fun _ _ _ _ => rfl) (fun a => 4 - a) ex_graph (by decide) 0
     (ex_arg_inst (some 1) (some 2) 10 11 (some 3) 1) ("Arg", ex_arg) (by decide) rfl
     (by decide) (by decide) 5 (by decide) (some 0) [] []⟩

/-! ## The shape of the fix-up case -/

theorem fix_attribs_shape (node_name_upper : String) (attribs : List (String × yajl_val))
    (htyped : ∀ e ∈ attribs, (attrib_type_name e.2).isSome = true) (pos : Nat)
    (hpos : 1 ≤ pos) :
    gen_serialize_helper_c_fixattribs node_name_upper pos attribs
      = some ((if pos = 1 ∧ (attribs.filter is_link_attrib).length ≠ 0
              then [FixStmt.switch_no] else [])
          ++ (List.enumFrom pos (attribs.filter is_link_attrib)).map
              (fun p => FixStmt.case_assign p.1 node_name_upper (string_toupper p.2.1))
          ++ (if attribs.length ≠ 0 ∧ pos + (attribs.filter is_link_attrib).length > 1
              then [FixStmt.default_close] else [])) := by
  induction attribs generalizing pos with
  | nil => simp [gen_serialize_helper_c_fixattribs]
  | cons e rest ih =>
    have hrest : ∀ b ∈ rest, (attrib_type_name b.2).isSome = true :=
      fun b hb => htyped b (List.mem_cons_of_mem _ hb)
    have he := htyped e (List.mem_cons_self _ _)
    cases ht : attrib_type_name e.2 with
    | none => simp [ht] at he
    | some t =>
      simp only [gen_serialize_helper_c_fixattribs, ht]
      by_cases hl : t = "Link" ∨ t = "CodeLink"
      · have hlink : is_link_attrib e = true := by
          simp [is_link_attrib, ht, hl]
        simp only [hl, decide_True, if_true]
        rw [ih hrest (pos + 1) (by omega)]
        simp only [List.filter_cons, hlink, if_true, List.enumFrom_cons, List.map_cons,
          List.length_cons]
        cases rest with
        | nil =>
          by_cases hp : pos = 1
          · simp [hp]
          · simp [hp]
        | cons r rs =>
          by_cases hp : pos = 1
          · simp [hp]
            omega
          · simp [hp]
            have hA : ¬ (pos + 1 = 1 ∧ ¬ (List.filter is_link_attrib (r :: rs)).length = 0) := by
              omega
            have hB : 1 < pos + 1 + (List.filter is_link_attrib (r :: rs)).length := by omega
            have hC : 1 < pos + ((List.filter is_link_attrib (r :: rs)).length + 1) := by omega
            rw [if_neg hA, if_pos hB, if_pos hC]
            rfl
      · have hlink : is_link_attrib e = false := by
          simp [is_link_attrib, ht, hl]
        simp only [hl, decide_False, if_false, Bool.false_eq_true]
        rw [ih hrest pos hpos]
        simp only [List.filter_cons, hlink, Bool.false_eq_true, if_false, List.length_cons]
        cases rest with
        | nil =>
          by_cases hp : pos > 1
          · simp [hp]
          · simp [hp]
        | cons r rs => simp

theorem fix_cases_count (node_name_upper : String) (st : FixStmt)
    (hst : ∀ pos A, st ≠ FixStmt.case_assign pos node_name_upper A)
    (l : List (Nat × String × yajl_val)) :
    (l.map (fun p => FixStmt.case_assign p.1 node_name_upper (string_toupper p.2.1))).count st
      = 0 := by
  apply List.count_eq_zero.2
  intro hmem
  obtain ⟨p, _, hp⟩ := List.mem_map.1 hmem
  exact hst _ _ hp.symm

theorem fix_cases_slots (node_name_upper : String) (l : List (Nat × String × yajl_val)) :
    (l.map (fun p => FixStmt.case_assign p.1 node_name_upper (string_toupper p.2.1))).filterMap
        FixStmt.link_slot
      = l.map (fun p => (p.1, node_name_upper, string_toupper p.2.1)) := by
  induction l with
  | nil => rfl
  | cons x xs ih =>
    rw [List.map_cons, List.filterMap_cons, ih]
    rfl

theorem fixcase_wellformed_spec
    (node_name : String) (node : yajl_val) (htyped : attribs_typed node) :
    gen_serialize_helper_c_fixcase node_name node = some (FIX_spec node_name node)
      ∧ (FIX_spec node_name node).count FixStmt.switch_no
        = (if (link_attribs node).length = 0 then 0 else 1)
      ∧ (FIX_spec node_name node).count FixStmt.default_close
        = (if (link_attribs node).length = 0 then 0 else 1)
      ∧ (FIX_spec node_name node).filterMap FixStmt.link_slot
        = link_slots_spec (string_toupper node_name) 1 (node_attribs node)
      ∧ (FIX_spec node_name node).filterMap FixStmt.link_slot
        = (List.enumFrom 1 (link_attribs node)).map
            (fun p => (p.1, string_toupper node_name, string_toupper p.2.1))
      ∧ (FIX_spec node_name node).getLast? = some FixStmt.break_ := by
  have hshape := fix_attribs_shape (string_toupper node_name) (node_attribs node) htyped 1
    (Nat.le_refl 1)
  have hcase : gen_serialize_helper_c_fixcase node_name node = some (FIX_spec node_name node) := by
    unfold gen_serialize_helper_c_fixcase
    unfold node_attribs at hshape
    simp only [hshape]
    unfold FIX_spec link_attribs node_attribs
    by_cases hk : ((object_entries (yajl_tree_get (some node) ["attributes"]
        .t_object)).filter is_link_attrib).length = 0
    · have hnil := List.length_eq_zero.1 hk
      simp [hnil]
    · have hlen : (object_entries (yajl_tree_get (some node) ["attributes"]
          .t_object)).length ≠ 0 := by
        intro h0
        rw [List.length_eq_zero.1 h0] at hk
        exact hk rfl
      simp [hk, hlen]
      rw [if_pos (Nat.pos_of_ne_zero hk)]
      rfl
  have hslots : (FIX_spec node_name node).filterMap FixStmt.link_slot
      = (List.enumFrom 1 (link_attribs node)).map
          (fun p => (p.1, string_toupper node_name, string_toupper p.2.1)) := by
    unfold FIX_spec
    by_cases hk : (link_attribs node).length = 0
    · rw [if_pos hk, List.length_eq_zero.1 hk]
      rfl
    · rw [if_neg hk]
      simp only [List.filterMap_append, fix_cases_slots]
      simp [FixStmt.link_slot]
  refine ⟨hcase, ?_, ?_, hslots, hslots, ?_⟩
  · unfold FIX_spec
    by_cases hk : (link_attribs node).length = 0
    · rw [if_pos hk, if_pos hk]
      rfl
    · rw [if_neg hk, if_neg hk]
      simp only [List.count_append,
        fix_cases_count (string_toupper node_name) FixStmt.switch_no
          (fun _ _ h => by cases h)]
      rfl
  · unfold FIX_spec
    by_cases hk : (link_attribs node).length = 0
    · rw [if_pos hk, if_pos hk]
      rfl
    · rw [if_neg hk, if_neg hk]
      simp only [List.count_append,
        fix_cases_count (string_toupper node_name) FixStmt.default_close
          (fun _ _ h => by cases h)]
      rfl
  · unfold FIX_spec
    rw [List.getLast?_append]
    rfl

/-- C31: for every node type whose attributes carry a type string, the fix-up case
that `gen_serialize_helper_c` writes is: if the node type has `Link`/`CodeLink`
attributes, the opening of `switch (no)`, then one case per such attribute with the
labels `1..k` in declaration order, then the default branch that closes the switch;
and the `break` of the node type last.  So the switch is opened if and only if there
is such an attribute, it is opened once (before the case of slot 1) and closed once
(before the closing `break`), whether the last declared attribute is a link or not. -/
theorem fixcase_wellformed
    (node_name : String) (node : yajl_val) (htyped : attribs_typed node) :
    gen_serialize_helper_c_fixcase node_name node = some (FIX_spec node_name node)
      ∧ (FIX_spec node_name node).count FixStmt.switch_no
        = (if (link_attribs node).length = 0 then 0 else 1)
      ∧ (FIX_spec node_name node).count FixStmt.default_close
        = (if (link_attribs node).length = 0 then 0 else 1)
      ∧ (FIX_spec node_name node).filterMap FixStmt.link_slot
        = link_slots_spec (string_toupper node_name) 1 (node_attribs node)
      ∧ (FIX_spec node_name node).filterMap FixStmt.link_slot
        = (List.enumFrom 1 (link_attribs node)).map
            (fun p => (p.1, string_toupper node_name, string_toupper p.2.1))
      ∧ (FIX_spec node_name node).getLast? = some FixStmt.break_ :=
  fixcase_wellformed_spec node_name node htyped

theorem fixcase_wellformed_witness :
    attribs_typed ex_fundef
      ∧ gen_serialize_helper_c_fixcase "Fundef" ex_fundef
        = some [FixStmt.switch_no, FixStmt.case_assign 1 "FUNDEF" "IMPL",
            FixStmt.default_close, FixStmt.break_]
      ∧ gen_serialize_helper_c_fixcase "Id" ex_id
        = some [FixStmt.switch_no, FixStmt.case_assign 1 "ID" "AVIS",
            FixStmt.case_assign 2 "ID" "DECL", FixStmt.default_close, FixStmt.break_]
      ∧ gen_serialize_helper_c_fixcase "Typedef" ex_typedef = some [FixStmt.break_]
      ∧ (gen_serialize_helper_c_fixcase "Fundef" ex_fundef = some (FIX_spec "Fundef" ex_fundef)
      ∧ (FIX_spec "Fundef" ex_fundef).count FixStmt.switch_no
        = (if (link_attribs ex_fundef).length = 0 then 0 else 1)
      ∧ (FIX_spec "Fundef" ex_fundef).count FixStmt.default_close
        = (if (link_attribs ex_fundef).length = 0 then 0 else 1)
      ∧ (FIX_spec "Fundef" ex_fundef).filterMap FixStmt.link_slot
        = link_slots_spec (string_toupper "Fundef") 1 (node_attribs ex_fundef)
      ∧ (FIX_spec "Fundef" ex_fundef).filterMap FixStmt.link_slot
        = (List.enumFrom 1 (link_attribs ex_fundef)).map
            (fun p => (p.1, string_toupper "Fundef", string_toupper p.2.1))
      ∧ (FIX_spec "Fundef" ex_fundef).getLast? = some FixStmt.break_) :=
  ⟨by decide, by decide, by decide, by decide,
   fixcase_wellformed "Fundef" ex_fundef (by decide)⟩

/-! ## The attribute helpers called by the generated bodies -/

theorem HASH_FIND_STR_mem (attrtype_names : List attrtype_name) (key : String)
    (atn : attrtype_name) (h : HASH_FIND_STR attrtype_names key = some atn) :
    atn ∈ attrtype_names ∧ atn.name = key := by
  unfold HASH_FIND_STR at h
  refine ⟨List.mem_of_find?_eq_some h, ?_⟩
  have := List.find?_some h
  simpa using this

theorem attrib_atn_mem (attrtype_names : List attrtype_name) (v : yajl_val)
    (atn : attrtype_name) (h : attrib_atn attrtype_names v = some atn) :
    atn ∈ attrtype_names := by
  unfold attrib_atn at h
  cases ht : attrib_type_name v with
  | none => simp [ht] at h
  | some t =>
    simp only [ht] at h
    exact (HASH_FIND_STR_mem attrtype_names t atn h).1

theorem free_proto_mem (attrtype_names : List attrtype_name) (atn : attrtype_name)
    (hmem : atn ∈ attrtype_names) (hc : atn.copy_type ≠ attr_copy_type.act_literal) :
    Prototype.mk atn.ctype ("FREEattrib" ++ atn.name) [atn.ctype ++ " attr", "node *  parent"]
      ∈ gen_free_attribs_h attrtype_names := by
  unfold gen_free_attribs_h
  apply List.mem_flatMap.2
  refine ⟨atn, hmem, ?_⟩
  rw [if_neg hc]
  exact List.mem_singleton.2 rfl

theorem serialize_proto_mem (attrtype_names : List attrtype_name) (atn : attrtype_name)
    (hmem : atn ∈ attrtype_names) (hp : atn.persist = true) :
    Prototype.mk "void" ("SATserialize" ++ atn.name)
        ["info *", (if atn.name = "String" then "const " else "") ++ atn.ctype, "node *"]
      ∈ gen_serialize_attribs_h attrtype_names := by
  unfold gen_serialize_attribs_h
  apply List.mem_flatMap.2
  refine ⟨atn, hmem, ?_⟩
  rw [if_neg (by rw [hp]; exact fun h => by cases h)]
  exact List.mem_singleton.2 rfl

theorem free_attribs_mem_atn (attrtype_names : List attrtype_name) (kept : List String)
    (node_name_upper : String) (attribs : List (String × yajl_val)) (st : FreeStmt)
    (hst : st ∈ FREE_spec_attribs attrtype_names kept node_name_upper attribs) :
    ∃ e atn, e ∈ attribs ∧ attrib_atn attrtype_names e.2 = some atn
      ∧ atn.copy_type ≠ attr_copy_type.act_literal
      ∧ st = FreeStmt.freeattrib node_name_upper (string_toupper e.1) atn.name := by
  unfold FREE_spec_attribs at hst
  obtain ⟨e, he, hst⟩ := List.mem_flatMap.1 hst
  unfold FREE_spec_attrib at hst
  cases h : attrib_atn attrtype_names e.2 with
  | none => simp [h] at hst
  | some atn =>
    simp only [h] at hst
    split at hst
    · rename_i hc
      exact ⟨e, atn, he, h, hc.1, List.mem_singleton.1 hst⟩
    · simp at hst

theorem free_body_callee (attrtype_names : List attrtype_name) (node_name : String)
    (node : yajl_val) (hreg : attribs_registered attrtype_names node) :
    ∃ fbody, gen_free_node_c_body attrtype_names node_name node = some fbody
      ∧ ∀ N A T, FreeStmt.freeattrib N A T ∈ fbody →
          ∃ atn ∈ attrtype_names, atn.name = T
            ∧ atn.copy_type ≠ attr_copy_type.act_literal
            ∧ Prototype.mk atn.ctype ("FREEattrib" ++ T)
                [atn.ctype ++ " attr", "node *  parent"]
              ∈ gen_free_attribs_h attrtype_names := by
  refine ⟨_, gen_free_node_c_body_shape attrtype_names node_name node hreg, ?_⟩
  intro N A T hst
  simp only [List.mem_append] at hst
  rcases hst with (((((h | h) | h) | h) | h) | h) | h
  · cases List.mem_singleton.1 h
  · split at h
    · cases List.mem_singleton.1 h
    · cases List.mem_singleton.1 h
  · cases List.mem_singleton.1 h
  · split at h
    · cases List.mem_singleton.1 h
    · cases h
  · obtain ⟨e, atn, _, hatn, hc, heq⟩ := free_attribs_mem_atn _ _ _ _ _ h
    have hT : atn.name = T := by
      cases heq
      rfl
    have hmem := attrib_atn_mem attrtype_names e.2 atn hatn
    refine ⟨atn, hmem, hT, hc, ?_⟩
    rw [← hT]
    exact free_proto_mem attrtype_names atn hmem hc
  · exfalso
    unfold FREE_spec_sons at h
    obtain ⟨e, _, h1⟩ := List.mem_map.1 h
    cases h1
  · exfalso
    split at h
    · cases List.mem_singleton.1 h
    · rcases List.mem_append.1 h with h1 | h1
      · split at h1
        · cases List.mem_singleton.1 h1
        · cases h1
      · simp at h1

theorem set_body_callee (attrtype_names : List attrtype_name) (node_name : String)
    (node : yajl_val) (hreg : attribs_registered attrtype_names node) :
    ∃ sbody, gen_serialize_node_c_body attrtype_names node_name node = some sbody
      ∧ ∀ T N A, SetStmt.sat_serialize T N A ∈ sbody →
          ∃ atn ∈ attrtype_names, atn.name = T ∧ atn.persist = true
            ∧ Prototype.mk "void" ("SATserialize" ++ T)
                ["info *", (if T = "String" then "const " else "") ++ atn.ctype, "node *"]
              ∈ gen_serialize_attribs_h attrtype_names := by
  refine ⟨_, set_body_shape attrtype_names node_name node hreg, ?_⟩
  intro T N A hst
  simp only [List.mem_append] at hst
  rcases hst with (((h | h) | h) | h) | h
  · simp at h
  · obtain ⟨e, _, h1⟩ := List.mem_flatMap.1 h
    cases hatn : attrib_atn attrtype_names e.2 with
    | none => simp [hatn] at h1
    | some atn =>
      simp only [hatn] at h1
      by_cases hp : atn.persist = false
      · rw [if_pos hp] at h1
        cases h1
      · rw [if_neg hp] at h1
        have hT : atn.name = T := by
          simp only [List.mem_cons, List.mem_singleton, List.not_mem_nil, or_false] at h1
          rcases h1 with h2 | h2
          · cases h2
          · cases h2
            rfl
        have hp1 : atn.persist = true := by
          cases hq : atn.persist
          · exact absurd hq hp
          · rfl
        have hmem := attrib_atn_mem attrtype_names e.2 atn hatn
        refine ⟨atn, hmem, hT, hp1, ?_⟩
        rw [← hT]
        exact serialize_proto_mem attrtype_names atn hmem hp1
  · exfalso
    obtain ⟨e, _, h1⟩ := List.mem_flatMap.1 h
    unfold gen_serialize_node_c_son at h1
    split at h1
    · cases List.mem_singleton.1 h1
    · split at h1
      · cases List.mem_singleton.1 h1
      · cases List.mem_singleton.1 h1
  · exfalso
    obtain ⟨e, _, h1⟩ := List.mem_map.1 h
    unfold gen_serialize_node_c_flag at h1
    cases h1
  · simp at h

theorem attrib_helpers_declared_spec
    (attrtype_names : List attrtype_name)
    (node_name : String) (node : yajl_val) (hreg : attribs_registered attrtype_names node) :
    (∃ fbody, gen_free_node_c_body attrtype_names node_name node = some fbody
        ∧ (∀ N A T, FreeStmt.freeattrib N A T ∈ fbody →
            ∃ atn ∈ attrtype_names, atn.name = T
              ∧ atn.copy_type ≠ attr_copy_type.act_literal
              ∧ Prototype.mk atn.ctype ("FREEattrib" ++ T)
                  [atn.ctype ++ " attr", "node *  parent"]
                ∈ gen_free_attribs_h attrtype_names)
        ∧ ∀ st ∈ fbody, ∀ f, FreeStmt.callee st = some f →
            f ∈ (gen_free_attribs_h attrtype_names).map Prototype.name)
      ∧ ∃ sbody, gen_serialize_node_c_body attrtype_names node_name node = some sbody
        ∧ (∀ T N A, SetStmt.sat_serialize T N A ∈ sbody →
            ∃ atn ∈ attrtype_names, atn.name = T ∧ atn.persist = true
              ∧ Prototype.mk "void" ("SATserialize" ++ T)
                  ["info *", (if T = "String" then "const " else "") ++ atn.ctype, "node *"]
                ∈ gen_serialize_attribs_h attrtype_names)
        ∧ ∀ st ∈ sbody, ∀ f, SetStmt.callee st = some f →
            f ∈ (gen_serialize_attribs_h attrtype_names).map Prototype.name := by
  obtain ⟨fbody, hf, hfcall⟩ := free_body_callee attrtype_names node_name node hreg
  obtain ⟨sbody, hs, hscall⟩ := set_body_callee attrtype_names node_name node hreg
  refine ⟨⟨fbody, hf, hfcall, ?_⟩, ⟨sbody, hs, hscall, ?_⟩⟩
  · intro st hst f hcallee
    cases st with
    | freeattrib N A T =>
      simp only [FreeStmt.callee, Option.some.injEq] at hcallee
      obtain ⟨atn, _, _, _, hproto⟩ := hfcall N A T hst
      rw [← hcallee]
      exact List.mem_map.2 ⟨_, hproto, rfl⟩
    | _ => simp [FreeStmt.callee] at hcallee
  · intro st hst f hcallee
    cases st with
    | sat_serialize T N A =>
      simp only [SetStmt.callee, Option.some.injEq] at hcallee
      obtain ⟨atn, _, _, _, hproto⟩ := hscall T N A hst
      rw [← hcallee]
      exact List.mem_map.2 ⟨_, hproto, rfl⟩
    | _ => simp [SetStmt.callee] at hcallee

/-- C32: for a node whose attributes have registered types, every `FREEattrib<T>`
call in the generated `FREE<node>` names an attribute type `T` of the table whose copy
disposition is not Literal, and `gen_free_attribs_h` writes the prototype of
`FREEattrib<T>`; every `SATserialize<T>` call in the generated `SET<node>` names an
attribute type `T` of the table that is persisted, and `gen_serialize_attribs_h` writes
the prototype of `SATserialize<T>`.  So every attribute helper a generated body calls
is declared by the matching generated header. -/
theorem attrib_helpers_declared
    (attrtype_names : List attrtype_name)
    (node_name : String) (node : yajl_val) (hreg : attribs_registered attrtype_names node) :
    (∃ fbody, gen_free_node_c_body attrtype_names node_name node = some fbody
        ∧ (∀ N A T, FreeStmt.freeattrib N A T ∈ fbody →
            ∃ atn ∈ attrtype_names, atn.name = T
              ∧ atn.copy_type ≠ attr_copy_type.act_literal
              ∧ Prototype.mk atn.ctype ("FREEattrib" ++ T)
                  [atn.ctype ++ " attr", "node *  parent"]
                ∈ gen_free_attribs_h attrtype_names)
        ∧ ∀ st ∈ fbody, ∀ f, FreeStmt.callee st = some f →
            f ∈ (gen_free_attribs_h attrtype_names).map Prototype.name)
      ∧ ∃ sbody, gen_serialize_node_c_body attrtype_names node_name node = some sbody
        ∧ (∀ T N A, SetStmt.sat_serialize T N A ∈ sbody →
            ∃ atn ∈ attrtype_names, atn.name = T ∧ atn.persist = true
              ∧ Prototype.mk "void" ("SATserialize" ++ T)
                  ["info *", (if T = "String" then "const " else "") ++ atn.ctype, "node *"]
                ∈ gen_serialize_attribs_h attrtype_names)
        ∧ ∀ st ∈ sbody, ∀ f, SetStmt.callee st = some f →
            f ∈ (gen_serialize_attribs_h attrtype_names).map Prototype.name :=
  attrib_helpers_declared_spec attrtype_names node_name node hreg

theorem attrib_helpers_declared_witness :
    attribs_registered ex_attrtype_names ex_fundef
      ∧ (gen_free_node_c_body ex_attrtype_names "Fundef" ex_fundef).map
          (List.filterMap FreeStmt.callee) = some ["FREEattribDFMask"]
      ∧ (gen_free_node_c_body ex_attrtype_names "Arg" ex_arg).map
          (List.filterMap FreeStmt.callee) = some ["FREEattribString", "FREEattribLink"]
      ∧ (gen_free_attribs_h ex_attrtype_names).map Prototype.name
        = ["FREEattribString", "FREEattribLink", "FREEattribCodeLink", "FREEattribNode",
           "FREEattribDFMask"]
      ∧ (gen_serialize_node_c_body ex_attrtype_names "Fundef" ex_fundef).map
          (List.filterMap SetStmt.callee)
        = some ["SATserializeString", "SATserializeLink", "SATserializeInt"]
      ∧ (gen_serialize_attribs_h ex_attrtype_names).map Prototype.name
        = ["SATserializeString", "SATserializeInt", "SATserializeLink",
           "SATserializeCodeLink", "SATserializeNode"]
      ∧ ((∃ fbody, gen_free_node_c_body ex_attrtype_names "Fundef" ex_fundef = some fbody
        ∧ (∀ N A T, FreeStmt.freeattrib N A T ∈ fbody →
            ∃ atn ∈ ex_attrtype_names, atn.name = T
              ∧ atn.copy_type ≠ attr_copy_type.act_literal
              ∧ Prototype.mk atn.ctype ("FREEattrib" ++ T)
                  [atn.ctype ++ " attr", "node *  parent"]
                ∈ gen_free_attribs_h ex_attrtype_names)
        ∧ ∀ st ∈ fbody, ∀ f, FreeStmt.callee st = some f →
            f ∈ (gen_free_attribs_h ex_attrtype_names).map Prototype.name)
      ∧ ∃ sbody, gen_serialize_node_c_body ex_attrtype_names "Fundef" ex_fundef = some sbody
        ∧ (∀ T N A, SetStmt.sat_serialize T N A ∈ sbody →
            ∃ atn ∈ ex_attrtype_names, atn.name = T ∧ atn.persist = true
              ∧ Prototype.mk "void" ("SATserialize" ++ T)
                  ["info *", (if T = "String" then "const " else "") ++ atn.ctype, "node *"]
                ∈ gen_serialize_attribs_h ex_attrtype_names)
        ∧ ∀ st ∈ sbody, ∀ f, SetStmt.callee st = some f →
            f ∈ (gen_serialize_attribs_h ex_attrtype_names).map Prototype.name) :=
  ⟨by decide, by decide, by decide, by decide, by decide, by decide,
   attrib_helpers_declared ex_attrtype_names "Fundef" ex_fundef (by decide)⟩

/-! ## The generated name table -/

theorem gen_node_info_mac_length (nodes : List (String × yajl_val)) :
    (gen_node_info_mac nodes).length = nodes.length + 1 := by
  unfold gen_node_info_mac
  simp

theorem gen_node_info_mac_getElem (nodes : List (String × yajl_val)) (k : Nat)
    (n : String × yajl_val) (h : nodes[k]? = some n) :
    (gen_node_info_mac nodes)[k + 1]?
      = some (NifEntry.mk ("N_" ++ string_tolower n.1) (decide (¬ k = nodes.length - 1))) := by
  unfold gen_node_info_mac
  rw [List.getElem?_cons_succ, List.getElem?_map, List.enum, List.getElem?_enumFrom, h]
  simp

theorem gen_node_info_mac_spec (nodes : List (String × yajl_val)) (hn : 1 ≤ nodes.length) :
    (gen_node_info_mac nodes).length = nodes.length + 1
      ∧ (gen_node_info_mac nodes).length = (gen_types_nodetype_h nodes).MAX_NODES + 1
      ∧ ((gen_node_info_mac nodes)[0]?).map NifEntry.name = some "undefined"
      ∧ (∀ k n, nodes[k]? = some n →
          (enum_values 0 (gen_types_nodetype_h nodes).nodetype)[k + 1]?
              = some ("N_" ++ string_tolower n.1, k + 1)
            ∧ ((gen_node_info_mac nodes)[k + 1]?).map NifEntry.name
              = some ("N_" ++ string_tolower n.1))
      ∧ (∀ i e, (gen_node_info_mac nodes)[i]? = some e →
          (e.comma = true ↔ i + 1 < (gen_node_info_mac nodes).length)) := by
  have hlen := gen_node_info_mac_length nodes
  refine ⟨hlen, hlen, ?_, ?_, ?_⟩
  · unfold gen_node_info_mac
    rw [List.getElem?_cons_zero]
    rfl
  · intro k n hk
    constructor
    · rw [gen_types_nodetype_h_spec, List.getElem?_cons_succ]
      have := enumFrom_map_getElem? (fun n : String × yajl_val => "N_" ++ string_tolower n.1)
        (fun (i : Nat) (s : String) => (s, i)) nodes 1 k n hk
      rw [Nat.add_comm 1 k] at this
      exact this
    · rw [gen_node_info_mac_getElem nodes k n hk]
      rfl
  · intro i e he
    rw [hlen]
    cases i with
    | zero =>
      have : e = NifEntry.mk "undefined" true := by
        unfold gen_node_info_mac at he
        rw [List.getElem?_cons_zero] at he
        exact (Option.some.inj he).symm
      subst this
      simp only [true_iff]
      omega
    | succ k =>
      have hk : k < nodes.length := by
        have := getElem?_lt _ _ _ he
        rw [hlen] at this
        omega
      have hget : nodes[k]? = some nodes[k] := List.getElem?_eq_getElem hk
      rw [gen_node_info_mac_getElem nodes k _ hget] at he
      have := Option.some.inj he
      subst this
      simp only [decide_eq_true_eq]
      omega

/-- C33: for every schema with `n ≥ 1` node types the name table that
`gen_node_info_mac` writes has exactly `n + 1` entries, one more than `MAX_NODES`; its
entry at the index 0 is `undefined`, and its entry at the index `k` (`1 ≤ k ≤ n`) is
`N_<lower-case name>` of the node type whose enumerator in the `enum` of
`gen_types_nodetype_h` has the value `k`; an entry is followed by a comma if and only
if it is not the last one. -/
theorem gen_node_info_mac_table (nodes : List (String × yajl_val))
    (hn : 1 ≤ nodes.length) :
    (gen_node_info_mac nodes).length = nodes.length + 1
      ∧ (gen_node_info_mac nodes).length = (gen_types_nodetype_h nodes).MAX_NODES + 1
      ∧ ((gen_node_info_mac nodes)[0]?).map NifEntry.name = some "undefined"
      ∧ (∀ k n, nodes[k]? = some n →
          (enum_values 0 (gen_types_nodetype_h nodes).nodetype)[k + 1]?
              = some ("N_" ++ string_tolower n.1, k + 1)
            ∧ ((gen_node_info_mac nodes)[k + 1]?).map NifEntry.name
              = some ("N_" ++ string_tolower n.1))
      ∧ (∀ i e, (gen_node_info_mac nodes)[i]? = some e →
          (e.comma = true ↔ i + 1 < (gen_node_info_mac nodes).length)) :=
  gen_node_info_mac_spec nodes hn

theorem gen_node_info_mac_table_witness :
    1 ≤ ex_nodes.length
      ∧ gen_node_info_mac ex_nodes
        = [NifEntry.mk "undefined" true, NifEntry.mk "N_fundef" true,
           NifEntry.mk "N_arg" true, NifEntry.mk "N_id" true, NifEntry.mk "N_typedef" false]
      ∧ ((gen_node_info_mac ex_nodes).length = ex_nodes.length + 1
        ∧ (gen_node_info_mac ex_nodes).length = (gen_types_nodetype_h ex_nodes).MAX_NODES + 1
        ∧ ((gen_node_info_mac ex_nodes)[0]?).map NifEntry.name = some "undefined"
        ∧ (∀ k n, ex_nodes[k]? = some n →
            (enum_values 0 (gen_types_nodetype_h ex_nodes).nodetype)[k + 1]?
                = some ("N_" ++ string_tolower n.1, k + 1)
              ∧ ((gen_node_info_mac ex_nodes)[k + 1]?).map NifEntry.name
                = some ("N_" ++ string_tolower n.1))
        ∧ (∀ i e, (gen_node_info_mac ex_nodes)[i]? = some e →
            (e.comma = true ↔ i + 1 < (gen_node_info_mac ex_nodes).length))) :=
  ⟨by decide, by decide, gen_node_info_mac_table ex_nodes (by decide)⟩

/-! ## `trav_node_type_name` -/

theorem trav_node_type_name_spec :
    trav_node_type_name (trav_node_type.value .tnt_user) = some "travuser"
      ∧ trav_node_type_name (trav_node_type.value .tnt_sons) = some "travsons"
      ∧ trav_node_type_name (trav_node_type.value .tnt_error) = some "traverror"
      ∧ trav_node_type_name (trav_node_type.value .tnt_none) = some "travnone"
      ∧ ["travuser", "travsons", "traverror", "travnone"].Nodup
      ∧ (∀ t : trav_node_type, trav_node_type_name t.value ≠ none)
      ∧ (∀ t u : trav_node_type,
          trav_node_type_name t.value = trav_node_type_name u.value → t = u)
      ∧ (∀ n : Int, trav_node_type_name n = none ↔ ∀ t : trav_node_type, n ≠ t.value) := by
  refine ⟨rfl, rfl, rfl, rfl, by decide, ?_, ?_, ?_⟩
  · intro t
    cases t <;> decide
  · intro t u
    cases t <;> cases u <;> decide
  · intro n
    constructor
    · intro h t ht
      subst ht
      cases t <;> simp [trav_node_type_name, trav_node_type.value] at h
    · intro h
      have h0 := h .tnt_user
      have h1 := h .tnt_sons
      have h2 := h .tnt_error
      have h3 := h .tnt_none
      unfold trav_node_type_name
      rw [if_neg h0, if_neg h1, if_neg h2, if_neg h3]

/-- C34: `trav_node_type_name` maps the four behaviour tags `tnt_user`, `tnt_sons`,
`tnt_error` and `tnt_none` to the strings `travuser`, `travsons`, `traverror` and
`travnone`, which are pairwise distinct (so the mapping of the tags is injective); for
every value of `enum trav_node_type` a case of the switch returns, and the branch
`default: assert (false)` is taken exactly for the integers that are no value of the
enumeration. -/
theorem trav_node_type_name_total :
    trav_node_type_name (trav_node_type.value .tnt_user) = some "travuser"
      ∧ trav_node_type_name (trav_node_type.value .tnt_sons) = some "travsons"
      ∧ trav_node_type_name (trav_node_type.value .tnt_error) = some "traverror"
      ∧ trav_node_type_name (trav_node_type.value .tnt_none) = some "travnone"
      ∧ ["travuser", "travsons", "traverror", "travnone"].Nodup
      ∧ (∀ t : trav_node_type, trav_node_type_name t.value ≠ none)
      ∧ (∀ t u : trav_node_type,
          trav_node_type_name t.value = trav_node_type_name u.value → t = u)
      ∧ (∀ n : Int, trav_node_type_name n = none ↔ ∀ t : trav_node_type, n ≠ t.value) :=
  trav_node_type_name_spec

end SacJson
